import Mathlib

/-!
# Bozorth3 fingerprint matcher: embedding and verified properties

A shallow embedding of the matching core of `bozorth3-cpp`
(`src/bozorth3/*.{h,hpp,cpp}` and `match` / `limit_edges` of `src/utils.cpp`).

Conventions of the embedding

* `i32` values are `Int`; arithmetic that can leave the 32-bit range is wrapped
  with `wrap32`.  `u32` data values (points) are `Nat`, wrapped with `wrapU32`.
  Container sizes and indices are `Nat` (they stay far below `2^32`).
* Vectors and spans are `List`s; the fixed-size scratch tables are functions
  `Nat → _` together with their size, so every access can be range-checked.
* A run that would hit a failing `assert`, an unchecked access outside a
  container, or a loop that does not finish yields a `Fault`.
* Loops whose termination is not structural take an explicit budget (`fuel`).
* Single-precision floating point is not embedded: the five float expressions
  of the source are the fields of `FloatOps`, a parameter of the model.
-/

namespace Bozorth3

/-! ## Faults and machine integers -/

/-- Ways a run can fail to produce a value. -/
inductive Fault where
  /-- an `assert` of the source fails -/
  | assertion
  /-- an unchecked access outside a container -/
  | out_of_range
  /-- a loop does not finish (within its budget) -/
  | diverges
  /-- `value()` of an empty `std::optional` -/
  | bad_optional
  deriving DecidableEq, Repr

deriving instance DecidableEq for Except

/-- Two's complement wrap-around of a signed 32-bit result. -/
def wrap32 (z : Int) : Int := (z + 2147483648) % 4294967296 - 2147483648

/-- Wrap-around of an unsigned 32-bit result. -/
def wrapU32 (n : Nat) : Nat := n % 4294967296

/-! ## constants.h -/

def MAX_MINUTIA_DISTANCE : Int := 125
def MAX_MINUTIA_DISTANCE_SQUARED : Int := 5625
def MIN_NUMBER_OF_EDGES : Nat := 500
def ANGLE_LOWER_BOUND : Int := 11
def ANGLE_UPPER_BOUND : Int := 349
def MIN_NUMBER_OF_PAIRS_TO_CLUSTER : Nat := 3
def SCORE_THRESHOLD : Nat := 8
def MAX_NUMBER_OF_GROUPS : Nat := 10
def MAX_BOZORTH_MINUTIAE : Nat := 200
def MAX_NUMBER_OF_PAIRS : Nat := 20000
def MAX_NUMBER_OF_EDGES : Nat := 20000
def MAX_NUMBER_OF_CLUSTERS : Nat := 2000
def MAX_NUMBER_OF_ENDPOINTS : Nat := 20000

inductive MinutiaKind where
  | Bif
  | Rig
  deriving DecidableEq, Repr

structure Minutia where
  x : Int
  y : Int
  t : Int
  kind : Option MinutiaKind
  deriving DecidableEq, Repr

structure Pair where
  delta_theta : Int
  probe_k : Nat
  probe_j : Nat
  gallery_k : Nat
  gallery_j : Nat
  points : Nat
  deriving DecidableEq, Repr

inductive OrderKJ where
  | KJ
  | JK
  deriving DecidableEq, Repr

structure Edge where
  distance_squared : Int
  min_beta : Int
  max_beta : Int
  endpoint_k : Nat
  endpoint_j : Nat
  theta_kj : Int
  beta_order : OrderKJ
  deriving DecidableEq, Repr

/-- The `Format` flag of bozorth3.h. -/
inductive Format where
  | Ansi
  | NistInternal
  deriving DecidableEq, Repr

/-! ## Floating point, taken as a parameter -/

/-- The single-precision expressions of the source, each as a function of the
integers it is computed from. -/
structure FloatOps where
  /-- `rounded(rad_to_deg(atanf((float)dy / (float)dx)))` of `atan2_round_degree`,
  for `dx ≠ 0`; arguments `dx dy`. -/
  atan_rounded : Int → Int → Int
  /-- `rounded(fi)` of `calculate_slope_in_degrees` after the quadrant
  adjustment, for `dx ≠ 0`; arguments `dx dy`. -/
  slope_rounded : Int → Int → Int
  /-- `(float)abs(dz) > (2.0f * FACTOR) * (float)sum` of `match_edges_into_pairs`;
  arguments `dz sum`. -/
  length_differs : Int → Int → Bool
  /-- `fabsf(p - g) > (2.0F * FACTOR) * (p + g)` of `are_clusters_compatible`
  with `p = (float)probe_distance_squared`, `g = (float)gallery_distance_squared`;
  arguments the two integer squared distances. -/
  distance_differs : Int → Int → Bool
  /-- `rounded(fi)` of `AngleAverager::average`; arguments `sum_of_negative`,
  `number_of_negative`, `sum_of_positive`, `number_of_positive`. -/
  average_rounded : Int → Int → Int → Int → Int

/-! ## math.h -/

def atan2_round_degree (fo : FloatOps) (dx dy : Int) : Int :=
  if dx = 0 then 90 else fo.atan_rounded dx dy

/-- The function `check` of math.h (the spec's `are_opposite`). -/
def check (a b : Int) : Bool :=
  if b > 0 then
    if a = b - 180 then true else false
  else
    if a = b + 180 then true else false

def normalize_angle (deg : Int) : Int :=
  if deg > 180 then deg - 360
  else if deg ≤ -180 then deg + 360
  else deg

def squared (x : Int) : Int := wrap32 (x * x)

def calculate_slope_in_degrees (fo : FloatOps) (dx dy : Int) : Int :=
  if dx ≠ 0 then
    let fi2 := fo.slope_rounded dx dy
    if fi2 ≤ -180 then fi2 + 360 else fi2
  else if dy ≤ 0 then -90 else 90

/-! ## Sorting -/

/-- Insert `a` in front of the first element that is not less than `a`. -/
def ordered_insert {α : Type} (less : α → α → Bool) (a : α) : List α → List α
  | [] => [a]
  | b :: l => if less b a then b :: ordered_insert less a l else a :: b :: l

/-- A stable sort by the strict comparison `less` (`std::stable_sort`): elements
that compare equal keep their input order. -/
def stable_sort {α : Type} (less : α → α → Bool) : List α → List α
  | [] => []
  | a :: l => ordered_insert less a (stable_sort less l)

/-! ## bozorth3.cpp: find_edges -/

/-- The comparison lambda handed to `std::stable_sort` in `find_edges`. -/
def edge_less (left right : Edge) : Bool :=
  if left.distance_squared < right.distance_squared then true
  else if left.distance_squared > right.distance_squared then false
  else if left.min_beta < right.min_beta then true
  else if left.min_beta > right.min_beta then false
  else decide (left.max_beta < right.max_beta)

/-- The edge built by the body of the inner loop of `find_edges` for the
minutiae `mk` (index `k`) and `mj` (index `j`). -/
def make_edge (fo : FloatOps) (format : Format) (k j : Nat) (mk mj : Minutia)
    (dx dy distance_squared : Int) : Edge :=
  let theta_kj := atan2_round_degree fo dx (if format = Format.Ansi then wrap32 (-dy) else dy)
  let beta_k := normalize_angle (wrap32 (theta_kj - mk.t))
  let beta_j := normalize_angle (wrap32 (wrap32 (theta_kj - mj.t) + 180))
  if beta_k < beta_j then
    { distance_squared := distance_squared, min_beta := beta_k, max_beta := beta_j,
      endpoint_k := k, endpoint_j := j, theta_kj := theta_kj, beta_order := OrderKJ.KJ }
  else
    { distance_squared := distance_squared, min_beta := beta_j, max_beta := beta_k,
      endpoint_k := k, endpoint_j := j, theta_kj := theta_kj, beta_order := OrderKJ.JK }

/-- The inner loop of `find_edges` for a fixed `k`: `j` runs over the minutiae
after `k` (`rest`, the first of which has index `j`).  Returns the edge list and
whether `goto sort` was taken. -/
def find_edges_inner (fo : FloatOps) (format : Format) (k : Nat) (mk : Minutia) :
    Nat → List Minutia → List Edge → List Edge × Bool
  | _, [], edges => (edges, false)
  | j, mj :: rest, edges =>
    if check mk.t mj.t then find_edges_inner fo format k mk (j + 1) rest edges
    else
      let dx := wrap32 (mj.x - mk.x)
      let dy := wrap32 (mj.y - mk.y)
      let distance_squared := wrap32 (squared dx + squared dy)
      if distance_squared > squared MAX_MINUTIA_DISTANCE then
        if dx > MAX_MINUTIA_DISTANCE then (edges, false)
        else find_edges_inner fo format k mk (j + 1) rest edges
      else
        let edges1 := edges ++ [make_edge fo format k j mk mj dx dy distance_squared]
        if edges1.length = MAX_NUMBER_OF_EDGES - 1 then (edges1, true)
        else find_edges_inner fo format k mk (j + 1) rest edges1

/-- The outer loop of `find_edges`: `k` is the index of the head of the
remaining minutiae; the last minutia starts no inner loop
(`k < minutiae.size() - 1`). -/
def find_edges_outer (fo : FloatOps) (format : Format) :
    Nat → List Minutia → List Edge → List Edge
  | _, [], edges => edges
  | _, [_], edges => edges
  | k, mk :: mj :: rest, edges =>
    let r := find_edges_inner fo format k mk (k + 1) (mj :: rest) edges
    if r.2 then r.1 else find_edges_outer fo format (k + 1) (mj :: rest) r.1

/-- `find_edges(minutiae, edges, format)`; the result is the final content of
`edges`.  On an empty span `minutiae.size() - 1` wraps around and the outer loop
never ends. -/
def find_edges (fo : FloatOps) (minutiae : List Minutia) (edges : List Edge)
    (format : Format) : Except Fault (List Edge) :=
  match minutiae with
  | [] => .error .diverges
  | _ :: _ => .ok (stable_sort edge_less (find_edges_outer fo format 0 minutiae edges))

/-! ## bozorth3.cpp: limit_edges_by_length -/

/-- The `while (upper - lower > 1)` loop of `limit_edges_by_length` (`lower`
stays below `upper`, so the unsigned difference does not wrap). -/
def limit_edges_loop (edges : List Edge) : Nat → Nat → Nat → Nat → Except Fault Nat
  | 0, _, _, _ => .error .diverges
  | fuel + 1, lower, upper, current =>
    if upper - lower > 1 then
      let midpoint := (lower + upper) / 2
      match edges[midpoint - 1]? with
      | none => .error .out_of_range
      | some e =>
        if e.distance_squared > MAX_MINUTIA_DISTANCE_SQUARED then
          limit_edges_loop edges fuel lower midpoint current
        else
          limit_edges_loop edges fuel midpoint upper (midpoint + 1)
    else .ok (min current edges.length)

/-- `limit_edges_by_length(edges)`.  The loop halves `upper - lower`, which
starts at `edges.size() + 1`, so `edges.size() + 1` rounds are a sufficient
budget. -/
def limit_edges_by_length (edges : List Edge) : Except Fault Nat :=
  limit_edges_loop edges (edges.length + 1) 0 (edges.length + 1) 1

/-- `limit_edges` of utils.cpp; the result is the truncated edge list. -/
def limit_edges (edges : List Edge) : Except Fault (List Edge) :=
  match limit_edges_by_length edges with
  | .error f => .error f
  | .ok calculated_limit =>
    let actual_limit :=
      if calculated_limit ≥ MIN_NUMBER_OF_EDGES then calculated_limit
      else min edges.length MIN_NUMBER_OF_EDGES
    .ok (edges.take actual_limit)

/-! ## bozorth3.cpp: match_edges_into_pairs -/

def are_angles_equal_with_tolerance (a b : Int) : Bool :=
  let difference := |wrap32 (a - b)|
  !(decide (difference > ANGLE_LOWER_BOUND) && decide (difference < ANGLE_UPPER_BOUND))

/-- The points of a pair from the kinds of its four minutiae. -/
def pair_points (pkk pkj gkk gkj : Option MinutiaKind) : Nat :=
  if pkk.isSome && pkj.isSome && gkk.isSome && gkj.isSome then
    let matching := (if pkk = gkk then 1 else 0) + (if pkj = gkj then 1 else 0)
    match matching with
    | 0 => 1
    | 1 => 2
    | 2 => 3
    | _ => 0
  else 1

/-- The pair built by the body of the inner loop of `match_edges_into_pairs`
once the length and angle tests have passed. -/
def make_pair (probe_minutiae gallery_minutiae : List Minutia) (probe gallery : Edge) :
    Except Fault Pair :=
  let delta_theta0 := wrap32 (probe.theta_kj - gallery.theta_kj)
  let delta_theta :=
    if probe.beta_order ≠ gallery.beta_order then wrap32 (delta_theta0 - 180) else delta_theta0
  let probe_k := probe.endpoint_k
  let probe_j := probe.endpoint_j
  let gallery_k :=
    if probe.beta_order ≠ gallery.beta_order then gallery.endpoint_j else gallery.endpoint_k
  let gallery_j :=
    if probe.beta_order ≠ gallery.beta_order then gallery.endpoint_k else gallery.endpoint_j
  match probe_minutiae[probe_k]?, probe_minutiae[probe_j]?,
        gallery_minutiae[gallery_k]?, gallery_minutiae[gallery_j]? with
  | some mpk, some mpj, some mgk, some mgj =>
    .ok { delta_theta := normalize_angle delta_theta, probe_k := probe_k, probe_j := probe_j,
          gallery_k := gallery_k, gallery_j := gallery_j,
          points := pair_points mpk.kind mpj.kind mgk.kind mgj.kind }
  | _, _, _, _ => .error .out_of_range

/-- The inner loop of `match_edges_into_pairs` for one probe edge: `j` runs over
the gallery edges `rest` (the first of which has index `j`).  Returns the new
`start` and the pair list. -/
def match_edges_inner (fo : FloatOps) (probe_minutiae gallery_minutiae : List Minutia)
    (probe : Edge) : Nat → List Edge → Nat → List Pair → Except Fault (Nat × List Pair)
  | _, [], start, pairs => .ok (start, pairs)
  | j, gallery :: rest, start, pairs =>
    let dz := wrap32 (gallery.distance_squared - probe.distance_squared)
    if fo.length_differs dz (wrap32 (gallery.distance_squared + probe.distance_squared)) then
      if dz < 0 then
        match_edges_inner fo probe_minutiae gallery_minutiae probe (j + 1) rest (j + 1) pairs
      else .ok (start, pairs)
    else if !(are_angles_equal_with_tolerance probe.min_beta gallery.min_beta &&
              are_angles_equal_with_tolerance probe.max_beta gallery.max_beta) then
      match_edges_inner fo probe_minutiae gallery_minutiae probe (j + 1) rest start pairs
    else
      match make_pair probe_minutiae gallery_minutiae probe gallery with
      | .error f => .error f
      | .ok pair =>
        match_edges_inner fo probe_minutiae gallery_minutiae probe (j + 1) rest start
          (pairs ++ [pair])

/-- The outer loop of `match_edges_into_pairs`: the remaining probe edges; the
last probe edge starts no inner loop (`k < probe_edges.size() - 1`). -/
def match_edges_outer (fo : FloatOps) (probe_minutiae gallery_minutiae : List Minutia)
    (gallery_edges : List Edge) : List Edge → Nat → List Pair → Except Fault (List Pair)
  | [], _, pairs => .ok pairs
  | [_], _, pairs => .ok pairs
  | probe :: next :: rest, start, pairs =>
    match match_edges_inner fo probe_minutiae gallery_minutiae probe start
            (gallery_edges.drop start) start pairs with
    | .error f => .error f
    | .ok r =>
      match_edges_outer fo probe_minutiae gallery_minutiae gallery_edges (next :: rest) r.1 r.2

/-! ## pair_holder.h, pair_holder.cpp -/

/-- `std::numeric_limits<u32>::max()`. -/
def U32_MAX : Nat := 4294967295

structure OptionalRange where
  «begin» : Nat
  «end» : Nat
  deriving DecidableEq, Repr

def OptionalRange.has_value (r : OptionalRange) : Bool :=
  r.begin != U32_MAX && r.end != U32_MAX

def OptionalRange.empty : OptionalRange := { «begin» := U32_MAX, «end» := U32_MAX }

/-- Number of slots of each cache of the pair holder. -/
def CACHE_SIZE : Nat := MAX_BOZORTH_MINUTIAE * MAX_BOZORTH_MINUTIAE

structure PairHolder where
  forward_ : List Pair
  backward_ : List Nat
  forward_cache_ : Nat → OptionalRange
  backward_cache_ : Nat → OptionalRange
  dirty_ : Bool

/-- A default-constructed `PairHolder`: empty vectors, value-initialised
caches (every slot `{0, 0}`), `dirty_ = false`. -/
def PairHolder.init : PairHolder :=
  { forward_ := [], backward_ := [],
    forward_cache_ := fun _ => { «begin» := 0, «end» := 0 },
    backward_cache_ := fun _ => { «begin» := 0, «end» := 0 },
    dirty_ := false }

def PairHolder.add (h : PairHolder) (pair : Pair) : PairHolder :=
  { h with forward_ := h.forward_ ++ [pair], dirty_ := true }

def PairHolder.empty (h : PairHolder) : Bool := h.forward_.isEmpty

def PairHolder.clear (_h : PairHolder) : PairHolder :=
  { forward_ := [], backward_ := [],
    forward_cache_ := fun _ => OptionalRange.empty,
    backward_cache_ := fun _ => OptionalRange.empty,
    dirty_ := true }

def PairHolder.pairs (h : PairHolder) : List Pair := h.forward_

/-- The comparison lambda of the `std::stable_sort` of `forward_`. -/
def forward_less (left right : Pair) : Bool :=
  if left.probe_k < right.probe_k then true
  else if left.probe_k > right.probe_k then false
  else if left.gallery_k < right.gallery_k then true
  else if left.gallery_k > right.gallery_k then false
  else decide (left.probe_j < right.probe_j)

/-- The comparison lambda of the `std::sort` of `backward_`; it orders any two
different indices, so the sorted order is unique.  An index outside `forward_`
is an unchecked access; it does not occur, `backward_` holds `0 .. size-1`. -/
def backward_less (forward_ : List Pair) (left right : Nat) : Bool :=
  match forward_[left]?, forward_[right]? with
  | some l, some r =>
    if l.probe_j < r.probe_j then true
    else if l.probe_j > r.probe_j then false
    else if l.gallery_j < r.gallery_j then true
    else if l.gallery_j > r.gallery_j then false
    else decide (left < right)
  | _, _ => false

/-- Store `range` in slot `index` of a cache (unchecked `operator[]`). -/
def cache_store (cache : Nat → OptionalRange) (index : Nat) (range : OptionalRange) :
    Except Fault (Nat → OptionalRange) :=
  if index < CACHE_SIZE then .ok (Function.update cache index range)
  else .error .out_of_range

/-- One cache-filling block of `prepare`, over the keys `(k, g)` of the
remaining entries, the first of which has index `i`. -/
def fill_cache : List (Nat × Nat) → Nat → Option (Nat × Nat) → Nat → Nat →
    (Nat → OptionalRange) → Except Fault (Nat → OptionalRange)
  | [], _, previous, range_start, size, cache =>
    match previous with
    | some (k, g) =>
      cache_store cache (wrapU32 (k * MAX_BOZORTH_MINUTIAE + g))
        { «begin» := range_start, «end» := size }
    | none => .ok cache
  | current :: rest, i, previous, range_start, size, cache =>
    match previous with
    | some (ppk, pgk) =>
      if (ppk, pgk) ≠ current then
        match cache_store cache (wrapU32 (ppk * MAX_BOZORTH_MINUTIAE + pgk))
                { «begin» := range_start, «end» := i } with
        | .error f => .error f
        | .ok cache1 => fill_cache rest (i + 1) (some current) i size cache1
      else fill_cache rest (i + 1) previous range_start size cache
    | none => fill_cache rest (i + 1) (some current) range_start size cache

def PairHolder.prepare (h : PairHolder) : Except Fault PairHolder :=
  if h.forward_.isEmpty then .error .assertion
  else if !h.backward_.isEmpty then .error .assertion
  else if !h.dirty_ then .ok h
  else
    let forward_ := stable_sort forward_less h.forward_
    match fill_cache (forward_.map (fun p => (p.probe_k, p.gallery_k))) 0 none 0
            forward_.length h.forward_cache_ with
    | .error f => .error f
    | .ok forward_cache_ =>
      let backward_ := stable_sort (backward_less forward_) (List.range forward_.length)
      match fill_cache
              (backward_.map (fun i =>
                match forward_[i]? with
                | some p => (p.probe_j, p.gallery_j)
                | none => (0, 0)))
              0 none 0 backward_.length h.backward_cache_ with
      | .error f => .error f
      | .ok backward_cache_ =>
        .ok { forward_ := forward_, backward_ := backward_,
              forward_cache_ := forward_cache_, backward_cache_ := backward_cache_,
              dirty_ := false }

/-- Run the callback `cb` over the positions `begin .. end-1` of `backward_`
(first of `count` remaining positions: `pos`), for the stored indices that are
at least `offset`. -/
def second_endpoint_loop {σ : Type} (h : PairHolder) (offset : Nat)
    (cb : Nat → Nat → Nat → σ → Except Fault σ) : Nat → Nat → σ → Except Fault σ
  | 0, _, s => .ok s
  | count + 1, pos, s =>
    match h.backward_[pos]? with
    | none => .error .out_of_range
    | some item =>
      if item ≥ offset then
        match h.forward_[item]? with
        | none => .error .out_of_range
        | some p =>
          match cb item p.probe_k p.gallery_k s with
          | .error f => .error f
          | .ok s1 => second_endpoint_loop h offset cb count (pos + 1) s1
      else second_endpoint_loop h offset cb count (pos + 1) s

/-- `find_pairs_by_second_endpoint`; the callback works on a state `σ`. -/
def PairHolder.find_pairs_by_second_endpoint {σ : Type} (h : PairHolder) (offset : Nat)
    (probe_endpoint gallery_endpoint : Nat)
    (cb : Nat → Nat → Nat → σ → Except Fault σ) (s : σ) : Except Fault σ :=
  if h.dirty_ then .error .assertion
  else
    let index := wrapU32 (probe_endpoint * MAX_BOZORTH_MINUTIAE + gallery_endpoint)
    if index < CACHE_SIZE then
      let range := h.backward_cache_ index
      if range.has_value then
        if range.begin ≤ range.end then
          second_endpoint_loop h offset cb (range.end - range.begin) range.begin s
        else .error .out_of_range
      else .ok s
    else .error .out_of_range

/-- Run the callback over the positions `begin .. end-1` of `forward_`, for the
positions that are at least `offset`. -/
def first_endpoint_loop {σ : Type} (h : PairHolder) (offset : Nat)
    (cb : Nat → Nat → Nat → σ → Except Fault σ) : Nat → Nat → σ → Except Fault σ
  | 0, _, s => .ok s
  | count + 1, index, s =>
    if index ≥ offset then
      match h.forward_[index]? with
      | none => .error .out_of_range
      | some item =>
        match cb index item.probe_j item.gallery_j s with
        | .error f => .error f
        | .ok s1 => first_endpoint_loop h offset cb count (index + 1) s1
    else first_endpoint_loop h offset cb count (index + 1) s

/-- `find_pairs_by_first_endpoint`; returns the final callback state and the
returned bound. -/
def PairHolder.find_pairs_by_first_endpoint {σ : Type} (h : PairHolder) (offset : Nat)
    (probe_endpoint gallery_endpoint : Nat)
    (cb : Nat → Nat → Nat → σ → Except Fault σ) (s : σ) : Except Fault (σ × Nat) :=
  if h.dirty_ then .error .assertion
  else
    let index := wrapU32 (probe_endpoint * MAX_BOZORTH_MINUTIAE + gallery_endpoint)
    if index < CACHE_SIZE then
      let range := h.forward_cache_ index
      if range.has_value then
        if range.begin ≤ range.end then
          match first_endpoint_loop h offset cb (range.end - range.begin) range.begin s with
          | .error f => .error f
          | .ok s1 => .ok (s1, range.end)
        else .error .out_of_range
      else .ok (s, offset)
    else .error .out_of_range

/-! ## utils.hpp -/

/-- `EndpointAssociator<MAX_NUMBER_OF_ENDPOINTS>`: two tables of
`MAX_NUMBER_OF_ENDPOINTS` slots. -/
structure EndpointAssociator where
  probe_by_gallery_ : Nat → Nat
  gallery_by_probe_ : Nat → Nat

namespace EndpointAssociator

def associate_endpoints (a : EndpointAssociator) (probe_endpoint gallery_endpoint : Nat) :
    Except Fault EndpointAssociator :=
  if gallery_endpoint < MAX_NUMBER_OF_ENDPOINTS ∧ probe_endpoint < MAX_NUMBER_OF_ENDPOINTS then
    .ok { probe_by_gallery_ :=
            Function.update a.probe_by_gallery_ gallery_endpoint (wrapU32 (probe_endpoint + 1)),
          gallery_by_probe_ :=
            Function.update a.gallery_by_probe_ probe_endpoint (wrapU32 (gallery_endpoint + 1)) }
  else .error .out_of_range

def clear_by_probe (a : EndpointAssociator) (probe_endpoint : Nat) :
    Except Fault EndpointAssociator :=
  if probe_endpoint < MAX_NUMBER_OF_ENDPOINTS then
    let value := a.gallery_by_probe_ probe_endpoint
    if value ≠ 0 then
      if value - 1 < MAX_NUMBER_OF_ENDPOINTS then
        .ok { probe_by_gallery_ := Function.update a.probe_by_gallery_ (value - 1) 0,
              gallery_by_probe_ := Function.update a.gallery_by_probe_ probe_endpoint 0 }
      else .error .out_of_range
    else .ok a
  else .error .out_of_range

def get_associated_probe_endpoint (a : EndpointAssociator) (gallery_endpoint : Nat) :
    Except Fault (Option Nat) :=
  if gallery_endpoint < MAX_NUMBER_OF_ENDPOINTS then
    let endpoint := a.probe_by_gallery_ gallery_endpoint
    if endpoint = 0 then .ok none else .ok (some (endpoint - 1))
  else .error .out_of_range

def get_associated_gallery_endpoint (a : EndpointAssociator) (probe_endpoint : Nat) :
    Except Fault (Option Nat) :=
  if probe_endpoint < MAX_NUMBER_OF_ENDPOINTS then
    let endpoint := a.gallery_by_probe_ probe_endpoint
    if endpoint = 0 then .ok none else .ok (some (endpoint - 1))
  else .error .out_of_range

def are_clear_or_mutually_associated (a : EndpointAssociator)
    (probe_endpoint gallery_endpoint : Nat) : Except Fault Bool :=
  if probe_endpoint < MAX_NUMBER_OF_ENDPOINTS ∧ gallery_endpoint < MAX_NUMBER_OF_ENDPOINTS then
    let associated_gallery := a.gallery_by_probe_ probe_endpoint
    let associated_probe := a.probe_by_gallery_ gallery_endpoint
    if associated_gallery = 0 ∧ associated_probe = 0 then .ok true
    else .ok (decide (associated_gallery = wrapU32 (gallery_endpoint + 1)) &&
              decide (associated_probe = wrapU32 (probe_endpoint + 1)))
  else .error .out_of_range

def clear (_a : EndpointAssociator) : EndpointAssociator :=
  { probe_by_gallery_ := fun _ => 0, gallery_by_probe_ := fun _ => 0 }

end EndpointAssociator

structure AngleAverager where
  sum_of_negative_ : Int
  number_of_negative_ : Int
  sum_of_positive_ : Int
  number_of_positive_ : Int
  deriving DecidableEq, Repr

namespace AngleAverager

/-- A default-constructed averager. -/
def init : AngleAverager :=
  { sum_of_negative_ := 0, number_of_negative_ := 0,
    sum_of_positive_ := 0, number_of_positive_ := 0 }

def push (a : AngleAverager) (value : Int) : AngleAverager :=
  if value < 0 then
    { a with sum_of_negative_ := wrap32 (a.sum_of_negative_ + value),
             number_of_negative_ := wrap32 (a.number_of_negative_ + 1) }
  else
    { a with sum_of_positive_ := wrap32 (a.sum_of_positive_ + value),
             number_of_positive_ := wrap32 (a.number_of_positive_ + 1) }

def average (fo : FloatOps) (a : AngleAverager) : Int :=
  let average := fo.average_rounded a.sum_of_negative_ a.number_of_negative_
    a.sum_of_positive_ a.number_of_positive_
  if average ≤ -180 then wrap32 (average + 360) else average

end AngleAverager

/-- `MARKER_UNASSIGNED = 0xFFFFFFFF` stored into an `i32` slot. -/
def MARKER_UNASSIGNED : Int := wrap32 4294967295

/-- `ClusterAssigner<MAX_NUMBER_OF_PAIRS>`: a table of `MAX_NUMBER_OF_PAIRS`
`i32` slots. -/
structure ClusterAssigner where
  cluster_by_pair_ : Nat → Int

namespace ClusterAssigner

def get_cluster (a : ClusterAssigner) (pair_index : Nat) : Except Fault (Option Nat) :=
  if pair_index < MAX_NUMBER_OF_PAIRS then
    let cluster := a.cluster_by_pair_ pair_index
    if cluster = 0 then .ok none
    else .ok (some ((wrap32 (cluster - 1)) % 4294967296).toNat)
  else .error .out_of_range

def has_cluster (a : ClusterAssigner) (pair_index cluster : Nat) : Except Fault Bool :=
  if pair_index < MAX_NUMBER_OF_PAIRS then
    .ok (decide (a.cluster_by_pair_ pair_index = wrap32 (wrapU32 (cluster + 1))))
  else .error .out_of_range

def assign_cluster (a : ClusterAssigner) (pair_index cluster : Nat) :
    Except Fault ClusterAssigner :=
  if pair_index < MAX_NUMBER_OF_PAIRS then
    .ok { cluster_by_pair_ :=
            Function.update a.cluster_by_pair_ pair_index (wrap32 (wrapU32 (cluster + 1))) }
  else .error .out_of_range

def restore (a : ClusterAssigner) (pair_index : Nat) : Except Fault ClusterAssigner :=
  if pair_index < MAX_NUMBER_OF_PAIRS then
    .ok { cluster_by_pair_ := Function.update a.cluster_by_pair_ pair_index MARKER_UNASSIGNED }
  else .error .out_of_range

def clear (_a : ClusterAssigner) : ClusterAssigner :=
  { cluster_by_pair_ := fun _ => 0 }

end ClusterAssigner

/-! ## bozorth3.h -/

structure ClusterAverages where
  delta_theta : Int
  probe_x : Int
  probe_y : Int
  gallery_x : Int
  gallery_y : Int
  deriving DecidableEq, Repr

structure Cluster where
  points : Nat
  points_from_compatible : Nat
  compatible : List Nat
  deriving DecidableEq, Repr

/-- The two `std::bitset<MAX_BOZORTH_MINUTIAE>`, each as the number whose binary
digits are the bits. -/
structure ClusterEndpoints where
  probe : Nat
  gallery : Nat
  deriving DecidableEq, Repr

structure Clusters where
  clusters : List Cluster
  averages : List ClusterAverages
  endpoints : List ClusterEndpoints
  deriving DecidableEq, Repr

def Clusters.clear (_c : Clusters) : Clusters :=
  { clusters := [], averages := [], endpoints := [] }

def Clusters.size (c : Clusters) : Nat := c.clusters.length

def Clusters.push_back (c : Clusters) (cluster : Cluster) (average : ClusterAverages)
    (endpoint : ClusterEndpoints) : Clusters :=
  { clusters := c.clusters ++ [cluster], averages := c.averages ++ [average],
    endpoints := c.endpoints ++ [endpoint] }

inductive EndpointType where
  | Probe
  | Gallery
  deriving DecidableEq, Repr

structure EndpointGroup where
  endpoint : Nat
  endpoint_type : EndpointType
  endpoint_index : Nat
  endpoints : List Nat
  to_clear : Option Nat
  deriving DecidableEq, Repr

structure BozorthState where
  clusters : Clusters
  associator : EndpointAssociator
  cluster_assigner : ClusterAssigner
  groups : List EndpointGroup
  selected_pairs : List Nat

/-- A default-constructed `BozorthState`. -/
def BozorthState.init : BozorthState :=
  { clusters := { clusters := [], averages := [], endpoints := [] },
    associator := { probe_by_gallery_ := fun _ => 0, gallery_by_probe_ := fun _ => 0 },
    cluster_assigner := { cluster_by_pair_ := fun _ => 0 },
    groups := [], selected_pairs := [] }

def BozorthState.clear (s : BozorthState) : BozorthState :=
  { clusters := s.clusters.clear, associator := s.associator.clear,
    cluster_assigner := s.cluster_assigner.clear, groups := [], selected_pairs := [] }

/-! ## bozorth3.cpp: cluster growth -/

def average_angles (fo : FloatOps) (angle1 angle2 : Int) : Int :=
  ((AngleAverager.init.push angle1).push angle2).average fo

def get_current_pair (group : EndpointGroup) : Except Fault (Nat × Nat) :=
  match group.endpoints[group.endpoint_index]? with
  | none => .error .out_of_range
  | some e =>
    if group.endpoint_type = EndpointType.Gallery then .ok (e, group.endpoint)
    else .ok (group.endpoint, e)

/-- The roll-back loop of `associate_endpoints_of_all_groups`: positions
`i .. size-1`, `count` of them. -/
def rollback_groups : Nat → Nat → List EndpointGroup → EndpointAssociator →
    Except Fault (List EndpointGroup × EndpointAssociator)
  | 0, _, groups, associator => .ok (groups, associator)
  | count + 1, i, groups, associator =>
    match groups[i]? with
    | none => .error .out_of_range
    | some g =>
      let groups1 := groups.set i { g with to_clear := none }
      match g.to_clear with
      | some old_probe =>
        match associator.clear_by_probe old_probe with
        | .error f => .error f
        | .ok associator1 => rollback_groups count (i + 1) groups1 associator1
      | none => rollback_groups count (i + 1) groups1 associator

/-- The loop of `associate_endpoints_of_all_groups`; the first argument is
`group_index + 1`. -/
def associate_groups_loop : Nat → List EndpointGroup → EndpointAssociator →
    Except Fault (Bool × List EndpointGroup × EndpointAssociator)
  | 0, groups, associator => .ok (true, groups, associator)
  | group_index + 1, groups, associator =>
    match groups[group_index]? with
    | none => .error .out_of_range
    | some g =>
      match get_current_pair g with
      | .error f => .error f
      | .ok (probe_endpoint, gallery_endpoint) =>
        match associator.are_clear_or_mutually_associated probe_endpoint gallery_endpoint with
        | .error f => .error f
        | .ok true =>
          match associator.associate_endpoints probe_endpoint gallery_endpoint with
          | .error f => .error f
          | .ok associator1 =>
            associate_groups_loop group_index
              (groups.set group_index { g with to_clear := some probe_endpoint }) associator1
        | .ok false =>
          match rollback_groups (groups.length - (group_index + 1)) (group_index + 1)
                  groups associator with
          | .error f => .error f
          | .ok (groups1, associator1) => .ok (false, groups1, associator1)

def associate_endpoints_of_all_groups (groups : List EndpointGroup)
    (associator : EndpointAssociator) :
    Except Fault (Bool × List EndpointGroup × EndpointAssociator) :=
  associate_groups_loop groups.length groups associator

/-- The loop of `try_associate_ambiguous_endpoints`; `r` is the distance of the
reverse iterator `group` from `rbegin()`. -/
def try_associate_loop : Nat → Nat → List EndpointGroup → EndpointAssociator →
    Except Fault (Bool × List EndpointGroup × EndpointAssociator)
  | 0, _, _, _ => .error .diverges
  | fuel + 1, r, groups, associator =>
    if r < groups.length then
      let i := groups.length - 1 - r
      match groups[i]? with
      | none => .error .out_of_range
      | some g =>
        if g.endpoint_index + 1 < g.endpoints.length then
          match associate_endpoints_of_all_groups
                  (groups.set i { g with endpoint_index := g.endpoint_index + 1 })
                  associator with
          | .error f => .error f
          | .ok (true, groups1, associator1) => .ok (true, groups1, associator1)
          | .ok (false, groups1, associator1) =>
            try_associate_loop fuel 0 groups1 associator1
        else
          try_associate_loop fuel (r + 1) (groups.set i { g with endpoint_index := 0 })
            associator
    else .ok (false, groups, associator)

def try_associate_ambiguous_endpoints (fuel : Nat) (groups : List EndpointGroup)
    (associator : EndpointAssociator) :
    Except Fault (Bool × List EndpointGroup × EndpointAssociator) :=
  try_associate_loop fuel 0 groups associator

/-! ## bozorth3.cpp: cluster compatibility -/

def are_clusters_compatible (fo : FloatOps) (format : Format)
    (averages1 averages2 : ClusterAverages) : Bool :=
  if !are_angles_equal_with_tolerance averages2.delta_theta averages1.delta_theta then false
  else
    let probe_dx := wrap32 (averages2.probe_x - averages1.probe_x)
    let probe_dy := wrap32 (averages2.probe_y - averages1.probe_y)
    let gallery_dx := wrap32 (averages2.gallery_x - averages1.gallery_x)
    let gallery_dy := wrap32 (averages2.gallery_y - averages1.gallery_y)
    let probe_distance_squared := wrap32 (squared probe_dx + squared probe_dy)
    let gallery_distance_squared := wrap32 (squared gallery_dy + squared gallery_dx)
    if fo.distance_differs probe_distance_squared gallery_distance_squared then false
    else
      let average := average_angles fo averages1.delta_theta averages2.delta_theta
      let difference :=
        if format = Format.Ansi then
          wrap32 (calculate_slope_in_degrees fo probe_dx (wrap32 (-probe_dy)) -
                  calculate_slope_in_degrees fo gallery_dx (wrap32 (-gallery_dy)))
        else
          wrap32 (calculate_slope_in_degrees fo probe_dx probe_dy -
                  calculate_slope_in_degrees fo gallery_dx gallery_dy)
      are_angles_equal_with_tolerance average (normalize_angle difference)

def have_common_endpoints (first second : ClusterEndpoints) : Bool :=
  ((first.probe &&& second.probe) ||| (first.gallery &&& second.gallery)) != 0

/-- The inner loop of `merge_compatible_clusters` for one `cluster`:
`other_cluster` runs over `count` indices.  Returns `points_from_others` and
`compatible_clusters`. -/
def merge_inner (fo : FloatOps) (format : Format) (clusters : Clusters) (cluster : Nat) :
    Nat → Nat → Nat → List Nat → Except Fault (Nat × List Nat)
  | 0, _, points_from_others, compatible_clusters =>
    .ok (points_from_others, compatible_clusters)
  | count + 1, other_cluster, points_from_others, compatible_clusters =>
    match clusters.endpoints[cluster]?, clusters.endpoints[other_cluster]?,
          clusters.averages[cluster]?, clusters.averages[other_cluster]?,
          clusters.clusters[other_cluster]? with
    | some e1, some e2, some a1, some a2, some c2 =>
      if have_common_endpoints e1 e2 then
        merge_inner fo format clusters cluster count (other_cluster + 1)
          points_from_others compatible_clusters
      else if !are_clusters_compatible fo format a1 a2 then
        merge_inner fo format clusters cluster count (other_cluster + 1)
          points_from_others compatible_clusters
      else
        merge_inner fo format clusters cluster count (other_cluster + 1)
          (wrapU32 (points_from_others + c2.points)) (compatible_clusters ++ [other_cluster])
    | _, _, _, _, _ => .error .out_of_range

/-- The outer loop of `merge_compatible_clusters`: `cluster` runs over `count`
indices. -/
def merge_outer (fo : FloatOps) (format : Format) :
    Nat → Nat → Clusters → Except Fault Clusters
  | 0, _, clusters => .ok clusters
  | count + 1, cluster, clusters =>
    match merge_inner fo format clusters cluster (clusters.size - (cluster + 1)) (cluster + 1)
            0 [] with
    | .error f => .error f
    | .ok (points_from_others, compatible_clusters) =>
      match clusters.clusters[cluster]? with
      | none => .error .out_of_range
      | some c =>
        merge_outer fo format count (cluster + 1)
          { clusters with
            clusters := clusters.clusters.set cluster
              { points := c.points,
                points_from_compatible := wrapU32 (c.points + points_from_others),
                compatible := compatible_clusters } }

def merge_compatible_clusters (fo : FloatOps) (format : Format) (clusters : Clusters) :
    Except Fault Clusters :=
  merge_outer fo format clusters.size 0 clusters

/-! ## bozorth3.cpp: committing a cluster -/

/-- `x /= n` for an `int x` and a `size_t n`: the division is carried out on
64-bit unsigned values and the quotient stored back into the `int`. -/
def div_by_size (x : Int) (n : Nat) : Int :=
  wrap32 ((x % 18446744073709551616) / (n : Int))

/-- The accumulation loop of `calculate_averages`. -/
def averages_loop (probe_minutiae gallery_minutiae : List Minutia) (pairs : List Pair) :
    List Nat → ClusterAverages → AngleAverager → Except Fault (ClusterAverages × AngleAverager)
  | [], average, averager => .ok (average, averager)
  | pair_index :: rest, average, averager =>
    match pairs[pair_index]? with
    | none => .error .out_of_range
    | some pair =>
      match probe_minutiae[pair.probe_k]?, gallery_minutiae[pair.gallery_k]? with
      | some pm, some gm =>
        averages_loop probe_minutiae gallery_minutiae pairs rest
          { average with
            probe_x := wrap32 (average.probe_x + pm.x),
            probe_y := wrap32 (average.probe_y + pm.y),
            gallery_x := wrap32 (average.gallery_x + gm.x),
            gallery_y := wrap32 (average.gallery_y + gm.y) }
          (averager.push pair.delta_theta)
      | _, _ => .error .out_of_range

def calculate_averages (fo : FloatOps) (probe_minutiae gallery_minutiae : List Minutia)
    (pairs : List Pair) (selected_pairs : List Nat) : Except Fault ClusterAverages :=
  match averages_loop probe_minutiae gallery_minutiae pairs selected_pairs
          { delta_theta := 0, probe_x := 0, probe_y := 0, gallery_x := 0, gallery_y := 0 }
          AngleAverager.init with
  | .error f => .error f
  | .ok (average, averager) =>
    .ok { delta_theta := averager.average fo,
          probe_x := div_by_size average.probe_x selected_pairs.length,
          probe_y := div_by_size average.probe_y selected_pairs.length,
          gallery_x := div_by_size average.gallery_x selected_pairs.length,
          gallery_y := div_by_size average.gallery_y selected_pairs.length }

/-- `bitset.set(pos)`, which throws for a position outside the bitset. -/
def bitset_set (bits pos : Nat) : Except Fault Nat :=
  if pos < MAX_BOZORTH_MINUTIAE then .ok (bits ||| (1 <<< pos)) else .error .out_of_range

def encode_endpoints (pairs : List Pair) : List Nat → ClusterEndpoints →
    Except Fault ClusterEndpoints
  | [], endpoints => .ok endpoints
  | idx :: rest, endpoints =>
    match pairs[idx]? with
    | none => .error .out_of_range
    | some pair =>
      match bitset_set endpoints.probe pair.probe_k with
      | .error f => .error f
      | .ok p1 =>
        match bitset_set p1 pair.probe_j with
        | .error f => .error f
        | .ok p2 =>
          match bitset_set endpoints.gallery pair.gallery_k with
          | .error f => .error f
          | .ok g1 =>
            match bitset_set g1 pair.gallery_j with
            | .error f => .error f
            | .ok g2 => encode_endpoints pairs rest { probe := p2, gallery := g2 }

def cleanup_selected (cluster_assigner : ClusterAssigner) :
    List Nat → Except Fault ClusterAssigner
  | [] => .ok cluster_assigner
  | pair :: rest =>
    match cluster_assigner.restore pair with
    | .error f => .error f
    | .ok a => cleanup_selected a rest

/-- The `delta_theta` of the selected pairs (`pairs[pair]`, unchecked). -/
def selected_delta_thetas (pairs : List Pair) : List Nat → Except Fault (List Int)
  | [] => .ok []
  | pair :: rest =>
    match pairs[pair]? with
    | none => .error .out_of_range
    | some p =>
      match selected_delta_thetas pairs rest with
      | .error f => .error f
      | .ok l => .ok (p.delta_theta :: l)

def calculate_average_delta_theta_for_pairs (fo : FloatOps) (selected_pairs : List Nat)
    (pairs : List Pair) : Except Fault Int :=
  match selected_delta_thetas pairs selected_pairs with
  | .error f => .error f
  | .ok l => .ok ((l.foldl AngleAverager.push AngleAverager.init).average fo)

/-- `filter_selected`; the result is the new content of `selected_pairs`. -/
def filter_selected (fo : FloatOps) (selected_pairs : List Nat) (pairs : List Pair) :
    Except Fault (List Nat) :=
  match calculate_average_delta_theta_for_pairs fo selected_pairs pairs with
  | .error f => .error f
  | .ok average =>
    .ok (selected_pairs.filter (fun pair_index =>
      match pairs[pair_index]? with
      | some p => are_angles_equal_with_tolerance p.delta_theta average
      | none => false))

def calculate_points (selected : List Nat) (pairs : List Pair) : Except Fault Nat :=
  selected.foldl
    (fun total index =>
      match total, pairs[index]? with
      | .ok t, some p => .ok (wrapU32 (t + p.points))
      | .ok _, none => .error .out_of_range
      | .error f, _ => .error f)
    (.ok 0)

/-! ## bozorth3.cpp: assigning pairs to a cluster -/

def associate_multiple_compatible_endpoints (endpoint_type : EndpointType)
    (endpoint existing_endpoint new_endpoint : Nat) (groups : List EndpointGroup) :
    Except Fault (List EndpointGroup) :=
  if existing_endpoint = new_endpoint then .error .assertion
  else
    match groups.findIdx? (fun group =>
            decide (group.endpoint_type = endpoint_type) && decide (group.endpoint = endpoint)) with
    | some i =>
      match groups[i]? with
      | none => .error .out_of_range
      | some group =>
        if group.endpoints.contains new_endpoint then .ok groups
        else .ok (groups.set i { group with endpoints := group.endpoints ++ [new_endpoint] })
    | none =>
      .ok (groups ++ [{ endpoint := endpoint, endpoint_type := endpoint_type,
                        endpoint_index := 0,
                        endpoints := [existing_endpoint, new_endpoint],
                        to_clear := none }])

/-- The objects that `find_pairs` and its `assign` lambda update by reference. -/
structure GrowthRefs where
  groups : List EndpointGroup
  assigner : ClusterAssigner
  associator : EndpointAssociator
  endpoints : List Nat
  selected_pairs : List Nat

def assign_cluster_to_endpoints (cluster pair_index probe_endpoint gallery_endpoint : Nat)
    (r : GrowthRefs) : Except Fault GrowthRefs :=
  match r.associator.get_associated_gallery_endpoint probe_endpoint,
        r.associator.get_associated_probe_endpoint gallery_endpoint with
  | .error f, _ => .error f
  | _, .error f => .error f
  | .ok associated_gallery_endpoint, .ok associated_probe_endpoint =>
    if associated_gallery_endpoint.isNone && associated_probe_endpoint.isNone then
      match r.assigner.has_cluster pair_index cluster with
      | .error f => .error f
      | .ok has =>
        match (if has then .ok r.assigner else r.assigner.assign_cluster pair_index cluster) with
        | .error f => .error f
        | .ok assigner1 =>
          match r.associator.associate_endpoints probe_endpoint gallery_endpoint with
          | .error f => .error f
          | .ok associator1 =>
            .ok { r with
                  selected_pairs :=
                    if has then r.selected_pairs else r.selected_pairs ++ [pair_index],
                  assigner := assigner1,
                  endpoints := r.endpoints ++ [probe_endpoint],
                  associator := associator1 }
    else if associated_gallery_endpoint = some gallery_endpoint then
      match r.assigner.has_cluster pair_index cluster with
      | .error f => .error f
      | .ok true => .ok r
      | .ok false =>
        match r.assigner.assign_cluster pair_index cluster with
        | .error f => .error f
        | .ok assigner1 =>
          .ok { r with
                selected_pairs := r.selected_pairs ++ [pair_index],
                assigner := assigner1,
                endpoints :=
                  if r.endpoints.contains pair_index then r.endpoints
                  else r.endpoints ++ [probe_endpoint] }
    else if r.groups.length ≥ MAX_NUMBER_OF_GROUPS then .ok r
    else
      match (match associated_gallery_endpoint with
             | some ag =>
               associate_multiple_compatible_endpoints EndpointType.Probe probe_endpoint
                 ag gallery_endpoint r.groups
             | none => .ok r.groups) with
      | .error f => .error f
      | .ok groups1 =>
        match (match associated_probe_endpoint with
               | some ap =>
                 associate_multiple_compatible_endpoints EndpointType.Gallery gallery_endpoint
                   ap probe_endpoint groups1
               | none => .ok groups1) with
        | .error f => .error f
        | .ok groups2 => .ok { r with groups := groups2 }

/-- The worklist loop `for (i = 0; i < endpoints.size(); i++)` of `find_pairs`. -/
def find_pairs_loop (pair_holder : PairHolder) (start : Pair) (cluster_index : Nat)
    (next_not_connected : Nat) : Nat → Nat → GrowthRefs → Except Fault GrowthRefs
  | 0, _, _ => .error .diverges
  | fuel + 1, i, r =>
    if i < r.endpoints.length then
      match r.endpoints[i]? with
      | none => .error .out_of_range
      | some probe_endpoint =>
        match r.associator.get_associated_gallery_endpoint probe_endpoint with
        | .error f => .error f
        | .ok none => .error .bad_optional
        | .ok (some gallery_endpoint) =>
          match pair_holder.find_pairs_by_second_endpoint next_not_connected
                  probe_endpoint gallery_endpoint
                  (fun index probe_k gallery1 s =>
                    if probe_k ≠ start.probe_k ∧ gallery1 ≠ start.gallery_k then
                      assign_cluster_to_endpoints cluster_index index probe_k gallery1 s
                    else .ok s) r with
          | .error f => .error f
          | .ok r1 =>
            match pair_holder.find_pairs_by_first_endpoint next_not_connected
                    probe_endpoint gallery_endpoint
                    (fun index probe_j gallery2 s =>
                      assign_cluster_to_endpoints cluster_index index probe_j gallery2 s) r1 with
            | .error f => .error f
            | .ok (r2, _) =>
              find_pairs_loop pair_holder start cluster_index next_not_connected fuel (i + 1) r2
    else .ok r

/-- The final loop of `find_pairs`, over the endpoints list. -/
def clear_endpoints (associator : EndpointAssociator) :
    List Nat → Except Fault EndpointAssociator
  | [] => .ok associator
  | endpoint :: rest =>
    match associator.clear_by_probe endpoint with
    | .error f => .error f
    | .ok a => clear_endpoints a rest

/-- `find_pairs`; the result holds the new `groups`, `selected_pairs`,
`associator` and `cluster_assigner` (and the local `endpoints`). -/
def find_pairs (fuel : Nat) (pair_holder : PairHolder) (start_pair cluster_index : Nat)
    (groups : List EndpointGroup) (selected_pairs : List Nat)
    (associator : EndpointAssociator) (cluster_assigner : ClusterAssigner) :
    Except Fault GrowthRefs :=
  match pair_holder.pairs[start_pair]? with
  | none => .error .out_of_range
  | some start =>
    match pair_holder.find_pairs_by_first_endpoint start_pair start.probe_k start.gallery_k
            (fun index probe_j gallery2 s =>
              assign_cluster_to_endpoints cluster_index index probe_j gallery2 s)
            { groups := groups, assigner := cluster_assigner, associator := associator,
              endpoints := [], selected_pairs := selected_pairs } with
    | .error f => .error f
    | .ok (r, next_not_connected) =>
      match find_pairs_loop pair_holder start cluster_index next_not_connected fuel 0 r with
      | .error f => .error f
      | .ok r1 =>
        match clear_endpoints r1.associator r1.endpoints with
        | .error f => .error f
        | .ok associator1 => .ok { r1 with associator := associator1 }

/-! ## bozorth3.cpp: combine_clusters -/

/-- One round of `std::set_intersection` with `x` at the front of the first
range; `tail_run` continues with the rest of the first range. -/
def set_intersection_step (x : Nat) (tail_run : List Nat → List Nat) : List Nat → List Nat
  | [] => []
  | y :: ys =>
    if x < y then tail_run (y :: ys)
    else if y < x then set_intersection_step x tail_run ys
    else x :: tail_run ys

/-- `std::set_intersection` of two ranges (walks both ranges in step, as the
library does, whether or not they are sorted). -/
def set_intersection : List Nat → List Nat → List Nat
  | [], _ => []
  | x :: xs, ys => set_intersection_step x (set_intersection xs) ys

/-- The local struct `Item` of `combine_clusters`. -/
structure Item where
  cluster : Nat
  index : Nat
  connected : List Nat
  deriving DecidableEq, Repr

/-- The `std::accumulate` over `items` in `combine_clusters`; `items` is held
with its back first. -/
def items_score (clusters : List Cluster) : List Item → Except Fault Nat
  | [] => .ok 0
  | item :: below =>
    match items_score clusters below with
    | .error f => .error f
    | .ok total =>
      match clusters[item.cluster]? with
      | none => .error .out_of_range
      | some c => .ok (wrapU32 (total + c.points))

/-- The `else` branch of the loop of `combine_clusters` before the pop: when
`last.connected` is empty the items are scored.  Returns `best_score`. -/
def score_finished_item (clusters : List Cluster) (last : Item) (below : List Item)
    (best_score : Nat) : Except Fault Nat :=
  if last.connected.isEmpty then
    match items_score clusters (last :: below) with
    | .error f => .error f
    | .ok score => .ok (if score > best_score then score else best_score)
  else .ok best_score

/-- The loop `while (!items.empty())` of `combine_clusters`; the vector `items`
is held with its back first.  Returns `best_score`. -/
def combine_loop (clusters : List Cluster) : Nat → List Item → Nat → Except Fault Nat
  | 0, _, _ => .error .diverges
  | _ + 1, [], best_score => .ok best_score
  | fuel + 1, last :: below, best_score =>
    if last.index < last.connected.length then
      match last.connected[last.index]? with
      | none => .error .out_of_range
      | some next_cluster =>
        match clusters[next_cluster]? with
        | none => .error .out_of_range
        | some c =>
          combine_loop clusters fuel
            ({ cluster := next_cluster, index := 0,
               connected := set_intersection last.connected c.compatible } :: last :: below)
            best_score
    else
      match score_finished_item clusters last below best_score with
      | .error f => .error f
      | .ok best1 =>
        match below with
        | [] => combine_loop clusters fuel [] best1
        | b :: rest => combine_loop clusters fuel ({ b with index := b.index + 1 } :: rest) best1

/-- The loop over `iter::enumerate(clusters)` of `combine_clusters`: the
remaining clusters, the first of which has index `cluster_index`. -/
def combine_outer (fuel : Nat) (clusters : List Cluster) :
    List Cluster → Nat → Nat → Except Fault Nat
  | [], _, best_score => .ok best_score
  | cluster :: rest, cluster_index, best_score =>
    if best_score ≥ cluster.points_from_compatible then
      combine_outer fuel clusters rest (cluster_index + 1) best_score
    else
      match combine_loop clusters fuel
              [{ cluster := cluster_index, index := 0, connected := cluster.compatible }]
              best_score with
      | .error f => .error f
      | .ok best1 => combine_outer fuel clusters rest (cluster_index + 1) best1

/-- `combine_clusters(clusters)`; every run of the inner `while` loop may take
`fuel` rounds. -/
def combine_clusters (fuel : Nat) (clusters : List Cluster) : Except Fault Nat :=
  combine_outer fuel clusters clusters 0 0

/-! ## bozorth3.cpp: match_score -/

/-- The loop over the old groups in `match_score` that un-associates their
`to_clear` endpoints. -/
def clear_old_groups (groups : List EndpointGroup) :
    Nat → Nat → EndpointAssociator → Except Fault EndpointAssociator
  | 0, _, associator => .ok associator
  | count + 1, i, associator =>
    match groups[i]? with
    | none => .error .out_of_range
    | some g =>
      match g.to_clear with
      | some p =>
        match associator.clear_by_probe p with
        | .error f => .error f
        | .ok a => clear_old_groups groups count (i + 1) a
      | none => clear_old_groups groups count (i + 1) associator

/-- The commit step of `match_score`: filter the selected pairs, then either
restore them or append a cluster. -/
def commit_cluster (fo : FloatOps) (pair_holder : PairHolder)
    (probe_minutia gallery_minutia : List Minutia) (state : BozorthState) :
    Except Fault BozorthState :=
  match (if state.selected_pairs.length ≥ MIN_NUMBER_OF_PAIRS_TO_CLUSTER then
           filter_selected fo state.selected_pairs pair_holder.pairs
         else .ok state.selected_pairs) with
  | .error f => .error f
  | .ok selected =>
    if selected.length < MIN_NUMBER_OF_PAIRS_TO_CLUSTER then
      match cleanup_selected state.cluster_assigner selected with
      | .error f => .error f
      | .ok assigner => .ok { state with selected_pairs := selected, cluster_assigner := assigner }
    else
      match calculate_points selected pair_holder.pairs,
            calculate_averages fo probe_minutia gallery_minutia pair_holder.pairs selected,
            encode_endpoints pair_holder.pairs selected { probe := 0, gallery := 0 } with
      | .ok points, .ok averages, .ok endpoints =>
        .ok { state with
              selected_pairs := selected,
              clusters := state.clusters.push_back
                { points := points, points_from_compatible := points, compatible := [] }
                averages endpoints }
      | .error f, _, _ => .error f
      | _, .error f, _ => .error f
      | _, _, .error f => .error f

/-- The loop `while (true)` of `match_score` for the seed `pair_index`; inner
loops may take `gfuel` rounds each. -/
def grow_cluster_loop (fo : FloatOps) (gfuel : Nat) (pair_holder : PairHolder)
    (probe_minutia gallery_minutia : List Minutia) (pair_index : Nat) :
    Nat → BozorthState → Except Fault BozorthState
  | 0, _ => .error .diverges
  | fuel + 1, state =>
    let number_of_old_groups := state.groups.length
    let new_cluster_index := state.clusters.size
    match find_pairs gfuel pair_holder pair_index new_cluster_index state.groups []
            state.associator state.cluster_assigner with
    | .error f => .error f
    | .ok r =>
      match commit_cluster fo pair_holder probe_minutia gallery_minutia
              { state with groups := r.groups, selected_pairs := r.selected_pairs,
                           associator := r.associator, cluster_assigner := r.assigner } with
      | .error f => .error f
      | .ok state1 =>
        if state1.clusters.size > MAX_NUMBER_OF_CLUSTERS - 1 then .ok state1
        else
          match clear_old_groups state1.groups number_of_old_groups 0 state1.associator with
          | .error f => .error f
          | .ok associator1 =>
            match try_associate_ambiguous_endpoints gfuel state1.groups associator1 with
            | .error f => .error f
            | .ok (false, groups2, associator2) =>
              .ok { state1 with groups := groups2, associator := associator2 }
            | .ok (true, groups2, associator2) =>
              grow_cluster_loop fo gfuel pair_holder probe_minutia gallery_minutia pair_index
                fuel { state1 with groups := groups2, associator := associator2 }

/-- The loop over `pair_index` of `match_score`: `count` seeds are left, the
next is `pair_index`. -/
def grow_clusters (fo : FloatOps) (gfuel : Nat) (pair_holder : PairHolder)
    (probe_minutia gallery_minutia : List Minutia) :
    Nat → Nat → BozorthState → Except Fault BozorthState
  | 0, _, state => .ok state
  | count + 1, pair_index, state =>
    match state.cluster_assigner.get_cluster pair_index with
    | .error f => .error f
    | .ok (some _) =>
      grow_clusters fo gfuel pair_holder probe_minutia gallery_minutia count (pair_index + 1) state
    | .ok none =>
      match pair_holder.pairs[pair_index]? with
      | none => .error .out_of_range
      | some pair =>
        match state.associator.associate_endpoints pair.probe_k pair.gallery_k with
        | .error f => .error f
        | .ok associator1 =>
          match grow_cluster_loop fo gfuel pair_holder probe_minutia gallery_minutia pair_index
                  gfuel { state with associator := associator1, groups := [] } with
          | .error f => .error f
          | .ok state1 =>
            if state1.clusters.size > MAX_NUMBER_OF_CLUSTERS - 1 then .ok state1
            else
              match state1.associator.clear_by_probe pair.probe_k with
              | .error f => .error f
              | .ok associator2 =>
                grow_clusters fo gfuel pair_holder probe_minutia gallery_minutia count
                  (pair_index + 1) { state1 with associator := associator2 }

/-- The maximum of `points_from_compatible` over the clusters (0 for none), as
the loop of `match_score` computes it. -/
def max_points_from_compatible (clusters : List Cluster) : Nat :=
  clusters.foldl (fun match_score cluster => max match_score cluster.points_from_compatible) 0

/-- The end of `match_score<F>`, from `merge_compatible_clusters` on. -/
def score_clusters (fo : FloatOps) (cfuel : Nat) (format : Format) (state : BozorthState) :
    Except Fault (Nat × BozorthState) :=
  match merge_compatible_clusters fo format state.clusters with
  | .error f => .error f
  | .ok clusters =>
    let match_score := max_points_from_compatible clusters.clusters
    if match_score < SCORE_THRESHOLD then .ok (match_score, { state with clusters := clusters })
    else
      match combine_clusters cfuel clusters.clusters with
      | .error f => .error f
      | .ok score => .ok (score, { state with clusters := clusters })

/-- The template `match_score<F>`: returns the score and the final state.
`gfuel` bounds the loops of cluster growth, `cfuel` those of `combine_clusters`. -/
def match_score_format (fo : FloatOps) (gfuel cfuel : Nat) (format : Format)
    (pair_holder : PairHolder) (state : BozorthState)
    (probe_minutia gallery_minutia : List Minutia) : Except Fault (Nat × BozorthState) :=
  if pair_holder.empty then .error .assertion
  else
    match grow_clusters fo gfuel pair_holder probe_minutia gallery_minutia
            (pair_holder.pairs.length - 1) 0 state with
    | .error f => .error f
    | .ok state1 => score_clusters fo cfuel format state1

/-- The function `match_score` of bozorth3.h. -/
def match_score (fo : FloatOps) (gfuel cfuel : Nat) (holder : PairHolder)
    (state : BozorthState) (probe_minutiae gallery_minutiae : List Minutia)
    (format : Format) : Except Fault (Nat × BozorthState) :=
  if holder.empty then .ok (0, state)
  else
    match_score_format fo gfuel cfuel format holder state.clear probe_minutiae gallery_minutiae

/-! ## utils.cpp: match -/

/-- `match_edges_into_pairs`; the result is the pair holder with the emitted
pairs added. -/
def match_edges_into_pairs (fo : FloatOps) (probe_edges : List Edge)
    (probe_minutiae : List Minutia) (gallery_edges : List Edge)
    (gallery_minutiae : List Minutia) (pairs : PairHolder) : Except Fault PairHolder :=
  if probe_edges.isEmpty then .error .assertion
  else if gallery_edges.isEmpty then .error .assertion
  else
    match match_edges_outer fo probe_minutiae gallery_minutiae gallery_edges probe_edges 0 [] with
    | .error f => .error f
    | .ok emitted => .ok (emitted.foldl PairHolder.add pairs)

def MIN_COMPUTABLE_BOZORTH_MINUTIAE : Nat := 10

/-- The function `match` of utils.cpp.  The thread-local `pair_holder` and
`state` it works on are arguments: their content when the call starts. -/
def match_templates (fo : FloatOps) (gfuel cfuel : Nat) (pair_holder : PairHolder)
    (state : BozorthState) (probe_minutiae : List Minutia) (probe_edges : List Edge)
    (gallery_minutiae : List Minutia) (gallery_edges : List Edge) (format : Format) :
    Except Fault Nat :=
  if probe_minutiae.length < MIN_COMPUTABLE_BOZORTH_MINUTIAE ∨
     gallery_minutiae.length < MIN_COMPUTABLE_BOZORTH_MINUTIAE then .ok 0
  else
    match match_edges_into_pairs fo probe_edges probe_minutiae gallery_edges gallery_minutiae
            pair_holder.clear with
    | .error f => .error f
    | .ok pair_holder1 =>
      match pair_holder1.prepare with
      | .error f => .error f
      | .ok pair_holder2 =>
        match match_score fo gfuel cfuel pair_holder2 state.clear probe_minutiae
                gallery_minutiae format with
        | .error f => .error f
        | .ok r => .ok r.1

/-! ## utils.cpp: sort_order_decreasing

The subscripts `left`, `right`, `l`, `r`, `p` are C `int`s and are modelled by
`Int` (a right end can be `-1`); they stay far below `2^31`, so their
arithmetic is not wrapped. -/

/-- `struct Cell`. -/
structure Cell where
  value : Int
  index : Int
  deriving DecidableEq, Repr

/-- `v[i]` for an `int` subscript (an unchecked access). -/
def cell_at (v : List Cell) (i : Int) : Except Fault Cell :=
  if 0 ≤ i then
    match v[i.toNat]? with
    | some c => .ok c
    | none => .error .out_of_range
  else .error .out_of_range

/-- `select_pivot`, the Singleton method: the position of the median of the
values at `left`, `midpoint` and `right`. -/
def select_pivot (v : List Cell) (left right : Int) : Except Fault Int :=
  let midpoint := Int.tdiv (left + right) 2
  match cell_at v left, cell_at v midpoint, cell_at v right with
  | .ok cl, .ok cm, .ok cr =>
    let ileft := cl.value
    let imidpoint := cm.value
    let iright := cr.value
    if ileft ≤ imidpoint then
      if imidpoint ≤ iright then .ok midpoint
      else if iright > ileft then .ok right
      else .ok left
    else if ileft < iright then .ok left
    else if iright < imidpoint then .ok midpoint
    else .ok right
  | .error f, _, _ => .error f
  | _, .error f, _ => .error f
  | _, _, .error f => .error f

/-- The loop `while (true)` of `partition_dec`; returns the array and the
final position `p` of the pivot. -/
def partition_loop : Nat → List Cell → Int → Int → Int → Except Fault (List Cell × Int)
  | 0, _, _, _, _ => .error .diverges
  | fuel + 1, v, p, l, r =>
    if l < p then
      match cell_at v l, cell_at v p with
      | .ok cl, .ok cp =>
        if cl.value < cp.value then
          partition_loop fuel ((v.set l.toNat cp).set p.toNat cl) l l r
        else partition_loop fuel v p (l + 1) r
      | .error f, _ => .error f
      | _, .error f => .error f
    else if r > p then
      match cell_at v r, cell_at v p with
      | .ok cr, .ok cp =>
        if cr.value > cp.value then
          partition_loop fuel ((v.set r.toNat cp).set p.toNat cr) r (l + 1) r
        else partition_loop fuel v p l (r - 1)
      | .error f, _ => .error f
      | _, .error f => .error f
    else .ok (v, p)

/-- The six output parameters of `partition_dec`. -/
structure PartitionBounds where
  llen : Int
  rlen : Int
  ll : Int
  lr : Int
  rl : Int
  rr : Int
  deriving DecidableEq, Repr

/-- `partition_dec`.  Every round of its loop moves `l` up, moves `r` down, or
brings `p` down to `l` (after which `l` or `r` moves), so for `l ≤ p ≤ r`, the
way it is called, `2 * (r - l) + 2` rounds are a sufficient budget. -/
def partition_dec (v : List Cell) (p l r : Int) : Except Fault (List Cell × PartitionBounds) :=
  match partition_loop (2 * (r - l).toNat + 2) v p l r with
  | .error f => .error f
  | .ok (v1, p1) =>
    .ok (v1, { ll := l, rr := r, lr := p1 - 1, rl := p1 + 1,
               llen := p1 - 1 - l + 1, rlen := r - (p1 + 1) + 1 })

/-- The loop `while (!stack.empty())` of `qsort_decreasing`; the stack holds
the pushed `(left, right)` pairs, the top first. -/
def qsort_loop : Nat → List Cell → List (Int × Int) → Except Fault (List Cell)
  | _, v, [] => .ok v
  | 0, _, _ :: _ => .error .diverges
  | fuel + 1, v, (left, right) :: stack =>
    if left < right then
      match select_pivot v left right with
      | .error f => .error f
      | .ok pivot =>
        match partition_dec v pivot left right with
        | .error f => .error f
        | .ok (v1, b) =>
          if b.llen > b.rlen then
            qsort_loop fuel v1 ((b.rl, b.rr) :: (b.ll, b.lr) :: stack)
          else
            qsort_loop fuel v1 ((b.ll, b.lr) :: (b.rl, b.rr) :: stack)
    else qsort_loop fuel v stack

/-- `qsort_decreasing`.  A range of `m` cells is popped once and splits into
two ranges of `m - 1` cells together, so at most `2 * m + 1` ranges are
popped. -/
def qsort_decreasing (v : List Cell) (left right : Int) : Except Fault (List Cell) :=
  qsort_loop (2 * (right - left + 1).toNat + 1) v [(left, right)]

/-- `sort_order_decreasing(values, num, order)` with `num = values.size()`; the
result is the array `order`. -/
def sort_order_decreasing (values : List Int) : Except Fault (List Int) :=
  let cells : List Cell :=
    values.enum.map (fun iv => { value := iv.2, index := (iv.1 : Int) })
  match qsort_decreasing cells 0 ((values.length : Int) - 1) with
  | .error f => .error f
  | .ok sorted => .ok (sorted.map (fun c => c.index))

/-! ## utils.cpp: prune_minutiae -/

structure RawMinutia where
  x : Int
  y : Int
  t : Int
  q : Int
  kind : Option MinutiaKind
  deriving DecidableEq, Repr

def MAX_FILE_MINUTIAE : Nat := 1000

/-- The comparison lambda of the `std::sort` of `prune_minutiae`. -/
def raw_less (l r : RawMinutia) : Bool :=
  if l.x < r.x then true
  else if l.x > r.x then false
  else decide (l.y < r.y)

/-- A value-initialised `RawMinutia`. -/
def RawMinutia.init : RawMinutia := { x := 0, y := 0, t := 0, q := 0, kind := none }

/-- `m[static_cast<unsigned int>(o)]` in the array `m` of `MAX_FILE_MINUTIAE`
value-initialised entries of which the first `m.length` were written. -/
def raw_at (m : List RawMinutia) (o : Int) : Except Fault RawMinutia :=
  if 0 ≤ o ∧ o.toNat < MAX_FILE_MINUTIAE then .ok (m.getD o.toNat RawMinutia.init)
  else .error .out_of_range

/-- The loop `c[j] = m[order[j]]` of `prune_minutiae` over the first
`max_minutiae` entries of `order`. -/
def pick_by_order (m : List RawMinutia) : List Int → Except Fault (List RawMinutia)
  | [] => .ok []
  | o :: rest =>
    match raw_at m o with
    | .error f => .error f
    | .ok x =>
      match pick_by_order m rest with
      | .error f => .error f
      | .ok l => .ok (x :: l)

/-- The array `c` of `prune_minutiae`: the entries of `m` at the first
`max_minutiae` positions of the decreasing order of the qualities when there
are more than `max_minutiae` minutiae, all entries of `m` otherwise. -/
def select_by_quality (minutiae m : List RawMinutia) (max_minutiae : Nat) :
    Except Fault (List RawMinutia) :=
  if minutiae.length > max_minutiae then
    match sort_order_decreasing (minutiae.map (fun (r : RawMinutia) => r.q)) with
    | .error f => .error f
    | .ok order => pick_by_order m (order.take max_minutiae)
  else .ok m

/-- The body of the first loop of `prune_minutiae`: the entry `m[i]` written
for the raw minutia `r`.  The loop copies `x`, `y`, `q` and the angle brought
below 180, not the kind: the entry keeps the empty kind of its
value-initialisation. -/
def copy_raw (r : RawMinutia) : RawMinutia :=
  { x := r.x, y := r.y, t := if r.t > 180 then wrap32 (r.t - 360) else r.t, q := r.q,
    kind := none }

/-- The `Minutia` that the last loop of `prune_minutiae` builds from `c[j]`. -/
def to_minutia (r : RawMinutia) : Minutia :=
  { x := r.x, y := r.y, t := r.t, kind := r.kind }

/-- `prune_minutiae`.  More than `MAX_FILE_MINUTIAE` minutiae do not fit in
the array `m`.  The final `std::sort` (which leaves the order of entries with
equal `(x, y)` unspecified) is modelled by the stable sort. -/
def prune_minutiae (minutiae : List RawMinutia) (max_minutiae : Nat) :
    Except Fault (List Minutia) :=
  if minutiae.length > MAX_FILE_MINUTIAE then .error .out_of_range
  else
    match select_by_quality minutiae (minutiae.map copy_raw) max_minutiae with
    | .error f => .error f
    | .ok c => .ok ((stable_sort raw_less c).map to_minutia)

/-! ## bz3.cpp: ranges of the command line

A `std::string` is modelled by its list of characters and a `std::span` by the
list of its elements. -/

/-- `class Range`: the zero-based positions of the first and the last element. -/
structure Range where
  first_ : Nat
  last_ : Nat
  deriving DecidableEq, Repr

namespace Range

/-- The constructor `Range(first, last)` with its `assert(first <= last)`. -/
def make (first last : Nat) : Except Fault Range :=
  if first ≤ last then .ok { first_ := first, last_ := last } else .error .assertion

def first (r : Range) : Nat := r.first_

def last (r : Range) : Nat := r.last_

/-- `last_ - first_ + 1` in `u32` arithmetic. -/
def length (r : Range) : Nat := wrapU32 (r.last_ + 4294967296 - r.first_ + 1)

end Range

/-- The number written by a run of decimal digits. -/
def digits_value (digits : List Char) : Nat :=
  digits.foldl (fun acc c => 10 * acc + (c.toNat - 48)) 0

/-- `std::stoi` on a non-empty run of decimal digits: the number, or `none`
where `std::out_of_range` is thrown (the number does not fit an `int`). -/
def stoi (digits : List Char) : Option Int :=
  if digits_value digits ≤ 2147483647 then some (digits_value digits) else none

/-- `parse_range`: the regular expression `^(\d+)-(\d+)$` must match the whole
text, both numbers must fit an `int`, and `first >= 1 && first <= last`. -/
def parse_range (value : List Char) : Except Fault (Option Range) :=
  let first_text := value.takeWhile Char.isDigit
  match value.dropWhile Char.isDigit with
  | '-' :: last_text =>
    if first_text ≠ [] ∧ last_text ≠ [] ∧ last_text.all Char.isDigit = true then
      match stoi first_text, stoi last_text with
      | some first, some last =>
        if first ≥ 1 ∧ first ≤ last then
          match Range.make (wrap32 (first - 1) % 4294967296).toNat
              (wrap32 (last - 1) % 4294967296).toNat with
          | .ok r => .ok (some r)
          | .error f => .error f
        else .ok none
      | _, _ => .ok none
    else .ok none
  | _ => .ok none

/-- `std::span::subspan(offset, count)`; outside its precondition
`offset <= size() && count <= size() - offset` the behaviour is undefined. -/
def subspan {α : Type} (span : List α) (offset count : Nat) : Except Fault (List α) :=
  if offset ≤ span.length ∧ count ≤ span.length - offset then
    .ok ((span.drop offset).take count)
  else .error .out_of_range

def get_span_by_range {α : Type} (span : List α) (range : Range) :
    Except Fault (Option (List α)) :=
  if range.first < span.length ∧ range.last ≤ span.length then
    match subspan span range.first range.length with
    | .ok s => .ok (some s)
    | .error f => .error f
  else .ok none

/-! ## bozorth3.cpp: the length test of match_edges_into_pairs in single precision

`float` is the IEEE 754 binary32 format: a significand of 24 binary digits,
results rounded to the nearest representable number, a tie to the one with an
even significand.  The numbers of the length test are far from the ends of the
exponent range, so a non-negative `float` is written here as a natural number
of units (`1` for the two conversions, `2^-27` for the product). -/

/-- The number of binary digits of `n`; `fuel` bounds the digits counted. -/
def bit_length_aux : Nat → Nat → Nat
  | 0, _ => 0
  | fuel + 1, n => if n = 0 then 0 else bit_length_aux fuel (n / 2) + 1

/-- The number of binary digits of `n`. -/
def bit_length (n : Nat) : Nat := bit_length_aux n n

/-- The multiple of `2^k` nearest to `n`, a tie going to the even multiple. -/
def round_to_even (n k : Nat) : Nat :=
  let q := n / 2 ^ k
  let r := n % 2 ^ k
  if 2 * r < 2 ^ k then q * 2 ^ k
  else if 2 ^ k < 2 * r then (q + 1) * 2 ^ k
  else if q % 2 = 0 then q * 2 ^ k else (q + 1) * 2 ^ k

/-- The natural number `n` rounded to a significand of 24 binary digits: the
value of `static_cast<float>(n)`, and in units of `2^-27` the value of a
single-precision product whose exact value is `n * 2^-27`. -/
def single_of_nat (n : Nat) : Nat := round_to_even n (bit_length n - 24)

/-- The significand of `2.0f * FACTOR`: `FACTOR` is `0.05F`, the `float`
`13421773 * 2^-28`, and the product with `2.0f` is exact,
`13421773 * 2^-27` (0x3DCCCCCD). -/
def TWO_FACTOR_SIGNIFICAND : Nat := 13421773

/-- The test `static_cast<float>(std::abs(dz)) > fi` of
`match_edges_into_pairs` with
`fi = (2.0f * FACTOR) * static_cast<float>(sum)`, for the `int` values `dz`
and `sum`; both sides are in units of `2^-27`.  A negative `sum` gives a
negative `fi`, below every `float` of an absolute value. -/
def single_length_differs (dz sum : Int) : Bool :=
  if sum < 0 then true
  else decide (single_of_nat dz.natAbs * 2 ^ 27
    > single_of_nat (TWO_FACTOR_SIGNIFICAND * single_of_nat sum.toNat))

/-! # Definitions used to state the properties -/

/-- Lexicographic order by `(distance_squared, min_beta, max_beta)`. -/
def edge_key_le (a b : Edge) : Prop :=
  a.distance_squared < b.distance_squared ∨
  (a.distance_squared = b.distance_squared ∧
    (a.min_beta < b.min_beta ∨ (a.min_beta = b.min_beta ∧ a.max_beta ≤ b.max_beta)))

instance (a b : Edge) : Decidable (edge_key_le a b) := by
  unfold edge_key_le; infer_instance

/-- The test of the spec on a minutia pair: the orientations are not opposite
and the squared distance is at most `MAX_MINUTIA_DISTANCE²` (exact arithmetic). -/
def qualifies (a b : Minutia) : Bool :=
  !check a.t b.t && decide ((b.x - a.x) ^ 2 + (b.y - a.y) ^ 2 ≤ MAX_MINUTIA_DISTANCE ^ 2)

/-- All index pairs `(k, j)`, `k < j`, of minutiae that pass `qualifies`: the
plain double loop over the whole sequence, without the early `break`. -/
def qualifying_pairs (ms : List Minutia) : List (Nat × Nat) :=
  ms.enum.flatMap (fun ka =>
    (ms.enum.filter (fun jb => decide (ka.1 < jb.1) && qualifies ka.2 jb.2)).map
      (fun jb => (ka.1, jb.1)))

/-- The index pair of an edge. -/
def Edge.endpoints (e : Edge) : Nat × Nat := (e.endpoint_k, e.endpoint_j)

/-- The qualifying pairs among the minutiae `l`, the first of which has index
`k`, listed minutia by minutia. -/
def pairs_from : Nat → List Minutia → List (Nat × Nat)
  | _, [] => []
  | k, mk :: rest =>
    ((List.enumFrom (k + 1) rest).filter (fun jb => qualifies mk jb.2)).map
        (fun jb => (k, jb.1)) ++ pairs_from (k + 1) rest

/-- Round `a / b` (for `b > 0`) to the nearest integer, halves away from zero:
`rounded` of math.h in exact arithmetic. -/
def round_div (a b : Int) : Int :=
  if a < 0 then -((b - 2 * a) / (2 * b)) else (2 * a + b) / (2 * b)

/-- `rounded(fi)` of `AngleAverager::average` in exact arithmetic. -/
def exact_average_rounded (sum_of_negative number_of_negative_ sum_of_positive
    number_of_positive_ : Int) : Int :=
  let number_of_negative := if number_of_negative_ = 0 then 1 else number_of_negative_
  let number_of_positive := if number_of_positive_ = 0 then 1 else number_of_positive_
  let number_of_all := number_of_positive_ + number_of_negative_
  if sum_of_positive * number_of_negative - sum_of_negative * number_of_positive >
      180 * (number_of_positive * number_of_negative) then
    if sum_of_positive + sum_of_negative + number_of_negative * 360 > 180 * number_of_all then
      round_div (sum_of_positive + sum_of_negative + number_of_negative * 360
        - 360 * number_of_all) number_of_all
    else
      round_div (sum_of_positive + sum_of_negative + number_of_negative * 360) number_of_all
  else round_div (sum_of_positive + sum_of_negative) number_of_all

/-- A `FloatOps` to evaluate the model on concrete inputs.  The two comparisons
and the average are computed in exact arithmetic (`2 * FACTOR` is 1/10).  The
two arctangent expressions are given on `dy = 0`, where `atanf` returns zero;
elsewhere they are 0, and the evaluations below do not depend on them. -/
def axis_ops : FloatOps :=
  { atan_rounded := fun _ _ => 0,
    slope_rounded := fun dx dy => if dy = 0 ∧ dx < 0 then -180 else 0,
    length_differs := fun dz sum => decide (10 * |dz| > sum),
    distance_differs := fun p g => decide (10 * |p - g| > p + g),
    average_rounded := exact_average_rounded }

/-- The points of cluster `i` (0 outside the list). -/
def cluster_points (clusters : List Cluster) (i : Nat) : Nat :=
  match clusters[i]? with
  | some c => c.points
  | none => 0

/-- The sum of the points of the clusters `s`, in exact arithmetic. -/
def clique_weight (clusters : List Cluster) (s : List Nat) : Nat :=
  (s.map (cluster_points clusters)).sum

/-- The compatibility graph: an edge `a - b`, `a < b`, iff `b` is in
`compatible[a]`. -/
def compatible_pair (clusters : List Cluster) (a b : Nat) : Bool :=
  decide (a < b) &&
  match clusters[a]? with
  | some c => c.compatible.contains b
  | none => false

/-- A set of clusters, listed in ascending order, is a clique when its members
are pairwise compatible. -/
def is_clique (clusters : List Cluster) (s : List Nat) : Bool :=
  decide (s.Pairwise (fun a b => compatible_pair clusters a b = true))

/-- All cliques of the compatibility graph: the sets of cluster indices (the
sublists of `0 .. size-1`) that are pairwise compatible, the empty set included. -/
def cliques (clusters : List Cluster) : List (List Nat) :=
  (List.range clusters.length).sublists.filter (is_clique clusters)

/-- The maximum, over all cliques, of the sum of the members' points. -/
def max_clique_weight (clusters : List Cluster) : Nat :=
  ((cliques clusters).map (clique_weight clusters)).foldr max 0

/-- The shape of the `compatible` lists that `merge_compatible_clusters`
produces: strictly ascending, holding only indices greater than the cluster's
own and below the cluster count. -/
def merge_shape (clusters : List Cluster) : Prop :=
  ∀ p ∈ clusters.enum,
    p.2.compatible.Pairwise (fun x y => x < y) ∧
    ∀ b ∈ p.2.compatible, p.1 < b ∧ b < clusters.length

instance (clusters : List Cluster) : Decidable (merge_shape clusters) := by
  unfold merge_shape; infer_instance

/-- Every `points_from_compatible` is at least the cluster's points plus the
points of its compatible clusters (`merge_compatible_clusters` stores that sum). -/
def points_from_compatible_covers (clusters : List Cluster) : Prop :=
  ∀ c ∈ clusters, c.points + clique_weight clusters c.compatible ≤ c.points_from_compatible

instance (clusters : List Cluster) : Decidable (points_from_compatible_covers clusters) := by
  unfold points_from_compatible_covers; infer_instance

/-- `items.back()` after the `pop_back()` and the `index += 1` that end a round
of the loop of `combine_clusters`. -/
def after_pop : List Item → List Item
  | [] => []
  | b :: rest => { b with index := b.index + 1 } :: rest

/-- The three vectors of a `Clusters` have the same size (`push_back` keeps
them so). -/
def Clusters.aligned (c : Clusters) : Prop :=
  c.averages.length = c.clusters.length ∧ c.endpoints.length = c.clusters.length

/-- The 32-bit sum `points_from_others` that `merge_compatible_clusters`
accumulates over the compatible clusters `l`, started from `start`. -/
def wrapped_points (clusters : List Cluster) (start : Nat) (l : List Nat) : Nat :=
  l.foldl (fun acc i => wrapU32 (acc + cluster_points clusters i)) start

/-- Cluster `a` is as `merge_compatible_clusters` leaves it: its `compatible`
list ascends within `a+1 .. size-1` and its `points_from_compatible` is the
32-bit sum of its points and those of its compatible clusters. -/
def merged_at (clusters : List Cluster) (a : Nat) : Prop :=
  ∃ c, clusters[a]? = some c ∧
    c.compatible.Pairwise (fun x y => x < y) ∧
    (∀ b ∈ c.compatible, a < b ∧ b < clusters.length) ∧
    c.points_from_compatible = wrapU32 (c.points + wrapped_points clusters 0 c.compatible)

/-! ## Concrete inputs -/

/-- A minutia without kind. -/
def minutia_at (x y t : Int) : Minutia := { x := x, y := y, t := t, kind := none }

/-- Ten minutiae in a row, 200 apart: no two are within `MAX_MINUTIA_DISTANCE`. -/
def sparse_template : List Minutia :=
  [minutia_at 0 0 0, minutia_at 200 0 0, minutia_at 400 0 0, minutia_at 600 0 0,
   minutia_at 800 0 0, minutia_at 1000 0 0, minutia_at 1200 0 0, minutia_at 1400 0 0,
   minutia_at 1600 0 0, minutia_at 1800 0 0]

/-- Ten minutiae sorted by `(x, y)`: the first two are 50 apart, one above the
other, every other distance exceeds `MAX_MINUTIA_DISTANCE`. -/
def one_edge_template : List Minutia :=
  [minutia_at 0 0 0, minutia_at 0 50 0, minutia_at 200 0 0, minutia_at 400 0 0,
   minutia_at 600 0 0, minutia_at 800 0 0, minutia_at 1000 0 0, minutia_at 1200 0 0,
   minutia_at 1400 0 0, minutia_at 1600 0 0]

/-- The one edge of `one_edge_template`. -/
def the_one_edge : Edge :=
  { distance_squared := 2500, min_beta := -90, max_beta := 90, endpoint_k := 0,
    endpoint_j := 1, theta_kj := 90, beta_order := OrderKJ.JK }

/-- An edge with the given squared length (the other fields play no role in
`limit_edges_by_length`). -/
def edge_of_length (d : Int) : Edge :=
  { distance_squared := d, min_beta := 0, max_beta := 0, endpoint_k := 0, endpoint_j := 1,
    theta_kj := 0, beta_order := OrderKJ.KJ }

/-- Four minutiae in a row: the first three 100 apart, the first and third
with opposite orientations, the fourth 200 further. -/
def sample_row : List Minutia :=
  [minutia_at 0 0 0, minutia_at 100 0 90, minutia_at 200 0 180, minutia_at 400 0 0]

/-- Two minutiae, one above the other, with angles 100 and 0. -/
def upright_pair : List Minutia := [minutia_at 0 0 100, minutia_at 0 10 0]

/-- The edge of `upright_pair`. -/
def negative_beta_edge : Edge :=
  { distance_squared := 100, min_beta := -90, max_beta := -10, endpoint_k := 0,
    endpoint_j := 1, theta_kj := 90, beta_order := OrderKJ.JK }

/-- The pair holder after `clear()`, one `add` per pair of `pairs`, and
`prepare()` (a default-constructed holder if `prepare` faults). -/
def prepared_holder (pairs : List Pair) : PairHolder :=
  match (pairs.foldl PairHolder.add PairHolder.init.clear).prepare with
  | .ok h => h
  | .error _ => PairHolder.init

/-- The score and the final cluster list of a `match_score` result. -/
def score_and_clusters (r : Except Fault (Nat × BozorthState)) :
    Except Fault (Nat × List Cluster) :=
  match r with
  | .ok x => .ok (x.1, x.2.clusters.clusters)
  | .error f => .error f

/-- A run returned a value that passes the test `p`. -/
def ok_and {α : Type} (r : Except Fault α) (p : α → Bool) : Bool :=
  match r with
  | .ok a => p a
  | .error _ => false

/-- A pair with `delta_theta = 0` and one point. -/
def pair_of (probe_k probe_j gallery_k gallery_j : Nat) : Pair :=
  { delta_theta := 0, probe_k := probe_k, probe_j := probe_j, gallery_k := gallery_k,
    gallery_j := gallery_j, points := 1 }

/-- Nine pairs in three stars, around the endpoints 0, 4 and 8; the last pair
shares the gallery endpoint 5 with the second star. -/
def three_star_pairs : List Pair :=
  [pair_of 0 1 0 1, pair_of 0 2 0 2, pair_of 0 3 0 3,
   pair_of 4 5 4 5, pair_of 4 6 4 6, pair_of 4 7 4 7,
   pair_of 8 9 8 9, pair_of 8 10 8 10, pair_of 8 11 8 5]

/-- Twelve minutiae in a row, 10 apart. -/
def row_template : List Minutia :=
  [minutia_at 0 0 0, minutia_at 10 0 0, minutia_at 20 0 0, minutia_at 30 0 0,
   minutia_at 40 0 0, minutia_at 50 0 0, minutia_at 60 0 0, minutia_at 70 0 0,
   minutia_at 80 0 0, minutia_at 90 0 0, minutia_at 100 0 0, minutia_at 110 0 0]

/-- The clusters that `match_score` leaves for `three_star_pairs`: the first is
compatible with the other two, which are not compatible with each other. -/
def three_clusters : List Cluster :=
  [{ points := 3, points_from_compatible := 9, compatible := [1, 2] },
   { points := 3, points_from_compatible := 3, compatible := [] },
   { points := 3, points_from_compatible := 3, compatible := [] }]

/-! ## Pair matcher -/

/-- The points of a pair in the words of the spec: 1 when a kind is unknown,
otherwise 1 plus the number of the two kind comparisons that hold. -/
def spec_points (pkk pkj gkk gkj : Option MinutiaKind) : Nat :=
  if pkk = none ∨ pkj = none ∨ gkk = none ∨ gkj = none then 1
  else 1 + ((if pkk = gkk then 1 else 0) + (if pkj = gkj then 1 else 0))

/-- A template with every kind removed. -/
def remove_kinds (minutiae : List Minutia) : List Minutia :=
  minutiae.map (fun m => { m with kind := none })

/-- A pair with its points set to 1. -/
def with_one_point (p : Pair) : Pair := { p with points := 1 }

/-- The pairs in the holder that a run of `match_edges_into_pairs` returns. -/
def emitted_pairs (r : Except Fault PairHolder) : Except Fault (List Pair) :=
  match r with
  | .ok h => .ok h.forward_
  | .error f => .error f

/-- The length test of the spec in exact arithmetic:
`|G.d - P.d| ≤ 2 * FACTOR * (G.d + P.d)` with `2 * FACTOR = 1/10`. -/
def lengths_match (probe gallery : Edge) : Bool :=
  decide (10 * |gallery.distance_squared - probe.distance_squared|
    ≤ gallery.distance_squared + probe.distance_squared)

/-- The test of the spec on a probe edge and a gallery edge: lengths within
tolerance and both angles equal within tolerance. -/
def edges_match (probe gallery : Edge) : Bool :=
  lengths_match probe gallery &&
  (are_angles_equal_with_tolerance probe.min_beta gallery.min_beta &&
   are_angles_equal_with_tolerance probe.max_beta gallery.max_beta)

/-- The plain inner loop of the spec for one probe edge: every gallery edge,
in order, without `start` and without `break`. -/
def plain_inner (probe_minutiae gallery_minutiae : List Minutia) (probe : Edge) :
    List Edge → List Pair → Except Fault (List Pair)
  | [], pairs => .ok pairs
  | gallery :: rest, pairs =>
    if edges_match probe gallery then
      match make_pair probe_minutiae gallery_minutiae probe gallery with
      | .error f => .error f
      | .ok pair => plain_inner probe_minutiae gallery_minutiae probe rest (pairs ++ [pair])
    else plain_inner probe_minutiae gallery_minutiae probe rest pairs

/-- The plain double loop of the spec: every probe edge but the last, in
order, against every gallery edge. -/
def plain_outer (probe_minutiae gallery_minutiae : List Minutia) (gallery_edges : List Edge) :
    List Edge → List Pair → Except Fault (List Pair)
  | [], pairs => .ok pairs
  | [_], pairs => .ok pairs
  | probe :: next :: rest, pairs =>
    match plain_inner probe_minutiae gallery_minutiae probe gallery_edges pairs with
    | .error f => .error f
    | .ok pairs1 =>
      plain_outer probe_minutiae gallery_minutiae gallery_edges (next :: rest) pairs1

/-! ## Pair holder -/

/-- The cache slot of the key `(k, g)`: `k * MAX_BOZORTH_MINUTIAE + g`. -/
def key_code (q : Nat × Nat) : Nat := q.1 * MAX_BOZORTH_MINUTIAE + q.2

/-- The range `r` is the range of the positions of the key `q` in `K`: it is
not empty, ends within `K`, and position `j` holds `q` if and only if `j`
lies in the range. -/
def is_range_of (K : List (Nat × Nat)) (q : Nat × Nat) (r : OptionalRange) : Prop :=
  r.begin < r.end ∧ r.end ≤ K.length ∧ ∀ j, K[j]? = some q ↔ r.begin ≤ j ∧ j < r.end

/-- A sequence of callback invocations, in order, each with its three
arguments; a fault of the callback ends the run. -/
def run_callbacks {σ : Type} (cb : Nat → Nat → Nat → σ → Except Fault σ) :
    List (Nat × Nat × Nat) → σ → Except Fault σ
  | [], s => .ok s
  | call :: rest, s =>
    match cb call.1 call.2.1 call.2.2 s with
    | .error f => .error f
    | .ok s1 => run_callbacks cb rest s1

/-- A callback that appends its arguments to a list. -/
def record_call (i a b : Nat) (s : List (Nat × Nat × Nat)) : Except Fault (List (Nat × Nat × Nat)) :=
  .ok (s ++ [(i, a, b)])

/-- The key of the second endpoint of the pair with index `i`, as the second
cache-filling block of `prepare` reads it. -/
def second_key (forward : List Pair) (i : Nat) : Nat × Nat :=
  match forward[i]? with
  | some p => (p.probe_j, p.gallery_j)
  | none => (0, 0)

/-- The indices of the sorted pair list whose pair has the first endpoint
`(pk, gk)`, in ascending order. -/
def indices_with_first_endpoint (forward : List Pair) (pk gk : Nat) : List Nat :=
  (List.range forward.length).filter (fun i =>
    match forward[i]? with
    | some p => decide (p.probe_k = pk ∧ p.gallery_k = gk)
    | none => false)

/-- The indices of the sorted pair list whose pair has the second endpoint
`(pj, gj)`, in ascending order. -/
def indices_with_second_endpoint (forward : List Pair) (pj gj : Nat) : List Nat :=
  (List.range forward.length).filter (fun i =>
    match forward[i]? with
    | some p => decide (p.probe_j = pj ∧ p.gallery_j = gj)
    | none => false)

/-- The invocations the spec gives for `find_pairs_by_first_endpoint`: one for
each index `i ≥ offset` of the sorted pair list with `probe_k = pk` and
`gallery_k = gk`, in ascending order of `i`, with the arguments
`(i, probe_j, gallery_j)`. -/
def first_endpoint_calls (forward : List Pair) (offset pk gk : Nat) : List (Nat × Nat × Nat) :=
  ((indices_with_first_endpoint forward pk gk).filter (fun i => decide (offset ≤ i))).filterMap
    (fun i => forward[i]?.map (fun p => (i, p.probe_j, p.gallery_j)))

/-- The invocations the spec gives for `find_pairs_by_second_endpoint`: one
for each index `i ≥ offset` of the sorted pair list with `probe_j = pj` and
`gallery_j = gj`, in ascending order of `i`, with the arguments
`(i, probe_k, gallery_k)`. -/
def second_endpoint_calls (forward : List Pair) (offset pj gj : Nat) : List (Nat × Nat × Nat) :=
  ((indices_with_second_endpoint forward pj gj).filter (fun i => decide (offset ≤ i))).filterMap
    (fun i => forward[i]?.map (fun p => (i, p.probe_k, p.gallery_k)))

/-- The bound the spec gives for `find_pairs_by_first_endpoint`: 1 plus the
largest index whose pair has the first endpoint `(pk, gk)`, and `offset` when
there is no such index. -/
def first_endpoint_bound (forward : List Pair) (offset pk gk : Nat) : Nat :=
  match (indices_with_first_endpoint forward pk gk).getLast? with
  | some i => i + 1
  | none => offset

/-! ## Clusters -/

/-- The endpoint bitsets `e` hold exactly the endpoints of the pairs
`selected`: bit `i` of `e.probe` is set if and only if `i` is the `probe_k`
or the `probe_j` of a selected pair, and likewise for `e.gallery`. -/
def holds_endpoints_of (pairs : List Pair) (selected : List Nat) (e : ClusterEndpoints) : Prop :=
  ∀ i : Nat,
    (e.probe.testBit i = true ↔
      ∃ idx ∈ selected, ∃ p, pairs[idx]? = some p ∧ (p.probe_k = i ∨ p.probe_j = i)) ∧
    (e.gallery.testBit i = true ↔
      ∃ idx ∈ selected, ∃ p, pairs[idx]? = some p ∧ (p.gallery_k = i ∨ p.gallery_j = i))

/-! ## Concrete inputs for the pair matcher -/

/-- An edge between the endpoints 0 and 1 with both angles 0. -/
def edge_with (d theta : Int) (order : OrderKJ) : Edge :=
  { distance_squared := d, min_beta := 0, max_beta := 0, endpoint_k := 0, endpoint_j := 1,
    theta_kj := theta, beta_order := order }

/-- Three probe edges, sorted by length. -/
def sample_probe_edges : List Edge :=
  [edge_with 100 (-90) OrderKJ.KJ, edge_with 400 30 OrderKJ.JK, edge_with 900 0 OrderKJ.KJ]

/-- Five gallery edges, sorted by length: too short for every probe edge,
two within the tolerance of the first probe edge, one within the tolerance of
the second, one within the tolerance of the third. -/
def sample_gallery_edges : List Edge :=
  [edge_with 50 0 OrderKJ.KJ, edge_with 100 90 OrderKJ.JK, edge_with 110 10 OrderKJ.KJ,
   edge_with 420 (-20) OrderKJ.KJ, edge_with 1000 0 OrderKJ.KJ]

/-- Two probe minutiae of known kinds. -/
def kind_probe : List Minutia :=
  [{ x := 0, y := 0, t := 0, kind := some MinutiaKind.Bif },
   { x := 0, y := 10, t := 0, kind := some MinutiaKind.Rig }]

/-- Two gallery minutiae of known kinds. -/
def kind_gallery : List Minutia :=
  [{ x := 0, y := 0, t := 0, kind := some MinutiaKind.Bif },
   { x := 0, y := 10, t := 0, kind := some MinutiaKind.Rig }]

/-- The pairs of `sample_probe_edges` against `sample_gallery_edges` for the
templates `kind_probe` and `kind_gallery`. -/
def sample_emitted : List Pair :=
  [{ delta_theta := 0, probe_k := 0, probe_j := 1, gallery_k := 1, gallery_j := 0, points := 1 },
   { delta_theta := -100, probe_k := 0, probe_j := 1, gallery_k := 0, gallery_j := 1,
     points := 3 },
   { delta_theta := -130, probe_k := 0, probe_j := 1, gallery_k := 1, gallery_j := 0,
     points := 1 }]

/-- The cleared holder with the pairs of `sample_emitted` added. -/
def sample_holder : PairHolder := sample_emitted.foldl PairHolder.add PairHolder.init.clear

/-- The `FloatOps` of `axis_ops` with the length test of
`match_edges_into_pairs` computed in single precision. -/
def single_ops : FloatOps :=
  { axis_ops with length_differs := single_length_differs }

/-- The premises on two edge lists: both non-empty and sorted ascending by
`distance_squared`, no distance negative; and no sum of a probe and a gallery
distance leaves the range of `int`. -/
def sorted_edge_lists (P G : List Edge) : Prop :=
  P ≠ [] ∧ G ≠ [] ∧
  P.Pairwise (fun a b => a.distance_squared ≤ b.distance_squared) ∧
  G.Pairwise (fun a b => a.distance_squared ≤ b.distance_squared) ∧
  (∀ q ∈ P ++ G, 0 ≤ q.distance_squared) ∧
  ∀ q ∈ P, ∀ g ∈ G, g.distance_squared + q.distance_squared < 2147483648

instance (P G : List Edge) : Decidable (sorted_edge_lists P G) := by
  unfold sorted_edge_lists; infer_instance

/-- The pair of two edges made by `edge_of_length` over `upright_pair`. -/
def plain_pair : Pair :=
  { delta_theta := 0, probe_k := 0, probe_j := 1, gallery_k := 0, gallery_j := 1, points := 1 }

/-- Two probe edges of squared length 15099497. -/
def rounding_probe_edges : List Edge := [edge_of_length 15099497, edge_of_length 15099497]

/-- One gallery edge of squared length 18454941: ten times the difference to
15099497 is 33554440, the sum is 33554438. -/
def rounding_gallery_edges : List Edge := [edge_of_length 18454941]

/-- Two probe edges of squared length 60397981. -/
def break_probe_edges : List Edge := [edge_of_length 60397981, edge_of_length 60397981]

/-- Two gallery edges of the squared lengths 73819755 and 73819756. -/
def break_gallery_edges : List Edge := [edge_of_length 73819755, edge_of_length 73819756]

/-- Three probe edges of the squared lengths 73819755, 73819756 and
73819756. -/
def start_probe_edges : List Edge :=
  [edge_of_length 73819755, edge_of_length 73819756, edge_of_length 73819756]

/-- One gallery edge of squared length 60397981. -/
def start_gallery_edges : List Edge := [edge_of_length 60397981]

/-- A row of 151 minutiae, 100 apart, all with angle 0. -/
def long_row : List Minutia :=
  (List.range 151).map (fun (i : Nat) => minutia_at (100 * (i : Int)) 0 0)

/-- The edge between the neighbours `k` and `k + 1` of `long_row`. -/
def row_edge (k : Nat) : Edge :=
  { distance_squared := 10000, min_beta := 0, max_beta := 180, endpoint_k := k,
    endpoint_j := k + 1, theta_kj := 0, beta_order := OrderKJ.KJ }

/-- The 150 edges of `long_row`. -/
def long_row_edges : List Edge := (List.range 150).map row_edge

/-- One pair whose first endpoint is `(1, 0)`: its cache slot is
`1 * 200 + 0 = 200`, the slot of the key `(0, 200)`. -/
def alias_first_pairs : List Pair := [pair_of 1 2 0 3]

/-- One pair whose second endpoint is `(1, 0)`. -/
def alias_second_pairs : List Pair := [pair_of 2 1 3 0]

/-- Two pairs with the first endpoints `(0, 200)` and `(1, 0)`, which share
the cache slot 200. -/
def wide_pairs : List Pair := [pair_of 0 1 200 1, pair_of 1 2 0 3]

/-- A pair between the endpoints 0 and 1 with the given rotation. -/
def pair_with_theta (d : Int) : Pair :=
  { delta_theta := d, probe_k := 0, probe_j := 1, gallery_k := 0, gallery_j := 1, points := 1 }

/-- Five pairs: rotations 100, 120, 120, 120 and 90, of average 110. -/
def drifting_pairs : List Pair :=
  [pair_with_theta 100, pair_with_theta 120, pair_with_theta 120, pair_with_theta 120,
   pair_with_theta 90]

/-- Two clusters with the averages of one place and rotation, the first on
the endpoints 0 to 3, the second on the endpoints 4 to 7. -/
def two_far_clusters : Clusters :=
  { clusters := [{ points := 3, points_from_compatible := 3, compatible := [] },
                 { points := 3, points_from_compatible := 3, compatible := [] }],
    averages := [{ delta_theta := 0, probe_x := 0, probe_y := 0, gallery_x := 0, gallery_y := 0 },
                 { delta_theta := 0, probe_x := 0, probe_y := 0, gallery_x := 0, gallery_y := 0 }],
    endpoints := [{ probe := 15, gallery := 15 }, { probe := 240, gallery := 240 }] }

/-- The clusters `two_far_clusters` after `merge_compatible_clusters`. -/
def two_far_clusters_merged : Clusters :=
  { two_far_clusters with
    clusters := [{ points := 3, points_from_compatible := 6, compatible := [1] },
                 { points := 3, points_from_compatible := 3, compatible := [] }] }

/-! ## Sorting by quality -/

/-- The arrays `v` and `v1` hold the same cells outside the positions
`l .. r`. -/
def unchanged_outside (v v1 : List Cell) (l r : Int) : Prop :=
  ∀ i : Nat, ((i : Int) < l ∨ r < (i : Int)) → v1[i]? = v[i]?

/-- Every property of all cells of `v` at the positions `l .. r` holds for
all cells of `v1` at these positions. -/
def transfers (v v1 : List Cell) (l r : Int) : Prop :=
  ∀ Q : Cell → Prop,
    (∀ (i : Nat) (c : Cell), l ≤ (i : Int) → (i : Int) ≤ r → v[i]? = some c → Q c) →
    ∀ (i : Nat) (c : Cell), l ≤ (i : Int) → (i : Int) ≤ r → v1[i]? = some c → Q c

/-- The values of `v` do not increase along the positions `l .. r`. -/
def decreasing_on (v : List Cell) (l r : Int) : Prop :=
  ∀ (i j : Nat) (c d : Cell), l ≤ (i : Int) → i < j → (j : Int) ≤ r →
    v[i]? = some c → v[j]? = some d → d.value ≤ c.value

/-! ## Pruning -/

/-- The quality of the raw minutia with index `i` (0 outside the list). -/
def quality (raw : List RawMinutia) (i : Nat) : Int :=
  (raw.map (fun r => r.q)).getD i 0

/-- The minutia that `prune_minutiae` returns for the raw minutia with index
`i`, when it retains it. -/
def pruned_minutia (raw : List RawMinutia) (i : Nat) : Minutia :=
  to_minutia ((raw.map copy_raw).getD i RawMinutia.init)

/-- Ascending order by `(x, y)`. -/
def xy_le (a b : Minutia) : Prop := a.x < b.x ∨ (a.x = b.x ∧ a.y ≤ b.y)

/-! ## Concrete inputs for pruning -/

/-- A raw minutia at `(x, 0)` with angle 0, quality `q` and no kind. -/
def raw_at_x (x q : Int) : RawMinutia := { x := x, y := 0, t := 0, q := q, kind := none }

/-- Four raw minutiae; the second and the third have the highest quality. -/
def tied_raw : List RawMinutia := [raw_at_x 1 0, raw_at_x 2 7, raw_at_x 3 7, raw_at_x 4 0]

/-- Two raw minutiae of equal quality at different positions. -/
def two_raw : List RawMinutia := [raw_at_x 1 5, raw_at_x 2 5]

/-- Five raw minutiae of pairwise different qualities, not sorted by `x`. -/
def mixed_raw : List RawMinutia :=
  [raw_at_x 5 30, raw_at_x 1 10, raw_at_x 4 50, raw_at_x 2 20, raw_at_x 3 40]

/-- Four raw minutiae whose qualities do not increase. -/
def falling_raw : List RawMinutia := [raw_at_x 4 9, raw_at_x 3 7, raw_at_x 2 7, raw_at_x 1 7]

/-! ## The endpoint associator as a matching -/

/-- The invariant of `EndpointAssociator`: probe `p` maps to gallery `g` if and
only if gallery `g` maps to probe `p`. -/
def mutually_associated (a : EndpointAssociator) : Prop :=
  ∀ p g : Nat, a.get_associated_gallery_endpoint p = .ok (some g) ↔
    a.get_associated_probe_endpoint g = .ok (some p)

/-- An associator with every slot clear. -/
def empty_associator : EndpointAssociator :=
  { probe_by_gallery_ := fun _ => 0, gallery_by_probe_ := fun _ => 0 }

/-- An assigner with every slot clear. -/
def empty_assigner : ClusterAssigner := { cluster_by_pair_ := fun _ => 0 }

/-- An associator in which probe 0 maps to gallery 1 and probe 1 to gallery 0. -/
def crossed_associator : EndpointAssociator :=
  { probe_by_gallery_ := fun g => if g = 0 then 2 else if g = 1 then 1 else 0,
    gallery_by_probe_ := fun p => if p = 0 then 2 else if p = 1 then 1 else 0 }

/-- Nine groups for the probe endpoints 100 .. 108. -/
def nine_groups : List EndpointGroup :=
  (List.range 9).map (fun (i : Nat) =>
    { endpoint := 100 + i, endpoint_type := EndpointType.Probe, endpoint_index := 0,
      endpoints := [200 + i, 300 + i], to_clear := none })

/-- The objects of `find_pairs` with `crossed_associator` and `nine_groups`. -/
def crossed_refs : GrowthRefs :=
  { groups := nine_groups, assigner := empty_assigner, associator := crossed_associator,
    endpoints := [], selected_pairs := [] }

/-- The two groups that `assign_cluster_to_endpoints` adds for the pair of
probe endpoint 0 and gallery endpoint 0 under `crossed_associator`. -/
def two_new_groups : List EndpointGroup :=
  [{ endpoint := 0, endpoint_type := EndpointType.Probe, endpoint_index := 0,
     endpoints := [1, 0], to_clear := none },
   { endpoint := 0, endpoint_type := EndpointType.Gallery, endpoint_index := 0,
     endpoints := [1, 0], to_clear := none }]

/-! ## Two thousand clusters -/

/-- The pair with index `j` of 2000 stars of three pairs each: star `s = j / 3`
has the first endpoint `(s / 50, s % 50)`, and its three second endpoints are
used by no other pair. -/
def star_pair (j : Nat) : Pair :=
  pair_of (j / 3 / 50) (40 + 3 * (j / 3 % 50) + j % 3) (j / 3 % 50) (50 + 3 * (j / 3 / 50) + j % 3)

/-- The 6000 pairs of the 2000 stars, in the order of `forward_less`. -/
def star_pairs : List Pair := (List.range 6000).map star_pair

/-- 200 minutiae in a row, 10 apart. -/
def star_minutiae : List Minutia :=
  (List.range 200).map (fun (i : Nat) => minutia_at (10 * (i : Int)) 0 0)

/-- The associator `a` after `associate_endpoints p g` for endpoints of the
table. -/
def assoc_add (a : EndpointAssociator) (p g : Nat) : EndpointAssociator :=
  { probe_by_gallery_ := Function.update a.probe_by_gallery_ g (p + 1),
    gallery_by_probe_ := Function.update a.gallery_by_probe_ p (g + 1) }

/-- The associator after one `associate_endpoints` for the endpoints of each
call `(index, probe, gallery)`. -/
def add_leaves (a : EndpointAssociator) (calls : List (Nat × Nat × Nat)) : EndpointAssociator :=
  calls.foldl (fun b c => assoc_add b c.2.1 c.2.2) a

/-- The assigner after the slot of every call's pair index is set to `code`. -/
def mark_pairs (a : ClusterAssigner) (code : Int) (calls : List (Nat × Nat × Nat)) :
    ClusterAssigner :=
  calls.foldl (fun b c => { cluster_by_pair_ := Function.update b.cluster_by_pair_ c.1 code }) a

/-- The three calls `(index, probe_j, gallery_j)` for the pairs of star `s`. -/
def star_calls (s : Nat) : List (Nat × Nat × Nat) :=
  [(3 * s, 40 + 3 * (s % 50), 50 + 3 * (s / 50)),
   (3 * s + 1, 40 + 3 * (s % 50) + 1, 50 + 3 * (s / 50) + 1),
   (3 * s + 2, 40 + 3 * (s % 50) + 2, 50 + 3 * (s / 50) + 2)]

/-- The assigner after the first `s` stars became the clusters `0 .. s-1`. -/
def star_assigner (s : Nat) : ClusterAssigner :=
  { cluster_by_pair_ := fun i => if i < 3 * s then ((i / 3 : Nat) : Int) + 1 else 0 }

/-- The lookups of a holder work as the spec describes them on `star_pairs`. -/
def star_lookups (h : PairHolder) : Prop :=
  h.dirty_ = false ∧ h.forward_ = star_pairs ∧
  (∀ (offset pk gk : Nat), pk < MAX_BOZORTH_MINUTIAE → gk < MAX_BOZORTH_MINUTIAE →
    ∀ (cb : Nat → Nat → Nat → GrowthRefs → Except Fault GrowthRefs) (s : GrowthRefs),
      h.find_pairs_by_first_endpoint offset pk gk cb s
        = Except.map (fun s1 => (s1, first_endpoint_bound star_pairs offset pk gk))
            (run_callbacks cb (first_endpoint_calls star_pairs offset pk gk) s)) ∧
  (∀ (offset pj gj : Nat), pj < MAX_BOZORTH_MINUTIAE → gj < MAX_BOZORTH_MINUTIAE →
    ∀ (cb : Nat → Nat → Nat → GrowthRefs → Except Fault GrowthRefs) (s : GrowthRefs),
      h.find_pairs_by_second_endpoint offset pj gj cb s
        = run_callbacks cb (second_endpoint_calls star_pairs offset pj gj) s)

/-- The state of `match_score` on `star_pairs` before the seed `3 * s`: the
first `s` stars are clusters of 3 points and no endpoints are associated. -/
def star_inv (s : Nat) (state : BozorthState) : Prop :=
  state.clusters.size = s ∧ state.clusters.aligned ∧
  (∀ c ∈ state.clusters.clusters, c.points = 3) ∧
  state.associator = empty_associator ∧ state.cluster_assigner = star_assigner s

/-- The objects of `find_pairs` in which probe endpoint 5 is associated with
gallery endpoint 7, the worklist holds the endpoint 5 and no pair is assigned. -/
def repeated_endpoint_refs : GrowthRefs :=
  { groups := [], assigner := empty_assigner, associator := assoc_add empty_associator 5 7,
    endpoints := [5], selected_pairs := [] }

/-- The state of the roll-back loop of `associate_endpoints_of_all_groups` at
position `i`, relative to the associator `a0` of the call: the groups from `i`
on still name a probe endpoint to clear, each of them free in `a0` and by now
either clear or mapped to a gallery endpoint free in `a0`; everything else is
as in `a0`. -/
def rollback_inv (a0 : EndpointAssociator) (i : Nat) (groups : List EndpointGroup)
    (b : EndpointAssociator) : Prop :=
  (∀ j g, i ≤ j → groups[j]? = some g →
    ∃ x, g.to_clear = some x ∧ x < MAX_NUMBER_OF_ENDPOINTS ∧ a0.gallery_by_probe_ x = 0 ∧
      (b.gallery_by_probe_ x = 0 ∨
        ∃ q, q < MAX_NUMBER_OF_ENDPOINTS ∧ b.gallery_by_probe_ x = q + 1 ∧
          a0.probe_by_gallery_ q = 0)) ∧
  (∀ x, (∀ j g, i ≤ j → groups[j]? = some g → g.to_clear ≠ some x) →
    b.gallery_by_probe_ x = a0.gallery_by_probe_ x) ∧
  (∀ y, (∀ j g x, i ≤ j → groups[j]? = some g → g.to_clear = some x →
      b.gallery_by_probe_ x ≠ y + 1) →
    b.probe_by_gallery_ y = a0.probe_by_gallery_ y)

/-- The state of the loop of `associate_endpoints_of_all_groups` when the groups
from position `k` on are done, relative to the associator `a0` of the call:
each of these groups names its probe endpoint, which is associated both ways
with a gallery endpoint, both free in `a0`; everything else is as in `a0`. -/
def association_inv (a0 : EndpointAssociator) (k : Nat) (groups : List EndpointGroup)
    (a : EndpointAssociator) : Prop :=
  (∀ j g, k ≤ j → groups[j]? = some g →
    ∃ x q, g.to_clear = some x ∧ x < MAX_NUMBER_OF_ENDPOINTS ∧ q < MAX_NUMBER_OF_ENDPOINTS ∧
      a.gallery_by_probe_ x = q + 1 ∧ a.probe_by_gallery_ q = x + 1 ∧
      a0.gallery_by_probe_ x = 0 ∧ a0.probe_by_gallery_ q = 0) ∧
  (∀ x, (∀ j g, k ≤ j → groups[j]? = some g → g.to_clear ≠ some x) →
    a.gallery_by_probe_ x = a0.gallery_by_probe_ x) ∧
  (∀ y, (∀ j g x, k ≤ j → groups[j]? = some g → g.to_clear = some x →
      a.gallery_by_probe_ x ≠ y + 1) →
    a.probe_by_gallery_ y = a0.probe_by_gallery_ y)

/-- Two groups for the probe endpoints 2 and 1, each with the single candidate
gallery endpoint 1. -/
def rival_groups : List EndpointGroup :=
  [{ endpoint := 2, endpoint_type := EndpointType.Probe, endpoint_index := 0,
     endpoints := [1], to_clear := none },
   { endpoint := 1, endpoint_type := EndpointType.Probe, endpoint_index := 0,
     endpoints := [1], to_clear := none }]

/-- Two groups for the probe endpoints 2 and 1 with the candidate gallery
endpoints 3 and 3. -/
def clashing_groups : List EndpointGroup :=
  [{ endpoint := 2, endpoint_type := EndpointType.Probe, endpoint_index := 0,
     endpoints := [3], to_clear := none },
   { endpoint := 1, endpoint_type := EndpointType.Probe, endpoint_index := 0,
     endpoints := [3], to_clear := none }]

/-- Three clusters with the averages of one place and rotation and with the
points `a`, `b`, `c`, on the endpoints 0 to 3, 4 to 7 and 8 to 11. -/
def three_apart_clusters (a b c : Nat) : Clusters :=
  { clusters := [{ points := a, points_from_compatible := a, compatible := [] },
                 { points := b, points_from_compatible := b, compatible := [] },
                 { points := c, points_from_compatible := c, compatible := [] }],
    averages := [{ delta_theta := 0, probe_x := 0, probe_y := 0, gallery_x := 0, gallery_y := 0 },
                 { delta_theta := 0, probe_x := 0, probe_y := 0, gallery_x := 0, gallery_y := 0 },
                 { delta_theta := 0, probe_x := 0, probe_y := 0, gallery_x := 0, gallery_y := 0 }],
    endpoints := [{ probe := 15, gallery := 15 }, { probe := 240, gallery := 240 },
                  { probe := 3840, gallery := 3840 }] }

/-- A state of `match_score` that holds the clusters `c` and nothing else. -/
def state_with_clusters (c : Clusters) : BozorthState :=
  { BozorthState.init with clusters := c }

/-- The odometer digits of a group stack: for every group its `endpoint_index`
and the size of its `endpoints`. -/
def digits (groups : List EndpointGroup) : List (Nat × Nat) :=
  groups.map (fun g => (g.endpoint_index, g.endpoints.length))

/-- The number of settings of the digits `ds`: the product of their sizes, a
size 0 counted as 1. -/
def digits_weight (ds : List (Nat × Nat)) : Nat :=
  (ds.map (fun d => max d.2 1)).prod

/-- The increments the odometer of `try_associate_ambiguous_endpoints` can
still make in the digits `front`, the last of them being the digit the
iterator is at, when the digits `back` behind the iterator are spent. -/
def attempts_left : List (Nat × Nat) → List (Nat × Nat) → Nat
  | [], _ => 0
  | d :: rest, back =>
    (d.2 - 1 - d.1) * digits_weight (rest ++ back) + attempts_left rest back

/-- A group without its `to_clear`. -/
def without_to_clear (g : EndpointGroup) : EndpointGroup := { g with to_clear := none }

/-- The groups a run of `match_score` builds: the endpoint and the candidate
endpoints are inside the tables of the associator and `endpoint_index` is
inside `endpoints`. -/
def groups_in_range (groups : List EndpointGroup) : Prop :=
  ∀ g ∈ groups, g.endpoint < MAX_NUMBER_OF_ENDPOINTS ∧
    g.endpoint_index < g.endpoints.length ∧
    ∀ e ∈ g.endpoints, e < MAX_NUMBER_OF_ENDPOINTS

/-- An associator whose slots hold 0 or an endpoint of the table plus one. -/
def associator_in_range (a : EndpointAssociator) : Prop :=
  ∀ x, a.gallery_by_probe_ x ≤ MAX_NUMBER_OF_ENDPOINTS

/-- Two groups for the probe endpoints 1 and 2, the first with two candidates
and the second with one, all of them the gallery endpoint 3. -/
def odometer_groups : List EndpointGroup :=
  [{ endpoint := 1, endpoint_type := EndpointType.Probe, endpoint_index := 0,
     endpoints := [3, 3], to_clear := none },
   { endpoint := 2, endpoint_type := EndpointType.Probe, endpoint_index := 0,
     endpoints := [3], to_clear := none }]

/-- Every cluster of `clusters` has at least 3 and at most 60000 points, and a
cluster exists only when the pair list has at least 3 pairs (`n` of them). -/
def solid_clusters (n : Nat) (clusters : List Cluster) : Prop :=
  ∀ c ∈ clusters, 3 ≤ c.points ∧ c.points ≤ 60000 ∧ 3 ≤ n

/-- Three pairs around the endpoint 0, the first with `2^32 - 1` points. -/
def heavy_star_pairs : List Pair :=
  [{ pair_of 0 1 0 1 with points := 4294967295 }, pair_of 0 2 0 2, pair_of 0 3 0 3]

/-- The associator `b` differs from `a0` only by associations of the probe
endpoints `E`: each of them is inside the table and free in `a0`, and is by
now either clear or mapped to a gallery endpoint that is free in `a0`. -/
def clearing_inv (a0 : EndpointAssociator) (E : List Nat) (b : EndpointAssociator) : Prop :=
  (∀ x ∈ E, x < MAX_NUMBER_OF_ENDPOINTS ∧ a0.gallery_by_probe_ x = 0 ∧
    (b.gallery_by_probe_ x = 0 ∨
      ∃ q, q < MAX_NUMBER_OF_ENDPOINTS ∧ b.gallery_by_probe_ x = q + 1 ∧
        a0.probe_by_gallery_ q = 0)) ∧
  (∀ x, x ∉ E → b.gallery_by_probe_ x = a0.gallery_by_probe_ x) ∧
  (∀ y, (∀ x ∈ E, b.gallery_by_probe_ x ≠ y + 1) →
    b.probe_by_gallery_ y = a0.probe_by_gallery_ y)

/-- The state of `find_pairs` relative to the associator `a0` of the call: the
endpoints on the worklist are free in `a0` and associated both ways with a
gallery endpoint that is free in `a0`; everything else is as in `a0`. -/
def worklist_inv (a0 : EndpointAssociator) (r : GrowthRefs) : Prop :=
  (∀ x ∈ r.endpoints, x < MAX_NUMBER_OF_ENDPOINTS ∧ a0.gallery_by_probe_ x = 0 ∧
    ∃ q, q < MAX_NUMBER_OF_ENDPOINTS ∧ r.associator.gallery_by_probe_ x = q + 1 ∧
      r.associator.probe_by_gallery_ q = x + 1 ∧ a0.probe_by_gallery_ q = 0) ∧
  (∀ x, x ∉ r.endpoints → r.associator.gallery_by_probe_ x = a0.gallery_by_probe_ x) ∧
  (∀ y, (∀ x ∈ r.endpoints, r.associator.gallery_by_probe_ x ≠ y + 1) →
    r.associator.probe_by_gallery_ y = a0.probe_by_gallery_ y)

/-- The number of probe endpoints below `MAX_BOZORTH_MINUTIAE` that are free
in `a` and associated in `b`. -/
def newly_associated (a b : EndpointAssociator) : Nat :=
  (List.range MAX_BOZORTH_MINUTIAE).countP
    (fun p => decide (a.gallery_by_probe_ p = 0 ∧ b.gallery_by_probe_ p ≠ 0))

/-- The number of pair indices below `n` that are not assigned to `cluster` in
`A` and are assigned to it in `B`. -/
def newly_assigned (cluster n : Nat) (A B : ClusterAssigner) : Nat :=
  (List.range n).countP
    (fun i => decide (A.cluster_by_pair_ i ≠ wrap32 (wrapU32 (cluster + 1)) ∧
      B.cluster_by_pair_ i = wrap32 (wrapU32 (cluster + 1))))

/-- The state of `find_pairs` relative to the associator `a` and the assigner
`A` of the call: every worklist entry is an endpoint below
`MAX_BOZORTH_MINUTIAE` with an associated gallery endpoint below it; the
worklist is no longer than the number of newly associated endpoints plus the
number of newly assigned pairs; no association and no assignment of the call
was taken back; and, if `m` holds, the associator is mutually consistent. -/
def growth_inv (a : EndpointAssociator) (A : ClusterAssigner) (n cluster : Nat) (m : Prop)
    (r : GrowthRefs) : Prop :=
  (∀ e ∈ r.endpoints, e < MAX_BOZORTH_MINUTIAE ∧
    ∃ g, g < MAX_BOZORTH_MINUTIAE ∧ r.associator.gallery_by_probe_ e = g + 1) ∧
  r.endpoints.length ≤ newly_associated a r.associator + newly_assigned cluster n A r.assigner ∧
  (∀ x, r.associator.gallery_by_probe_ x = 0 → a.gallery_by_probe_ x = 0) ∧
  (∀ i, r.assigner.cluster_by_pair_ i ≠ wrap32 (wrapU32 (cluster + 1)) →
    A.cluster_by_pair_ i ≠ wrap32 (wrapU32 (cluster + 1))) ∧
  (m → mutually_associated r.associator)

/-- A step of `find_pairs` returned a state with `growth_inv`, or, on an
associator that is not mutually consistent, stopped at the assertion of
`associate_multiple_compatible_endpoints`. -/
def growth_outcome (a : EndpointAssociator) (A : ClusterAssigner) (n cluster : Nat) (m : Prop)
    (res : Except Fault GrowthRefs) : Prop :=
  (∃ r, res = .ok r ∧ growth_inv a A n cluster m r) ∨ (¬ m ∧ res = .error .assertion)

/-! # Theorems -/

/-! ## Machine integers -/

theorem wrap32_eq_self {z : Int} (h1 : -2147483648 ≤ z) (h2 : z < 2147483648) : wrap32 z = z := by
  unfold wrap32; omega

theorem wrapU32_eq_self {n : Nat} (h : n < 4294967296) : wrapU32 n = n := by
  unfold wrapU32; omega

/-! ## Sorting -/

theorem ordered_insert_perm {α : Type} (less : α → α → Bool) (a : α) :
    ∀ l : List α, (ordered_insert less a l).Perm (a :: l)
  | [] => List.Perm.refl _
  | b :: l => by
    unfold ordered_insert
    split
    · exact ((ordered_insert_perm less a l).cons b).trans (List.Perm.swap a b l)
    · exact List.Perm.refl _

theorem stable_sort_perm {α : Type} (less : α → α → Bool) :
    ∀ l : List α, (stable_sort less l).Perm l
  | [] => List.Perm.refl _
  | a :: l => by
    unfold stable_sort
    exact (ordered_insert_perm less a _).trans ((stable_sort_perm less l).cons a)

theorem ordered_insert_pairwise {α : Type} (less : α → α → Bool)
    (hasymm : ∀ a b, less a b = true → less b a = false)
    (htrans : ∀ a b c, less b a = false → less c b = false → less c a = false)
    (a : α) : ∀ l : List α, l.Pairwise (fun x y => less y x = false) →
      (ordered_insert less a l).Pairwise (fun x y => less y x = false)
  | [], _ => by simp [ordered_insert]
  | b :: l, h => by
    unfold ordered_insert
    rw [List.pairwise_cons] at h
    split
    · rename_i hba
      rw [List.pairwise_cons]
      refine ⟨?_, ordered_insert_pairwise less hasymm htrans a l h.2⟩
      intro y hy
      rcases List.mem_cons.mp ((ordered_insert_perm less a l).mem_iff.mp hy) with hy1 | hy1
      · rw [hy1]
        exact hasymm _ _ hba
      · exact h.1 y hy1
    · rename_i hba
      have hba1 : less b a = false := by simpa using hba
      rw [List.pairwise_cons]
      refine ⟨?_, List.pairwise_cons.mpr h⟩
      intro y hy
      rcases List.mem_cons.mp hy with rfl | hy1
      · exact hba1
      · exact htrans a b y hba1 (h.1 y hy1)

theorem stable_sort_pairwise {α : Type} (less : α → α → Bool)
    (hasymm : ∀ a b, less a b = true → less b a = false)
    (htrans : ∀ a b c, less b a = false → less c b = false → less c a = false) :
    ∀ l : List α, (stable_sort less l).Pairwise (fun x y => less y x = false)
  | [] => by simp [stable_sort]
  | a :: l => by
    unfold stable_sort
    exact ordered_insert_pairwise less hasymm htrans a _ (stable_sort_pairwise less hasymm htrans l)

theorem edge_less_false_iff (a b : Edge) : edge_less b a = false ↔ edge_key_le a b := by
  unfold edge_less edge_key_le
  constructor
  · intro h
    split_ifs at h <;> first | omega | (simp at h; try omega)
  · intro h
    split_ifs <;> first | omega | (simp <;> omega)

theorem edge_less_asymm (a b : Edge) (h : edge_less a b = true) : edge_less b a = false := by
  unfold edge_less at *
  split_ifs at h ⊢ <;> first | omega | (simp at h ⊢ <;> omega)

theorem edge_less_trans (a b c : Edge) (h1 : edge_less b a = false) (h2 : edge_less c b = false) :
    edge_less c a = false := by
  rw [edge_less_false_iff] at *
  unfold edge_key_le at *
  omega

/-- C7. The edge list that `find_edges` produces from a non-empty minutia
sequence, started from an empty list, is sorted ascending lexicographically by
`(distance_squared, min_beta, max_beta)`, for either format. -/
theorem find_edges_sorted (fo : FloatOps) (m : Minutia) (ms : List Minutia) (format : Format) :
    ∃ es, find_edges fo (m :: ms) [] format = .ok es ∧ es.Pairwise edge_key_le := by
  refine ⟨_, rfl, ?_⟩
  have h := stable_sort_pairwise edge_less edge_less_asymm edge_less_trans
    (find_edges_outer fo format 0 (m :: ms) [])
  exact h.imp (fun {a b} hab => (edge_less_false_iff a b).mp hab)

/-- The binary search of `limit_edges_by_length`, started inside the bracket
`lower ≤ c < upper` of the split point `c` with `current = lower + 1`, ends with
`min (c + 1) size`. -/
theorem limit_edges_loop_eq (edges : List Edge) (c : Nat) (hc : c ≤ edges.length)
    (hlow : ∀ i (h : i < edges.length), i < c →
      (edges.get ⟨i, h⟩).distance_squared ≤ MAX_MINUTIA_DISTANCE_SQUARED)
    (hhigh : ∀ i (h : i < edges.length), c ≤ i →
      (edges.get ⟨i, h⟩).distance_squared > MAX_MINUTIA_DISTANCE_SQUARED) :
    ∀ (fuel lower upper : Nat), lower ≤ c → c < upper → upper ≤ edges.length + 1 →
      upper - lower ≤ fuel →
      limit_edges_loop edges fuel lower upper (lower + 1) = .ok (min (c + 1) edges.length) := by
  intro fuel
  induction fuel with
  | zero => intro lower upper h1 h2 h3 h4; omega
  | succ fuel ih =>
    intro lower upper h1 h2 h3 h4
    unfold limit_edges_loop
    by_cases hgap : upper - lower > 1
    · simp only [hgap, if_true]
      have hmid1 : 1 ≤ (lower + upper) / 2 := by omega
      have hmid2 : (lower + upper) / 2 - 1 < edges.length := by omega
      rw [List.getElem?_eq_getElem hmid2]
      simp only
      by_cases hgt : (edges[(lower + upper) / 2 - 1]).distance_squared
          > MAX_MINUTIA_DISTANCE_SQUARED
      · simp only [hgt, if_true]
        have hcm : c < (lower + upper) / 2 := by
          by_contra hcon
          have := hlow ((lower + upper) / 2 - 1) hmid2 (by omega)
          simp only [List.get_eq_getElem] at this
          omega
        exact ih lower ((lower + upper) / 2) h1 hcm (by omega) (by omega)
      · simp only [hgt, if_false]
        have hcm : (lower + upper) / 2 ≤ c := by
          by_contra hcon
          have := hhigh ((lower + upper) / 2 - 1) hmid2 (by omega)
          simp only [List.get_eq_getElem] at this
          omega
        exact ih ((lower + upper) / 2) upper hcm h2 h3 (by omega)
    · simp only [hgap, if_false]
      have : lower = c := by omega
      subst this
      rfl

/-- A list sorted by `distance_squared` splits at the number `c` of its edges
within the limit: the first `c` edges are within it, the others exceed it. -/
theorem sorted_split_point (edges : List Edge)
    (hs : edges.Pairwise (fun a b => a.distance_squared ≤ b.distance_squared)) :
    ∃ c, c ≤ edges.length ∧
      (∀ e ∈ edges.take c, e.distance_squared ≤ MAX_MINUTIA_DISTANCE_SQUARED) ∧
      (∀ e ∈ edges.drop c, e.distance_squared > MAX_MINUTIA_DISTANCE_SQUARED) := by
  induction edges with
  | nil => exact ⟨0, by simp⟩
  | cons a l ih =>
    rw [List.pairwise_cons] at hs
    obtain ⟨c, hc, h1, h2⟩ := ih hs.2
    by_cases ha : a.distance_squared ≤ MAX_MINUTIA_DISTANCE_SQUARED
    · refine ⟨c + 1, by simpa using hc, ?_, ?_⟩
      · intro e he
        rw [List.take_succ_cons, List.mem_cons] at he
        rcases he with rfl | he
        · exact ha
        · exact h1 e he
      · intro e he
        rw [List.drop_succ_cons] at he
        exact h2 e he
    · refine ⟨0, by simp, by simp, ?_⟩
      intro e he
      rw [List.drop_zero, List.mem_cons] at he
      rcases he with rfl | he
      · omega
      · have := hs.1 e he
        omega

/-- C10 (amended). On an edge list sorted ascending by `distance_squared`,
`limit_edges_by_length` returns `n = min (c + 1) size`, where `c` is the largest
prefix length all of whose edges are within the limit 5625: the first `c` edges
are within the limit and every later edge exceeds it.  So the returned length is
one more than the largest prefix within the limit, capped at the size. -/
theorem limit_edges_by_length_prefix (edges : List Edge)
    (hs : edges.Pairwise (fun a b => a.distance_squared ≤ b.distance_squared)) :
    ∃ n c, limit_edges_by_length edges = .ok n ∧ n = min (c + 1) edges.length ∧
      c ≤ edges.length ∧
      (∀ e ∈ edges.take c, e.distance_squared ≤ MAX_MINUTIA_DISTANCE_SQUARED) ∧
      (∀ e ∈ edges.drop c, e.distance_squared > MAX_MINUTIA_DISTANCE_SQUARED) := by
  obtain ⟨c, hc, h1, h2⟩ := sorted_split_point edges hs
  refine ⟨min (c + 1) edges.length, c, ?_, rfl, hc, h1, h2⟩
  unfold limit_edges_by_length
  refine limit_edges_loop_eq edges c hc ?_ ?_ (edges.length + 1) 0 (edges.length + 1)
    (Nat.zero_le _) (by omega) (le_refl _) (by omega)
  · intro i h hic
    apply h1
    rw [List.mem_take_iff_getElem]
    exact ⟨i, by omega, rfl⟩
  · intro i h hic
    apply h2
    rw [List.mem_drop_iff_getElem]
    exact ⟨i - c, by omega, by simp [Nat.add_sub_cancel' hic]⟩

/-- C10, witness of the amended statement on a three-edge list. -/
theorem limit_edges_by_length_prefix_witness :
    ∃ n c, limit_edges_by_length [edge_of_length 100, edge_of_length 5625, edge_of_length 9000]
        = .ok n ∧
      n = min (c + 1) [edge_of_length 100, edge_of_length 5625, edge_of_length 9000].length ∧
      c ≤ [edge_of_length 100, edge_of_length 5625, edge_of_length 9000].length ∧
      (∀ e ∈ [edge_of_length 100, edge_of_length 5625, edge_of_length 9000].take c,
        e.distance_squared ≤ MAX_MINUTIA_DISTANCE_SQUARED) ∧
      (∀ e ∈ [edge_of_length 100, edge_of_length 5625, edge_of_length 9000].drop c,
        e.distance_squared > MAX_MINUTIA_DISTANCE_SQUARED) :=
  limit_edges_by_length_prefix _ (by decide)

/-- C10, counterexample.  The one-edge list whose edge has squared length
10000 is sorted, and `limit_edges_by_length` returns 1 although that first edge
exceeds the limit 5625: the largest prefix within the limit has length 0. -/
theorem limit_edges_by_length_not_within_limit :
    [edge_of_length 10000].Pairwise (fun a b => a.distance_squared ≤ b.distance_squared) ∧
    limit_edges_by_length [edge_of_length 10000] = .ok 1 ∧
    ¬ (∀ e ∈ [edge_of_length 10000].take 1,
        e.distance_squared ≤ MAX_MINUTIA_DISTANCE_SQUARED) := by
  decide

theorem normalize_angle_range (d : Int) (h1 : -540 < d) (h2 : d ≤ 540) :
    -180 < normalize_angle d ∧ normalize_angle d ≤ 180 := by
  unfold normalize_angle
  split_ifs <;> omega

theorem atan2_round_degree_range (fo : FloatOps)
    (hfo : ∀ dx dy, -90 ≤ fo.atan_rounded dx dy ∧ fo.atan_rounded dx dy ≤ 90) (dx dy : Int) :
    -90 ≤ atan2_round_degree fo dx dy ∧ atan2_round_degree fo dx dy ≤ 90 := by
  unfold atan2_round_degree
  split_ifs
  · omega
  · exact hfo dx dy

theorem make_edge_beta_range (fo : FloatOps)
    (hfo : ∀ dx dy, -90 ≤ fo.atan_rounded dx dy ∧ fo.atan_rounded dx dy ≤ 90)
    (format : Format) (k j : Nat) (mk mj : Minutia) (dx dy d : Int)
    (hk : -180 < mk.t ∧ mk.t ≤ 180) (hj : -180 < mj.t ∧ mj.t ≤ 180) :
    -180 < (make_edge fo format k j mk mj dx dy d).min_beta ∧
    (make_edge fo format k j mk mj dx dy d).min_beta ≤
      (make_edge fo format k j mk mj dx dy d).max_beta ∧
    (make_edge fo format k j mk mj dx dy d).max_beta ≤ 180 := by
  have hth := atan2_round_degree_range fo hfo dx
    (if format = Format.Ansi then wrap32 (-dy) else dy)
  unfold make_edge
  simp only
  generalize atan2_round_degree fo dx (if format = Format.Ansi then wrap32 (-dy) else dy) = th
    at *
  have e1 : wrap32 (th - mk.t) = th - mk.t := wrap32_eq_self (by omega) (by omega)
  have e2 : wrap32 (th - mj.t) = th - mj.t := wrap32_eq_self (by omega) (by omega)
  have e3 : wrap32 (th - mj.t + 180) = th - mj.t + 180 := wrap32_eq_self (by omega) (by omega)
  rw [e1, e2, e3]
  have r1 := normalize_angle_range (th - mk.t) (by omega) (by omega)
  have r2 := normalize_angle_range (th - mj.t + 180) (by omega) (by omega)
  split_ifs <;> simp only <;> omega

theorem find_edges_inner_mem (fo : FloatOps) (format : Format) (k : Nat) (mk : Minutia)
    (e : Edge) : ∀ (rest : List Minutia) (j : Nat) (edges : List Edge),
      e ∈ (find_edges_inner fo format k mk j rest edges).1 →
      e ∈ edges ∨ ∃ j1 mj dx dy d, mj ∈ rest ∧ e = make_edge fo format k j1 mk mj dx dy d := by
  intro rest
  induction rest with
  | nil => intro j edges h; left; simpa [find_edges_inner] using h
  | cons mj rest ih =>
    intro j edges h
    unfold find_edges_inner at h
    have lift : ∀ {edges1 : List Edge},
        (e ∈ edges1 ∨ ∃ j1 mj1 dx dy d, mj1 ∈ rest ∧ e = make_edge fo format k j1 mk mj1 dx dy d) →
        (e ∈ edges1 → e ∈ edges ∨
          ∃ j1 mj1 dx dy d, mj1 ∈ mj :: rest ∧ e = make_edge fo format k j1 mk mj1 dx dy d) →
        e ∈ edges ∨
          ∃ j1 mj1 dx dy d, mj1 ∈ mj :: rest ∧ e = make_edge fo format k j1 mk mj1 dx dy d := by
      intro edges1 h1 h2
      rcases h1 with h1 | ⟨j1, mj1, dx, dy, d, hm, he⟩
      · exact h2 h1
      · exact Or.inr ⟨j1, mj1, dx, dy, d, List.mem_cons_of_mem _ hm, he⟩
    have app : ∀ x : Edge, x = make_edge fo format k j mk mj (wrap32 (mj.x - mk.x))
          (wrap32 (mj.y - mk.y))
          (wrap32 (squared (wrap32 (mj.x - mk.x)) + squared (wrap32 (mj.y - mk.y)))) →
        e ∈ edges ++ [x] → e ∈ edges ∨
          ∃ j1 mj1 dx dy d, mj1 ∈ mj :: rest ∧ e = make_edge fo format k j1 mk mj1 dx dy d := by
      intro x hx hmem
      rcases List.mem_append.mp hmem with h1 | h1
      · exact Or.inl h1
      · rw [List.mem_singleton] at h1
        exact Or.inr ⟨j, mj, _, _, _, List.mem_cons_self _ _, h1.trans hx⟩
    dsimp only at h
    split_ifs at h
    · exact lift (ih _ _ h) Or.inl
    · exact Or.inl h
    · exact lift (ih _ _ h) Or.inl
    · exact app _ rfl h
    · exact lift (ih _ _ h) (app _ rfl)

theorem find_edges_outer_mem (fo : FloatOps) (format : Format) (e : Edge) :
    ∀ (ms : List Minutia) (k : Nat) (edges : List Edge),
      e ∈ find_edges_outer fo format k ms edges →
      e ∈ edges ∨ ∃ k1 j1 mk mj dx dy d, mk ∈ ms ∧ mj ∈ ms ∧
        e = make_edge fo format k1 j1 mk mj dx dy d := by
  intro ms
  induction ms with
  | nil => intro k edges h; left; simpa [find_edges_outer] using h
  | cons mk rest ih =>
    intro k edges h
    cases rest with
    | nil => left; simpa [find_edges_outer] using h
    | cons mj rest =>
      unfold find_edges_outer at h
      simp only at h
      have inner := find_edges_inner_mem fo format k mk e (mj :: rest) (k + 1) edges
      split_ifs at h
      · rcases inner h with h1 | ⟨j1, mj1, dx, dy, d, hm, he⟩
        · exact Or.inl h1
        · exact Or.inr ⟨k, j1, mk, mj1, dx, dy, d, List.mem_cons_self _ _,
            List.mem_cons_of_mem _ hm, he⟩
      · rcases ih _ _ h with h1 | ⟨k1, j1, mk1, mj1, dx, dy, d, hm1, hm2, he⟩
        · rcases inner h1 with h2 | ⟨j1, mj1, dx, dy, d, hm, he⟩
          · exact Or.inl h2
          · exact Or.inr ⟨k, j1, mk, mj1, dx, dy, d, List.mem_cons_self _ _,
              List.mem_cons_of_mem _ hm, he⟩
        · exact Or.inr ⟨k1, j1, mk1, mj1, dx, dy, d, List.mem_cons_of_mem _ hm1,
            List.mem_cons_of_mem _ hm2, he⟩

/-- C9 (amended). For every minutia sequence whose angles `t` lie in
(-180, 180], either format, and a rounded arctangent within [-90, 90]:
`find_edges` returns when the sequence is not empty, and every edge it emits
satisfies `-180 < min_beta ≤ max_beta ≤ 180`. -/
theorem find_edges_beta_range (fo : FloatOps)
    (hfo : ∀ dx dy, -90 ≤ fo.atan_rounded dx dy ∧ fo.atan_rounded dx dy ≤ 90)
    (ms : List Minutia) (format : Format)
    (ht : ∀ a ∈ ms, -180 < a.t ∧ a.t ≤ 180) :
    (ms ≠ [] → ∃ es, find_edges fo ms [] format = .ok es) ∧
    ∀ es, find_edges fo ms [] format = .ok es →
      ∀ e ∈ es, -180 < e.min_beta ∧ e.min_beta ≤ e.max_beta ∧ e.max_beta ≤ 180 := by
  cases ms with
  | nil => exact ⟨fun h => absurd rfl h, fun es h => by simp [find_edges] at h⟩
  | cons m ms =>
    refine ⟨fun _ => ⟨_, rfl⟩, ?_⟩
    intro es hes e he
    have hes1 : es = stable_sort edge_less (find_edges_outer fo format 0 (m :: ms) []) := by
      simp only [find_edges, Except.ok.injEq] at hes
      exact hes.symm
    rw [hes1] at he
    have he1 := (stable_sort_perm edge_less _).mem_iff.mp he
    rcases find_edges_outer_mem fo format e _ _ _ he1 with
      h | ⟨k1, j1, mk, mj, dx, dy, d, h1, h2, h3⟩
    · exact absurd h (List.not_mem_nil _)
    · rw [h3]
      exact make_edge_beta_range fo hfo format k1 j1 mk mj dx dy d (ht mk h1) (ht mj h2)

theorem squared_eq (x : Int) (h : |x| ≤ 32767) : squared x = x ^ 2 := by
  unfold squared
  have h1 : x * x = x ^ 2 := by ring
  have h2 : x ^ 2 ≤ 32767 ^ 2 := by
    rw [← sq_abs x]
    exact pow_le_pow_left₀ (abs_nonneg x) h 2
  have h3 : 0 ≤ x ^ 2 := sq_nonneg x
  rw [h1]
  exact wrap32_eq_self (by omega) (by norm_num at h2; omega)

/-- The inner loop of `find_edges` on minutiae sorted by `x`, without overflow
and below the edge cap: it appends one edge per qualifying `j`, in order. -/
theorem find_edges_inner_complete (fo : FloatOps) (format : Format) (k : Nat) (mk : Minutia) :
    ∀ (rest : List Minutia) (j : Nat) (edges : List Edge),
      rest.Pairwise (fun a b => a.x ≤ b.x) →
      (∀ b ∈ rest, mk.x ≤ b.x ∧ |b.x - mk.x| ≤ 32767 ∧ |b.y - mk.y| ≤ 32767) →
      edges.length + ((List.enumFrom j rest).filter (fun jb => qualifies mk jb.2)).length
        < MAX_NUMBER_OF_EDGES - 1 →
      ∃ new, find_edges_inner fo format k mk j rest edges = (edges ++ new, false) ∧
        new.map Edge.endpoints =
          ((List.enumFrom j rest).filter (fun jb => qualifies mk jb.2)).map
            (fun jb => (k, jb.1)) := by
  intro rest
  induction rest with
  | nil => intro j edges _ _ _; exact ⟨[], by simp [find_edges_inner], by simp⟩
  | cons mj rest ih =>
    intro j edges hs hb hlen
    rw [List.pairwise_cons] at hs
    obtain ⟨hx, hbx, hby⟩ := hb mj (List.mem_cons_self _ _)
    have hb1 : ∀ b ∈ rest, mk.x ≤ b.x ∧ |b.x - mk.x| ≤ 32767 ∧ |b.y - mk.y| ≤ 32767 :=
      fun b h => hb b (List.mem_cons_of_mem _ h)
    have edx : wrap32 (mj.x - mk.x) = mj.x - mk.x := by
      have := abs_le.mp hbx
      exact wrap32_eq_self (by omega) (by omega)
    have edy : wrap32 (mj.y - mk.y) = mj.y - mk.y := by
      have := abs_le.mp hby
      exact wrap32_eq_self (by omega) (by omega)
    have h2x : (mj.x - mk.x) ^ 2 ≤ 32767 ^ 2 := by
      rw [← sq_abs]; exact pow_le_pow_left₀ (abs_nonneg _) hbx 2
    have h2y : (mj.y - mk.y) ^ 2 ≤ 32767 ^ 2 := by
      rw [← sq_abs]; exact pow_le_pow_left₀ (abs_nonneg _) hby 2
    have h0x : 0 ≤ (mj.x - mk.x) ^ 2 := sq_nonneg _
    have h0y : 0 ≤ (mj.y - mk.y) ^ 2 := sq_nonneg _
    have ed : wrap32 (squared (wrap32 (mj.x - mk.x)) + squared (wrap32 (mj.y - mk.y))) =
        (mj.x - mk.x) ^ 2 + (mj.y - mk.y) ^ 2 := by
      rw [edx, edy, squared_eq _ hbx, squared_eq _ hby]
      norm_num at h2x h2y
      exact wrap32_eq_self (by omega) (by omega)
    have emax : squared MAX_MINUTIA_DISTANCE = MAX_MINUTIA_DISTANCE ^ 2 := by decide
    unfold find_edges_inner
    dsimp only
    rw [List.enumFrom_cons, List.filter_cons] at hlen ⊢
    by_cases hchk : check mk.t mj.t = true
    · have hq : qualifies mk mj = false := by simp [qualifies, hchk]
      simp only [hchk, if_true, hq] at hlen ⊢
      exact ih (j + 1) edges hs.2 hb1 hlen
    · simp only [hchk, if_false]
      rw [ed, emax]
      by_cases hfar : (mj.x - mk.x) ^ 2 + (mj.y - mk.y) ^ 2 > MAX_MINUTIA_DISTANCE ^ 2
      · have hq : qualifies mk mj = false := by
          simp only [qualifies, Bool.and_eq_false_imp, decide_eq_false_iff_not]
          intro _; omega
        simp only [hfar, if_true, hq] at hlen ⊢
        by_cases hbreak : wrap32 (mj.x - mk.x) > MAX_MINUTIA_DISTANCE
        · simp only [hbreak, if_true]
          refine ⟨[], by simp, ?_⟩
          have hnone : (List.enumFrom (j + 1) rest).filter (fun jb => qualifies mk jb.2) = [] := by
            rw [List.filter_eq_nil_iff]
            intro jb hjb
            have hmem : jb.2 ∈ rest := by
              have := List.mem_enumFrom (x := jb.2) (i := jb.1) hjb
              rw [this.2.2]
              exact List.getElem_mem _
            have h1 := hs.1 jb.2 hmem
            rw [edx] at hbreak
            have h125 : (125 : Int) < jb.2.x - mk.x := by
              have : MAX_MINUTIA_DISTANCE = 125 := rfl
              omega
            have h3 : (125 : Int) ^ 2 < (jb.2.x - mk.x) ^ 2 :=
              pow_lt_pow_left₀ h125 (by norm_num) (by norm_num)
            have h4 : 0 ≤ (jb.2.y - mk.y) ^ 2 := sq_nonneg _
            simp only [qualifies, Bool.and_eq_true, decide_eq_true_eq, not_and]
            intro _
            have : MAX_MINUTIA_DISTANCE ^ 2 = (125 : Int) ^ 2 := rfl
            omega
          rw [hnone]; rfl
        · simp only [hbreak, if_false]
          exact ih (j + 1) edges hs.2 hb1 hlen
      · have hq : qualifies mk mj = true := by
          simp only [qualifies, Bool.and_eq_true, decide_eq_true_eq]
          exact ⟨by simpa using hchk, by omega⟩
        simp only [hfar, if_false, hq, if_true, List.length_cons] at hlen ⊢
        have hne : ¬ ((edges ++ [make_edge fo format k j mk mj (wrap32 (mj.x - mk.x))
            (wrap32 (mj.y - mk.y)) ((mj.x - mk.x) ^ 2 + (mj.y - mk.y) ^ 2)]).length
              = MAX_NUMBER_OF_EDGES - 1) := by
          rw [List.length_append, List.length_singleton]; omega
        simp only [hne, if_false]
        obtain ⟨new, h1, h2⟩ := ih (j + 1)
          (edges ++ [make_edge fo format k j mk mj (wrap32 (mj.x - mk.x))
            (wrap32 (mj.y - mk.y)) ((mj.x - mk.x) ^ 2 + (mj.y - mk.y) ^ 2)]) hs.2 hb1
          (by rw [List.length_append, List.length_singleton]; omega)
        refine ⟨_ :: new, by rw [h1, List.append_assoc]; rfl, ?_⟩
        rw [List.map_cons, List.map_cons, h2]
        congr 1
        unfold make_edge Edge.endpoints
        dsimp only
        split_ifs <;> rfl

/-- The outer loop of `find_edges` on minutiae sorted by `x`, without overflow
and below the edge cap: it appends the edges of `pairs_from`. -/
theorem find_edges_outer_complete (fo : FloatOps) (format : Format) :
    ∀ (l : List Minutia) (k : Nat) (edges : List Edge),
      l.Pairwise (fun a b => a.x ≤ b.x) →
      (∀ a ∈ l, ∀ b ∈ l, |b.x - a.x| ≤ 32767 ∧ |b.y - a.y| ≤ 32767) →
      edges.length + (pairs_from k l).length < MAX_NUMBER_OF_EDGES - 1 →
      ∃ new, find_edges_outer fo format k l edges = edges ++ new ∧
        new.map Edge.endpoints = pairs_from k l := by
  intro l
  induction l with
  | nil => intro k edges _ _ _; exact ⟨[], by simp [find_edges_outer], rfl⟩
  | cons mk rest ih =>
    intro k edges hs hb hlen
    cases rest with
    | nil => exact ⟨[], by simp [find_edges_outer], by simp [pairs_from]⟩
    | cons mj rest =>
      rw [List.pairwise_cons] at hs
      unfold pairs_from at hlen ⊢
      rw [List.length_append, List.length_map] at hlen
      obtain ⟨new1, h1, h2⟩ := find_edges_inner_complete fo format k mk (mj :: rest) (k + 1)
        edges hs.2
        (fun b hb1 => ⟨hs.1 b hb1, hb mk (List.mem_cons_self _ _) b (List.mem_cons_of_mem _ hb1)⟩)
        (by omega)
      obtain ⟨new2, h3, h4⟩ := ih (k + 1) (edges ++ new1) hs.2
        (fun a ha b hb1 => hb a (List.mem_cons_of_mem _ ha) b (List.mem_cons_of_mem _ hb1))
        (by
          have : new1.length = (List.filter (fun jb => qualifies mk jb.2)
              (List.enumFrom (k + 1) (mj :: rest))).length := by
            have := congrArg List.length h2
            simpa using this
          rw [List.length_append]; omega)
      refine ⟨new1 ++ new2, ?_, by rw [List.map_append, h2, h4]⟩
      unfold find_edges_outer
      simp only [h1, Bool.false_eq_true, if_false]
      rw [h3, List.append_assoc]

/-- The double loop of the spec lists the same pairs as `pairs_from`. -/
theorem flatMap_enum_eq_pairs_from (ms : List Minutia) :
    ∀ (l pre : List Minutia), ms = pre ++ l →
      (List.enumFrom pre.length l).flatMap (fun ka =>
        (ms.enum.filter (fun jb => decide (ka.1 < jb.1) && qualifies ka.2 jb.2)).map
          (fun jb => (ka.1, jb.1))) = pairs_from pre.length l := by
  intro l
  induction l with
  | nil => intro pre _; rfl
  | cons mk rest ih =>
    intro pre hms
    rw [List.enumFrom_cons, List.flatMap_cons]
    unfold pairs_from
    have hrec := ih (pre ++ [mk]) (by rw [hms]; simp)
    rw [List.length_append, List.length_singleton] at hrec
    rw [hrec]
    congr 2
    rw [hms, List.enum, List.enumFrom_append, List.filter_append, List.enumFrom_cons,
      List.filter_cons]
    simp only [Nat.zero_add, lt_self_iff_false, decide_False, Bool.false_and,
      Bool.false_eq_true, if_false]
    have h1 : List.filter (fun jb : Nat × Minutia => decide (pre.length < jb.1) && qualifies mk jb.2)
        (List.enumFrom 0 pre) = [] := by
      rw [List.filter_eq_nil_iff]
      intro jb hjb
      have := List.mem_enumFrom (x := jb.2) (i := jb.1) hjb
      simp only [Bool.and_eq_true, decide_eq_true_eq, not_and]
      intro h; omega
    rw [h1, List.nil_append]
    apply List.filter_congr
    intro jb hjb
    have := List.mem_enumFrom (x := jb.2) (i := jb.1) hjb
    have h2 : pre.length < jb.1 := by omega
    simp [h2]

theorem qualifying_pairs_eq_pairs_from (ms : List Minutia) :
    qualifying_pairs ms = pairs_from 0 ms := by
  have := flatMap_enum_eq_pairs_from ms ms [] rfl
  simpa [qualifying_pairs, List.enum] using this

theorem pairs_from_fst_ge : ∀ (l : List Minutia) (k : Nat) (p : Nat × Nat),
    p ∈ pairs_from k l → k ≤ p.1 := by
  intro l
  induction l with
  | nil => intro k p h; simp [pairs_from] at h
  | cons mk rest ih =>
    intro k p h
    unfold pairs_from at h
    rcases List.mem_append.mp h with h1 | h1
    · obtain ⟨jb, _, rfl⟩ := List.mem_map.mp h1
      exact le_refl _
    · have := ih (k + 1) p h1
      omega

theorem pairs_from_nodup : ∀ (l : List Minutia) (k : Nat), (pairs_from k l).Nodup := by
  intro l
  induction l with
  | nil => intro k; simp [pairs_from]
  | cons mk rest ih =>
    intro k
    unfold pairs_from
    rw [List.nodup_append]
    refine ⟨?_, ih (k + 1), ?_⟩
    · have h1 : (List.map Prod.fst ((List.enumFrom (k + 1) rest).filter
          (fun jb => qualifies mk jb.2))).Nodup := by
        have h2 : (List.map Prod.fst (List.enumFrom (k + 1) rest)).Nodup := by
          rw [List.enumFrom_map_fst]; exact List.nodup_range' _ _
        exact (List.filter_sublist _).map Prod.fst |>.nodup h2
      have h3 := h1.map (f := fun j : Nat => (k, j)) (fun a b hab => by simpa using hab)
      simpa [List.map_map] using h3
    · intro p hp1 hp2
      obtain ⟨jb, _, rfl⟩ := List.mem_map.mp hp1
      have := pairs_from_fst_ge rest (k + 1) _ hp2
      simp at this

/-- The pairs of `qualifying_pairs` are the index pairs `k < j` of minutiae
that pass `qualifies`. -/
theorem mem_qualifying_pairs (ms : List Minutia) (k j : Nat) :
    (k, j) ∈ qualifying_pairs ms ↔
      k < j ∧ ∃ a b, ms[k]? = some a ∧ ms[j]? = some b ∧ qualifies a b = true := by
  unfold qualifying_pairs
  simp only [List.mem_flatMap, List.mem_map, List.mem_filter, Bool.and_eq_true,
    decide_eq_true_eq, Prod.mk.injEq, List.mem_enum_iff_getElem?]
  constructor
  · rintro ⟨ka, hka, jb, ⟨hjb, hlt, hq⟩, rfl, rfl⟩
    exact ⟨hlt, ka.2, jb.2, hka, hjb, hq⟩
  · rintro ⟨hlt, a, b, ha, hb, hq⟩
    exact ⟨(k, a), ha, (j, b), ⟨hb, hlt, hq⟩, rfl, rfl⟩

/-- C8. On a non-empty minutia sequence sorted by `x` ascending, with
coordinate differences small enough that the squares do not overflow and fewer
than `MAX_NUMBER_OF_EDGES - 1` qualifying pairs, `find_edges` returns and the
early `break` loses no edge: the index pairs `(endpoint_k, endpoint_j)` of the
emitted edges are, up to order, the list of all index pairs `k < j` whose
orientations are not opposite and whose squared distance is at most 15625; no
pair is emitted twice. -/
theorem find_edges_complete (fo : FloatOps) (m : Minutia) (ms : List Minutia) (format : Format)
    (hs : (m :: ms).Pairwise (fun a b => a.x ≤ b.x))
    (hb : ∀ a ∈ m :: ms, ∀ b ∈ m :: ms, |b.x - a.x| ≤ 32767 ∧ |b.y - a.y| ≤ 32767)
    (hn : (qualifying_pairs (m :: ms)).length < MAX_NUMBER_OF_EDGES - 1) :
    ∃ es, find_edges fo (m :: ms) [] format = .ok es ∧
      (es.map Edge.endpoints).Perm (qualifying_pairs (m :: ms)) ∧
      (es.map Edge.endpoints).Nodup ∧
      ∀ k j, (k, j) ∈ es.map Edge.endpoints ↔
        k < j ∧ ∃ a b, (m :: ms)[k]? = some a ∧ (m :: ms)[j]? = some b ∧
          qualifies a b = true := by
  have hq := qualifying_pairs_eq_pairs_from (m :: ms)
  rw [hq] at hn
  obtain ⟨new, h1, h2⟩ := find_edges_outer_complete fo format (m :: ms) 0 [] hs hb
    (by simpa using hn)
  have hperm : ((stable_sort edge_less (find_edges_outer fo format 0 (m :: ms) [])).map
      Edge.endpoints).Perm (qualifying_pairs (m :: ms)) := by
    rw [hq, h1, List.nil_append, ← h2]
    exact (stable_sort_perm edge_less new).map _
  refine ⟨_, rfl, hperm, ?_, ?_⟩
  · rw [hperm.nodup_iff, hq]
    exact pairs_from_nodup _ _
  · intro k j
    rw [hperm.mem_iff]
    exact mem_qualifying_pairs (m :: ms) k j

/-- C8, witness: the theorem applied to four minutiae in a row, the last of
which ends the inner loops early. -/
theorem find_edges_complete_witness :
    ∃ es, find_edges axis_ops sample_row [] Format.NistInternal = .ok es ∧
      (es.map Edge.endpoints).Perm (qualifying_pairs sample_row) ∧
      (es.map Edge.endpoints).Nodup ∧
      ∀ k j, (k, j) ∈ es.map Edge.endpoints ↔
        k < j ∧ ∃ a b, sample_row[k]? = some a ∧ sample_row[j]? = some b ∧
          qualifies a b = true :=
  find_edges_complete axis_ops _ _ Format.NistInternal (by decide) (by decide) (by decide)

/-- C9, witness: the amended statement applied to four minutiae in a row. -/
theorem find_edges_beta_range_witness :
    (sample_row ≠ [] → ∃ es, find_edges axis_ops sample_row [] Format.Ansi = .ok es) ∧
    ∀ es, find_edges axis_ops sample_row [] Format.Ansi = .ok es →
      ∀ e ∈ es, -180 < e.min_beta ∧ e.min_beta ≤ e.max_beta ∧ e.max_beta ≤ 180 :=
  find_edges_beta_range axis_ops (fun _ _ => by simp [axis_ops]) sample_row Format.Ansi
    (by decide)

/-- C9, counterexample.  Two minutiae with angles 100 and 0 (both in
(-180, 180]) one above the other: `dx = 0`, so `theta_kj` is 90 without any
floating point, `beta_k = -10`, `beta_j = -90`, and the one emitted edge has
`min_beta = -90 < 0`. -/
theorem find_edges_min_beta_negative :
    (∀ a ∈ upright_pair, -180 < a.t ∧ a.t ≤ 180) ∧
    find_edges axis_ops upright_pair [] Format.NistInternal = .ok [negative_beta_edge] ∧
    ¬ (0 ≤ negative_beta_edge.min_beta) := by
  decide

/-! ## combine_clusters -/

theorem set_intersection_step_eq (x : Nat) (xs : List Nat) (run : List Nat → List Nat)
    (hx : ∀ a ∈ xs, x < a)
    (hrun : ∀ ys : List Nat, ys.Pairwise (fun a b => a < b) →
      run ys = xs.filter (fun a => decide (a ∈ ys))) :
    ∀ ys : List Nat, ys.Pairwise (fun a b => a < b) →
      set_intersection_step x run ys = (x :: xs).filter (fun a => decide (a ∈ ys)) := by
  intro ys
  induction ys with
  | nil =>
    intro _
    simp [set_intersection_step]
  | cons y ys ih =>
    intro hys
    have hys' := hys
    rw [List.pairwise_cons] at hys
    unfold set_intersection_step
    by_cases h1 : x < y
    · simp only [h1, if_true]
      rw [hrun _ hys', List.filter_cons]
      have hnot : ¬ x ∈ y :: ys := by
        intro ha
        rcases List.mem_cons.mp ha with h | h
        · omega
        · have := hys.1 x h; omega
      rw [if_neg (by simpa using hnot)]
    · simp only [h1, if_false]
      by_cases h2 : y < x
      · simp only [h2, if_true]
        rw [ih hys.2]
        apply List.filter_congr
        intro a ha
        have hxa : x ≤ a := by
          rcases List.mem_cons.mp ha with rfl | h
          · exact le_refl _
          · exact le_of_lt (hx a h)
        have hay : a ≠ y := by omega
        simp [List.mem_cons, hay]
      · simp only [h2, if_false]
        have hxy : x = y := by omega
        subst hxy
        rw [hrun _ hys.2, List.filter_cons, if_pos (by simp)]
        congr 1
        apply List.filter_congr
        intro a ha
        have hxa : x < a := hx a ha
        have hne : a ≠ x := by omega
        simp [List.mem_cons, hne]

/-- On strictly ascending ranges `std::set_intersection` keeps the elements of
the first range that occur in the second. -/
theorem set_intersection_eq_filter : ∀ (xs ys : List Nat),
    xs.Pairwise (fun a b => a < b) → ys.Pairwise (fun a b => a < b) →
    set_intersection xs ys = xs.filter (fun a => decide (a ∈ ys)) := by
  intro xs
  induction xs with
  | nil => intro ys _ _; rfl
  | cons x xs ih =>
    intro ys hxs hys
    rw [List.pairwise_cons] at hxs
    unfold set_intersection
    exact set_intersection_step_eq x xs _ hxs.1 (fun ys h => ih ys hxs.2 h) ys hys

/-- The weight of a duplicate-free list of cluster indices drawn from `l` is at
most the weight of `l`. -/
theorem clique_weight_le_of_subset (cl : List Cluster) (s l : List Nat) (hnd : s.Nodup)
    (hsub : ∀ a ∈ s, a ∈ l) : clique_weight cl s ≤ clique_weight cl l := by
  unfold clique_weight
  obtain ⟨l1, hp, hl⟩ := List.subperm_of_subset hnd hsub
  rw [← (hp.map (cluster_points cl)).sum_eq]
  exact (hl.map (cluster_points cl)).sum_le_sum (fun _ _ => Nat.zero_le _)

/-- The 32-bit sum over the items is the exact sum when the items are distinct
clusters drawn from a list `U` whose points add up to less than `2^32`. -/
theorem items_score_eq (cl : List Cluster) (U : List Nat)
    (hU : clique_weight cl U < 4294967296) :
    ∀ items : List Item, (items.map Item.cluster).Pairwise (fun a b => a > b) →
      (∀ it ∈ items, it.cluster < cl.length ∧ it.cluster ∈ U) →
      items_score cl items = .ok (clique_weight cl (items.map Item.cluster)) := by
  intro items
  induction items with
  | nil => intro _ _; rfl
  | cons it below ih =>
    intro hp hlt
    have hp' := hp
    rw [List.map_cons, List.pairwise_cons] at hp
    unfold items_score
    rw [ih hp.2 (fun x hx => hlt x (List.mem_cons_of_mem _ hx))]
    have hin := (hlt it (List.mem_cons_self _ _)).1
    rw [List.getElem?_eq_getElem hin]
    simp only
    have hw : clique_weight cl (List.map Item.cluster (it :: below)) =
        clique_weight cl (List.map Item.cluster below) + cl[it.cluster].points := by
      simp [clique_weight, cluster_points, List.getElem?_eq_getElem hin, Nat.add_comm]
    have hle := clique_weight_le_of_subset cl (List.map Item.cluster (it :: below)) U
      (hp'.imp (fun h => (Nat.ne_of_lt h).symm))
      (by
        intro a ha
        obtain ⟨x, hx, rfl⟩ := List.mem_map.mp ha
        exact (hlt x hx).2)
    rw [hw] at hle ⊢
    rw [wrapU32_eq_self (by omega)]

theorem combine_loop_push (cl : List Cluster) (fuel : Nat) (last : Item) (below : List Item)
    (b next : Nat) (c : Cluster) (h1 : last.index < last.connected.length)
    (h2 : last.connected[last.index]? = some next) (h3 : cl[next]? = some c) :
    combine_loop cl (fuel + 1) (last :: below) b =
      combine_loop cl fuel
        ({ cluster := next, index := 0,
           connected := set_intersection last.connected c.compatible } :: last :: below) b := by
  rw [combine_loop]
  simp only [h1, if_true, h2, h3]

theorem combine_loop_pop (cl : List Cluster) (fuel : Nat) (last : Item) (below : List Item)
    (b b1 : Nat) (h1 : ¬ last.index < last.connected.length)
    (h2 : score_finished_item cl last below b = .ok b1) :
    combine_loop cl (fuel + 1) (last :: below) b = combine_loop cl fuel (after_pop below) b1 := by
  rw [combine_loop]
  simp only [h1, if_false, h2]
  cases below <;> rfl

theorem is_clique_cons (cl : List Cluster) (a : Nat) (T : List Nat) :
    is_clique cl (a :: T) = true ↔
      (∀ t ∈ T, compatible_pair cl a t = true) ∧ is_clique cl T = true := by
  simp [is_clique, List.pairwise_cons]

theorem compatible_pair_iff (cl : List Cluster) (a b : Nat) :
    compatible_pair cl a b = true ↔ a < b ∧ ∃ c, cl[a]? = some c ∧ b ∈ c.compatible := by
  unfold compatible_pair
  cases h : cl[a]? with
  | none => simp
  | some c => simp

theorem clique_weight_cons (cl : List Cluster) (a : Nat) (T : List Nat) :
    clique_weight cl (a :: T) = cluster_points cl a + clique_weight cl T := by
  simp [clique_weight]

/-- A frame whose `index` has reached the end of `connected`: it is scored if
`connected` is empty, and popped. -/
theorem combine_frame_done (cl : List Cluster) (U : List Nat)
    (hU : clique_weight cl U < 4294967296)
    (S : List Nat) (i v : Nat) (below : List Item) (b : Nat)
    (hi : ¬ i < S.length)
    (hbelow : (v :: below.map Item.cluster).Pairwise (fun x y => x > y))
    (hv : v < cl.length ∧ v ∈ U)
    (hbl : ∀ it ∈ below, it.cluster < cl.length ∧ it.cluster ∈ U) :
    ∃ N b',
      (∀ fuel, combine_loop cl (fuel + N)
          ({ cluster := v, index := i, connected := S } :: below) b
          = combine_loop cl fuel (after_pop below) b') ∧
      b ≤ b' ∧
      (b' = b ∨ ∃ T, is_clique cl T = true ∧ (∀ t ∈ T, t ∈ S) ∧
          b' = clique_weight cl (below.map Item.cluster) + cluster_points cl v
            + clique_weight cl T) ∧
      (∀ T, is_clique cl T = true → (∀ t ∈ T, t ∈ S) → (T = [] → S = []) →
          (∀ t ∈ T.head?, t ∈ S.drop i) →
          clique_weight cl (below.map Item.cluster) + cluster_points cl v
            + clique_weight cl T ≤ b') := by
  have hscore := items_score_eq cl U hU
    ({ cluster := v, index := i, connected := S } :: below) hbelow
    (by
      intro it hit
      rcases List.mem_cons.mp hit with rfl | h
      · exact hv
      · exact hbl it h)
  rw [List.map_cons, clique_weight_cons] at hscore
  have hdrop : S.drop i = [] := List.drop_eq_nil_of_le (by omega)
  cases S with
  | nil =>
    refine ⟨1, max b (cluster_points cl v + clique_weight cl (below.map Item.cluster)), ?_,
      le_max_left _ _, ?_, ?_⟩
    · intro fuel
      apply combine_loop_pop cl fuel _ below b _ hi
      unfold score_finished_item
      simp only [List.isEmpty_nil, if_true, hscore]
      congr 1
      rw [max_def]
      split_ifs <;> omega
    · rcases le_total b (cluster_points cl v + clique_weight cl (below.map Item.cluster))
        with h | h
      · right
        refine ⟨[], by simp [is_clique], by simp, ?_⟩
        rw [max_eq_right h]
        simp [clique_weight]; omega
      · left; exact max_eq_left h
    · intro T _ hT _ _
      have hTnil : T = [] := by
        cases T with
        | nil => rfl
        | cons t T => exact absurd (hT t (List.mem_cons_self _ _)) (List.not_mem_nil _)
      subst hTnil
      have := le_max_right b (cluster_points cl v + clique_weight cl (below.map Item.cluster))
      simp [clique_weight] at this ⊢
      omega
  | cons s S =>
    refine ⟨1, b, ?_, le_refl _, Or.inl rfl, ?_⟩
    · intro fuel
      apply combine_loop_pop cl fuel _ below b _ hi
      unfold score_finished_item
      simp
    · intro T _ _ hTS hhead
      cases T with
      | nil => exact absurd (hTS rfl) (by simp)
      | cons t T =>
        have := hhead t (by simp)
        rw [hdrop] at this
        exact absurd this (List.not_mem_nil _)

/-- One frame of the search of `combine_clusters`, from its current `index` to
its pop: the rounds it takes, and the `best_score` it leaves. -/
theorem combine_frame (cl : List Cluster) (hshape : merge_shape cl) (U : List Nat)
    (hU : clique_weight cl U < 4294967296) :
    ∀ (k : Nat) (S : List Nat) (i v : Nat) (below : List Item) (b : Nat),
      S.length - i ≤ k →
      S.Pairwise (fun x y => x < y) →
      (∀ s ∈ S, v < s ∧ s < cl.length ∧ s ∈ U) →
      ((v :: below.map Item.cluster).Pairwise (fun x y => x > y)) →
      (v < cl.length ∧ v ∈ U) → (∀ it ∈ below, it.cluster < cl.length ∧ it.cluster ∈ U) →
      ∃ N b',
        (∀ fuel, combine_loop cl (fuel + N)
            ({ cluster := v, index := i, connected := S } :: below) b
            = combine_loop cl fuel (after_pop below) b') ∧
        b ≤ b' ∧
        (b' = b ∨ ∃ T, is_clique cl T = true ∧ (∀ t ∈ T, t ∈ S) ∧
            b' = clique_weight cl (below.map Item.cluster) + cluster_points cl v
              + clique_weight cl T) ∧
        (∀ T, is_clique cl T = true → (∀ t ∈ T, t ∈ S) → (T = [] → S = []) →
            (∀ t ∈ T.head?, t ∈ S.drop i) →
            clique_weight cl (below.map Item.cluster) + cluster_points cl v
              + clique_weight cl T ≤ b') := by
  intro k
  induction k with
  | zero =>
    intro S i v below b hk hS hSv hbelow hv hbl
    exact combine_frame_done cl U hU S i v below b (by omega) hbelow hv hbl
  | succ k ih =>
    intro S i v below b hk hS hSv hbelow hv hbl
    by_cases hi : i < S.length
    swap
    · exact combine_frame_done cl U hU S i v below b hi hbelow hv hbl
    -- the child `next = S[i]` and its connected set
    obtain ⟨next, hnx⟩ : ∃ next, S[i]? = some next := ⟨S[i], List.getElem?_eq_getElem hi⟩
    have hget : S[i] = next := by
      rw [List.getElem?_eq_getElem hi] at hnx; exact Option.some.inj hnx
    have hnext_mem : next ∈ S := hget ▸ List.getElem_mem _
    obtain ⟨hvn, hnn, hnU⟩ := hSv _ hnext_mem
    obtain ⟨c, hc⟩ : ∃ c, cl[next]? = some c := ⟨cl[next], List.getElem?_eq_getElem hnn⟩
    obtain ⟨hcasc, hcmem⟩ := hshape (next, c) (List.mk_mem_enum_iff_getElem?.mpr hc)
    have hS' : set_intersection S c.compatible =
        S.filter (fun a => decide (a ∈ c.compatible)) :=
      set_intersection_eq_filter S _ hS hcasc
    have hmem' : ∀ s, s ∈ S.filter (fun a => decide (a ∈ c.compatible)) ↔
        s ∈ S ∧ s ∈ c.compatible := by
      intro s; simp [List.mem_filter]
    have hlen' : (S.filter (fun a => decide (a ∈ c.compatible))).length ≤ k := by
      have hsplit := List.filter_append (p := fun a => decide (a ∈ c.compatible))
        (S.take (i + 1)) (S.drop (i + 1))
      rw [List.take_append_drop] at hsplit
      have htake : (S.take (i + 1)).filter (fun a => decide (a ∈ c.compatible)) = [] := by
        rw [List.filter_eq_nil_iff]
        intro a ha
        obtain ⟨j, hj, rfl⟩ := List.mem_take_iff_getElem.mp ha
        have hj1 : j < S.length := by omega
        have hle : S[j] ≤ S[i] := by
          rcases Nat.lt_or_ge j i with h | h
          · exact le_of_lt (List.pairwise_iff_getElem.mp hS j i hj1 hi h)
          · have : j = i := by omega
            subst this; exact le_refl _
        simp only [decide_eq_true_eq]
        intro hmem
        have := (hcmem _ hmem).1
        omega
      rw [hsplit, htake, List.nil_append]
      have := List.length_filter_le (fun a => decide (a ∈ c.compatible))
        (S.drop (i + 1))
      rw [List.length_drop] at this
      omega
    have hbelow' : ((next :: List.map Item.cluster
        ({ cluster := v, index := i, connected := S } :: below))).Pairwise
        (fun x y => x > y) := by
      rw [List.map_cons, List.pairwise_cons]
      refine ⟨?_, hbelow⟩
      intro x hx
      rcases List.mem_cons.mp hx with rfl | h
      · exact hvn
      · have := (List.pairwise_cons.mp hbelow).1 x h
        omega
    have hbl' : ∀ it ∈ ({ cluster := v, index := i, connected := S } : Item) :: below,
        it.cluster < cl.length ∧ it.cluster ∈ U := by
      intro it hit
      rcases List.mem_cons.mp hit with rfl | h
      · exact hv
      · exact hbl it h
    obtain ⟨N1, b1, hrun1, hle1, hA1, hB1⟩ :=
      ih (S.filter (fun a => decide (a ∈ c.compatible))) 0 next
        ({ cluster := v, index := i, connected := S } :: below) b (by omega)
        (hS.filter _)
        (fun s hs => ⟨(hcmem s ((hmem' s).mp hs).2).1, (hcmem s ((hmem' s).mp hs).2).2,
          (hSv s ((hmem' s).mp hs).1).2.2⟩)
        hbelow' ⟨hnn, hnU⟩ hbl'
    obtain ⟨N2, b2, hrun2, hle2, hA2, hB2⟩ :=
      ih S (i + 1) v below b1 (by omega) hS hSv hbelow hv hbl
    have hw' : clique_weight cl (List.map Item.cluster
        ({ cluster := v, index := i, connected := S } :: below)) =
        cluster_points cl v + clique_weight cl (List.map Item.cluster below) := by
      rw [List.map_cons, clique_weight_cons]
    rw [hw'] at hA1 hB1
    refine ⟨N2 + N1 + 1, b2, ?_, le_trans hle1 hle2, ?_, ?_⟩
    · intro fuel
      have e : fuel + (N2 + N1 + 1) = (fuel + N2 + N1) + 1 := by omega
      rw [e, combine_loop_push cl _ _ below b next c hi hnx hc]
      simp only
      rw [hS', hrun1 (fuel + N2)]
      exact hrun2 fuel
    · rcases hA2 with h2 | ⟨T, hT1, hT2, hT3⟩
      · rcases hA1 with h1 | ⟨T', hT1, hT2, hT3⟩
        · left; rw [h2, h1]
        · right
          refine ⟨next :: T', ?_, ?_, ?_⟩
          · rw [is_clique_cons]
            refine ⟨?_, hT1⟩
            intro t ht
            rw [compatible_pair_iff]
            have := (hmem' t).mp (hT2 t ht)
            exact ⟨(hcmem t this.2).1, _, hc, this.2⟩
          · intro t ht
            rcases List.mem_cons.mp ht with rfl | h
            · exact hnext_mem
            · exact ((hmem' t).mp (hT2 t h)).1
          · rw [h2, hT3, clique_weight_cons]; omega
      · right; exact ⟨T, hT1, hT2, hT3⟩
    · intro T hT1 hT2 hT3 hT4
      cases T with
      | nil =>
        have := hT3 rfl
        subst this
        simp at hi
      | cons t1 T' =>
        have hhead := hT4 t1 (by simp)
        rw [List.drop_eq_getElem_cons hi, hget] at hhead
        rw [is_clique_cons] at hT1
        rcases List.mem_cons.mp hhead with heq | hrest
        · subst heq
          have hmemT' : ∀ t ∈ T', t ∈ S.filter (fun a => decide (a ∈ c.compatible)) := by
            intro t ht
            rw [hmem']
            refine ⟨hT2 t (List.mem_cons_of_mem _ ht), ?_⟩
            obtain ⟨_, c', hc', hin⟩ := (compatible_pair_iff cl _ _).mp (hT1.1 t ht)
            rw [hc] at hc'
            cases hc'
            exact hin
          rw [clique_weight_cons]
          by_cases hcase : T' = [] ∧
              S.filter (fun a => decide (a ∈ c.compatible)) ≠ []
          · obtain ⟨hTnil, hSne⟩ := hcase
            subst hTnil
            obtain ⟨s0, rest, hs0⟩ := List.exists_cons_of_ne_nil hSne
            have := hB1 [s0] (by simp [is_clique])
              (by intro t ht; rw [List.mem_singleton.mp ht, hs0]; exact List.mem_cons_self _ _)
              (by simp)
              (by intro t ht
                  simp only [List.head?_cons, Option.mem_def, Option.some.injEq] at ht
                  subst ht
                  rw [List.drop_zero, hs0]; exact List.mem_cons_self _ _)
            simp only [clique_weight, List.map_cons, List.map_nil, List.sum_cons,
              List.sum_nil] at this ⊢
            omega
          · have := hB1 T' hT1.2 hmemT'
              (by
                intro hnil
                by_contra hne
                exact hcase ⟨hnil, hne⟩)
              (by
                intro t ht
                rw [List.drop_zero]
                apply hmemT'
                cases T' with
                | nil => simp at ht
                | cons t' T'' =>
                  simp only [List.head?_cons, Option.mem_def, Option.some.injEq] at ht
                  subst ht
                  exact List.mem_cons_self _ _)
            omega
        · exact hB2 (t1 :: T') (by rw [is_clique_cons]; exact hT1) hT2 hT3
            (by
              intro t ht
              simp only [List.head?_cons, Option.mem_def, Option.some.injEq] at ht
              subst ht
              exact hrest)

theorem is_clique_ascending (cl : List Cluster) (s : List Nat) (h : is_clique cl s = true) :
    s.Pairwise (fun a b => a < b) := by
  unfold is_clique at h
  have h1 := of_decide_eq_true h
  exact h1.imp (fun hab => ((compatible_pair_iff cl _ _).mp hab).1)

theorem mem_cliques (cl : List Cluster) (s : List Nat) :
    s ∈ cliques cl ↔ is_clique cl s = true ∧ ∀ a ∈ s, a < cl.length := by
  unfold cliques
  rw [List.mem_filter, List.mem_sublists]
  constructor
  · rintro ⟨h1, h2⟩
    exact ⟨h2, fun a ha => List.mem_range.mp (h1.subset ha)⟩
  · rintro ⟨h1, h2⟩
    refine ⟨?_, h1⟩
    have hasc := is_clique_ascending cl s h1
    have hsp : s.Subperm (List.range cl.length) :=
      List.subperm_of_subset (hasc.imp (fun h => Nat.ne_of_lt h))
        (fun a ha => List.mem_range.mpr (h2 a ha))
    exact List.sublist_of_subperm_of_sorted hsp hasc (List.pairwise_lt_range _)

theorem foldr_max_le (l : List Nat) (b : Nat) (h : ∀ x ∈ l, x ≤ b) : l.foldr max 0 ≤ b := by
  induction l with
  | nil => exact Nat.zero_le _
  | cons a l ih =>
    rw [List.foldr_cons]
    exact max_le (h a (List.mem_cons_self _ _)) (ih (fun x hx => h x (List.mem_cons_of_mem _ hx)))

theorem le_foldr_max (l : List Nat) (x : Nat) (h : x ∈ l) : x ≤ l.foldr max 0 := by
  induction l with
  | nil => exact absurd h (List.not_mem_nil _)
  | cons a l ih =>
    rw [List.foldr_cons]
    rcases List.mem_cons.mp h with rfl | h1
    · exact le_max_left _ _
    · exact le_trans (ih h1) (le_max_right _ _)

/-- A value that is 0 or the weight of a clique, and at least the weight of
every clique, is the maximum clique weight. -/
theorem eq_max_clique_weight (cl : List Cluster) (b : Nat)
    (hA : b = 0 ∨ ∃ s ∈ cliques cl, clique_weight cl s = b)
    (hB : ∀ s ∈ cliques cl, clique_weight cl s ≤ b) : b = max_clique_weight cl := by
  unfold max_clique_weight
  apply le_antisymm
  · rcases hA with h | ⟨s, hs, hw⟩
    · omega
    · exact le_foldr_max _ _ (List.mem_map.mpr ⟨s, hs, hw⟩)
  · apply foldr_max_le
    intro x hx
    obtain ⟨s, hs, rfl⟩ := List.mem_map.mp hx
    exact hB s hs

/-- The search started from one cluster `v`: it ends, and leaves a
`best_score` that is the old one or the weight of a clique, and covers every
clique whose smallest member is `v`. -/
theorem combine_loop_start (cl : List Cluster) (hshape : merge_shape cl)
    (v : Nat) (c : Cluster) (hc : cl[v]? = some c)
    (hfit : c.points + clique_weight cl c.compatible < 4294967296) (b : Nat) :
    ∃ N b',
      (∀ fuel, N ≤ fuel →
        combine_loop cl fuel [{ cluster := v, index := 0, connected := c.compatible }] b
          = .ok b') ∧
      b ≤ b' ∧
      (b' = b ∨ ∃ s ∈ cliques cl, clique_weight cl s = b') ∧
      (∀ T, is_clique cl (v :: T) = true → (∀ a ∈ T, a < cl.length) →
        clique_weight cl (v :: T) ≤ b') := by
  have hv : v < cl.length := by
    by_contra h
    rw [List.getElem?_eq_none (by omega)] at hc
    exact absurd hc (by simp)
  obtain ⟨hasc, hmem⟩ := hshape (v, c) (List.mk_mem_enum_iff_getElem?.mpr hc)
  have hU : clique_weight cl (v :: c.compatible) < 4294967296 := by
    rw [clique_weight_cons]
    have : cluster_points cl v = c.points := by simp [cluster_points, hc]
    omega
  obtain ⟨N, b', hrun, hle, hA, hB⟩ := combine_frame cl hshape (v :: c.compatible) hU
    c.compatible.length c.compatible 0 v [] b (by omega) hasc
    (fun s hs => ⟨(hmem s hs).1, (hmem s hs).2, List.mem_cons_of_mem _ hs⟩) (by simp)
    ⟨hv, List.mem_cons_self _ _⟩ (by simp)
  simp only [List.map_nil, clique_weight, List.sum_nil, Nat.zero_add] at hA hB
  refine ⟨N + 1, b', ?_, hle, ?_, ?_⟩
  · intro fuel hfuel
    obtain ⟨f, rfl⟩ : ∃ f, fuel = (f + 1) + N := ⟨fuel - (N + 1), by omega⟩
    rw [hrun (f + 1)]
    rfl
  · rcases hA with h | ⟨T, hT1, hT2, hT3⟩
    · exact Or.inl h
    · right
      refine ⟨v :: T, ?_, ?_⟩
      · rw [mem_cliques]
        constructor
        · rw [is_clique_cons]
          refine ⟨?_, hT1⟩
          intro t ht
          rw [compatible_pair_iff]
          exact ⟨(hmem t (hT2 t ht)).1, c, hc, hT2 t ht⟩
        · intro a ha
          rcases List.mem_cons.mp ha with rfl | h
          · exact hv
          · exact (hmem a (hT2 a h)).2
      · rw [hT3]; simp [clique_weight]
  · intro T hT hTlt
    rw [is_clique_cons] at hT
    have hTc : ∀ t ∈ T, t ∈ c.compatible := by
      intro t ht
      obtain ⟨_, c', hc', hin⟩ := (compatible_pair_iff cl _ _).mp (hT.1 t ht)
      rw [hc] at hc'
      cases hc'
      exact hin
    by_cases hcase : T = [] ∧ c.compatible ≠ []
    · obtain ⟨hTnil, hne⟩ := hcase
      subst hTnil
      obtain ⟨s0, rest, hs0⟩ := List.exists_cons_of_ne_nil hne
      have := hB [s0] (by simp [is_clique])
        (by intro t ht; rw [List.mem_singleton.mp ht, hs0]; exact List.mem_cons_self _ _)
        (by simp)
        (by intro t ht
            simp only [List.head?_cons, Option.mem_def, Option.some.injEq] at ht
            subst ht
            rw [List.drop_zero, hs0]; exact List.mem_cons_self _ _)
      simp only [clique_weight, List.map_cons, List.map_nil, List.sum_cons,
        List.sum_nil] at this ⊢
      omega
    · have := hB T hT.2 hTc
        (by
          intro hnil
          by_contra hne
          exact hcase ⟨hnil, hne⟩)
        (by
          intro t ht
          rw [List.drop_zero]
          apply hTc
          cases T with
          | nil => simp at ht
          | cons t' T'' =>
            simp only [List.head?_cons, Option.mem_def, Option.some.injEq] at ht
            subst ht
            exact List.mem_cons_self _ _)
      simpa [clique_weight] using this

/-- The loop over the start clusters of `combine_clusters`: with enough fuel it
returns, and `best_score` ends as the weight of a clique (or 0) that covers
every clique. -/
theorem combine_outer_spec (cl : List Cluster) (hshape : merge_shape cl)
    (hpfc : points_from_compatible_covers cl)
    (hfit : ∀ c ∈ cl, c.points_from_compatible < 4294967296) :
    ∀ (rest pre : List Cluster) (b : Nat), cl = pre ++ rest →
      (b = 0 ∨ ∃ s ∈ cliques cl, clique_weight cl s = b) →
      (∀ s ∈ cliques cl, (∀ h ∈ s.head?, h < pre.length) → clique_weight cl s ≤ b) →
      ∃ N b',
        (∀ fuel, N ≤ fuel → combine_outer fuel cl rest pre.length b = .ok b') ∧
        (b' = 0 ∨ ∃ s ∈ cliques cl, clique_weight cl s = b') ∧
        (∀ s ∈ cliques cl, clique_weight cl s ≤ b') := by
  intro rest
  induction rest with
  | nil =>
    intro pre b hcl hA hB
    refine ⟨0, b, fun _ _ => rfl, hA, ?_⟩
    intro s hs
    apply hB s hs
    intro h hh
    have hlt := ((mem_cliques cl s).mp hs).2 h (List.mem_of_mem_head? hh)
    rw [hcl] at hlt
    simpa using hlt
  | cons cluster rest ih =>
    intro pre b hcl hA hB
    have hc : cl[pre.length]? = some cluster := by
      rw [hcl, List.getElem?_append_right (le_refl _)]
      simp
    have hnext : cl = (pre ++ [cluster]) ++ rest := by rw [hcl]; simp
    have hlen : (pre ++ [cluster]).length = pre.length + 1 := by simp
    -- cliques that start at this cluster
    have hsplit : ∀ (b1 : Nat), b ≤ b1 →
        (∀ T, is_clique cl (pre.length :: T) = true → (∀ a ∈ T, a < cl.length) →
          clique_weight cl (pre.length :: T) ≤ b1) →
        ∀ s ∈ cliques cl, (∀ h ∈ s.head?, h < (pre ++ [cluster]).length) →
          clique_weight cl s ≤ b1 := by
      intro b1 hb1 hstart s hs hhead
      cases s with
      | nil => simp [clique_weight]
      | cons a T =>
        have ha := hhead a (by simp)
        rw [hlen] at ha
        rcases Nat.lt_or_ge a pre.length with h | h
        · exact le_trans (hB _ hs (by
            intro x hx
            simp only [List.head?_cons, Option.mem_def, Option.some.injEq] at hx
            omega)) hb1
        · have : a = pre.length := by omega
          subst this
          have hm := (mem_cliques cl _).mp hs
          exact hstart T hm.1 (fun x hx => hm.2 x (List.mem_cons_of_mem _ hx))
    unfold combine_outer
    by_cases hskip : b ≥ cluster.points_from_compatible
    · obtain ⟨N, b', hrun, hA', hB'⟩ := ih (pre ++ [cluster]) b hnext hA
        (hsplit b (le_refl _) (by
          intro T hT hTlt
          rw [clique_weight_cons]
          have hT' := (is_clique_cons cl _ _).mp hT
          have hTc : ∀ t ∈ T, t ∈ cluster.compatible := by
            intro t ht
            obtain ⟨_, c', hc', hin⟩ := (compatible_pair_iff cl _ _).mp (hT'.1 t ht)
            rw [hc] at hc'
            cases hc'
            exact hin
          have hw := clique_weight_le_of_subset cl T cluster.compatible
            ((is_clique_ascending cl T hT'.2).imp (fun h => Nat.ne_of_lt h)) hTc
          have hp := hpfc cluster (by rw [hcl]; simp)
          have hpts : cluster_points cl pre.length = cluster.points := by
            simp [cluster_points, hc]
          omega))
      refine ⟨N, b', ?_, hA', hB'⟩
      intro fuel hfuel
      simp only [hskip, if_true]
      have := hrun fuel hfuel
      rwa [hlen] at this
    · obtain ⟨N1, b1, hrun1, hle1, hA1, hB1⟩ :=
        combine_loop_start cl hshape pre.length cluster hc
          (lt_of_le_of_lt (hpfc cluster (by rw [hcl]; simp)) (hfit cluster (by rw [hcl]; simp))) b
      obtain ⟨N, b', hrun, hA', hB'⟩ := ih (pre ++ [cluster]) b1 hnext
        (by
          rcases hA1 with h | h
          · rw [h]; exact hA
          · exact Or.inr h)
        (hsplit b1 hle1 hB1)
      refine ⟨max N1 N, b', ?_, hA', hB'⟩
      intro fuel hfuel
      simp only [hskip, if_false]
      rw [hrun1 fuel (le_trans (le_max_left _ _) hfuel)]
      have := hrun fuel (le_trans (le_max_right _ _) hfuel)
      rwa [hlen] at this

/-- With enough fuel `combine_clusters` returns the maximum clique weight, on
cluster lists as `merge_compatible_clusters` leaves them. -/
theorem combine_clusters_eq_max (cl : List Cluster) (hshape : merge_shape cl)
    (hpfc : points_from_compatible_covers cl)
    (hfit : ∀ c ∈ cl, c.points_from_compatible < 4294967296) :
    ∃ N, ∀ fuel, N ≤ fuel → combine_clusters fuel cl = .ok (max_clique_weight cl) := by
  obtain ⟨N, b', hrun, hA, hB⟩ := combine_outer_spec cl hshape hpfc hfit cl [] 0 rfl
    (Or.inl rfl) (by
      intro s _ hhead
      cases s with
      | nil => simp [clique_weight]
      | cons a T => exact absurd (hhead a (by simp)) (by simp))
  refine ⟨N, fun fuel hfuel => ?_⟩
  unfold combine_clusters
  have := hrun fuel hfuel
  simp only [List.length_nil] at this
  rw [this, eq_max_clique_weight cl b' hA hB]

/-- C5 (amended). For every cluster list whose `compatible` lists have the
shape `merge_compatible_clusters` produces and whose `points_from_compatible`
(a 32-bit value) is at least the cluster's points plus the points of its
compatible clusters, the sum `merge_compatible_clusters` stores,
`combine_clusters` returns, given enough fuel, the maximum over all cliques of
the compatibility graph of the sum of the members' points. -/
theorem combine_clusters_max_clique (cl : List Cluster) (hshape : merge_shape cl)
    (hpfc : points_from_compatible_covers cl)
    (hfit : ∀ c ∈ cl, c.points_from_compatible < 4294967296) :
    ∃ N, ∀ fuel, N ≤ fuel → combine_clusters fuel cl = .ok (max_clique_weight cl) :=
  combine_clusters_eq_max cl hshape hpfc hfit

/-- C1. If the probe or the gallery has fewer than 10 minutiae, `match`
returns 0, whatever the edge lists, the format and the scratch contain. -/
theorem match_few_minutiae (fo : FloatOps) (gfuel cfuel : Nat) (pair_holder : PairHolder)
    (state : BozorthState) (probe_minutiae : List Minutia) (probe_edges : List Edge)
    (gallery_minutiae : List Minutia) (gallery_edges : List Edge) (format : Format)
    (h : probe_minutiae.length < 10 ∨ gallery_minutiae.length < 10) :
    match_templates fo gfuel cfuel pair_holder state probe_minutiae probe_edges
      gallery_minutiae gallery_edges format = .ok 0 := by
  unfold match_templates
  exact if_pos h

/-- C1, witness: a probe of nine minutiae against a gallery of ten. -/
theorem match_few_minutiae_witness :
    match_templates axis_ops 100 100 PairHolder.init BozorthState.init
      (sparse_template.take 9) [] one_edge_template [the_one_edge] Format.NistInternal = .ok 0 :=
  match_few_minutiae axis_ops 100 100 PairHolder.init BozorthState.init
    (sparse_template.take 9) [] one_edge_template [the_one_edge] Format.NistInternal
    (Or.inl (by decide))

/-- C2, the code at the failing input.  Ten minutiae 200 apart give no edge
(`find_edges` and `limit_edges` leave the list empty), and `match` on such a
template stops at the assertion `!probe_edges.empty()` of
`match_edges_into_pairs` instead of returning 0; with a non-empty probe edge
list it stops at the assertion `!gallery_edges.empty()`. -/
theorem match_empty_edges_fails :
    find_edges axis_ops sparse_template [] Format.NistInternal = .ok [] ∧
    limit_edges [] = .ok [] ∧
    match_templates axis_ops 100 100 PairHolder.init BozorthState.init
      sparse_template [] sparse_template [] Format.NistInternal = .error Fault.assertion ∧
    match_templates axis_ops 100 100 PairHolder.init BozorthState.init
      one_edge_template [the_one_edge] sparse_template [] Format.NistInternal
      = .error Fault.assertion := by
  decide

/-- C3, the code at the failing input.  A template of ten minutiae with a
single edge, matched against itself: the one probe edge is the last one and is
skipped, no pair is emitted, and `match` stops at the assertion
`!forward_.empty()` of `PairHolder::prepare` instead of returning 0. -/
theorem match_no_pairs_fails :
    find_edges axis_ops one_edge_template [] Format.NistInternal = .ok [the_one_edge] ∧
    limit_edges [the_one_edge] = .ok [the_one_edge] ∧
    match_edges_outer axis_ops one_edge_template one_edge_template [the_one_edge]
      [the_one_edge] 0 [] = .ok [] ∧
    match_templates axis_ops 100 100 PairHolder.init BozorthState.init
      one_edge_template [the_one_edge] one_edge_template [the_one_edge] Format.NistInternal
      = .error Fault.assertion := by
  decide

/-- C4. The result of `match` does not depend on what the `PairHolder` and the
`BozorthState` hold when the call starts: for any two initial contents, `match`
on the same minutiae, edge lists and format returns the same score. -/
theorem match_ignores_scratch (fo : FloatOps) (gfuel cfuel : Nat)
    (pair_holder pair_holder1 : PairHolder) (state state1 : BozorthState)
    (probe_minutiae : List Minutia) (probe_edges : List Edge)
    (gallery_minutiae : List Minutia) (gallery_edges : List Edge) (format : Format) :
    match_templates fo gfuel cfuel pair_holder state probe_minutiae probe_edges
      gallery_minutiae gallery_edges format =
    match_templates fo gfuel cfuel pair_holder1 state1 probe_minutiae probe_edges
      gallery_minutiae gallery_edges format := by
  rfl

/-! ## merge_compatible_clusters -/

/-- The inner loop of `merge_compatible_clusters` on aligned vectors: it
returns, appending an ascending list of later clusters and adding their points. -/
theorem merge_inner_spec (fo : FloatOps) (format : Format) (C : Clusters)
    (hal : C.aligned) (cluster : Nat) (hcl : cluster < C.size) :
    ∀ (count other pfo : Nat) (comp : List Nat), other + count = C.size → cluster < other →
      ∃ L, merge_inner fo format C cluster count other pfo comp
            = .ok (wrapped_points C.clusters pfo L, comp ++ L) ∧
        L.Pairwise (fun x y => x < y) ∧ ∀ l ∈ L, other ≤ l ∧ l < C.size := by
  intro count
  induction count with
  | zero =>
    intro other pfo comp _ _
    exact ⟨[], by simp [merge_inner, wrapped_points], List.Pairwise.nil, by simp⟩
  | succ count ih =>
    intro other pfo comp hsum hlt
    unfold Clusters.size at hcl hsum
    obtain ⟨ha, he⟩ := hal
    have ho : other < C.clusters.length := by omega
    unfold merge_inner
    rw [List.getElem?_eq_getElem (by omega : cluster < C.endpoints.length),
      List.getElem?_eq_getElem (by omega : other < C.endpoints.length),
      List.getElem?_eq_getElem (by omega : cluster < C.averages.length),
      List.getElem?_eq_getElem (by omega : other < C.averages.length),
      List.getElem?_eq_getElem ho]
    simp only
    have keep : ∀ pfo1 comp1, (∃ L, merge_inner fo format C cluster count (other + 1) pfo1 comp1
          = .ok (wrapped_points C.clusters pfo1 L, comp1 ++ L) ∧
        L.Pairwise (fun x y => x < y) ∧ ∀ l ∈ L, other + 1 ≤ l ∧ l < C.size) :=
      fun pfo1 comp1 => ih (other + 1) pfo1 comp1 (by unfold Clusters.size; omega) (by omega)
    split_ifs
    · obtain ⟨L, h1, h2, h3⟩ := keep pfo comp
      exact ⟨L, h1, h2, fun l hl => ⟨by have := (h3 l hl).1; omega, (h3 l hl).2⟩⟩
    · obtain ⟨L, h1, h2, h3⟩ := keep pfo comp
      exact ⟨L, h1, h2, fun l hl => ⟨by have := (h3 l hl).1; omega, (h3 l hl).2⟩⟩
    · obtain ⟨L, h1, h2, h3⟩ := keep (wrapU32 (pfo + C.clusters[other].points)) (comp ++ [other])
      refine ⟨other :: L, ?_, ?_, ?_⟩
      · rw [h1]
        simp [wrapped_points, cluster_points, List.getElem?_eq_getElem ho]
      · rw [List.pairwise_cons]
        exact ⟨fun l hl => by have := (h3 l hl).1; omega, h2⟩
      · intro l hl
        rcases List.mem_cons.mp hl with rfl | h
        · exact ⟨le_refl _, by unfold Clusters.size; omega⟩
        · exact ⟨by have := (h3 l h).1; omega, (h3 l h).2⟩

theorem wrapped_points_congr (X Y : List Cluster)
    (h : ∀ i, cluster_points X i = cluster_points Y i) (start : Nat) (l : List Nat) :
    wrapped_points X start l = wrapped_points Y start l := by
  unfold wrapped_points
  have : (fun acc i => wrapU32 (acc + cluster_points X i)) =
      (fun acc i => wrapU32 (acc + cluster_points Y i)) := by
    funext acc i; rw [h]
  rw [this]

theorem merged_at_congr (X Y : List Cluster) (a : Nat) (hlen : X.length = Y.length)
    (hget : X[a]? = Y[a]?) (hpts : ∀ i, cluster_points X i = cluster_points Y i)
    (h : merged_at X a) : merged_at Y a := by
  obtain ⟨c, h1, h2, h3, h4⟩ := h
  exact ⟨c, by rw [← hget]; exact h1, h2, fun b hb => by rw [← hlen]; exact h3 b hb,
    by rw [← wrapped_points_congr X Y hpts]; exact h4⟩

/-- The outer loop of `merge_compatible_clusters` on aligned vectors: it
returns, keeps the points, and leaves every cluster as `merged_at` describes. -/
theorem merge_outer_spec (fo : FloatOps) (format : Format) :
    ∀ (count cluster : Nat) (C : Clusters), C.aligned → cluster + count = C.size →
      (∀ a, a < cluster → merged_at C.clusters a) →
      ∃ C1, merge_outer fo format count cluster C = .ok C1 ∧ C1.aligned ∧
        C1.clusters.length = C.clusters.length ∧
        (∀ i, cluster_points C1.clusters i = cluster_points C.clusters i) ∧
        ∀ a, a < C.size → merged_at C1.clusters a := by
  intro count
  induction count with
  | zero =>
    intro cluster C hal hsum hdone
    refine ⟨C, rfl, hal, rfl, fun _ => rfl, ?_⟩
    intro a ha
    exact hdone a (by omega)
  | succ count ih =>
    intro cluster C hal hsum hdone
    have hcl : cluster < C.size := by omega
    obtain ⟨L, h1, h2, h3⟩ := merge_inner_spec fo format C hal cluster hcl
      (C.size - (cluster + 1)) (cluster + 1) 0 [] (by omega) (by omega)
    unfold merge_outer
    rw [h1]
    simp only [List.nil_append]
    have hcl' : cluster < C.clusters.length := hcl
    rw [List.getElem?_eq_getElem hcl']
    simp only
    -- the updated vectors
    generalize hnewc : Cluster.mk (C.clusters[cluster].points)
        (wrapU32 (C.clusters[cluster].points + wrapped_points C.clusters 0 L)) L = newc
    have hnp : newc.points = C.clusters[cluster].points := by rw [← hnewc]
    have hnc : newc.compatible = L := by rw [← hnewc]
    have hnf : newc.points_from_compatible =
        wrapU32 (newc.points + wrapped_points C.clusters 0 newc.compatible) := by
      rw [← hnewc]
    have hpts : ∀ i, cluster_points (C.clusters.set cluster newc) i
        = cluster_points C.clusters i := by
      intro i
      unfold cluster_points
      by_cases hi : cluster = i
      · subst hi
        rw [List.getElem?_set_self hcl', List.getElem?_eq_getElem hcl']
        exact hnp
      · rw [List.getElem?_set_ne hi]
    obtain ⟨C1, r1, r2, r3, r4, r5⟩ := ih (cluster + 1)
      { C with clusters := C.clusters.set cluster newc }
      (by
        obtain ⟨ha, he⟩ := hal
        exact ⟨by simpa [List.length_set] using ha, by simpa [List.length_set] using he⟩)
      (by simp only [Clusters.size, List.length_set]; unfold Clusters.size at hsum; omega)
      (by
        intro a ha
        rcases Nat.lt_or_ge a cluster with h | h
        · exact merged_at_congr C.clusters _ a (by simp [List.length_set])
            (by simp only; rw [List.getElem?_set_ne (by omega)])
            (fun i => (hpts i).symm) (hdone a h)
        · have : a = cluster := by omega
          subst this
          refine ⟨newc, by simp only; exact List.getElem?_set_self hcl', by rw [hnc]; exact h2,
            ?_, ?_⟩
          · intro b hb
            rw [hnc] at hb
            simp only [List.length_set]
            exact ⟨by have := (h3 b hb).1; omega, (h3 b hb).2⟩
          · simp only
            rw [wrapped_points_congr _ C.clusters hpts]
            exact hnf)
    refine ⟨C1, r1, r2, by rw [r3]; simp [List.length_set], ?_, ?_⟩
    · intro i; rw [r4 i]; exact hpts i
    · intro a ha
      exact r5 a (by simpa [Clusters.size, List.length_set] using ha)

theorem wrapped_points_eq (cl : List Cluster) : ∀ (l : List Nat) (start : Nat),
    start + clique_weight cl l < 4294967296 →
    wrapped_points cl start l = start + clique_weight cl l := by
  intro l
  induction l with
  | nil => intro start _; simp [wrapped_points, clique_weight]
  | cons a l ih =>
    intro start h
    rw [clique_weight_cons] at h ⊢
    have h1 : wrapped_points cl start (a :: l) =
        wrapped_points cl (wrapU32 (start + cluster_points cl a)) l := rfl
    rw [h1, wrapU32_eq_self (by omega), ih _ (by omega)]
    omega

/-- What `merge_compatible_clusters` leaves, when the points of all clusters
add up to less than `2^32`: lists of the shape `merge_shape`, and
`points_from_compatible` equal to the exact sums. -/
theorem merged_at_exact (cl : List Cluster)
    (htotal : clique_weight cl (List.range cl.length) < 4294967296)
    (hm : ∀ a, a < cl.length → merged_at cl a) :
    merge_shape cl ∧ points_from_compatible_covers cl ∧
      ∀ c ∈ cl, c.points_from_compatible < 4294967296 := by
  have key : ∀ a c, cl[a]? = some c →
      c.compatible.Pairwise (fun x y => x < y) ∧
      (∀ b ∈ c.compatible, a < b ∧ b < cl.length) ∧
      c.points_from_compatible = c.points + clique_weight cl c.compatible ∧
      c.points + clique_weight cl c.compatible < 4294967296 := by
    intro a c hc
    have ha : a < cl.length := by
      by_contra h
      rw [List.getElem?_eq_none (by omega)] at hc
      exact absurd hc (by simp)
    obtain ⟨c1, e1, e2, e3, e4⟩ := hm a ha
    rw [hc] at e1
    cases e1
    have hw : clique_weight cl (a :: c.compatible) ≤ clique_weight cl (List.range cl.length) := by
      apply clique_weight_le_of_subset
      · rw [List.nodup_cons]
        refine ⟨?_, e2.imp (fun h => Nat.ne_of_lt h)⟩
        intro hmem
        have := (e3 a hmem).1
        omega
      · intro x hx
        rcases List.mem_cons.mp hx with rfl | h
        · exact List.mem_range.mpr ha
        · exact List.mem_range.mpr (e3 x h).2
    rw [clique_weight_cons] at hw
    have hp : cluster_points cl a = c.points := by simp [cluster_points, hc]
    rw [hp] at hw
    have hwp := wrapped_points_eq cl c.compatible 0 (by omega)
    rw [hwp, Nat.zero_add, wrapU32_eq_self (by omega)] at e4
    exact ⟨e2, e3, e4, by omega⟩
  refine ⟨?_, ?_, ?_⟩
  · intro p hp
    have := key p.1 p.2 (List.mk_mem_enum_iff_getElem?.mp hp)
    exact ⟨this.1, this.2.1⟩
  · intro c hc
    obtain ⟨a, ha, rfl⟩ := List.getElem_of_mem hc
    have := key a _ (List.getElem?_eq_getElem ha)
    omega
  · intro c hc
    obtain ⟨a, ha, rfl⟩ := List.getElem_of_mem hc
    have := key a _ (List.getElem?_eq_getElem ha)
    omega

/-! ## match_score -/

theorem push_back_aligned (c : Clusters) (h : c.aligned) (cluster : Cluster)
    (average : ClusterAverages) (endpoint : ClusterEndpoints) :
    (c.push_back cluster average endpoint).aligned := by
  obtain ⟨h1, h2⟩ := h
  constructor <;> simp [Clusters.push_back, h1, h2]

theorem commit_cluster_aligned (fo : FloatOps) (pair_holder : PairHolder)
    (pm gm : List Minutia) (state state1 : BozorthState)
    (h : commit_cluster fo pair_holder pm gm state = .ok state1)
    (hal : state.clusters.aligned) : state1.clusters.aligned := by
  unfold commit_cluster at h
  split at h
  · cases h
  · split_ifs at h
    · split at h
      · cases h
      · cases h; exact hal
    · split at h
      · cases h; exact push_back_aligned _ hal _ _ _
      all_goals cases h

theorem grow_cluster_loop_aligned (fo : FloatOps) (gfuel : Nat) (pair_holder : PairHolder)
    (pm gm : List Minutia) (pair_index : Nat) :
    ∀ (fuel : Nat) (state state1 : BozorthState),
      grow_cluster_loop fo gfuel pair_holder pm gm pair_index fuel state = .ok state1 →
      state.clusters.aligned → state1.clusters.aligned := by
  intro fuel
  induction fuel with
  | zero => intro state state1 h _; simp [grow_cluster_loop] at h
  | succ fuel ih =>
    intro state state1 h hal
    unfold grow_cluster_loop at h
    simp only at h
    split at h
    · cases h
    · rename_i r hr
      split at h
      · cases h
      · rename_i st1 hst1
        have hal1 := commit_cluster_aligned fo pair_holder pm gm _ st1 hst1 hal
        split_ifs at h
        · cases h; exact hal1
        · split at h
          · cases h
          · split at h
            · cases h
            · cases h; exact hal1
            · exact ih _ _ h hal1

theorem grow_clusters_aligned (fo : FloatOps) (gfuel : Nat) (pair_holder : PairHolder)
    (pm gm : List Minutia) :
    ∀ (count pair_index : Nat) (state state1 : BozorthState),
      grow_clusters fo gfuel pair_holder pm gm count pair_index state = .ok state1 →
      state.clusters.aligned → state1.clusters.aligned := by
  intro count
  induction count with
  | zero => intro pair_index state state1 h hal; simp [grow_clusters] at h; rw [← h]; exact hal
  | succ count ih =>
    intro pair_index state state1 h hal
    unfold grow_clusters at h
    split at h
    · cases h
    · exact ih _ _ _ h hal
    · split at h
      · cases h
      · split at h
        · cases h
        · split at h
          · cases h
          · rename_i st1 hst1
            have hal1 := grow_cluster_loop_aligned fo gfuel pair_holder pm gm pair_index _ _ _
              hst1 hal
            split_ifs at h
            · cases h; exact hal1
            · split at h
              · cases h
              · exact ih _ _ _ h hal1

theorem foldl_max_ge (cl : List Cluster) : ∀ (m0 : Nat),
    m0 ≤ cl.foldl (fun m c => max m c.points_from_compatible) m0 ∧
    ∀ c ∈ cl, c.points_from_compatible ≤ cl.foldl (fun m c => max m c.points_from_compatible) m0 := by
  induction cl with
  | nil => intro m0; exact ⟨le_refl _, by simp⟩
  | cons a l ih =>
    intro m0
    rw [List.foldl_cons]
    obtain ⟨h1, h2⟩ := ih (max m0 a.points_from_compatible)
    refine ⟨le_trans (le_max_left _ _) h1, ?_⟩
    intro c hc
    rcases List.mem_cons.mp hc with rfl | h
    · exact le_trans (le_max_right _ _) h1
    · exact h2 c h

/-- Every clique weighs at most the `points_from_compatible` of its smallest
member, hence at most the maximum `points_from_compatible`. -/
theorem max_clique_weight_le (cl : List Cluster)
    (hpfc : points_from_compatible_covers cl) :
    max_clique_weight cl ≤ max_points_from_compatible cl := by
  unfold max_clique_weight
  apply foldr_max_le
  intro x hx
  obtain ⟨s, hs, rfl⟩ := List.mem_map.mp hx
  obtain ⟨hclique, hlt⟩ := (mem_cliques cl s).mp hs
  cases s with
  | nil => simp [clique_weight]
  | cons a T =>
    have ha := hlt a (List.mem_cons_self _ _)
    have hc : cl[a]? = some cl[a] := List.getElem?_eq_getElem ha
    rw [is_clique_cons] at hclique
    have hTc : ∀ t ∈ T, t ∈ cl[a].compatible := by
      intro t ht
      obtain ⟨_, c', hc', hin⟩ := (compatible_pair_iff cl _ _).mp (hclique.1 t ht)
      rw [hc] at hc'
      cases hc'
      exact hin
    have hw := clique_weight_le_of_subset cl T cl[a].compatible
      ((is_clique_ascending cl T hclique.2).imp (fun h => Nat.ne_of_lt h)) hTc
    have hp := hpfc cl[a] (List.getElem_mem _)
    have hpts : cluster_points cl a = cl[a].points := by simp [cluster_points, hc]
    have hmax := (foldl_max_ge cl 0).2 cl[a] (List.getElem_mem _)
    rw [clique_weight_cons]
    unfold max_points_from_compatible
    omega

/-- C6 (amended). When cluster growth returns for a non-empty pair holder and
the points of the clusters it found add up to less than `2^32`, `match_score`
returns, given enough fuel for `combine_clusters`; the returned value is
exactly the maximum `points_from_compatible` over the clusters when that is
below `SCORE_THRESHOLD`, and otherwise it is the maximum clique weight, which
is at most that maximum. -/
theorem match_score_at_most_max (fo : FloatOps) (gfuel : Nat) (holder : PairHolder)
    (state : BozorthState) (probe_minutiae gallery_minutiae : List Minutia) (format : Format)
    (grown : BozorthState) (hne : holder.empty = false)
    (hgrow : grow_clusters fo gfuel holder probe_minutiae gallery_minutiae
      (holder.pairs.length - 1) 0 state.clear = .ok grown)
    (htotal : clique_weight grown.clusters.clusters (List.range grown.clusters.size)
      < 4294967296) :
    ∃ N, ∀ cfuel, N ≤ cfuel → ∃ score final,
      match_score fo gfuel cfuel holder state probe_minutiae gallery_minutiae format
        = .ok (score, final) ∧
      (max_points_from_compatible final.clusters.clusters < SCORE_THRESHOLD →
        score = max_points_from_compatible final.clusters.clusters) ∧
      (SCORE_THRESHOLD ≤ max_points_from_compatible final.clusters.clusters →
        score = max_clique_weight final.clusters.clusters ∧
        score ≤ max_points_from_compatible final.clusters.clusters) := by
  have hal : grown.clusters.aligned :=
    grow_clusters_aligned fo gfuel holder probe_minutiae gallery_minutiae _ _ _ _ hgrow
      ⟨rfl, rfl⟩
  obtain ⟨merged, m1, m2, m3, m4, m5⟩ := merge_outer_spec fo format grown.clusters.size 0
    grown.clusters hal (by omega) (fun a ha => absurd ha (Nat.not_lt_zero a))
  have htotal' : clique_weight merged.clusters (List.range merged.clusters.length)
      < 4294967296 := by
    have : clique_weight merged.clusters (List.range merged.clusters.length) =
        clique_weight grown.clusters.clusters (List.range grown.clusters.size) := by
      unfold clique_weight Clusters.size
      rw [m3]
      congr 1
      apply List.map_congr_left
      intro i _
      exact m4 i
    rw [this]; exact htotal
  obtain ⟨hshape, hpfc, hfit⟩ := merged_at_exact merged.clusters htotal'
    (fun a ha => m5 a (by unfold Clusters.size; rw [← m3]; exact ha))
  obtain ⟨N, hN⟩ := combine_clusters_eq_max merged.clusters hshape hpfc hfit
  refine ⟨N, fun cfuel hc => ?_⟩
  have hms : match_score fo gfuel cfuel holder state probe_minutiae gallery_minutiae format =
      score_clusters fo cfuel format grown := by
    unfold match_score match_score_format
    simp only [hne, Bool.false_eq_true, if_false]
    rw [hgrow]
  have hmerge : merge_compatible_clusters fo format grown.clusters = .ok merged := m1
  by_cases hlow : max_points_from_compatible merged.clusters < SCORE_THRESHOLD
  · refine ⟨max_points_from_compatible merged.clusters, { grown with clusters := merged }, ?_,
      fun _ => rfl, fun h => absurd hlow (by simp only at h; omega)⟩
    rw [hms]
    unfold score_clusters
    rw [hmerge]
    simp only [hlow, if_true]
  · refine ⟨max_clique_weight merged.clusters, { grown with clusters := merged }, ?_,
      fun h => absurd h hlow, fun _ => ⟨rfl, max_clique_weight_le merged.clusters hpfc⟩⟩
    rw [hms]
    unfold score_clusters
    rw [hmerge]
    simp only [hlow, if_false]
    rw [hN cfuel hc]

theorem ok_and_elim {α : Type} (r : Except Fault α) (p : α → Bool) (h : ok_and r p = true) :
    ∃ a, r = .ok a ∧ p a = true := by
  cases r with
  | error f => simp [ok_and] at h
  | ok a => exact ⟨a, rfl, h⟩

/-- C5, witness: the theorem applied to `three_clusters`. -/
theorem combine_clusters_max_clique_witness :
    ∃ N, ∀ fuel, N ≤ fuel →
      combine_clusters fuel three_clusters = .ok (max_clique_weight three_clusters) :=
  combine_clusters_max_clique three_clusters (by decide) (by decide) (by decide)

set_option maxRecDepth 100000 in
/-- C6, counterexample.  On the prepared holder of `three_star_pairs`,
`match_score` finds three clusters of 3 points; the maximum
`points_from_compatible` is 9, at least `SCORE_THRESHOLD`, and the returned
score is 6, below that maximum. -/
theorem match_score_below_max :
    (prepared_holder three_star_pairs).empty = false ∧
    score_and_clusters (match_score axis_ops 100 100 (prepared_holder three_star_pairs)
      BozorthState.init row_template row_template Format.NistInternal)
      = .ok (6, three_clusters) ∧
    max_points_from_compatible three_clusters = 9 ∧
    SCORE_THRESHOLD ≤ max_points_from_compatible three_clusters ∧
    ¬ (max_points_from_compatible three_clusters ≤ 6) := by
  decide

set_option maxRecDepth 100000 in
/-- C6, witness: the amended statement applied to the prepared holder of
`three_star_pairs`. -/
theorem match_score_at_most_max_witness :
    ∃ N, ∀ cfuel, N ≤ cfuel → ∃ score final,
      match_score axis_ops 100 cfuel (prepared_holder three_star_pairs) BozorthState.init
        row_template row_template Format.NistInternal = .ok (score, final) ∧
      (max_points_from_compatible final.clusters.clusters < SCORE_THRESHOLD →
        score = max_points_from_compatible final.clusters.clusters) ∧
      (SCORE_THRESHOLD ≤ max_points_from_compatible final.clusters.clusters →
        score = max_clique_weight final.clusters.clusters ∧
        score ≤ max_points_from_compatible final.clusters.clusters) :=
  (ok_and_elim
    (grow_clusters axis_ops 100 (prepared_holder three_star_pairs) row_template row_template
      ((prepared_holder three_star_pairs).pairs.length - 1) 0 BozorthState.init.clear)
    (fun grown => decide (clique_weight grown.clusters.clusters
      (List.range grown.clusters.size) < 4294967296))
    (by decide)).elim
    (fun grown h =>
      match_score_at_most_max axis_ops 100 (prepared_holder three_star_pairs)
        BozorthState.init row_template row_template Format.NistInternal grown (by decide) h.1
        (of_decide_eq_true h.2))

/-! ## match_edges_into_pairs -/

/-- Every pair that the inner loop of `match_edges_into_pairs` appends is the
pair built from the probe edge and one of the gallery edges. -/
theorem match_edges_inner_mem (fo : FloatOps) (pm gm : List Minutia) (probe : Edge) :
    ∀ (rest : List Edge) (j start : Nat) (pairs : List Pair) (r : Nat × List Pair),
      match_edges_inner fo pm gm probe j rest start pairs = .ok r →
      ∃ new, r.2 = pairs ++ new ∧
        ∀ p ∈ new, ∃ g ∈ rest, make_pair pm gm probe g = .ok p := by
  intro rest
  induction rest with
  | nil =>
    intro j start pairs r h
    simp only [match_edges_inner, Except.ok.injEq] at h
    exact ⟨[], by rw [← h]; simp, by simp⟩
  | cons g rest ih =>
    intro j start pairs r h
    unfold match_edges_inner at h
    dsimp only at h
    have lift : ∀ (new0 : List Pair) {pairs1 : List Pair}, pairs1 = pairs ++ new0 →
        (∀ p ∈ new0, ∃ g1 ∈ g :: rest, make_pair pm gm probe g1 = .ok p) →
        (∃ new, r.2 = pairs1 ++ new ∧ ∀ p ∈ new, ∃ g1 ∈ rest, make_pair pm gm probe g1 = .ok p) →
        ∃ new, r.2 = pairs ++ new ∧
          ∀ p ∈ new, ∃ g1 ∈ g :: rest, make_pair pm gm probe g1 = .ok p := by
      intro new0 pairs1 h1 h0 ⟨new, h2, h3⟩
      refine ⟨new0 ++ new, by rw [h2, h1, List.append_assoc], ?_⟩
      intro p hp
      rcases List.mem_append.mp hp with hp1 | hp1
      · exact h0 p hp1
      · obtain ⟨g1, hg1, hm⟩ := h3 p hp1
        exact ⟨g1, List.mem_cons_of_mem _ hg1, hm⟩
    split_ifs at h
    · exact lift [] (by simp) (by simp) (ih _ _ _ _ h)
    · simp only [Except.ok.injEq] at h
      exact ⟨[], by rw [← h]; simp, by simp⟩
    · exact lift [] (by simp) (by simp) (ih _ _ _ _ h)
    · split at h
      · cases h
      · rename_i pair hpair
        exact lift [pair] rfl
          (by
            intro p hp
            rw [List.mem_singleton] at hp
            subst hp
            exact ⟨g, List.mem_cons_self _ _, hpair⟩)
          (ih _ _ _ _ h)

/-- Every pair that `match_edges_into_pairs` emits is the pair built from a
probe edge and a gallery edge. -/
theorem match_edges_outer_mem (fo : FloatOps) (pm gm : List Minutia) (G : List Edge) :
    ∀ (P : List Edge) (start : Nat) (pairs out : List Pair),
      match_edges_outer fo pm gm G P start pairs = .ok out →
      ∃ new, out = pairs ++ new ∧
        ∀ p ∈ new, ∃ probe ∈ P, ∃ g ∈ G, make_pair pm gm probe g = .ok p := by
  intro P
  induction P with
  | nil =>
    intro start pairs out h
    simp only [match_edges_outer, Except.ok.injEq] at h
    exact ⟨[], by rw [← h]; simp, by simp⟩
  | cons probe rest ih =>
    intro start pairs out h
    cases rest with
    | nil =>
      simp only [match_edges_outer, Except.ok.injEq] at h
      exact ⟨[], by rw [← h]; simp, by simp⟩
    | cons next rest =>
      unfold match_edges_outer at h
      split at h
      · cases h
      · rename_i r hr
        obtain ⟨new1, h1, h2⟩ := match_edges_inner_mem fo pm gm probe _ _ _ _ _ hr
        obtain ⟨new2, h3, h4⟩ := ih _ _ _ h
        refine ⟨new1 ++ new2, by rw [h3, h1, List.append_assoc], ?_⟩
        intro p hp
        rcases List.mem_append.mp hp with hp1 | hp1
        · obtain ⟨g, hg, hm⟩ := h2 p hp1
          exact ⟨probe, List.mem_cons_self _ _, g, List.mem_of_mem_drop hg, hm⟩
        · obtain ⟨q, hq, g, hg, hm⟩ := h4 p hp1
          exact ⟨q, List.mem_cons_of_mem _ hq, g, hg, hm⟩

theorem foldl_add_forward (emitted : List Pair) : ∀ (h : PairHolder),
    (emitted.foldl PairHolder.add h).forward_ = h.forward_ ++ emitted := by
  induction emitted with
  | nil => intro h; simp
  | cons p rest ih =>
    intro h
    rw [List.foldl_cons, ih]
    simp [PairHolder.add]

/-- What a returning run of `match_edges_into_pairs` adds to the holder: the
pairs of the double loop, each built from a probe edge and a gallery edge. -/
theorem match_edges_into_pairs_emitted (fo : FloatOps) (P : List Edge) (pm : List Minutia)
    (G : List Edge) (gm : List Minutia) (h h1 : PairHolder)
    (hrun : match_edges_into_pairs fo P pm G gm h = .ok h1) :
    ∃ emitted, match_edges_outer fo pm gm G P 0 [] = .ok emitted ∧
      h1.forward_ = h.forward_ ++ emitted ∧
      ∀ p ∈ emitted, ∃ probe ∈ P, ∃ g ∈ G, make_pair pm gm probe g = .ok p := by
  unfold match_edges_into_pairs at hrun
  split_ifs at hrun
  split at hrun
  · cases hrun
  · rename_i emitted hem
    simp only [Except.ok.injEq] at hrun
    obtain ⟨new, h2, h3⟩ := match_edges_outer_mem fo pm gm G P 0 [] emitted hem
    rw [List.nil_append] at h2
    refine ⟨emitted, hem, by rw [← hrun, foldl_add_forward], ?_⟩
    rw [h2]; exact h3

theorem make_pair_fields (pm gm : List Minutia) (probe g : Edge) (p : Pair)
    (h : make_pair pm gm probe g = .ok p) :
    ∃ mpk mpj mgk mgj, pm[p.probe_k]? = some mpk ∧ pm[p.probe_j]? = some mpj ∧
      gm[p.gallery_k]? = some mgk ∧ gm[p.gallery_j]? = some mgj ∧
      p.points = pair_points mpk.kind mpj.kind mgk.kind mgj.kind ∧
      p.probe_k = probe.endpoint_k ∧ p.probe_j = probe.endpoint_j ∧
      p.gallery_k = (if probe.beta_order ≠ g.beta_order then g.endpoint_j else g.endpoint_k) ∧
      p.gallery_j = (if probe.beta_order ≠ g.beta_order then g.endpoint_k else g.endpoint_j) ∧
      p.delta_theta = normalize_angle
        (if probe.beta_order ≠ g.beta_order
          then wrap32 (wrap32 (probe.theta_kj - g.theta_kj) - 180)
          else wrap32 (probe.theta_kj - g.theta_kj)) := by
  unfold make_pair at h
  dsimp only at h
  split at h
  · rename_i mpk mpj mgk mgj h1 h2 h3 h4
    simp only [Except.ok.injEq] at h
    subst h
    exact ⟨mpk, mpj, mgk, mgj, h1, h2, h3, h4, rfl, rfl, rfl, rfl, rfl, rfl⟩
  · cases h

theorem pair_points_eq_spec (a b c d : Option MinutiaKind) :
    pair_points a b c d = spec_points a b c d ∧
    (pair_points a b c d = 1 ∨ pair_points a b c d = 2 ∨ pair_points a b c d = 3) := by
  cases a <;> cases b <;> cases c <;> cases d <;>
    first
    | exact ⟨rfl, Or.inl rfl⟩
    | (rename_i a b c d; cases a <;> cases b <;> cases c <;> cases d <;> decide)

/-- C12. Every pair that `match_edges_into_pairs` emits has `points = 1` if
the kind of any of its four minutiae is unknown, and otherwise 1 plus the
number of the two comparisons `kind(probe_k) = kind(gallery_k)`,
`kind(probe_j) = kind(gallery_j)` that hold; so `points` is 1, 2 or 3. -/
theorem emitted_pair_points (fo : FloatOps) (P : List Edge) (pm : List Minutia)
    (G : List Edge) (gm : List Minutia) (h h1 : PairHolder)
    (hrun : match_edges_into_pairs fo P pm G gm h = .ok h1) :
    ∃ emitted, h1.forward_ = h.forward_ ++ emitted ∧
      ∀ p ∈ emitted, ∃ mpk mpj mgk mgj,
        pm[p.probe_k]? = some mpk ∧ pm[p.probe_j]? = some mpj ∧
        gm[p.gallery_k]? = some mgk ∧ gm[p.gallery_j]? = some mgj ∧
        p.points = spec_points mpk.kind mpj.kind mgk.kind mgj.kind ∧
        (p.points = 1 ∨ p.points = 2 ∨ p.points = 3) := by
  obtain ⟨emitted, _, h2, h3⟩ := match_edges_into_pairs_emitted fo P pm G gm h h1 hrun
  refine ⟨emitted, h2, ?_⟩
  intro p hp
  obtain ⟨probe, _, g, _, hm⟩ := h3 p hp
  obtain ⟨mpk, mpj, mgk, mgj, e1, e2, e3, e4, e5, _⟩ := make_pair_fields pm gm probe g p hm
  have := pair_points_eq_spec mpk.kind mpj.kind mgk.kind mgj.kind
  exact ⟨mpk, mpj, mgk, mgj, e1, e2, e3, e4, by rw [e5]; exact this.1, by rw [e5]; exact this.2⟩

/-! ## Kinds only decide the points -/

theorem make_pair_remove_kinds (pm gm : List Minutia) (probe g : Edge) :
    make_pair (remove_kinds pm) (remove_kinds gm) probe g
      = Except.map with_one_point (make_pair pm gm probe g) := by
  unfold make_pair remove_kinds
  dsimp only
  simp only [List.getElem?_map]
  cases pm[probe.endpoint_k]? <;> cases pm[probe.endpoint_j]? <;>
    cases gm[if probe.beta_order ≠ g.beta_order then g.endpoint_j else g.endpoint_k]? <;>
    cases gm[if probe.beta_order ≠ g.beta_order then g.endpoint_k else g.endpoint_j]? <;>
    rfl

theorem match_edges_inner_remove_kinds (fo : FloatOps) (pm gm : List Minutia) (probe : Edge) :
    ∀ (rest : List Edge) (j start : Nat) (pairs : List Pair),
      match_edges_inner fo (remove_kinds pm) (remove_kinds gm) probe j rest start
          (pairs.map with_one_point)
        = Except.map (fun r => (r.1, r.2.map with_one_point))
            (match_edges_inner fo pm gm probe j rest start pairs) := by
  intro rest
  induction rest with
  | nil => intro j start pairs; rfl
  | cons g rest ih =>
    intro j start pairs
    unfold match_edges_inner
    dsimp only
    split_ifs
    · exact ih _ _ _
    · rfl
    · exact ih _ _ _
    · rw [make_pair_remove_kinds]
      cases hm : make_pair pm gm probe g with
      | error f => rfl
      | ok pair =>
        have := ih (j + 1) start (pairs ++ [pair])
        rw [List.map_append, List.map_singleton] at this
        exact this

theorem match_edges_outer_remove_kinds (fo : FloatOps) (pm gm : List Minutia) (G : List Edge) :
    ∀ (P : List Edge) (start : Nat) (pairs : List Pair),
      match_edges_outer fo (remove_kinds pm) (remove_kinds gm) G P start
          (pairs.map with_one_point)
        = Except.map (List.map with_one_point)
            (match_edges_outer fo pm gm G P start pairs) := by
  intro P
  induction P with
  | nil => intro start pairs; rfl
  | cons probe rest ih =>
    intro start pairs
    cases rest with
    | nil => rfl
    | cons next rest =>
      unfold match_edges_outer
      rw [match_edges_inner_remove_kinds]
      cases hr : match_edges_inner fo pm gm probe start (List.drop start G) start pairs with
      | error f => rfl
      | ok r => exact ih _ _

/-- C13. Kinds influence only `Pair.points`: run on the same templates with
every kind removed, `match_edges_into_pairs` emits the same sequence of pairs
(same endpoints, same `delta_theta`, same order) with every `points` equal to
1, and stops at the same fault when the run with kinds does. -/
theorem kinds_only_change_points (fo : FloatOps) (P : List Edge) (pm : List Minutia)
    (G : List Edge) (gm : List Minutia) (h : PairHolder) :
    emitted_pairs (match_edges_into_pairs fo P (remove_kinds pm) G (remove_kinds gm) h.clear)
      = Except.map (List.map with_one_point)
          (emitted_pairs (match_edges_into_pairs fo P pm G gm h.clear)) := by
  unfold match_edges_into_pairs
  split_ifs
  · rfl
  · rfl
  · have := match_edges_outer_remove_kinds fo pm gm G P 0 []
    rw [List.map_nil] at this
    rw [this]
    cases match_edges_outer fo pm gm G P 0 [] with
    | error f => rfl
    | ok emitted =>
      simp only [Except.map, emitted_pairs, foldl_add_forward, PairHolder.clear,
        List.nil_append]

/-! ## The rotation of a pair -/

theorem make_pair_delta_theta (pm gm : List Minutia) (probe g : Edge) (p : Pair)
    (h : make_pair pm gm probe g = .ok p)
    (hp : -90 ≤ probe.theta_kj ∧ probe.theta_kj ≤ 90)
    (hg : -90 ≤ g.theta_kj ∧ g.theta_kj ≤ 90) :
    -180 < p.delta_theta ∧ p.delta_theta ≤ 180 ∧
      (p.delta_theta - (probe.theta_kj - g.theta_kj
        - (if probe.beta_order ≠ g.beta_order then 180 else 0))) % 360 = 0 := by
  obtain ⟨_, _, _, _, _, _, _, _, _, _, _, _, _, hd⟩ := make_pair_fields pm gm probe g p h
  rw [hd]
  have w1 : wrap32 (probe.theta_kj - g.theta_kj) = probe.theta_kj - g.theta_kj :=
    wrap32_eq_self (by omega) (by omega)
  have w2 : wrap32 (probe.theta_kj - g.theta_kj - 180) = probe.theta_kj - g.theta_kj - 180 :=
    wrap32_eq_self (by omega) (by omega)
  rw [w1, w2]
  unfold normalize_angle
  split_ifs <;> omega

/-- C14. For probe and gallery edges whose `theta_kj` lies in `[-90, 90]`,
every pair that `match_edges_into_pairs` emits is built from a probe edge and
a gallery edge, has `delta_theta` in `(-180, 180]`, and its `delta_theta` is
congruent modulo 360 to `P.theta_kj - G.theta_kj`, minus 180 when the
`beta_order` of the two edges differ. -/
theorem emitted_delta_theta (fo : FloatOps) (P : List Edge) (pm : List Minutia)
    (G : List Edge) (gm : List Minutia) (h h1 : PairHolder)
    (hP : ∀ e ∈ P, -90 ≤ e.theta_kj ∧ e.theta_kj ≤ 90)
    (hG : ∀ e ∈ G, -90 ≤ e.theta_kj ∧ e.theta_kj ≤ 90)
    (hrun : match_edges_into_pairs fo P pm G gm h = .ok h1) :
    ∃ emitted, h1.forward_ = h.forward_ ++ emitted ∧
      ∀ p ∈ emitted, ∃ probe ∈ P, ∃ g ∈ G, make_pair pm gm probe g = .ok p ∧
        -180 < p.delta_theta ∧ p.delta_theta ≤ 180 ∧
        (p.delta_theta - (probe.theta_kj - g.theta_kj
          - (if probe.beta_order ≠ g.beta_order then 180 else 0))) % 360 = 0 := by
  obtain ⟨emitted, _, h2, h3⟩ := match_edges_into_pairs_emitted fo P pm G gm h h1 hrun
  refine ⟨emitted, h2, ?_⟩
  intro p hp
  obtain ⟨probe, hprobe, g, hg, hm⟩ := h3 p hp
  exact ⟨probe, hprobe, g, hg, hm,
    make_pair_delta_theta pm gm probe g p hm (hP probe hprobe) (hG g hg)⟩

/-! ## The moving start index and the early break -/

theorem plain_inner_no_match (pm gm : List Minutia) (probe : Edge) :
    ∀ (l : List Edge) (pairs : List Pair), (∀ g ∈ l, edges_match probe g = false) →
      plain_inner pm gm probe l pairs = .ok pairs := by
  intro l
  induction l with
  | nil => intro pairs _; rfl
  | cons g rest ih =>
    intro pairs h
    unfold plain_inner
    rw [h g (List.mem_cons_self _ _)]
    exact ih pairs (fun x hx => h x (List.mem_cons_of_mem _ hx))

theorem plain_inner_skip (pm gm : List Minutia) (probe : Edge) :
    ∀ (l1 l2 : List Edge) (pairs : List Pair), (∀ g ∈ l1, edges_match probe g = false) →
      plain_inner pm gm probe (l1 ++ l2) pairs = plain_inner pm gm probe l2 pairs := by
  intro l1
  induction l1 with
  | nil => intro l2 pairs _; rfl
  | cons g rest ih =>
    intro l2 pairs h
    rw [List.cons_append]
    conv_lhs => unfold plain_inner
    rw [h g (List.mem_cons_self _ _)]
    exact ih l2 pairs (fun x hx => h x (List.mem_cons_of_mem _ hx))

theorem edges_match_too_short (probe g : Edge) (hg : 0 ≤ g.distance_squared)
    (h : 11 * g.distance_squared < 9 * probe.distance_squared) :
    edges_match probe g = false := by
  unfold edges_match lengths_match
  have : ¬ (10 * |g.distance_squared - probe.distance_squared|
      ≤ g.distance_squared + probe.distance_squared) := by
    rw [abs_of_nonpos (by omega)]; omega
  simp [this]

theorem edges_match_too_long (probe g : Edge) (hp : 0 ≤ probe.distance_squared)
    (h : 11 * probe.distance_squared < 9 * g.distance_squared) :
    edges_match probe g = false := by
  unfold edges_match lengths_match
  have : ¬ (10 * |g.distance_squared - probe.distance_squared|
      ≤ g.distance_squared + probe.distance_squared) := by
    rw [abs_of_nonneg (by omega)]; omega
  simp [this]

/-- The inner loop against the plain inner loop, for gallery edges sorted by
length: the pairs are the same, and the new `start` skips only gallery edges
that are too short for the probe edge. -/
theorem match_edges_inner_eq_plain (fo : FloatOps)
    (hfo : ∀ p g : Int, 0 ≤ p → p < 16777216 → 0 ≤ g → g < 16777216 →
      fo.length_differs (g - p) (g + p) = decide (10 * |g - p| > g + p))
    (pm gm : List Minutia) (probe : Edge)
    (hp : 0 ≤ probe.distance_squared ∧ probe.distance_squared < 16777216) :
    ∀ (rest : List Edge) (j start : Nat) (pairs : List Pair),
      rest.Pairwise (fun a b => a.distance_squared ≤ b.distance_squared) →
      (∀ g ∈ rest, 0 ≤ g.distance_squared ∧ g.distance_squared < 16777216) →
      ∃ t, t ≤ rest.length ∧
        (∀ g ∈ rest.take t, 11 * g.distance_squared < 9 * probe.distance_squared) ∧
        match_edges_inner fo pm gm probe j rest start pairs
          = Except.map (fun ps => (if t = 0 then start else j + t, ps))
              (plain_inner pm gm probe rest pairs) := by
  intro rest
  induction rest with
  | nil =>
    intro j start pairs _ _
    exact ⟨0, le_refl _, by simp, rfl⟩
  | cons g rest ih =>
    intro j start pairs hs hb
    have hg := hb g (List.mem_cons_self _ _)
    have hs1 := (List.pairwise_cons.mp hs).1
    have hs2 := (List.pairwise_cons.mp hs).2
    have hb2 : ∀ x ∈ rest, 0 ≤ x.distance_squared ∧ x.distance_squared < 16777216 :=
      fun x hx => hb x (List.mem_cons_of_mem _ hx)
    have w1 : wrap32 (g.distance_squared - probe.distance_squared)
        = g.distance_squared - probe.distance_squared :=
      wrap32_eq_self (by omega) (by omega)
    have w2 : wrap32 (g.distance_squared + probe.distance_squared)
        = g.distance_squared + probe.distance_squared :=
      wrap32_eq_self (by omega) (by omega)
    -- once an edge is not too short, no later edge is
    have later : ¬ (11 * g.distance_squared < 9 * probe.distance_squared) →
        ∀ t, t ≤ rest.length →
          (∀ x ∈ rest.take t, 11 * x.distance_squared < 9 * probe.distance_squared) →
          t = 0 := by
      intro hns t _ hall
      cases rest with
      | nil => simpa using ‹t ≤ ([] : List Edge).length›
      | cons x xs =>
        cases t with
        | zero => rfl
        | succ t =>
          have hx := hall x (by simp)
          have := hs1 x (List.mem_cons_self _ _)
          omega
    unfold match_edges_inner
    dsimp only
    rw [w1, w2, hfo _ _ hp.1 hp.2 hg.1 hg.2]
    by_cases hd : 10 * |g.distance_squared - probe.distance_squared|
        > g.distance_squared + probe.distance_squared
    · rw [decide_eq_true hd, if_pos rfl]
      by_cases hneg : g.distance_squared - probe.distance_squared < 0
      · rw [if_pos hneg]
        have hshort : 11 * g.distance_squared < 9 * probe.distance_squared := by
          rw [abs_of_neg hneg] at hd; omega
        obtain ⟨t, ht, hall, heq⟩ := ih (j + 1) (j + 1) pairs hs2 hb2
        refine ⟨t + 1, by simp; omega, ?_, ?_⟩
        · intro x hx
          rw [List.take_succ_cons, List.mem_cons] at hx
          rcases hx with hx | hx
          · rw [hx]; exact hshort
          · exact hall x hx
        · rw [heq]
          conv_rhs => unfold plain_inner
          rw [edges_match_too_short probe g hg.1 hshort]
          have : (if t = 0 then j + 1 else j + 1 + t) = j + (t + 1) := by
            split_ifs <;> omega
          rw [this]
          simp
      · rw [if_neg hneg]
        have hlong : 11 * probe.distance_squared < 9 * g.distance_squared := by
          rw [abs_of_nonneg (by omega)] at hd; omega
        refine ⟨0, Nat.zero_le _, by simp, ?_⟩
        rw [plain_inner_no_match pm gm probe (g :: rest) pairs]
        · rfl
        · intro x hx
          rcases List.mem_cons.mp hx with hx | hx
          · rw [hx]; exact edges_match_too_long probe g hp.1 hlong
          · have := hs1 x hx
            exact edges_match_too_long probe x hp.1 (by omega)
    · rw [decide_eq_false hd]
      have hns : ¬ (11 * g.distance_squared < 9 * probe.distance_squared) := by
        intro hsh
        apply hd
        rw [abs_of_nonpos (by omega)]; omega
      have hlm : lengths_match probe g = true := by
        unfold lengths_match
        exact decide_eq_true (by omega)
      obtain ⟨t, ht, hall, heq⟩ := ih (j + 1) start pairs hs2 hb2
      have ht0 := later hns t ht hall
      subst ht0
      simp only [if_true] at heq
      by_cases hang : (are_angles_equal_with_tolerance probe.min_beta g.min_beta &&
          are_angles_equal_with_tolerance probe.max_beta g.max_beta) = true
      · refine ⟨0, Nat.zero_le _, by simp, ?_⟩
        conv_rhs => unfold plain_inner
        have hem : edges_match probe g = true := by
          unfold edges_match; rw [hlm, hang]; rfl
        rw [hem]
        simp only [hang, Bool.not_true, if_true, Bool.false_eq_true, if_false]
        cases hmk : make_pair pm gm probe g with
        | error f => rfl
        | ok pair =>
          obtain ⟨t, ht, hall, heq⟩ := ih (j + 1) start (pairs ++ [pair]) hs2 hb2
          have ht0 := later hns t ht hall
          subst ht0
          simp only [if_true] at heq
          exact heq
      · refine ⟨0, Nat.zero_le _, by simp, ?_⟩
        conv_rhs => unfold plain_inner
        have hem : edges_match probe g = false := by
          unfold edges_match
          rw [hlm]
          simpa using hang
        rw [hem]
        simp only [Bool.not_eq_true] at hang
        simp only [hang, Bool.not_false, if_true, Bool.false_eq_true, if_false]
        exact heq

/-- The double loop of `match_edges_into_pairs` against the plain double loop,
for edge lists sorted by length: `start` has skipped only gallery edges too
short for every remaining probe edge. -/
theorem match_edges_outer_eq_plain (fo : FloatOps)
    (hfo : ∀ p g : Int, 0 ≤ p → p < 16777216 → 0 ≤ g → g < 16777216 →
      fo.length_differs (g - p) (g + p) = decide (10 * |g - p| > g + p))
    (pm gm : List Minutia) (G : List Edge)
    (hGs : G.Pairwise (fun a b => a.distance_squared ≤ b.distance_squared))
    (hGb : ∀ g ∈ G, 0 ≤ g.distance_squared ∧ g.distance_squared < 16777216) :
    ∀ (P : List Edge) (start : Nat) (pairs : List Pair),
      P.Pairwise (fun a b => a.distance_squared ≤ b.distance_squared) →
      (∀ q ∈ P, 0 ≤ q.distance_squared ∧ q.distance_squared < 16777216) →
      (∀ g ∈ G.take start, ∀ q ∈ P, 11 * g.distance_squared < 9 * q.distance_squared) →
      match_edges_outer fo pm gm G P start pairs = plain_outer pm gm G P pairs := by
  intro P
  induction P with
  | nil => intro start pairs _ _ _; rfl
  | cons probe rest ih =>
    intro start pairs hPs hPb hskip
    cases rest with
    | nil => rfl
    | cons next rest =>
      have hprobe := hPb probe (List.mem_cons_self _ _)
      obtain ⟨t, ht, hall, heq⟩ := match_edges_inner_eq_plain fo hfo pm gm probe hprobe
        (G.drop start) start start pairs
        (List.Pairwise.sublist (List.drop_sublist _ _) hGs)
        (fun g hg => hGb g (List.mem_of_mem_drop hg))
      have hst : (if t = 0 then start else start + t) = start + t := by
        split_ifs <;> omega
      rw [hst] at heq
      have hplain : plain_inner pm gm probe G pairs
          = plain_inner pm gm probe (G.drop start) pairs := by
        conv_lhs => rw [← List.take_append_drop start G]
        exact plain_inner_skip pm gm probe _ _ pairs (fun g hg =>
          edges_match_too_short probe g (hGb g (List.mem_of_mem_take hg)).1
            (hskip g hg probe (List.mem_cons_self _ _)))
      unfold match_edges_outer plain_outer
      rw [heq, hplain]
      cases plain_inner pm gm probe (G.drop start) pairs with
      | error f => rfl
      | ok ps =>
        simp only [Except.map]
        apply ih (start + t) ps (List.pairwise_cons.mp hPs).2
          (fun q hq => hPb q (List.mem_cons_of_mem _ hq))
        intro g hg q hq
        rw [List.take_add, List.mem_append] at hg
        rcases hg with hg | hg
        · exact hskip g hg q (List.mem_cons_of_mem _ hq)
        · have h1 := hall g hg
          have h2 := (List.pairwise_cons.mp hPs).1 q hq
          omega

/-! ## The single-precision length test on small lengths -/

theorem bit_length_aux_le : ∀ (fuel n m : Nat), n < 2 ^ m → bit_length_aux fuel n ≤ m := by
  intro fuel
  induction fuel with
  | zero => intro n m _; exact Nat.zero_le _
  | succ fuel ih =>
    intro n m h
    unfold bit_length_aux
    by_cases hn : n = 0
    · rw [if_pos hn]; exact Nat.zero_le _
    · rw [if_neg hn]
      cases m with
      | zero => simp at h; exact absurd h hn
      | succ m =>
        have : n / 2 < 2 ^ m := by
          rw [Nat.div_lt_iff_lt_mul (by decide)]
          rw [pow_succ] at h
          exact h
        have := ih (n / 2) m this
        omega

theorem bit_length_le (n m : Nat) (h : n < 2 ^ m) : bit_length n ≤ m :=
  bit_length_aux_le n n m h

theorem round_to_even_zero (n : Nat) : round_to_even n 0 = n := by
  unfold round_to_even
  simp [Nat.mod_one]

theorem single_of_nat_small (n : Nat) (h : n < 16777216) : single_of_nat n = n := by
  unfold single_of_nat
  have : bit_length n ≤ 24 := bit_length_le n 24 (by norm_num; exact h)
  rw [Nat.sub_eq_zero_of_le this]
  exact round_to_even_zero n

theorem round_to_even_le (n k : Nat) : round_to_even n k ≤ n + 2 ^ k / 2 := by
  unfold round_to_even
  have hX : 0 < 2 ^ k := Nat.pow_pos (by decide)
  have hn : 2 ^ k * (n / 2 ^ k) + n % 2 ^ k = n := Nat.div_add_mod n (2 ^ k)
  have hr : n % 2 ^ k < 2 ^ k := Nat.mod_lt n hX
  have e1 : n / 2 ^ k * 2 ^ k = 2 ^ k * (n / 2 ^ k) := Nat.mul_comm _ _
  have e2 : (n / 2 ^ k + 1) * 2 ^ k = 2 ^ k * (n / 2 ^ k) + 2 ^ k := by
    rw [Nat.add_mul, Nat.one_mul, e1]
  simp only
  rw [e1, e2]
  generalize 2 ^ k * (n / 2 ^ k) = Q at hn ⊢
  generalize n % 2 ^ k = r at hn hr ⊢
  generalize 2 ^ k = X at hX hr ⊢
  split_ifs <;> omega

theorem round_to_even_ge (n k T : Nat) (hT : 2 ^ k ∣ T) (h : T ≤ n) :
    T ≤ round_to_even n k := by
  obtain ⟨t, rfl⟩ := hT
  have hX : 0 < 2 ^ k := Nat.pow_pos (by decide)
  have ht : t ≤ n / 2 ^ k := by
    rw [Nat.le_div_iff_mul_le hX, Nat.mul_comm]
    exact h
  have b1 : 2 ^ k * t ≤ n / 2 ^ k * 2 ^ k := by
    rw [Nat.mul_comm]
    exact Nat.mul_le_mul_right _ ht
  have b2 : n / 2 ^ k * 2 ^ k ≤ (n / 2 ^ k + 1) * 2 ^ k :=
    Nat.mul_le_mul_right _ (Nat.le_succ _)
  unfold round_to_even
  simp only
  split_ifs <;> omega

theorem bit_length_aux_ge : ∀ (fuel n m : Nat), 2 ^ m ≤ n → m + 1 ≤ fuel →
    m + 1 ≤ bit_length_aux fuel n := by
  intro fuel
  induction fuel with
  | zero => intro n m _ h; omega
  | succ fuel ih =>
    intro n m h hf
    unfold bit_length_aux
    have hn : n ≠ 0 := by
      have : 0 < 2 ^ m := Nat.pow_pos (by decide)
      omega
    rw [if_neg hn]
    cases m with
    | zero => omega
    | succ m =>
      have : 2 ^ m ≤ n / 2 := by
        rw [Nat.le_div_iff_mul_le (by decide)]
        rw [pow_succ] at h
        exact h
      have := ih (n / 2) m this (by omega)
      omega

theorem bit_length_ge (n m : Nat) (h : 2 ^ m ≤ n) : m + 1 ≤ bit_length n :=
  bit_length_aux_ge n n m h (by have := Nat.lt_two_pow m; omega)

/-- A number of 25 binary digits is rounded to an even number: itself when
even, otherwise the neighbour that is a multiple of 4. -/
theorem single_of_nat_25 (s : Nat) (h1 : 16777216 ≤ s) (h2 : s < 33554432) :
    (s % 2 = 0 ∧ single_of_nat s = s) ∨
    (s % 2 = 1 ∧ (s / 2) % 2 = 0 ∧ single_of_nat s + 1 = s) ∨
    (s % 2 = 1 ∧ (s / 2) % 2 = 1 ∧ single_of_nat s = s + 1) := by
  have hb1 : bit_length s ≤ 25 := bit_length_le s 25 (by norm_num; exact h2)
  have hb2 : 25 ≤ bit_length s := bit_length_ge s 24 (by norm_num; exact h1)
  have hb : bit_length s - 24 = 1 := by omega
  unfold single_of_nat
  rw [hb]
  unfold round_to_even
  simp only [pow_one]
  have hdm := Nat.div_add_mod s 2
  have hr := Nat.mod_lt s (by decide : 0 < 2)
  split_ifs <;> omega

/-- For two distances below `2^24` the single-precision length test agrees
with `10 * |dz| > sum`: the conversion of the difference is exact, the sum is
rounded to an even number which the parity of the difference keeps on the
right side of `10 * |dz|`, and the rounding of the product does not change the
outcome. -/
theorem single_length_differs_exact (p g : Int) (hp0 : 0 ≤ p) (hp1 : p < 16777216)
    (hg0 : 0 ≤ g) (hg1 : g < 16777216) :
    single_length_differs (g - p) (g + p) = decide (10 * |g - p| > g + p) := by
  unfold single_length_differs
  rw [if_neg (by omega)]
  have ha : |g - p| = ((g - p).natAbs : Int) := Int.abs_eq_natAbs _
  have hs : g + p = ((g + p).toNat : Int) := (Int.toNat_of_nonneg (by omega)).symm
  have hpar : ((g - p).natAbs + (g + p).toNat) % 2 = 0 := by omega
  have ha24 : (g - p).natAbs < 16777216 := by omega
  have hs25 : (g + p).toNat < 33554432 := by omega
  rw [ha]
  generalize (g - p).natAbs = a at hpar ha24
  generalize hsd : (g + p).toNat = s at hpar hs25 hs
  rw [hs]
  rw [single_of_nat_small a ha24]
  have hS : (single_of_nat s = s ∧ (s < 16777216 ∨ s % 2 = 0)) ∨
      (s % 2 = 1 ∧ (s / 2) % 2 = 0 ∧ single_of_nat s + 1 = s) ∨
      (s % 2 = 1 ∧ (s / 2) % 2 = 1 ∧ single_of_nat s = s + 1) := by
    by_cases h24 : s < 16777216
    · exact Or.inl ⟨single_of_nat_small s h24, Or.inl h24⟩
    · rcases single_of_nat_25 s (by omega) hs25 with h | h | h
      · exact Or.inl ⟨h.2, Or.inr h.1⟩
      · exact Or.inr (Or.inl h)
      · exact Or.inr (Or.inr h)
  generalize single_of_nat s = S at hS ⊢
  have hS25 : S ≤ 33554432 := by omega
  unfold TWO_FACTOR_SIGNIFICAND single_of_nat
  have hk25 : bit_length (13421773 * S) - 24 ≤ 25 := by
    have := bit_length_le (13421773 * S) 49 (by norm_num; omega)
    omega
  have hk24 : 13421773 * S < 281474976710656 → bit_length (13421773 * S) - 24 ≤ 24 := by
    intro h
    have := bit_length_le (13421773 * S) 48 (by norm_num; exact h)
    omega
  generalize bit_length (13421773 * S) - 24 = k at hk25 hk24 ⊢
  have hup := round_to_even_le (13421773 * S) k
  have hX25 : 2 ^ k ≤ 2 ^ 25 := Nat.pow_le_pow_right (by decide) hk25
  have hX24 : 13421773 * S < 281474976710656 → 2 ^ k ≤ 2 ^ 24 :=
    fun h => Nat.pow_le_pow_right (by decide) (hk24 h)
  have hlow : a * 2 ^ 27 ≤ 13421773 * S → a * 2 ^ 27 ≤ round_to_even (13421773 * S) k := by
    intro hle
    exact round_to_even_ge _ _ _ (Dvd.dvd.mul_left (pow_dvd_pow 2 (by omega)) a) hle
  norm_num at hX25 hX24 hlow hup ⊢
  generalize round_to_even (13421773 * S) k = F at hup hlow ⊢
  generalize 2 ^ k = X at hup hX25 hX24
  by_cases hc : 10 * a ≤ s
  · have hN : a * 134217728 ≤ 13421773 * S := by omega
    have := hlow hN
    constructor <;> intro <;> omega
  · have hF : F < a * 134217728 := by
      by_cases hN : 13421773 * S < 281474976710656
      · have := hX24 hN
        omega
      · omega
    constructor <;> intro <;> omega

/-- C11 (amended). For non-empty probe and gallery edge lists sorted ascending
by `distance_squared`, with distances from 0 to `2^24 - 1`, and the length test
computed in single precision as in the source (`hfo`, asked only for the
distances of that range), the moving start index and the early break skip no
match: the emitted pair sequence (or the fault) is that of the plain double
loop over every probe edge but the last and every gallery edge, keeping the
edge pairs with `10 * |G.d - P.d| ≤ G.d + P.d` in exact arithmetic and both
angles within tolerance.  Below `2^24` every distance and every difference of
two is converted to `float` without rounding, and the rounding of the sum and
of the product does not change the outcome of the test. -/
theorem match_edges_eq_plain_loop (fo : FloatOps)
    (hfo : ∀ p g : Int, 0 ≤ p → p < 16777216 → 0 ≤ g → g < 16777216 →
      fo.length_differs (g - p) (g + p) = single_length_differs (g - p) (g + p))
    (P : List Edge) (pm : List Minutia) (G : List Edge) (gm : List Minutia) (h : PairHolder)
    (hP : P ≠ []) (hG : G ≠ [])
    (hPs : P.Pairwise (fun a b => a.distance_squared ≤ b.distance_squared))
    (hGs : G.Pairwise (fun a b => a.distance_squared ≤ b.distance_squared))
    (hPb : ∀ q ∈ P, 0 ≤ q.distance_squared ∧ q.distance_squared < 16777216)
    (hGb : ∀ g ∈ G, 0 ≤ g.distance_squared ∧ g.distance_squared < 16777216) :
    emitted_pairs (match_edges_into_pairs fo P pm G gm h.clear) = plain_outer pm gm G P [] := by
  have hexact : ∀ p g : Int, 0 ≤ p → p < 16777216 → 0 ≤ g → g < 16777216 →
      fo.length_differs (g - p) (g + p) = decide (10 * |g - p| > g + p) := by
    intro p g hp0 hp1 hg0 hg1
    rw [hfo p g hp0 hp1 hg0 hg1, single_length_differs_exact p g hp0 hp1 hg0 hg1]
  unfold match_edges_into_pairs
  rw [if_neg (by simpa using hP), if_neg (by simpa using hG)]
  rw [match_edges_outer_eq_plain fo hexact pm gm G hGs hGb P 0 [] hPs hPb (by simp)]
  cases plain_outer pm gm G P [] with
  | error f => rfl
  | ok emitted =>
    simp only [emitted_pairs, foldl_add_forward, PairHolder.clear, List.nil_append]

/-- C11, witness: the amended statement applied to three probe edges and five
gallery edges, the first of which is too short for every probe edge. -/
theorem match_edges_eq_plain_loop_witness :
    emitted_pairs (match_edges_into_pairs single_ops sample_probe_edges kind_probe
        sample_gallery_edges kind_gallery PairHolder.init.clear)
      = plain_outer kind_probe kind_gallery sample_gallery_edges sample_probe_edges [] :=
  match_edges_eq_plain_loop single_ops (fun _ _ _ _ _ _ => rfl) sample_probe_edges kind_probe
    sample_gallery_edges kind_gallery PairHolder.init (by decide) (by decide) (by decide)
    (by decide) (by decide) (by decide)

/-- C11, counterexample.  All lists are non-empty and sorted, no distance is
negative and no sum leaves the range of `int`; the length test is computed in
single precision.
For the lengths 15099497 and 18454941 ten times the difference is 33554440
and the sum 33554438, so the plain double loop keeps no pair; the sum is
rounded to the `float` 33554440, the test `|dz| > fi` fails, and
`match_edges_into_pairs` emits the pair.
For the probe length 60397981 the gallery length 73819755 is found too long
and the loop breaks, although the next gallery length 73819756 passes the
same test: the pair is emitted when the gallery list is that edge alone and
lost when the edge of length 73819755 stands before it.
For the gallery length 60397981 the probe length 73819755 moves `start` past
the gallery edge, although the next probe length 73819756 passes the test:
the pair is emitted when the probe list begins with that edge and lost when
the edge of length 73819755 stands before it. -/
theorem match_edges_differs_from_plain_loop :
    sorted_edge_lists rounding_probe_edges rounding_gallery_edges ∧
    emitted_pairs (match_edges_into_pairs single_ops rounding_probe_edges upright_pair
        rounding_gallery_edges upright_pair PairHolder.init.clear) = .ok [plain_pair] ∧
    plain_outer upright_pair upright_pair rounding_gallery_edges rounding_probe_edges []
      = .ok [] ∧
    sorted_edge_lists break_probe_edges break_gallery_edges ∧
    emitted_pairs (match_edges_into_pairs single_ops break_probe_edges upright_pair
        break_gallery_edges upright_pair PairHolder.init.clear) = .ok [] ∧
    emitted_pairs (match_edges_into_pairs single_ops break_probe_edges upright_pair
        (break_gallery_edges.drop 1) upright_pair PairHolder.init.clear) = .ok [plain_pair] ∧
    sorted_edge_lists start_probe_edges start_gallery_edges ∧
    emitted_pairs (match_edges_into_pairs single_ops start_probe_edges upright_pair
        start_gallery_edges upright_pair PairHolder.init.clear) = .ok [] ∧
    emitted_pairs (match_edges_into_pairs single_ops (start_probe_edges.drop 1) upright_pair
        start_gallery_edges upright_pair PairHolder.init.clear) = .ok [plain_pair] := by
  decide

/-- C12, witness: the theorem applied to the three pairs emitted for
`sample_probe_edges` and `sample_gallery_edges`, of points 1, 3 and 1. -/
theorem emitted_pair_points_witness :
    ∃ emitted, sample_holder.forward_ = PairHolder.init.clear.forward_ ++ emitted ∧
      ∀ p ∈ emitted, ∃ mpk mpj mgk mgj,
        kind_probe[p.probe_k]? = some mpk ∧ kind_probe[p.probe_j]? = some mpj ∧
        kind_gallery[p.gallery_k]? = some mgk ∧ kind_gallery[p.gallery_j]? = some mgj ∧
        p.points = spec_points mpk.kind mpj.kind mgk.kind mgj.kind ∧
        (p.points = 1 ∨ p.points = 2 ∨ p.points = 3) :=
  emitted_pair_points axis_ops sample_probe_edges kind_probe sample_gallery_edges kind_gallery
    PairHolder.init.clear sample_holder rfl

/-- C14, witness: the theorem applied to `sample_probe_edges` and
`sample_gallery_edges`, whose `theta_kj` lie between -90 and 90. -/
theorem emitted_delta_theta_witness :
    ∃ emitted, sample_holder.forward_ = PairHolder.init.clear.forward_ ++ emitted ∧
      ∀ p ∈ emitted, ∃ probe ∈ sample_probe_edges, ∃ g ∈ sample_gallery_edges,
        make_pair kind_probe kind_gallery probe g = .ok p ∧
        -180 < p.delta_theta ∧ p.delta_theta ≤ 180 ∧
        (p.delta_theta - (probe.theta_kj - g.theta_kj
          - (if probe.beta_order ≠ g.beta_order then 180 else 0))) % 360 = 0 :=
  emitted_delta_theta axis_ops sample_probe_edges kind_probe sample_gallery_edges kind_gallery
    PairHolder.init.clear sample_holder (by decide) (by decide) rfl

/-! ## No limit on the number of pairs -/

theorem match_edges_inner_all (fo : FloatOps) (pm gm : List Minutia) (probe : Edge) :
    ∀ (rest : List Edge) (j start : Nat) (pairs : List Pair),
      (∀ g ∈ rest,
        fo.length_differs (wrap32 (g.distance_squared - probe.distance_squared))
          (wrap32 (g.distance_squared + probe.distance_squared)) = false ∧
        are_angles_equal_with_tolerance probe.min_beta g.min_beta = true ∧
        are_angles_equal_with_tolerance probe.max_beta g.max_beta = true ∧
        ∃ p, make_pair pm gm probe g = .ok p) →
      ∃ new, match_edges_inner fo pm gm probe j rest start pairs = .ok (start, pairs ++ new) ∧
        new.length = rest.length := by
  intro rest
  induction rest with
  | nil => intro j start pairs _; exact ⟨[], by simp [match_edges_inner], rfl⟩
  | cons g rest ih =>
    intro j start pairs h
    obtain ⟨h1, h2, h3, p, h4⟩ := h g (List.mem_cons_self _ _)
    obtain ⟨new, h5, h6⟩ := ih (j + 1) start (pairs ++ [p])
      (fun x hx => h x (List.mem_cons_of_mem _ hx))
    refine ⟨p :: new, ?_, by simp [h6]⟩
    unfold match_edges_inner
    dsimp only
    rw [h1, h2, h3, h4]
    simp only [Bool.false_eq_true, if_false, Bool.and_self, Bool.not_true]
    rw [h5]
    simp

theorem match_edges_outer_all (fo : FloatOps) (pm gm : List Minutia) (G : List Edge) :
    ∀ (P : List Edge) (pairs : List Pair),
      (∀ q ∈ P, ∀ g ∈ G,
        fo.length_differs (wrap32 (g.distance_squared - q.distance_squared))
          (wrap32 (g.distance_squared + q.distance_squared)) = false ∧
        are_angles_equal_with_tolerance q.min_beta g.min_beta = true ∧
        are_angles_equal_with_tolerance q.max_beta g.max_beta = true ∧
        ∃ p, make_pair pm gm q g = .ok p) →
      ∃ new, match_edges_outer fo pm gm G P 0 pairs = .ok (pairs ++ new) ∧
        new.length = (P.length - 1) * G.length := by
  intro P
  induction P with
  | nil => intro pairs _; exact ⟨[], by simp [match_edges_outer], by simp⟩
  | cons probe rest ih =>
    intro pairs h
    cases rest with
    | nil => exact ⟨[], by simp [match_edges_outer], by simp⟩
    | cons next rest =>
      obtain ⟨new1, h1, h2⟩ := match_edges_inner_all fo pm gm probe G 0 0 pairs
        (h probe (List.mem_cons_self _ _))
      obtain ⟨new2, h3, h4⟩ := ih (pairs ++ new1)
        (fun q hq => h q (List.mem_cons_of_mem _ hq))
      refine ⟨new1 ++ new2, ?_, ?_⟩
      · unfold match_edges_outer
        rw [List.drop_zero, h1]
        dsimp only
        rw [h3, List.append_assoc]
      · rw [List.length_append, h2, h4]
        simp only [List.length_cons, Nat.add_sub_cancel]
        ring

theorem row_edges_alike : ∀ q ∈ long_row_edges, ∀ g ∈ long_row_edges,
    axis_ops.length_differs (wrap32 (g.distance_squared - q.distance_squared))
      (wrap32 (g.distance_squared + q.distance_squared)) = false ∧
    are_angles_equal_with_tolerance q.min_beta g.min_beta = true ∧
    are_angles_equal_with_tolerance q.max_beta g.max_beta = true ∧
    ∃ p, make_pair long_row long_row q g = .ok p := by
  intro q hq g hg
  simp only [long_row_edges, List.mem_map, List.mem_range] at hq hg
  obtain ⟨k, hk, rfl⟩ := hq
  obtain ⟨j, hj, rfl⟩ := hg
  refine ⟨by simp only [row_edge]; decide, by simp only [row_edge]; decide,
    by simp only [row_edge]; decide, ?_⟩
  have look : ∀ i, i < 151 → ∃ m, long_row[i]? = some m := by
    intro i hi
    have hi2 : i < long_row.length := by
      rw [long_row, List.length_map, List.length_range]; exact hi
    exact ⟨long_row[i], List.getElem?_eq_getElem hi2⟩
  obtain ⟨m1, e1⟩ := look k (by omega)
  obtain ⟨m2, e2⟩ := look (k + 1) (by omega)
  obtain ⟨m3, e3⟩ := look j (by omega)
  obtain ⟨m4, e4⟩ := look (j + 1) (by omega)
  unfold make_pair
  simp only [row_edge, ne_eq, not_true_eq_false, if_false, e1, e2, e3, e4]
  exact ⟨_, rfl⟩

set_option maxRecDepth 1000000 in
/-- C15, the code at the failing input.  The row of 151 minutiae 100 apart has
150 edges, all kept by `limit_edges`, and matched against itself
`match_edges_into_pairs` leaves `149 * 150 = 22350` pairs in the cleared
holder, more than `MAX_NUMBER_OF_PAIRS`; the `ClusterAssigner` table has no
slot for the pair index 20000. -/
theorem pairs_exceed_limit :
    find_edges axis_ops long_row [] Format.NistInternal = .ok long_row_edges ∧
    limit_edges long_row_edges = .ok long_row_edges ∧
    (∃ h, match_edges_into_pairs axis_ops long_row_edges long_row long_row_edges long_row
        PairHolder.init.clear = .ok h ∧
      h.forward_.length = 22350 ∧ MAX_NUMBER_OF_PAIRS < h.forward_.length) ∧
    ∀ a : ClusterAssigner, a.get_cluster 20000 = .error .out_of_range := by
  refine ⟨by decide, by decide, ?_, fun a => rfl⟩
  obtain ⟨new, h1, h2⟩ := match_edges_outer_all axis_ops long_row long_row long_row_edges
    long_row_edges [] row_edges_alike
  refine ⟨new.foldl PairHolder.add PairHolder.init.clear, ?_, ?_⟩
  · unfold match_edges_into_pairs
    rw [h1]
    rfl
  · rw [foldl_add_forward]
    simp only [PairHolder.clear, List.nil_append, h2, long_row_edges, List.length_map,
      List.length_range]
    decide

/-! ## filter_selected -/

/-- C19 (amended). Every pair that remains after `filter_selected` has its
`delta_theta` equal within the tolerance to the average `delta_theta` of the
selected pairs before the filtering, the value that
`calculate_average_delta_theta_for_pairs` computes over all selected pairs. -/
theorem filter_selected_near_average (fo : FloatOps) (selected : List Nat) (pairs : List Pair)
    (remaining : List Nat) (h : filter_selected fo selected pairs = .ok remaining) :
    ∃ average, calculate_average_delta_theta_for_pairs fo selected pairs = .ok average ∧
      ∀ i ∈ remaining, i ∈ selected ∧ ∃ p, pairs[i]? = some p ∧
        are_angles_equal_with_tolerance p.delta_theta average = true := by
  unfold filter_selected at h
  split at h
  · cases h
  · rename_i average hav
    simp only [Except.ok.injEq] at h
    refine ⟨average, hav, ?_⟩
    intro i hi
    rw [← h, List.mem_filter] at hi
    refine ⟨hi.1, ?_⟩
    cases hp : pairs[i]? with
    | none => rw [hp] at hi; simp at hi
    | some p => rw [hp] at hi; exact ⟨p, rfl, hi.2⟩

/-- C19, witness: the amended statement applied to `drifting_pairs`. -/
theorem filter_selected_near_average_witness :
    ∃ average, calculate_average_delta_theta_for_pairs axis_ops [0, 1, 2, 3, 4] drifting_pairs
        = .ok average ∧
      ∀ i ∈ [0, 1, 2, 3], i ∈ [0, 1, 2, 3, 4] ∧ ∃ p, drifting_pairs[i]? = some p ∧
        are_angles_equal_with_tolerance p.delta_theta average = true :=
  filter_selected_near_average axis_ops [0, 1, 2, 3, 4] drifting_pairs [0, 1, 2, 3] (by decide)

/-- C19, counterexample.  Of five selected pairs with rotations 100, 120, 120,
120 and 90 (average 110) the filter removes the last; four pairs remain, the
rotation that `calculate_averages` computes over them is 115, and the first
remaining pair, of rotation 100, is not within the tolerance of it. -/
theorem filter_selected_off_cluster_mean :
    filter_selected axis_ops [0, 1, 2, 3, 4] drifting_pairs = .ok [0, 1, 2, 3] ∧
    3 ≤ [0, 1, 2, 3].length ∧
    calculate_averages axis_ops upright_pair upright_pair drifting_pairs [0, 1, 2, 3]
      = .ok { delta_theta := 115, probe_x := 0, probe_y := 0, gallery_x := 0, gallery_y := 0 } ∧
    drifting_pairs[0]? = some (pair_with_theta 100) ∧
    are_angles_equal_with_tolerance (pair_with_theta 100).delta_theta 115 = false := by
  decide

/-! ## Compatible clusters share no endpoint -/

theorem lor_eq_zero {x y : Nat} (h : x ||| y = 0) : x = 0 ∧ y = 0 := by
  constructor
  · apply Nat.eq_of_testBit_eq
    intro i
    have := congrArg (fun n => Nat.testBit n i) h
    simp only [Nat.testBit_or, Nat.zero_testBit, Bool.or_eq_false_iff] at this
    rw [this.1, Nat.zero_testBit]
  · apply Nat.eq_of_testBit_eq
    intro i
    have := congrArg (fun n => Nat.testBit n i) h
    simp only [Nat.testBit_or, Nat.zero_testBit, Bool.or_eq_false_iff] at this
    rw [this.2, Nat.zero_testBit]

theorem no_common_endpoints {e1 e2 : ClusterEndpoints}
    (h : have_common_endpoints e1 e2 = false) :
    e1.probe &&& e2.probe = 0 ∧ e1.gallery &&& e2.gallery = 0 := by
  unfold have_common_endpoints at h
  simp only [bne_eq_false_iff_eq] at h
  exact lor_eq_zero h

/-- Every index that the inner loop of `merge_compatible_clusters` appends
to `compatible_clusters` has no endpoint in common with `cluster`. -/
theorem merge_inner_disjoint (fo : FloatOps) (format : Format) (C : Clusters) (cluster : Nat) :
    ∀ (count other pfo : Nat) (comp : List Nat) (r : Nat × List Nat),
      merge_inner fo format C cluster count other pfo comp = .ok r →
      ∀ b ∈ r.2, b ∈ comp ∨ ∃ e1 e2, C.endpoints[cluster]? = some e1 ∧
        C.endpoints[b]? = some e2 ∧ have_common_endpoints e1 e2 = false := by
  intro count
  induction count with
  | zero =>
    intro other pfo comp r h b hb
    simp only [merge_inner, Except.ok.injEq] at h
    rw [← h] at hb
    exact Or.inl hb
  | succ count ih =>
    intro other pfo comp r h b hb
    unfold merge_inner at h
    split at h
    · rename_i e1 e2 a1 a2 c2 he1 he2 _ _ _
      split_ifs at h with hc hcomp
      · exact ih _ _ _ _ h b hb
      · exact ih _ _ _ _ h b hb
      · rcases ih _ _ _ _ h b hb with hin | hex
        · rcases List.mem_append.mp hin with hin | hin
          · exact Or.inl hin
          · rw [List.mem_singleton] at hin
            subst hin
            exact Or.inr ⟨e1, e2, he1, he2, by simpa using hc⟩
        · exact Or.inr hex
    · cases h

theorem merge_outer_disjoint (fo : FloatOps) (format : Format) :
    ∀ (count cluster : Nat) (C C1 : Clusters),
      merge_outer fo format count cluster C = .ok C1 →
      C1.endpoints = C.endpoints ∧ C1.clusters.length = C.clusters.length ∧
      (∀ a, a < cluster → C1.clusters[a]? = C.clusters[a]?) ∧
      (∀ a, cluster ≤ a → a < cluster + count → ∀ ca, C1.clusters[a]? = some ca →
        ∀ b ∈ ca.compatible, ∃ e1 e2, C.endpoints[a]? = some e1 ∧
          C.endpoints[b]? = some e2 ∧ have_common_endpoints e1 e2 = false) := by
  intro count
  induction count with
  | zero =>
    intro cluster C C1 h
    simp only [merge_outer, Except.ok.injEq] at h
    subst h
    exact ⟨rfl, rfl, fun _ _ => rfl, fun a h1 h2 => by omega⟩
  | succ count ih =>
    intro cluster C C1 h
    unfold merge_outer at h
    split at h
    · cases h
    · rename_i pfo comp hin
      split at h
      · cases h
      · rename_i c hc
        obtain ⟨h1, h2, h3, h4⟩ := ih _ _ _ h
        have hlt : cluster < C.clusters.length := by
          rcases List.getElem?_eq_some_iff.mp hc with ⟨hl, _⟩
          exact hl
        refine ⟨h1, by rw [h2, List.length_set], ?_, ?_⟩
        · intro a ha
          rw [h3 a (by omega)]
          exact List.getElem?_set_ne (by omega)
        · intro a ha1 ha2 ca hca b hb
          by_cases hac : a = cluster
          · subst hac
            rw [h3 a (by omega)] at hca
            dsimp only at hca
            rw [List.getElem?_set_self hlt] at hca
            simp only [Option.some.injEq] at hca
            rw [← hca] at hb
            rcases merge_inner_disjoint fo format C a _ _ _ _ _ hin b hb with hn | hex
            · simp at hn
            · exact hex
          · exact h4 a (by omega) (by omega) ca hca b hb

theorem bitset_set_testBit {bits pos r : Nat} (h : bitset_set bits pos = .ok r) (i : Nat) :
    r.testBit i = true ↔ bits.testBit i = true ∨ pos = i := by
  unfold bitset_set at h
  split_ifs at h
  simp only [Except.ok.injEq] at h
  rw [← h, Nat.testBit_or, Nat.one_shiftLeft, Nat.testBit_two_pow]
  simp

theorem encode_endpoints_spec (pairs : List Pair) :
    ∀ (selected : List Nat) (e0 e : ClusterEndpoints),
      encode_endpoints pairs selected e0 = .ok e →
      ∀ i : Nat,
        (e.probe.testBit i = true ↔ e0.probe.testBit i = true ∨
          ∃ idx ∈ selected, ∃ p, pairs[idx]? = some p ∧ (p.probe_k = i ∨ p.probe_j = i)) ∧
        (e.gallery.testBit i = true ↔ e0.gallery.testBit i = true ∨
          ∃ idx ∈ selected, ∃ p, pairs[idx]? = some p ∧
            (p.gallery_k = i ∨ p.gallery_j = i)) := by
  intro selected
  induction selected with
  | nil =>
    intro e0 e h i
    simp only [encode_endpoints, Except.ok.injEq] at h
    subst h
    simp
  | cons idx rest ih =>
    intro e0 e h i
    unfold encode_endpoints at h
    split at h
    · cases h
    · rename_i pair hpair
      split at h
      · cases h
      · rename_i p1 hp1
        split at h
        · cases h
        · rename_i p2 hp2
          split at h
          · cases h
          · rename_i g1 hg1
            split at h
            · cases h
            · rename_i g2 hg2
              have := ih _ _ h i
              dsimp only at this
              rw [bitset_set_testBit hp2, bitset_set_testBit hp1, bitset_set_testBit hg2,
                bitset_set_testBit hg1] at this
              obtain ⟨t1, t2⟩ := this
              constructor
              · rw [t1]
                constructor
                · rintro (((h0 | hk) | hj) | ⟨x, hx, p, hp, hpp⟩)
                  · exact Or.inl h0
                  · exact Or.inr ⟨idx, List.mem_cons_self _ _, pair, hpair, Or.inl hk⟩
                  · exact Or.inr ⟨idx, List.mem_cons_self _ _, pair, hpair, Or.inr hj⟩
                  · exact Or.inr ⟨x, List.mem_cons_of_mem _ hx, p, hp, hpp⟩
                · rintro (h0 | ⟨x, hx, p, hp, hpp⟩)
                  · exact Or.inl (Or.inl (Or.inl h0))
                  · rcases List.mem_cons.mp hx with hx | hx
                    · subst hx
                      rw [hpair] at hp
                      simp only [Option.some.injEq] at hp
                      subst hp
                      rcases hpp with hk | hj
                      · exact Or.inl (Or.inl (Or.inr hk))
                      · exact Or.inl (Or.inr hj)
                    · exact Or.inr ⟨x, hx, p, hp, hpp⟩
              · rw [t2]
                constructor
                · rintro (((h0 | hk) | hj) | ⟨x, hx, p, hp, hpp⟩)
                  · exact Or.inl h0
                  · exact Or.inr ⟨idx, List.mem_cons_self _ _, pair, hpair, Or.inl hk⟩
                  · exact Or.inr ⟨idx, List.mem_cons_self _ _, pair, hpair, Or.inr hj⟩
                  · exact Or.inr ⟨x, List.mem_cons_of_mem _ hx, p, hp, hpp⟩
                · rintro (h0 | ⟨x, hx, p, hp, hpp⟩)
                  · exact Or.inl (Or.inl (Or.inl h0))
                  · rcases List.mem_cons.mp hx with hx | hx
                    · subst hx
                      rw [hpair] at hp
                      simp only [Option.some.injEq] at hp
                      subst hp
                      rcases hpp with hk | hj
                      · exact Or.inl (Or.inl (Or.inr hk))
                      · exact Or.inl (Or.inr hj)
                    · exact Or.inr ⟨x, hx, p, hp, hpp⟩

/-- C20. After `merge_compatible_clusters`, for every cluster `a` and every
`b` in `compatible[a]`, the probe endpoint bitsets of `a` and `b` are disjoint
and the gallery endpoint bitsets are disjoint; and the bitsets that
`encode_endpoints` builds for the pairs of a cluster hold exactly the
`probe_k`, `probe_j` (resp. `gallery_k`, `gallery_j`) of these pairs. -/
theorem compatible_clusters_disjoint (fo : FloatOps) (format : Format) (C C1 : Clusters)
    (pairs : List Pair) (selected : List Nat) (e : ClusterEndpoints)
    (hmerge : merge_compatible_clusters fo format C = .ok C1)
    (hencode : encode_endpoints pairs selected { probe := 0, gallery := 0 } = .ok e) :
    (∀ (a : Nat) (ca : Cluster), C1.clusters[a]? = some ca → ∀ b ∈ ca.compatible,
      ∃ ea eb : ClusterEndpoints, C1.endpoints[a]? = some ea ∧ C1.endpoints[b]? = some eb ∧
        ea.probe &&& eb.probe = 0 ∧ ea.gallery &&& eb.gallery = 0) ∧
    holds_endpoints_of pairs selected e := by
  constructor
  · intro a ca hca b hb
    unfold merge_compatible_clusters at hmerge
    obtain ⟨h1, h2, _, h4⟩ := merge_outer_disjoint fo format _ _ _ _ hmerge
    have ha : a < C1.clusters.length := by
      rcases List.getElem?_eq_some_iff.mp hca with ⟨hl, _⟩
      exact hl
    obtain ⟨e1, e2, he1, he2, hd⟩ := h4 a (Nat.zero_le _)
      (by unfold Clusters.size; omega) ca hca b hb
    rw [h1]
    exact ⟨e1, e2, he1, he2, no_common_endpoints hd⟩
  · intro i
    have := encode_endpoints_spec pairs selected _ e hencode i
    simpa using this

/-- C20, witness: the theorem applied to two clusters on the endpoints 0 to 3
and 4 to 7, and to the first three pairs of `three_star_pairs`. -/
theorem compatible_clusters_disjoint_witness :
    (∀ (a : Nat) (ca : Cluster), two_far_clusters_merged.clusters[a]? = some ca →
      ∀ b ∈ ca.compatible,
      ∃ ea eb : ClusterEndpoints, two_far_clusters_merged.endpoints[a]? = some ea ∧
        two_far_clusters_merged.endpoints[b]? = some eb ∧
        ea.probe &&& eb.probe = 0 ∧ ea.gallery &&& eb.gallery = 0) ∧
    holds_endpoints_of three_star_pairs [0, 1, 2] { probe := 15, gallery := 15 } :=
  compatible_clusters_disjoint axis_ops Format.NistInternal two_far_clusters
    two_far_clusters_merged three_star_pairs [0, 1, 2] { probe := 15, gallery := 15 }
    (by decide) (by decide)

/-! ## The caches of the pair holder -/

theorem key_code_inj {a b : Nat × Nat} (ha : a.2 < MAX_BOZORTH_MINUTIAE)
    (hb : b.2 < MAX_BOZORTH_MINUTIAE) (h : key_code a = key_code b) : a = b := by
  unfold key_code MAX_BOZORTH_MINUTIAE at *
  apply Prod.ext <;> omega

theorem key_code_store (cache : Nat → OptionalRange) (x : Nat × Nat)
    (hx : x.1 < MAX_BOZORTH_MINUTIAE ∧ x.2 < MAX_BOZORTH_MINUTIAE) (r : OptionalRange) :
    cache_store cache (wrapU32 (x.1 * MAX_BOZORTH_MINUTIAE + x.2)) r
      = .ok (Function.update cache (key_code x) r) := by
  have h1 : x.1 * MAX_BOZORTH_MINUTIAE + x.2 < 40000 := by
    unfold MAX_BOZORTH_MINUTIAE at *; omega
  unfold cache_store
  rw [wrapU32_eq_self (by omega)]
  rw [if_pos (by unfold CACHE_SIZE MAX_BOZORTH_MINUTIAE; unfold MAX_BOZORTH_MINUTIAE at h1; omega)]
  rfl

/-- The loop of `prepare` that fills a cache, from the state after a
non-empty prefix `pre ++ [x]` of the keys: the ranges of the keys before the
current run are stored, the current run of `x` starts at `b`. -/
theorem fill_cache_inv (K : List (Nat × Nat)) (cache0 : Nat → OptionalRange)
    (hsmall : ∀ k ∈ K, k.1 < MAX_BOZORTH_MINUTIAE ∧ k.2 < MAX_BOZORTH_MINUTIAE)
    (hmono : ∀ (j j2 : Nat) (q q2 : Nat × Nat), j ≤ j2 → K[j]? = some q → K[j2]? = some q2 →
      key_code q ≤ key_code q2) :
    ∀ (rest pre : List (Nat × Nat)) (x : Nat × Nat) (b : Nat) (cache : Nat → OptionalRange),
      K = pre ++ x :: rest → b ≤ pre.length →
      (∀ j, j ≤ pre.length → (K[j]? = some x ↔ b ≤ j)) →
      (∀ q ∈ pre, q ≠ x → is_range_of K q (cache (key_code q))) →
      (∀ q, q.2 < MAX_BOZORTH_MINUTIAE → q ∉ pre → q ≠ x →
        cache (key_code q) = cache0 (key_code q)) →
      ∃ cache1, fill_cache rest (pre.length + 1) (some x) b K.length cache = .ok cache1 ∧
        (∀ q ∈ K, is_range_of K q (cache1 (key_code q))) ∧
        (∀ q, q.2 < MAX_BOZORTH_MINUTIAE → q ∉ K →
          cache1 (key_code q) = cache0 (key_code q)) := by
  intro rest
  induction rest with
  | nil =>
    intro pre x b cache hK hb hc ha hf
    have hx : x ∈ K := by rw [hK]; simp
    have hlen : K.length = pre.length + 1 := by rw [hK]; simp
    refine ⟨Function.update cache (key_code x) { «begin» := b, «end» := K.length }, ?_, ?_, ?_⟩
    · obtain ⟨k, g⟩ := x
      unfold fill_cache
      exact key_code_store cache (k, g) (hsmall _ hx) _
    · intro q hq
      by_cases hqx : q = x
      · subst hqx
        rw [Function.update_same]
        refine ⟨by dsimp only; omega, le_refl _, ?_⟩
        intro j
        dsimp only
        constructor
        · intro hj
          have hjl : j < K.length := by
            rcases List.getElem?_eq_some_iff.mp hj with ⟨hl, _⟩
            exact hl
          exact ⟨(hc j (by omega)).mp hj, hjl⟩
        · intro hj
          exact (hc j (by omega)).mpr hj.1
      · have hne : key_code q ≠ key_code x :=
          fun h => hqx (key_code_inj (hsmall q hq).2 (hsmall x hx).2 h)
        rw [Function.update_noteq hne]
        apply ha q _ hqx
        rw [hK] at hq
        simp only [List.mem_append, List.mem_singleton] at hq
        rcases hq with hq | hq
        · exact hq
        · exact absurd hq hqx
    · intro q hq2 hq
      have hqx : q ≠ x := fun h => hq (h ▸ hx)
      have hne : key_code q ≠ key_code x :=
        fun h => hqx (key_code_inj hq2 (hsmall x hx).2 h)
      rw [Function.update_noteq hne]
      apply hf q hq2 _ hqx
      intro hp
      apply hq
      rw [hK]
      exact List.mem_append_left _ hp
  | cons c rest ih =>
    intro pre x b cache hK hb hc ha hf
    have hx : x ∈ K := by rw [hK]; simp
    have hcK : c ∈ K := by rw [hK]; simp
    have hKx : K[pre.length]? = some x := by
      rw [hK, List.getElem?_append_right (le_refl _)]
      simp
    have hKc : K[pre.length + 1]? = some c := by
      rw [hK, List.getElem?_append_right (by omega)]
      simp
    have hK2 : K = (pre ++ [x]) ++ c :: rest := by rw [hK]; simp
    have hlen2 : (pre ++ [x]).length = pre.length + 1 := by simp
    have hlenK : pre.length + 1 < K.length := by rw [hK]; simp
    by_cases hxc : x = c
    · -- the run of `x` goes on
      subst hxc
      obtain ⟨cache1, h1, h2, h3⟩ := ih (pre ++ [x]) x b cache hK2 (by rw [hlen2]; omega)
        (by
          intro j hj
          rw [hlen2] at hj
          by_cases hjl : j ≤ pre.length
          · exact hc j hjl
          · have : j = pre.length + 1 := by omega
            subst this
            exact ⟨fun _ => by omega, fun _ => hKc⟩)
        (by
          intro q hq hqx
          simp only [List.mem_append, List.mem_singleton] at hq
          rcases hq with hq | hq
          · exact ha q hq hqx
          · exact absurd hq hqx)
        (by
          intro q hq2 hq hqx
          exact hf q hq2 (fun hp => hq (List.mem_append_left _ hp)) hqx)
      refine ⟨cache1, ?_, h2, h3⟩
      rw [hlen2] at h1
      obtain ⟨k, g⟩ := x
      unfold fill_cache
      simp only [ne_eq, not_true_eq_false, if_false]
      exact h1
    · -- a new run starts with `c`
      have hcode : key_code x < key_code c := by
        have h1 := hmono _ _ x c (Nat.le_succ _) hKx hKc
        have h2 : key_code x ≠ key_code c :=
          fun h => hxc (key_code_inj (hsmall x hx).2 (hsmall c hcK).2 h)
        omega
      obtain ⟨cache1, h1, h2, h3⟩ := ih (pre ++ [x]) c (pre.length + 1)
        (Function.update cache (key_code x) { «begin» := b, «end» := pre.length + 1 })
        hK2 (by rw [hlen2])
        (by
          intro j hj
          rw [hlen2] at hj
          constructor
          · intro hjc
            by_contra hlt
            have := hmono j pre.length c x (by omega) hjc hKx
            omega
          · intro hge
            have : j = pre.length + 1 := by omega
            subst this
            exact hKc)
        (by
          intro q hq hqc
          simp only [List.mem_append, List.mem_singleton] at hq
          by_cases hqx : q = x
          · subst hqx
            rw [Function.update_same]
            refine ⟨by dsimp only; omega, by dsimp only; omega, ?_⟩
            intro j
            dsimp only
            constructor
            · intro hj
              by_cases hjl : j ≤ pre.length
              · exact ⟨(hc j hjl).mp hj, by omega⟩
              · exfalso
                have := hmono (pre.length + 1) j c q (by omega) hKc hj
                omega
            · intro hj
              exact (hc j (by omega)).mpr hj.1
          · have hqp : q ∈ pre := by
              rcases hq with hq | hq
              · exact hq
              · exact absurd hq hqx
            have hqK : q ∈ K := by rw [hK]; exact List.mem_append_left _ hqp
            have hne : key_code q ≠ key_code x :=
              fun h => hqx (key_code_inj (hsmall q hqK).2 (hsmall x hx).2 h)
            rw [Function.update_noteq hne]
            exact ha q hqp hqx)
        (by
          intro q hq2 hq hqc
          simp only [List.mem_append, List.mem_singleton, not_or] at hq
          have hne : key_code q ≠ key_code x :=
            fun h => hq.2 (key_code_inj hq2 (hsmall x hx).2 h)
          rw [Function.update_noteq hne]
          exact hf q hq2 hq.1 hq.2)
      refine ⟨cache1, ?_, h2, h3⟩
      rw [hlen2] at h1
      obtain ⟨k, g⟩ := x
      unfold fill_cache
      simp only [ne_eq, hxc, not_false_eq_true, if_true]
      rw [key_code_store cache (k, g) (hsmall _ hx)]
      exact h1

/-- One cache-filling block of `prepare` over keys below
`MAX_BOZORTH_MINUTIAE` whose slots do not decrease: the slot of every key
that occurs holds the range of its positions, every other slot is unchanged. -/
theorem fill_cache_spec (K : List (Nat × Nat)) (cache0 : Nat → OptionalRange)
    (hsmall : ∀ k ∈ K, k.1 < MAX_BOZORTH_MINUTIAE ∧ k.2 < MAX_BOZORTH_MINUTIAE)
    (hmono : ∀ (j j2 : Nat) (q q2 : Nat × Nat), j ≤ j2 → K[j]? = some q → K[j2]? = some q2 →
      key_code q ≤ key_code q2) :
    ∃ cache1, fill_cache K 0 none 0 K.length cache0 = .ok cache1 ∧
      (∀ q ∈ K, is_range_of K q (cache1 (key_code q))) ∧
      (∀ q, q.2 < MAX_BOZORTH_MINUTIAE → q ∉ K →
        cache1 (key_code q) = cache0 (key_code q)) := by
  cases hK : K with
  | nil => exact ⟨cache0, rfl, by simp, fun _ _ _ => rfl⟩
  | cons x rest =>
    rw [← hK]
    obtain ⟨cache1, h1, h2, h3⟩ := fill_cache_inv K cache0 hsmall hmono rest [] x 0 cache0
      (by rw [hK]; rfl) (le_refl _)
      (by
        intro j hj
        have : j = 0 := by simpa using hj
        subst this
        rw [hK]
        simp)
      (by simp) (fun _ _ _ _ => rfl)
    refine ⟨cache1, ?_, h2, h3⟩
    rw [hK] at h1 ⊢
    rw [fill_cache]
    exact h1

/-! ## The two sorts of `prepare` -/

theorem ordered_insert_pairwise_on {α : Type} (less : α → α → Bool) (S : α → Prop)
    (hasymm : ∀ a b, S a → S b → less a b = true → less b a = false)
    (htrans : ∀ a b c, S a → S b → S c → less b a = false → less c b = false →
      less c a = false)
    (a : α) (ha : S a) : ∀ l : List α, (∀ x ∈ l, S x) →
      l.Pairwise (fun x y => less y x = false) →
      (ordered_insert less a l).Pairwise (fun x y => less y x = false)
  | [], _, _ => by simp [ordered_insert]
  | b :: l, hS, h => by
    unfold ordered_insert
    rw [List.pairwise_cons] at h
    have hb := hS b (List.mem_cons_self _ _)
    have hl : ∀ x ∈ l, S x := fun x hx => hS x (List.mem_cons_of_mem _ hx)
    split
    · rename_i hba
      rw [List.pairwise_cons]
      refine ⟨?_, ordered_insert_pairwise_on less S hasymm htrans a ha l hl h.2⟩
      intro y hy
      rcases List.mem_cons.mp ((ordered_insert_perm less a l).mem_iff.mp hy) with hy1 | hy1
      · rw [hy1]
        exact hasymm _ _ hb ha hba
      · exact h.1 y hy1
    · rename_i hba
      have hba1 : less b a = false := by simpa using hba
      rw [List.pairwise_cons]
      refine ⟨?_, List.pairwise_cons.mpr h⟩
      intro y hy
      rcases List.mem_cons.mp hy with rfl | hy1
      · exact hba1
      · exact htrans a b y ha hb (hl y hy1) hba1 (h.1 y hy1)

theorem stable_sort_pairwise_on {α : Type} (less : α → α → Bool) (S : α → Prop)
    (hasymm : ∀ a b, S a → S b → less a b = true → less b a = false)
    (htrans : ∀ a b c, S a → S b → S c → less b a = false → less c b = false →
      less c a = false) :
    ∀ l : List α, (∀ x ∈ l, S x) → (stable_sort less l).Pairwise (fun x y => less y x = false)
  | [], _ => by simp [stable_sort]
  | a :: l, hS => by
    unfold stable_sort
    have hl : ∀ x ∈ l, S x := fun x hx => hS x (List.mem_cons_of_mem _ hx)
    exact ordered_insert_pairwise_on less S hasymm htrans a (hS a (List.mem_cons_self _ _)) _
      (fun x hx => hl x ((stable_sort_perm less l).mem_iff.mp hx))
      (stable_sort_pairwise_on less S hasymm htrans l hl)

theorem forward_less_false_iff (a b : Pair) : forward_less b a = false ↔
    (a.probe_k < b.probe_k ∨ (a.probe_k = b.probe_k ∧
      (a.gallery_k < b.gallery_k ∨ (a.gallery_k = b.gallery_k ∧ a.probe_j ≤ b.probe_j)))) := by
  unfold forward_less
  constructor
  · intro h
    split_ifs at h <;> first | omega | (simp at h; try omega)
  · intro h
    split_ifs <;> first | omega | (simp <;> omega)

theorem forward_less_asymm (a b : Pair) (h : forward_less a b = true) :
    forward_less b a = false := by
  unfold forward_less at *
  split_ifs at h ⊢ <;> first | omega | (simp at h ⊢ <;> omega)

theorem forward_less_trans (a b c : Pair) (h1 : forward_less b a = false)
    (h2 : forward_less c b = false) : forward_less c a = false := by
  rw [forward_less_false_iff] at *
  omega

theorem backward_less_false_iff (F : List Pair) (a b : Nat) (l r : Pair)
    (ha : F[a]? = some l) (hb : F[b]? = some r) : backward_less F b a = false ↔
    (l.probe_j < r.probe_j ∨ (l.probe_j = r.probe_j ∧
      (l.gallery_j < r.gallery_j ∨ (l.gallery_j = r.gallery_j ∧ a ≤ b)))) := by
  unfold backward_less
  rw [ha, hb]
  dsimp only
  constructor
  · intro h
    split_ifs at h <;> first | omega | (simp at h; try omega)
  · intro h
    split_ifs <;> first | omega | (simp <;> omega)

theorem backward_less_asymm (F : List Pair) (a b : Nat) (ha : a < F.length) (hb : b < F.length)
    (h : backward_less F a b = true) : backward_less F b a = false := by
  rw [backward_less_false_iff F a b F[a] F[b] (List.getElem?_eq_getElem ha)
    (List.getElem?_eq_getElem hb)]
  unfold backward_less at h
  rw [List.getElem?_eq_getElem ha, List.getElem?_eq_getElem hb] at h
  dsimp only at h
  split_ifs at h <;> first | omega | (simp at h; try omega)

theorem backward_less_trans (F : List Pair) (a b c : Nat) (ha : a < F.length)
    (hb : b < F.length) (hc : c < F.length) (h1 : backward_less F b a = false)
    (h2 : backward_less F c b = false) : backward_less F c a = false := by
  rw [backward_less_false_iff F _ _ _ _ (List.getElem?_eq_getElem (by assumption))
    (List.getElem?_eq_getElem (by assumption))] at *
  omega

theorem foldl_add_fields (pairs : List Pair) : ∀ (h : PairHolder),
    (pairs.foldl PairHolder.add h).backward_ = h.backward_ ∧
    (pairs.foldl PairHolder.add h).forward_cache_ = h.forward_cache_ ∧
    (pairs.foldl PairHolder.add h).backward_cache_ = h.backward_cache_ ∧
    (pairs ≠ [] → (pairs.foldl PairHolder.add h).dirty_ = true) := by
  induction pairs with
  | nil => intro h; simp
  | cons p rest ih =>
    intro h
    rw [List.foldl_cons]
    obtain ⟨h1, h2, h3, h4⟩ := ih (h.add p)
    refine ⟨h1, h2, h3, fun _ => ?_⟩
    by_cases hr : rest = []
    · subst hr; rfl
    · exact h4 hr

/-- What `prepare` leaves in a holder that was cleared and filled with a
non-empty list of pairs with endpoints below `MAX_BOZORTH_MINUTIAE`: the
sorted pair list, a sorted permutation of its indices, and two caches
holding the range of every key that occurs and the empty range for every
other key. -/
theorem prepare_spec (pairs : List Pair) (h0 : PairHolder) (hne : pairs ≠ [])
    (hsmall : ∀ p ∈ pairs, p.probe_k < MAX_BOZORTH_MINUTIAE ∧ p.probe_j < MAX_BOZORTH_MINUTIAE ∧
      p.gallery_k < MAX_BOZORTH_MINUTIAE ∧ p.gallery_j < MAX_BOZORTH_MINUTIAE) :
    ∃ h, (pairs.foldl PairHolder.add h0.clear).prepare = .ok h ∧ h.dirty_ = false ∧
      h.forward_ = stable_sort forward_less pairs ∧
      h.backward_.Perm (List.range h.forward_.length) ∧
      h.backward_.Pairwise (fun x y => backward_less h.forward_ y x = false) ∧
      (∀ q : Nat × Nat, q.2 < MAX_BOZORTH_MINUTIAE →
        (q ∈ h.forward_.map (fun p => (p.probe_k, p.gallery_k)) →
          is_range_of (h.forward_.map (fun p => (p.probe_k, p.gallery_k))) q
            (h.forward_cache_ (key_code q))) ∧
        (q ∉ h.forward_.map (fun p => (p.probe_k, p.gallery_k)) →
          h.forward_cache_ (key_code q) = OptionalRange.empty)) ∧
      (∀ q : Nat × Nat, q.2 < MAX_BOZORTH_MINUTIAE →
        (q ∈ h.backward_.map (second_key h.forward_) →
          is_range_of (h.backward_.map (second_key h.forward_)) q
            (h.backward_cache_ (key_code q))) ∧
        (q ∉ h.backward_.map (second_key h.forward_) →
          h.backward_cache_ (key_code q) = OptionalRange.empty)) := by
  obtain ⟨f1, f2, f3, f4⟩ := foldl_add_fields pairs h0.clear
  have f0 : (pairs.foldl PairHolder.add h0.clear).forward_ = pairs := by
    rw [foldl_add_forward]; rfl
  have hFperm := stable_sort_perm forward_less pairs
  have hFsmall : ∀ p ∈ stable_sort forward_less pairs,
      p.probe_k < MAX_BOZORTH_MINUTIAE ∧ p.probe_j < MAX_BOZORTH_MINUTIAE ∧
      p.gallery_k < MAX_BOZORTH_MINUTIAE ∧ p.gallery_j < MAX_BOZORTH_MINUTIAE :=
    fun p hp => hsmall p (hFperm.mem_iff.mp hp)
  have hFsorted := stable_sort_pairwise forward_less forward_less_asymm forward_less_trans pairs
  generalize hF : stable_sort forward_less pairs = F at hFperm hFsmall hFsorted
  -- the forward cache
  obtain ⟨fc, hfc1, hfc2, hfc3⟩ := fill_cache_spec (F.map (fun p => (p.probe_k, p.gallery_k)))
    (fun _ => OptionalRange.empty)
    (by
      intro k hk
      obtain ⟨p, hp, rfl⟩ := List.mem_map.mp hk
      exact ⟨(hFsmall p hp).1, (hFsmall p hp).2.2.1⟩)
    (by
      intro j j2 q q2 hj hq hq2
      rw [List.getElem?_map] at hq hq2
      obtain ⟨p, hp, rfl⟩ := Option.map_eq_some'.mp hq
      obtain ⟨p2, hp2, rfl⟩ := Option.map_eq_some'.mp hq2
      rcases Nat.eq_or_lt_of_le hj with hj | hj
      · subst hj
        rw [hp] at hp2
        cases hp2
        exact le_refl _
      · obtain ⟨hl1, e1⟩ := List.getElem?_eq_some_iff.mp hp
        obtain ⟨hl2, e2⟩ := List.getElem?_eq_some_iff.mp hp2
        have := (List.pairwise_iff_getElem.mp hFsorted) j j2 hl1 hl2 hj
        rw [e1, e2, forward_less_false_iff] at this
        have s1 := hFsmall p (List.getElem?_mem hp)
        unfold key_code MAX_BOZORTH_MINUTIAE at *
        dsimp only
        rcases this with h | ⟨h, h2⟩
        · have : (p.probe_k + 1) * 200 ≤ p2.probe_k * 200 := Nat.mul_le_mul_right _ h
          omega
        · rw [h]; omega)
  rw [List.length_map] at hfc1
  -- the backward list
  have hBperm := stable_sort_perm (backward_less F) (List.range F.length)
  have hBlt : ∀ i ∈ stable_sort (backward_less F) (List.range F.length), i < F.length :=
    fun i hi => List.mem_range.mp (hBperm.mem_iff.mp hi)
  have hBsorted := stable_sort_pairwise_on (backward_less F) (fun i => i < F.length)
    (fun a b ha hb => backward_less_asymm F a b ha hb)
    (fun a b c ha hb hc => backward_less_trans F a b c ha hb hc)
    (List.range F.length) (fun x hx => List.mem_range.mp hx)
  generalize hB : stable_sort (backward_less F) (List.range F.length) = B
    at hBperm hBlt hBsorted
  obtain ⟨bc, hbc1, hbc2, hbc3⟩ := fill_cache_spec
    (B.map (second_key F))
    (fun _ => OptionalRange.empty)
    (by
      intro k hk
      obtain ⟨i, hi, rfl⟩ := List.mem_map.mp hk
      have hil := hBlt i hi
      unfold second_key
      rw [List.getElem?_eq_getElem hil]
      have := hFsmall F[i] (List.getElem_mem _)
      exact ⟨this.2.1, this.2.2.2⟩)
    (by
      intro j j2 q q2 hj hq hq2
      rw [List.getElem?_map] at hq hq2
      obtain ⟨i, hi, rfl⟩ := Option.map_eq_some'.mp hq
      obtain ⟨i2, hi2, rfl⟩ := Option.map_eq_some'.mp hq2
      rcases Nat.eq_or_lt_of_le hj with hj | hj
      · subst hj
        rw [hi] at hi2
        cases hi2
        exact le_refl _
      · obtain ⟨hl1, e1⟩ := List.getElem?_eq_some_iff.mp hi
        obtain ⟨hl2, e2⟩ := List.getElem?_eq_some_iff.mp hi2
        have := (List.pairwise_iff_getElem.mp hBsorted) j j2 hl1 hl2 hj
        have hil := hBlt i (List.getElem?_mem hi)
        have hil2 := hBlt i2 (List.getElem?_mem hi2)
        rw [e1, e2, backward_less_false_iff F i i2 F[i] F[i2] (List.getElem?_eq_getElem hil)
          (List.getElem?_eq_getElem hil2)] at this
        unfold second_key
        rw [List.getElem?_eq_getElem hil, List.getElem?_eq_getElem hil2]
        have s1 := hFsmall F[i] (List.getElem_mem _)
        unfold key_code MAX_BOZORTH_MINUTIAE at *
        dsimp only
        rcases this with h | ⟨h, h2⟩
        · have : (F[i].probe_j + 1) * 200 ≤ F[i2].probe_j * 200 := Nat.mul_le_mul_right _ h
          omega
        · rw [h]; omega)
  rw [List.length_map] at hbc1
  have hFne : F ≠ [] := by
    intro hnil
    rw [hnil] at hFperm
    exact hne (List.Perm.eq_nil hFperm.symm)
  refine ⟨{ forward_ := F, backward_ := B, forward_cache_ := fc, backward_cache_ := bc,
            dirty_ := false }, ?_, rfl, rfl, hBperm, hBsorted, ?_, ?_⟩
  · unfold PairHolder.prepare
    rw [f0, f1, f2, f3, f4 hne]
    have e1 : pairs.isEmpty = false := by
      cases pairs with
      | nil => exact absurd rfl hne
      | cons _ _ => rfl
    simp only [e1, Bool.false_eq_true, if_false, PairHolder.clear, List.isEmpty_nil,
      Bool.not_true, Bool.not_false, if_true]
    rw [hF, hfc1]
    dsimp only
    rw [hB]
    erw [hbc1]
  · intro q hq
    exact ⟨fun hin => hfc2 q hin, fun hnot => hfc3 q hq hnot⟩
  · intro q hq
    exact ⟨fun hin => hbc2 q hin, fun hnot => hbc3 q hq hnot⟩

/-! ## The two lookups of the pair holder -/

theorem eq_of_ascending_of_mem_iff {l1 l2 : List Nat} (h1 : l1.Pairwise (fun a b => a < b))
    (h2 : l2.Pairwise (fun a b => a < b)) (hm : ∀ i, i ∈ l1 ↔ i ∈ l2) : l1 = l2 := by
  have d1 : l1.Nodup := h1.imp (fun h => Nat.ne_of_lt h)
  have d2 : l2.Nodup := h2.imp (fun h => Nat.ne_of_lt h)
  exact List.eq_of_perm_of_sorted ((List.perm_ext_iff_of_nodup d1 d2).mpr hm) h1 h2

theorem first_endpoint_loop_eq {σ : Type} (h : PairHolder) (offset : Nat)
    (cb : Nat → Nat → Nat → σ → Except Fault σ) :
    ∀ (count index : Nat) (s : σ), index + count ≤ h.forward_.length →
      first_endpoint_loop h offset cb count index s
        = run_callbacks cb
            (((List.range' index count).filter (fun i => decide (offset ≤ i))).filterMap
              (fun i => h.forward_[i]?.map (fun p => (i, p.probe_j, p.gallery_j)))) s := by
  intro count
  induction count with
  | zero => intro index s _; rfl
  | succ count ih =>
    intro index s hle
    unfold first_endpoint_loop
    rw [List.range'_succ, List.filter_cons]
    by_cases ho : offset ≤ index
    · rw [if_pos ho, if_pos (by simpa using ho), List.filterMap_cons,
        List.getElem?_eq_getElem (by omega : index < h.forward_.length)]
      simp only [Option.map_some']
      unfold run_callbacks
      dsimp only
      cases cb index h.forward_[index].probe_j h.forward_[index].gallery_j s with
      | error f => rfl
      | ok s1 => exact ih (index + 1) s1 (by omega)
    · rw [if_neg (by simpa using ho), if_neg (by simpa using ho)]
      exact ih (index + 1) s (by omega)

theorem second_endpoint_loop_eq {σ : Type} (h : PairHolder) (offset : Nat)
    (cb : Nat → Nat → Nat → σ → Except Fault σ)
    (hlt : ∀ i ∈ h.backward_, i < h.forward_.length) :
    ∀ (count pos : Nat) (s : σ), pos + count ≤ h.backward_.length →
      second_endpoint_loop h offset cb count pos s
        = run_callbacks cb
            ((((h.backward_.drop pos).take count).filter (fun i => decide (offset ≤ i))).filterMap
              (fun i => h.forward_[i]?.map (fun p => (i, p.probe_k, p.gallery_k)))) s := by
  intro count
  induction count with
  | zero => intro pos s _; simp [second_endpoint_loop, run_callbacks]
  | succ count ih =>
    intro pos s hle
    have hpos : pos < h.backward_.length := by omega
    unfold second_endpoint_loop
    rw [List.drop_eq_getElem_cons hpos, List.take_succ_cons, List.filter_cons,
      List.getElem?_eq_getElem hpos]
    dsimp only
    have hitem := hlt h.backward_[pos] (List.getElem_mem _)
    by_cases ho : offset ≤ h.backward_[pos]
    · rw [if_pos ho, if_pos (by simpa using ho), List.filterMap_cons,
        List.getElem?_eq_getElem hitem]
      simp only [Option.map_some']
      conv_rhs => unfold run_callbacks
      dsimp only
      cases cb h.backward_[pos] h.forward_[h.backward_[pos]].probe_k
          h.forward_[h.backward_[pos]].gallery_k s with
      | error f => rfl
      | ok s1 => exact ih (pos + 1) s1 (by omega)
    · rw [if_neg (by simpa using ho), if_neg (by simpa using ho)]
      exact ih (pos + 1) s (by omega)

theorem indices_with_first_endpoint_mem (F : List Pair) (pk gk i : Nat) :
    i ∈ indices_with_first_endpoint F pk gk
      ↔ (F.map (fun p => (p.probe_k, p.gallery_k)))[i]? = some (pk, gk) := by
  unfold indices_with_first_endpoint
  rw [List.mem_filter, List.mem_range, List.getElem?_map]
  constructor
  · rintro ⟨hi, ht⟩
    rw [List.getElem?_eq_getElem hi] at ht ⊢
    simp only [decide_eq_true_eq] at ht
    simp [ht.1, ht.2]
  · intro hq
    obtain ⟨p, hp, he⟩ := Option.map_eq_some'.mp hq
    obtain ⟨hl, _⟩ := List.getElem?_eq_some_iff.mp hp
    refine ⟨hl, ?_⟩
    rw [hp]
    simp only [Prod.mk.injEq] at he
    simp [he.1, he.2]

theorem indices_with_second_endpoint_mem (F : List Pair) (pj gj i : Nat) :
    i ∈ indices_with_second_endpoint F pj gj ↔ i < F.length ∧ second_key F i = (pj, gj) := by
  unfold indices_with_second_endpoint second_key
  rw [List.mem_filter, List.mem_range]
  constructor
  · rintro ⟨hi, ht⟩
    rw [List.getElem?_eq_getElem hi] at ht ⊢
    simp only [decide_eq_true_eq] at ht
    exact ⟨hi, by simp [ht.1, ht.2]⟩
  · rintro ⟨hi, hq⟩
    rw [List.getElem?_eq_getElem hi] at hq ⊢
    simp only [Prod.mk.injEq] at hq
    exact ⟨hi, by simp [hq.1, hq.2]⟩

theorem indices_ascending (n : Nat) (t : Nat → Bool) :
    ((List.range n).filter t).Pairwise (fun a b => a < b) :=
  (List.pairwise_lt_range n).sublist (List.filter_sublist _)

/-- The indices with a first endpoint are the cached range of its key. -/
theorem indices_with_first_endpoint_eq (F : List Pair) (pk gk : Nat) (r : OptionalRange)
    (hr : is_range_of (F.map (fun p => (p.probe_k, p.gallery_k))) (pk, gk) r) :
    indices_with_first_endpoint F pk gk = List.range' r.begin (r.end - r.begin) := by
  apply eq_of_ascending_of_mem_iff (indices_ascending _ _) (List.pairwise_lt_range' _ _)
  intro i
  show i ∈ indices_with_first_endpoint F pk gk ↔ _
  rw [indices_with_first_endpoint_mem, hr.2.2 i, List.mem_range'_1]
  have := hr.1
  omega

theorem indices_with_first_endpoint_nil (F : List Pair) (pk gk : Nat)
    (hq : (pk, gk) ∉ F.map (fun p => (p.probe_k, p.gallery_k))) :
    indices_with_first_endpoint F pk gk = [] := by
  rw [List.eq_nil_iff_forall_not_mem]
  intro i hi
  rw [indices_with_first_endpoint_mem] at hi
  exact hq (List.getElem?_mem hi)

theorem take_drop_mem {α : Type} (l : List α) (b e : Nat) (x : α) :
    x ∈ (l.drop b).take (e - b) ↔ ∃ pos, b ≤ pos ∧ pos < e ∧ l[pos]? = some x := by
  rw [List.mem_iff_getElem?]
  constructor
  · rintro ⟨k, hk⟩
    rw [List.getElem?_take] at hk
    split_ifs at hk with hlt
    rw [List.getElem?_drop] at hk
    exact ⟨b + k, by omega, by omega, hk⟩
  · rintro ⟨pos, h1, h2, h3⟩
    refine ⟨pos - b, ?_⟩
    rw [List.getElem?_take, if_pos (by omega), List.getElem?_drop]
    rw [show b + (pos - b) = pos by omega]
    exact h3

/-- The cached range of `backward_` for a second endpoint holds the indices
with this endpoint, in ascending order. -/
theorem indices_with_second_endpoint_eq (F : List Pair) (B : List Nat) (pj gj : Nat)
    (r : OptionalRange) (hperm : B.Perm (List.range F.length))
    (hsorted : B.Pairwise (fun x y => backward_less F y x = false))
    (hr : is_range_of (B.map (second_key F)) (pj, gj) r) :
    (B.drop r.begin).take (r.end - r.begin) = indices_with_second_endpoint F pj gj := by
  have hlt : ∀ i ∈ B, i < F.length := fun i hi => List.mem_range.mp (hperm.mem_iff.mp hi)
  have hkey : ∀ i, i ∈ (B.drop r.begin).take (r.end - r.begin) →
      i ∈ B ∧ second_key F i = (pj, gj) := by
    intro i hi
    obtain ⟨pos, h1, h2, h3⟩ := (take_drop_mem B _ _ i).mp hi
    have := (hr.2.2 pos).mpr ⟨h1, h2⟩
    rw [List.getElem?_map, h3] at this
    simp only [Option.map_some', Option.some.injEq] at this
    exact ⟨List.getElem?_mem h3, this⟩
  have hsub : ((B.drop r.begin).take (r.end - r.begin)).Sublist B :=
    (List.take_sublist _ _).trans (List.drop_sublist _ _)
  have hnodup : B.Nodup := hperm.nodup_iff.mpr (List.nodup_range _)
  apply eq_of_ascending_of_mem_iff _ (indices_ascending _ _)
  · intro i
    show _ ↔ i ∈ indices_with_second_endpoint F pj gj
    rw [indices_with_second_endpoint_mem]
    constructor
    · intro hi
      exact ⟨hlt i (hkey i hi).1, (hkey i hi).2⟩
    · rintro ⟨hi, hq⟩
      obtain ⟨pos, hpos⟩ := List.mem_iff_getElem?.mp (hperm.mem_iff.mpr (List.mem_range.mpr hi))
      have : (B.map (second_key F))[pos]? = some (pj, gj) := by
        rw [List.getElem?_map, hpos]
        simp [hq]
      have := (hr.2.2 pos).mp this
      exact (take_drop_mem B _ _ i).mpr ⟨pos, this.1, this.2, hpos⟩
  · have hp := (hsorted.sublist hsub).and (hnodup.sublist hsub)
    refine hp.imp_of_mem ?_
    intro a b ha hb hab
    obtain ⟨ha1, ha2⟩ := hkey a ha
    obtain ⟨hb1, hb2⟩ := hkey b hb
    have hla := hlt a ha1
    have hlb := hlt b hb1
    have h1 := (backward_less_false_iff F a b F[a] F[b] (List.getElem?_eq_getElem hla)
      (List.getElem?_eq_getElem hlb)).mp hab.1
    unfold second_key at ha2 hb2
    rw [List.getElem?_eq_getElem hla] at ha2
    rw [List.getElem?_eq_getElem hlb] at hb2
    simp only [Prod.mk.injEq] at ha2 hb2
    have h2 := hab.2
    omega

theorem indices_with_second_endpoint_nil (F : List Pair) (B : List Nat) (pj gj : Nat)
    (hperm : B.Perm (List.range F.length)) (hq : (pj, gj) ∉ B.map (second_key F)) :
    indices_with_second_endpoint F pj gj = [] := by
  rw [List.eq_nil_iff_forall_not_mem]
  intro i hi
  rw [indices_with_second_endpoint_mem] at hi
  apply hq
  rw [List.mem_map]
  exact ⟨i, hperm.mem_iff.mpr (List.mem_range.mpr hi.1), hi.2⟩

theorem key_code_index (pk gk : Nat) (hpk : pk < MAX_BOZORTH_MINUTIAE)
    (hgk : gk < MAX_BOZORTH_MINUTIAE) :
    wrapU32 (pk * MAX_BOZORTH_MINUTIAE + gk) = key_code (pk, gk) ∧
      key_code (pk, gk) < CACHE_SIZE := by
  unfold key_code CACHE_SIZE MAX_BOZORTH_MINUTIAE at *
  dsimp only
  have : pk * 200 + gk < 40000 := by omega
  exact ⟨wrapU32_eq_self (by omega), by omega⟩

/-- The result of `find_pairs_by_first_endpoint` on a holder whose forward
cache holds the range of every key: the callback runs over the indices with
the first endpoint that are at least `offset`, and the bound is returned. -/
theorem first_lookup {σ : Type} (h : PairHolder) (hd : h.dirty_ = false)
    (hsize : h.forward_.length < U32_MAX)
    (hcache : ∀ q : Nat × Nat, q.2 < MAX_BOZORTH_MINUTIAE →
      (q ∈ h.forward_.map (fun p => (p.probe_k, p.gallery_k)) →
        is_range_of (h.forward_.map (fun p => (p.probe_k, p.gallery_k))) q
          (h.forward_cache_ (key_code q))) ∧
      (q ∉ h.forward_.map (fun p => (p.probe_k, p.gallery_k)) →
        h.forward_cache_ (key_code q) = OptionalRange.empty))
    (offset pk gk : Nat) (hpk : pk < MAX_BOZORTH_MINUTIAE) (hgk : gk < MAX_BOZORTH_MINUTIAE)
    (cb : Nat → Nat → Nat → σ → Except Fault σ) (s : σ) :
    h.find_pairs_by_first_endpoint offset pk gk cb s
      = Except.map (fun s1 => (s1, first_endpoint_bound h.forward_ offset pk gk))
          (run_callbacks cb (first_endpoint_calls h.forward_ offset pk gk) s) := by
  obtain ⟨hi1, hi2⟩ := key_code_index pk gk hpk hgk
  unfold PairHolder.find_pairs_by_first_endpoint
  rw [hd, hi1]
  simp only [Bool.false_eq_true, if_false, if_pos hi2]
  by_cases hq : (pk, gk) ∈ h.forward_.map (fun p => (p.probe_k, p.gallery_k))
  · have hr := (hcache (pk, gk) hgk).1 hq
    have hidx := indices_with_first_endpoint_eq h.forward_ pk gk _ hr
    obtain ⟨hr1, hr2, _⟩ := hr
    rw [List.length_map] at hr2
    have hv : (h.forward_cache_ (key_code (pk, gk))).has_value = true := by
      unfold OptionalRange.has_value
      unfold U32_MAX at *
      simp only [Bool.and_eq_true, bne_iff_ne, ne_eq]
      omega
    rw [if_pos hv, if_pos (Nat.le_of_lt hr1),
      first_endpoint_loop_eq h offset cb _ _ s (by omega)]
    unfold first_endpoint_calls first_endpoint_bound
    rw [hidx, List.getLast?_range', if_neg (by omega)]
    dsimp only
    rw [show (h.forward_cache_ (key_code (pk, gk))).begin
        + ((h.forward_cache_ (key_code (pk, gk))).end
          - (h.forward_cache_ (key_code (pk, gk))).begin) - 1 + 1
        = (h.forward_cache_ (key_code (pk, gk))).end by omega]
    cases run_callbacks cb _ s with
    | error f => rfl
    | ok s1 => rfl
  · have hr := (hcache (pk, gk) hgk).2 hq
    have hidx := indices_with_first_endpoint_nil h.forward_ pk gk hq
    rw [hr]
    unfold first_endpoint_calls first_endpoint_bound
    rw [hidx]
    rfl

/-- The result of `find_pairs_by_second_endpoint` on a holder whose backward
list and cache are as `prepare` leaves them: the callback runs over the
indices with the second endpoint that are at least `offset`, in ascending
order. -/
theorem second_lookup {σ : Type} (h : PairHolder) (hd : h.dirty_ = false)
    (hsize : h.forward_.length < U32_MAX)
    (hperm : h.backward_.Perm (List.range h.forward_.length))
    (hsorted : h.backward_.Pairwise (fun x y => backward_less h.forward_ y x = false))
    (hcache : ∀ q : Nat × Nat, q.2 < MAX_BOZORTH_MINUTIAE →
      (q ∈ h.backward_.map (second_key h.forward_) →
        is_range_of (h.backward_.map (second_key h.forward_)) q
          (h.backward_cache_ (key_code q))) ∧
      (q ∉ h.backward_.map (second_key h.forward_) →
        h.backward_cache_ (key_code q) = OptionalRange.empty))
    (offset pj gj : Nat) (hpj : pj < MAX_BOZORTH_MINUTIAE) (hgj : gj < MAX_BOZORTH_MINUTIAE)
    (cb : Nat → Nat → Nat → σ → Except Fault σ) (s : σ) :
    h.find_pairs_by_second_endpoint offset pj gj cb s
      = run_callbacks cb (second_endpoint_calls h.forward_ offset pj gj) s := by
  obtain ⟨hi1, hi2⟩ := key_code_index pj gj hpj hgj
  have hlen : h.backward_.length = h.forward_.length := by
    rw [hperm.length_eq, List.length_range]
  unfold PairHolder.find_pairs_by_second_endpoint
  rw [hd, hi1]
  simp only [Bool.false_eq_true, if_false, if_pos hi2]
  by_cases hq : (pj, gj) ∈ h.backward_.map (second_key h.forward_)
  · have hr := (hcache (pj, gj) hgj).1 hq
    have hidx := indices_with_second_endpoint_eq h.forward_ h.backward_ pj gj _ hperm hsorted hr
    obtain ⟨hr1, hr2, _⟩ := hr
    rw [List.length_map] at hr2
    have hv : (h.backward_cache_ (key_code (pj, gj))).has_value = true := by
      unfold OptionalRange.has_value
      unfold U32_MAX at *
      simp only [Bool.and_eq_true, bne_iff_ne, ne_eq]
      omega
    rw [if_pos hv, if_pos (Nat.le_of_lt hr1),
      second_endpoint_loop_eq h offset cb
        (fun i hi => List.mem_range.mp (hperm.mem_iff.mp hi)) _ _ s (by omega)]
    unfold second_endpoint_calls
    rw [hidx]
  · have hr := (hcache (pj, gj) hgj).2 hq
    have hidx := indices_with_second_endpoint_nil h.forward_ h.backward_ pj gj hperm hq
    rw [hr]
    unfold second_endpoint_calls
    rw [hidx]
    rfl

/-- C16 (amended). For a holder that was cleared, filled with a non-empty
list of pairs whose endpoint indices are all below 200, and prepared
(`prepare` returns): for every offset and every `(pk, gk)` with `pk` and `gk`
below 200, `find_pairs_by_first_endpoint` invokes the callback exactly once
for each index `i ≥ offset` of the sorted pair list with
`forward[i].probe_k = pk` and `forward[i].gallery_k = gk`, in ascending order
of `i`, passing `(i, forward[i].probe_j, forward[i].gallery_j)`, and for no
other index. -/
theorem find_pairs_by_first_endpoint_calls (σ : Type) (pairs : List Pair) (h0 : PairHolder)
    (hne : pairs ≠ [])
    (hsmall : ∀ p ∈ pairs, p.probe_k < MAX_BOZORTH_MINUTIAE ∧ p.probe_j < MAX_BOZORTH_MINUTIAE ∧
      p.gallery_k < MAX_BOZORTH_MINUTIAE ∧ p.gallery_j < MAX_BOZORTH_MINUTIAE)
    (hsize : pairs.length < U32_MAX) :
    ∃ h, (pairs.foldl PairHolder.add h0.clear).prepare = .ok h ∧
      h.forward_ = stable_sort forward_less pairs ∧
      ∀ offset pk gk, pk < MAX_BOZORTH_MINUTIAE → gk < MAX_BOZORTH_MINUTIAE →
        ∀ (cb : Nat → Nat → Nat → σ → Except Fault σ) (s : σ),
          Except.map Prod.fst (h.find_pairs_by_first_endpoint offset pk gk cb s)
            = run_callbacks cb (first_endpoint_calls h.forward_ offset pk gk) s := by
  obtain ⟨h, h1, h2, h3, _, _, h6, _⟩ := prepare_spec pairs h0 hne hsmall
  refine ⟨h, h1, h3, ?_⟩
  intro offset pk gk hpk hgk cb s
  have hlen : h.forward_.length < U32_MAX := by
    rw [h3, (stable_sort_perm forward_less pairs).length_eq]; exact hsize
  rw [first_lookup h h2 hlen h6 offset pk gk hpk hgk cb s]
  cases run_callbacks cb (first_endpoint_calls h.forward_ offset pk gk) s with
  | error f => rfl
  | ok s1 => rfl

/-- C17 (amended). For a holder that was cleared, filled with a non-empty
list of pairs whose endpoint indices are all below 200, and prepared, and for
`pk` and `gk` below 200, `find_pairs_by_first_endpoint(offset, pk, gk, cb)`
returns, when the callback does not fault, 1 plus the largest index `i` with
`forward[i].probe_k = pk` and `forward[i].gallery_k = gk`, whatever the
offset, and `offset` when no pair has that first endpoint. -/
theorem find_pairs_by_first_endpoint_bound (σ : Type) (pairs : List Pair) (h0 : PairHolder)
    (hne : pairs ≠ [])
    (hsmall : ∀ p ∈ pairs, p.probe_k < MAX_BOZORTH_MINUTIAE ∧ p.probe_j < MAX_BOZORTH_MINUTIAE ∧
      p.gallery_k < MAX_BOZORTH_MINUTIAE ∧ p.gallery_j < MAX_BOZORTH_MINUTIAE)
    (hsize : pairs.length < U32_MAX) :
    ∃ h, (pairs.foldl PairHolder.add h0.clear).prepare = .ok h ∧
      h.forward_ = stable_sort forward_less pairs ∧
      ∀ offset pk gk, pk < MAX_BOZORTH_MINUTIAE → gk < MAX_BOZORTH_MINUTIAE →
        ∀ (cb : Nat → Nat → Nat → σ → Except Fault σ) (s : σ),
          Except.map Prod.snd (h.find_pairs_by_first_endpoint offset pk gk cb s)
            = Except.map (fun _ => first_endpoint_bound h.forward_ offset pk gk)
                (run_callbacks cb (first_endpoint_calls h.forward_ offset pk gk) s) := by
  obtain ⟨h, h1, h2, h3, _, _, h6, _⟩ := prepare_spec pairs h0 hne hsmall
  refine ⟨h, h1, h3, ?_⟩
  intro offset pk gk hpk hgk cb s
  have hlen : h.forward_.length < U32_MAX := by
    rw [h3, (stable_sort_perm forward_less pairs).length_eq]; exact hsize
  rw [first_lookup h h2 hlen h6 offset pk gk hpk hgk cb s]
  cases run_callbacks cb (first_endpoint_calls h.forward_ offset pk gk) s with
  | error f => rfl
  | ok s1 => rfl

/-- C18 (amended). For a holder that was cleared, filled with a non-empty
list of pairs whose endpoint indices are all below 200, and prepared: for
every offset and every `(pj, gj)` with `pj` and `gj` below 200,
`find_pairs_by_second_endpoint` invokes the callback exactly once for each
index `i ≥ offset` with `forward[i].probe_j = pj` and
`forward[i].gallery_j = gj`, in ascending order of `i`, passing
`(i, forward[i].probe_k, forward[i].gallery_k)`, and for no other index. -/
theorem find_pairs_by_second_endpoint_calls (σ : Type) (pairs : List Pair) (h0 : PairHolder)
    (hne : pairs ≠ [])
    (hsmall : ∀ p ∈ pairs, p.probe_k < MAX_BOZORTH_MINUTIAE ∧ p.probe_j < MAX_BOZORTH_MINUTIAE ∧
      p.gallery_k < MAX_BOZORTH_MINUTIAE ∧ p.gallery_j < MAX_BOZORTH_MINUTIAE)
    (hsize : pairs.length < U32_MAX) :
    ∃ h, (pairs.foldl PairHolder.add h0.clear).prepare = .ok h ∧
      h.forward_ = stable_sort forward_less pairs ∧
      ∀ offset pj gj, pj < MAX_BOZORTH_MINUTIAE → gj < MAX_BOZORTH_MINUTIAE →
        ∀ (cb : Nat → Nat → Nat → σ → Except Fault σ) (s : σ),
          h.find_pairs_by_second_endpoint offset pj gj cb s
            = run_callbacks cb (second_endpoint_calls h.forward_ offset pj gj) s := by
  obtain ⟨h, h1, h2, h3, h4, h5, _, h7⟩ := prepare_spec pairs h0 hne hsmall
  refine ⟨h, h1, h3, ?_⟩
  intro offset pj gj hpj hgj cb s
  have hlen : h.forward_.length < U32_MAX := by
    rw [h3, (stable_sort_perm forward_less pairs).length_eq]; exact hsize
  exact second_lookup h h2 hlen h4 h5 h7 offset pj gj hpj hgj cb s

/-- C16, witness: the amended statement applied to the holder of
`three_star_pairs`, offset 1 and the first endpoint `(0, 0)`. -/
theorem find_pairs_by_first_endpoint_calls_witness :
    ∃ h, (three_star_pairs.foldl PairHolder.add PairHolder.init.clear).prepare = .ok h ∧
      Except.map Prod.fst (h.find_pairs_by_first_endpoint 1 0 0 record_call [])
        = run_callbacks record_call (first_endpoint_calls h.forward_ 1 0 0) [] :=
  (find_pairs_by_first_endpoint_calls (List (Nat × Nat × Nat)) three_star_pairs PairHolder.init
    (by decide) (by decide) (by decide)).elim
    (fun h hh => ⟨h, hh.1, hh.2.2 1 0 0 (by decide) (by decide) record_call []⟩)

/-- C16, counterexample.  A query outside the endpoint range: the holder
with the one pair of first endpoint `(1, 0)` (all indices below 200), asked
for the first endpoint `(0, 200)`, reads the cache slot 200 of `(1, 0)` and
invokes the callback on index 0, whose pair has `probe_k = 1`; the spec list
of invocations is empty.  For `pk = 200` the slot lies outside the cache. -/
theorem first_lookup_aliases :
    (∀ p ∈ alias_first_pairs, p.probe_k < 200 ∧ p.probe_j < 200 ∧ p.gallery_k < 200 ∧
      p.gallery_j < 200) ∧
    ∃ h, (alias_first_pairs.foldl PairHolder.add PairHolder.init.clear).prepare = .ok h ∧
      h.forward_ = alias_first_pairs ∧
      h.find_pairs_by_first_endpoint 0 0 200 record_call [] = .ok ([(0, 2, 3)], 1) ∧
      first_endpoint_calls h.forward_ 0 0 200 = [] ∧
      h.find_pairs_by_first_endpoint 0 200 0 record_call [] = .error .out_of_range := by
  refine ⟨by decide, ?_⟩
  obtain ⟨h, h1, h2⟩ := ok_and_elim
    ((alias_first_pairs.foldl PairHolder.add PairHolder.init.clear).prepare)
    (fun h => decide (h.forward_ = alias_first_pairs) &&
      (decide (h.find_pairs_by_first_endpoint 0 0 200 record_call [] = .ok ([(0, 2, 3)], 1)) &&
      (decide (first_endpoint_calls h.forward_ 0 0 200 = []) &&
       decide (h.find_pairs_by_first_endpoint 0 200 0 record_call [] = .error .out_of_range))))
    (by decide)
  simp only [Bool.and_eq_true, decide_eq_true_eq] at h2
  exact ⟨h, h1, h2.1, h2.2.1, h2.2.2.1, h2.2.2.2⟩

/-- C17, witness: the amended statement applied to the holder of
`three_star_pairs`, offset 5 and the first endpoint `(4, 4)`. -/
theorem find_pairs_by_first_endpoint_bound_witness :
    ∃ h, (three_star_pairs.foldl PairHolder.add PairHolder.init.clear).prepare = .ok h ∧
      Except.map Prod.snd (h.find_pairs_by_first_endpoint 5 4 4 record_call [])
        = Except.map (fun _ => first_endpoint_bound h.forward_ 5 4 4)
            (run_callbacks record_call (first_endpoint_calls h.forward_ 5 4 4) []) :=
  (find_pairs_by_first_endpoint_bound (List (Nat × Nat × Nat)) three_star_pairs PairHolder.init
    (by decide) (by decide) (by decide)).elim
    (fun h hh => ⟨h, hh.1, hh.2.2 5 4 4 (by decide) (by decide) record_call []⟩)

/-- C17, counterexample.  An endpoint index that reaches 200: the holder with
the two pairs of first endpoints `(0, 200)` and `(1, 0)` keeps both in the
cache slot 200, where the second range overwrites the first; asked for
`(0, 200)`, whose only pair has index 0, the lookup returns 2 and not 1.  And
in the holder with the one pair of first endpoint `(1, 0)` no pair has the
first endpoint `(0, 200)`, but the lookup with offset 0 returns 1 and not the
offset. -/
theorem first_lookup_bound_aliases :
    (∃ h, (wide_pairs.foldl PairHolder.add PairHolder.init.clear).prepare = .ok h ∧
      h.forward_ = wide_pairs ∧
      Except.map Prod.snd (h.find_pairs_by_first_endpoint 0 0 200 record_call []) = .ok 2 ∧
      first_endpoint_bound h.forward_ 0 0 200 = 1) ∧
    (∃ h, (alias_first_pairs.foldl PairHolder.add PairHolder.init.clear).prepare = .ok h ∧
      h.forward_ = alias_first_pairs ∧
      Except.map Prod.snd (h.find_pairs_by_first_endpoint 0 0 200 record_call []) = .ok 1 ∧
      first_endpoint_bound h.forward_ 0 0 200 = 0) := by
  constructor
  · obtain ⟨h, h1, h2⟩ := ok_and_elim
      ((wide_pairs.foldl PairHolder.add PairHolder.init.clear).prepare)
      (fun h => decide (h.forward_ = wide_pairs) &&
        (decide (Except.map Prod.snd (h.find_pairs_by_first_endpoint 0 0 200 record_call [])
          = .ok 2) &&
         decide (first_endpoint_bound h.forward_ 0 0 200 = 1)))
      (by decide)
    simp only [Bool.and_eq_true, decide_eq_true_eq] at h2
    exact ⟨h, h1, h2.1, h2.2.1, h2.2.2⟩
  · obtain ⟨h, h1, h2⟩ := ok_and_elim
      ((alias_first_pairs.foldl PairHolder.add PairHolder.init.clear).prepare)
      (fun h => decide (h.forward_ = alias_first_pairs) &&
        (decide (Except.map Prod.snd (h.find_pairs_by_first_endpoint 0 0 200 record_call [])
          = .ok 1) &&
         decide (first_endpoint_bound h.forward_ 0 0 200 = 0)))
      (by decide)
    simp only [Bool.and_eq_true, decide_eq_true_eq] at h2
    exact ⟨h, h1, h2.1, h2.2.1, h2.2.2⟩

/-- C18, witness: the amended statement applied to the holder of
`three_star_pairs`, offset 0 and the second endpoint `(11, 5)`. -/
theorem find_pairs_by_second_endpoint_calls_witness :
    ∃ h, (three_star_pairs.foldl PairHolder.add PairHolder.init.clear).prepare = .ok h ∧
      h.find_pairs_by_second_endpoint 0 11 5 record_call []
        = run_callbacks record_call (second_endpoint_calls h.forward_ 0 11 5) [] :=
  (find_pairs_by_second_endpoint_calls (List (Nat × Nat × Nat)) three_star_pairs PairHolder.init
    (by decide) (by decide) (by decide)).elim
    (fun h hh => ⟨h, hh.1, hh.2.2 0 11 5 (by decide) (by decide) record_call []⟩)

/-- C18, counterexample.  A query outside the endpoint range: the holder
with the one pair of second endpoint `(1, 0)` (all indices below 200), asked
for the second endpoint `(0, 200)`, reads the cache slot 200 of `(1, 0)` and
invokes the callback on index 0, whose pair has `probe_j = 1`; the spec list
of invocations is empty. -/
theorem second_lookup_aliases :
    (∀ p ∈ alias_second_pairs, p.probe_k < 200 ∧ p.probe_j < 200 ∧ p.gallery_k < 200 ∧
      p.gallery_j < 200) ∧
    ∃ h, (alias_second_pairs.foldl PairHolder.add PairHolder.init.clear).prepare = .ok h ∧
      h.forward_ = alias_second_pairs ∧
      h.find_pairs_by_second_endpoint 0 0 200 record_call [] = .ok [(0, 2, 3)] ∧
      second_endpoint_calls h.forward_ 0 0 200 = [] ∧
      h.find_pairs_by_second_endpoint 0 200 0 record_call [] = .error .out_of_range := by
  refine ⟨by decide, ?_⟩
  obtain ⟨h, h1, h2⟩ := ok_and_elim
    ((alias_second_pairs.foldl PairHolder.add PairHolder.init.clear).prepare)
    (fun h => decide (h.forward_ = alias_second_pairs) &&
      (decide (h.find_pairs_by_second_endpoint 0 0 200 record_call [] = .ok [(0, 2, 3)]) &&
      (decide (second_endpoint_calls h.forward_ 0 0 200 = []) &&
       decide (h.find_pairs_by_second_endpoint 0 200 0 record_call [] = .error .out_of_range))))
    (by decide)
  simp only [Bool.and_eq_true, decide_eq_true_eq] at h2
  exact ⟨h, h1, h2.1, h2.2.1, h2.2.2.1, h2.2.2.2⟩

/-! ## partition_dec -/

theorem cell_at_nat (v : List Cell) (i : Nat) (c : Cell) (h : v[i]? = some c) :
    cell_at v (i : Int) = .ok c := by
  unfold cell_at
  rw [if_pos (Int.natCast_nonneg i), Int.toNat_natCast, h]

theorem set_perm_cons (x a : Cell) : ∀ (v : List Cell) (k : Nat), v[k]? = some x →
    (x :: v.set k a).Perm (a :: v)
  | [], _, h => by simp at h
  | b :: v, 0, h => by
    simp only [List.getElem?_cons_zero, Option.some.injEq] at h
    subst h
    exact List.Perm.swap _ _ _
  | b :: v, k + 1, h => by
    simp only [List.getElem?_cons_succ] at h
    rw [List.set_cons_succ]
    exact (List.Perm.swap _ _ _).trans (((set_perm_cons x a v k h).cons b).trans
      (List.Perm.swap _ _ _))

theorem swap_perm : ∀ (v : List Cell) (i j : Nat) (ci cj : Cell), i < j →
    v[i]? = some ci → v[j]? = some cj → ((v.set i cj).set j ci).Perm v
  | [], _, _, _, _, _, h, _ => by simp at h
  | b :: v, 0, j + 1, ci, cj, _, hi, hj => by
    simp only [List.getElem?_cons_zero, Option.some.injEq] at hi
    simp only [List.getElem?_cons_succ] at hj
    subst hi
    rw [List.set_cons_zero, List.set_cons_succ]
    exact set_perm_cons cj b v j hj
  | b :: v, i + 1, j + 1, ci, cj, hlt, hi, hj => by
    simp only [List.getElem?_cons_succ] at hi hj
    rw [List.set_cons_succ, List.set_cons_succ]
    exact (swap_perm v i j ci cj (by omega) hi hj).cons b

/-- Exchanging the cells at two different positions: the length stays, the
cells are permuted, and only the two positions change. -/
theorem swap_spec (v : List Cell) (i j : Nat) (ci cj : Cell) (hne : i ≠ j)
    (hi : v[i]? = some ci) (hj : v[j]? = some cj) :
    ((v.set i cj).set j ci).length = v.length ∧ ((v.set i cj).set j ci).Perm v ∧
    ((v.set i cj).set j ci)[i]? = some cj ∧ ((v.set i cj).set j ci)[j]? = some ci ∧
    ∀ k, k ≠ i → k ≠ j → ((v.set i cj).set j ci)[k]? = v[k]? := by
  have hil : i < v.length := (List.getElem?_eq_some_iff.mp hi).1
  have hjl : j < v.length := (List.getElem?_eq_some_iff.mp hj).1
  refine ⟨by simp, ?_, ?_, ?_, ?_⟩
  · rcases Nat.lt_or_gt_of_ne hne with h | h
    · exact swap_perm v i j ci cj h hi hj
    · have := swap_perm v j i cj ci h hj hi
      rw [List.set_comm cj ci v hne]
      exact this
  · rw [List.getElem?_set_ne (Ne.symm hne), List.getElem?_set_self hil]
  · rw [List.getElem?_set_self (by simpa using hjl)]
  · intro k hki hkj
    rw [List.getElem?_set_ne (Ne.symm hkj), List.getElem?_set_ne (Ne.symm hki)]

theorem select_pivot_spec (v : List Cell) (l r : Nat) (hlr : l < r) (hr : r < v.length) :
    ∃ p : Nat, select_pivot v (l : Int) (r : Int) = .ok (p : Int) ∧ l ≤ p ∧ p ≤ r := by
  have hmid : Int.tdiv ((l : Int) + (r : Int)) 2 = (((l + r) / 2 : Nat) : Int) := by
    rw [Int.tdiv_eq_ediv (by omega) (by omega)]
    push_cast
    rfl
  have hm : (l + r) / 2 < v.length := by omega
  unfold select_pivot
  simp only [hmid]
  rw [cell_at_nat v l _ (List.getElem?_eq_getElem (by omega)),
    cell_at_nat v _ _ (List.getElem?_eq_getElem hm),
    cell_at_nat v r _ (List.getElem?_eq_getElem hr)]
  simp only
  split_ifs
  · exact ⟨(l + r) / 2, rfl, by omega, by omega⟩
  · exact ⟨r, rfl, by omega, by omega⟩
  · exact ⟨l, rfl, by omega, by omega⟩
  · exact ⟨l, rfl, by omega, by omega⟩
  · exact ⟨(l + r) / 2, rfl, by omega, by omega⟩
  · exact ⟨r, rfl, by omega, by omega⟩

/-- The loop of `partition_dec` from a state with `l ≤ p ≤ r`, the cells left
of `l` not below the pivot and the cells right of `r` not above it: it ends,
with the pivot at a position `p1` that splits the range `l0 .. r0`. -/
theorem partition_loop_spec (v0 : List Cell) (l0 r0 : Nat) (hr0 : r0 < v0.length) :
    ∀ (fuel : Nat) (v : List Cell) (p l r : Nat),
      2 * (r - l) + (if l < p then 1 else 0) < fuel →
      l0 ≤ l → l ≤ p → p ≤ r → r ≤ r0 →
      v.length = v0.length → v.Perm v0 →
      unchanged_outside v0 v l0 r0 → transfers v0 v l0 r0 →
      (∀ (i : Nat) (c cp : Cell), l0 ≤ i → i < l → v[i]? = some c → v[p]? = some cp →
        cp.value ≤ c.value) →
      (∀ (i : Nat) (c cp : Cell), r < i → i ≤ r0 → v[i]? = some c → v[p]? = some cp →
        c.value ≤ cp.value) →
      ∃ (v1 : List Cell) (p1 : Nat),
        partition_loop fuel v (p : Int) (l : Int) (r : Int) = .ok (v1, (p1 : Int)) ∧
        l0 ≤ p1 ∧ p1 ≤ r0 ∧ v1.length = v0.length ∧ v1.Perm v0 ∧
        unchanged_outside v0 v1 l0 r0 ∧ transfers v0 v1 l0 r0 ∧
        (∀ (i : Nat) (c cp : Cell), l0 ≤ i → i < p1 → v1[i]? = some c → v1[p1]? = some cp →
          cp.value ≤ c.value) ∧
        (∀ (i : Nat) (c cp : Cell), p1 < i → i ≤ r0 → v1[i]? = some c → v1[p1]? = some cp →
          c.value ≤ cp.value) := by
  intro fuel
  induction fuel with
  | zero => intro v p l r h; omega
  | succ fuel ih =>
    intro v p l r hfuel hl0 hlp hpr hrr0 hlen hperm hout htr hleft hright
    obtain ⟨cp, hcp⟩ : ∃ c, v[p]? = some c := ⟨v[p], List.getElem?_eq_getElem (by omega)⟩
    unfold partition_loop
    by_cases h1 : l < p
    · have hm : (if l < p then 1 else 0) = 1 := if_pos h1
      obtain ⟨cl, hcl⟩ : ∃ c, v[l]? = some c := ⟨v[l], List.getElem?_eq_getElem (by omega)⟩
      rw [if_pos (by exact_mod_cast h1), cell_at_nat v l cl hcl, cell_at_nat v p cp hcp]
      simp only
      by_cases hv : cl.value < cp.value
      · rw [if_pos hv, Int.toNat_natCast, Int.toNat_natCast]
        obtain ⟨s1, s2, s3, s4, s5⟩ := swap_spec v l p cl cp (by omega) hcl hcp
        apply ih _ l l r (by rw [if_neg (lt_irrefl l)]; omega) hl0 (le_refl l) (by omega) hrr0
          (by rw [s1, hlen]) (s2.trans hperm)
        · intro i hi
          rw [s5 i (by omega) (by omega)]
          exact hout i hi
        · intro Q hQ i c hi1 hi2 hic
          by_cases e1 : i = l
          · subst e1
            rw [s3] at hic
            cases hic
            exact htr Q hQ p _ (by omega) (by omega) hcp
          · by_cases e2 : i = p
            · subst e2
              rw [s4] at hic
              cases hic
              exact htr Q hQ l _ (by omega) (by omega) hcl
            · rw [s5 i e1 e2] at hic
              exact htr Q hQ i c hi1 hi2 hic
        · intro i c cq hi1 hi2 hic hq
          rw [s3] at hq
          cases hq
          rw [s5 i (by omega) (by omega)] at hic
          exact hleft i c _ hi1 hi2 hic hcp
        · intro i c cq hi1 hi2 hic hq
          rw [s3] at hq
          cases hq
          rw [s5 i (by omega) (by omega)] at hic
          exact hright i c _ hi1 hi2 hic hcp
      · rw [if_neg hv]
        have hcast : (l : Int) + 1 = ((l + 1 : Nat) : Int) := by push_cast; rfl
        rw [hcast]
        apply ih v p (l + 1) r (by split_ifs <;> omega) (by omega) (by omega) hpr hrr0 hlen hperm
          hout htr
        · intro i c cq hi1 hi2 hic hq
          rw [hcp] at hq
          cases hq
          by_cases e1 : i = l
          · subst e1
            rw [hcl] at hic
            cases hic
            omega
          · exact hleft i c _ hi1 (by omega) hic hcp
        · exact hright
    · have hm : (if l < p then 1 else 0) = 0 := if_neg h1
      have hlp2 : l = p := by omega
      rw [if_neg (by exact_mod_cast h1)]
      by_cases h2 : p < r
      · obtain ⟨cr, hcr⟩ : ∃ c, v[r]? = some c := ⟨v[r], List.getElem?_eq_getElem (by omega)⟩
        rw [if_pos (by exact_mod_cast h2), cell_at_nat v r cr hcr, cell_at_nat v p cp hcp]
        simp only
        by_cases hv : cr.value > cp.value
        · rw [if_pos hv, Int.toNat_natCast, Int.toNat_natCast]
          obtain ⟨s1, s2, s3, s4, s5⟩ := swap_spec v r p cr cp (by omega) hcr hcp
          have hcast : (l : Int) + 1 = ((l + 1 : Nat) : Int) := by push_cast; rfl
          rw [hcast]
          apply ih _ r (l + 1) r (by split_ifs <;> omega) (by omega) (by omega) (le_refl r) hrr0
            (by rw [s1, hlen]) (s2.trans hperm)
          · intro i hi
            rw [s5 i (by omega) (by omega)]
            exact hout i hi
          · intro Q hQ i c hi1 hi2 hic
            by_cases e1 : i = r
            · subst e1
              rw [s3] at hic
              cases hic
              exact htr Q hQ p _ (by omega) (by omega) hcp
            · by_cases e2 : i = p
              · subst e2
                rw [s4] at hic
                cases hic
                exact htr Q hQ r _ (by omega) (by omega) hcr
              · rw [s5 i e1 e2] at hic
                exact htr Q hQ i c hi1 hi2 hic
          · intro i c cq hi1 hi2 hic hq
            rw [s3] at hq
            cases hq
            by_cases e2 : i = p
            · subst e2
              rw [s4] at hic
              cases hic
              omega
            · rw [s5 i (by omega) e2] at hic
              exact hleft i c _ hi1 (by omega) hic hcp
          · intro i c cq hi1 hi2 hic hq
            rw [s3] at hq
            cases hq
            rw [s5 i (by omega) (by omega)] at hic
            exact hright i c _ hi1 hi2 hic hcp
        · rw [if_neg hv]
          have hcast : (r : Int) - 1 = ((r - 1 : Nat) : Int) := by omega
          rw [hcast]
          apply ih v p l (r - 1) (by rw [hm]; omega) hl0 hlp (by omega) (by omega) hlen
            hperm hout htr hleft
          intro i c cq hi1 hi2 hic hq
          rw [hcp] at hq
          cases hq
          by_cases e1 : i = r
          · subst e1
            rw [hcr] at hic
            cases hic
            omega
          · exact hright i c _ (by omega) hi2 hic hcp
      · rw [if_neg (by exact_mod_cast h2)]
        have hrp : r = p := by omega
        refine ⟨v, p, rfl, by omega, by omega, hlen, hperm, hout, htr, ?_, ?_⟩
        · intro i c cq hi1 hi2 hic hq
          exact hleft i c cq hi1 (by omega) hic hq
        · intro i c cq hi1 hi2 hic hq
          exact hright i c cq (by omega) hi2 hic hq

/-! ## qsort_decreasing -/

theorem partition_dec_spec (v : List Cell) (p l r : Nat) (hlp : l ≤ p) (hpr : p ≤ r)
    (hr : r < v.length) :
    ∃ (v1 : List Cell) (p1 : Nat),
      partition_dec v (p : Int) (l : Int) (r : Int)
        = .ok (v1, { ll := (l : Int), rr := (r : Int), lr := (p1 : Int) - 1,
                     rl := (p1 : Int) + 1, llen := (p1 : Int) - 1 - (l : Int) + 1,
                     rlen := (r : Int) - ((p1 : Int) + 1) + 1 }) ∧
      l ≤ p1 ∧ p1 ≤ r ∧ v1.length = v.length ∧ v1.Perm v ∧
      unchanged_outside v v1 l r ∧ transfers v v1 l r ∧
      (∀ (i : Nat) (c cp : Cell), l ≤ i → i < p1 → v1[i]? = some c → v1[p1]? = some cp →
        cp.value ≤ c.value) ∧
      (∀ (i : Nat) (c cp : Cell), p1 < i → i ≤ r → v1[i]? = some c → v1[p1]? = some cp →
        c.value ≤ cp.value) := by
  have hfuel : ((r : Int) - (l : Int)).toNat = r - l := by omega
  obtain ⟨v1, p1, h1, h2, h3, h4, h5, h6, h7, h8, h9⟩ :=
    partition_loop_spec v l r hr (2 * (r - l) + 2) v p l r (by split_ifs <;> omega)
      (le_refl l) hlp hpr (le_refl r) rfl (List.Perm.refl v) (fun _ _ => rfl)
      (fun Q hQ => hQ) (fun i c cp a b => by omega) (fun i c cp a b => by omega)
  refine ⟨v1, p1, ?_, h2, h3, h4, h5, h6, h7, h8, h9⟩
  unfold partition_dec
  rw [hfuel, h1]

/-- The loop of `qsort_decreasing` with the range `(l, r)` on top of the
stack: after at most `2 * size + 1` rounds the range is sorted in
non-increasing order, by a permutation of its cells, and the rest of the
stack is on top. -/
theorem qsort_range (n : Nat) :
    ∀ (m : Nat) (v : List Cell) (l r : Int) (rest : List (Int × Int)) (k : Nat),
      (r - l + 1).toNat ≤ m → v.length = n → (l < r → 0 ≤ l ∧ r < (n : Int)) →
      ∃ (v1 : List Cell) (k1 : Nat),
        qsort_loop (2 * (r - l + 1).toNat + 1 + k) v ((l, r) :: rest) = qsort_loop k1 v1 rest ∧
        k ≤ k1 ∧ v1.length = n ∧ v1.Perm v ∧ unchanged_outside v v1 l r ∧
        transfers v v1 l r ∧ decreasing_on v1 l r := by
  intro m
  induction m with
  | zero =>
    intro v l r rest k hm hlen hvalid
    have hlr : ¬ l < r := by omega
    refine ⟨v, 2 * (r - l + 1).toNat + k, ?_, by omega, hlen, List.Perm.refl v,
      fun _ _ => rfl, fun Q hQ => hQ, ?_⟩
    · rw [show 2 * (r - l + 1).toNat + 1 + k = (2 * (r - l + 1).toNat + k) + 1 by omega]
      rw [qsort_loop, if_neg hlr]
    · intro i j c d h1 h2 h3 _ _
      omega
  | succ m ih =>
    intro v l r rest k hm hlen hvalid
    by_cases hlr : l < r
    · obtain ⟨hl0, hrn⟩ := hvalid hlr
      obtain ⟨ln, rfl⟩ := Int.eq_ofNat_of_zero_le hl0
      obtain ⟨rn, rfl⟩ := Int.eq_ofNat_of_zero_le (by omega : 0 ≤ r)
      have hlr2 : ln < rn := by exact_mod_cast hlr
      have hrn2 : rn < v.length := by omega
      obtain ⟨p, hp1, hp2, hp3⟩ := select_pivot_spec v ln rn hlr2 hrn2
      obtain ⟨v1, p1, hd1, hd2, hd3, hd4, hd5, hd6, hd7, hd8, hd9⟩ :=
        partition_dec_spec v p ln rn hp2 hp3 hrn2
      have hsize : ((rn : Int) - (ln : Int) + 1).toNat = rn - ln + 1 := by omega
      have ha : ((p1 : Int) - 1 - (ln : Int) + 1).toNat = p1 - ln := by omega
      have hb : ((rn : Int) - ((p1 : Int) + 1) + 1).toNat = rn - p1 := by omega
      -- the two sub-ranges, and what sorting both (in either order) gives
      have both : ∀ (w1 w2 : List Cell), w1.length = n →
          w1.Perm v1 → w2.Perm w1 →
          ((unchanged_outside v1 w1 ((ln : Int)) ((p1 : Int) - 1) ∧
            transfers v1 w1 (ln : Int) ((p1 : Int) - 1) ∧
            decreasing_on w1 (ln : Int) ((p1 : Int) - 1) ∧
            unchanged_outside w1 w2 ((p1 : Int) + 1) (rn : Int) ∧
            transfers w1 w2 ((p1 : Int) + 1) (rn : Int) ∧
            decreasing_on w2 ((p1 : Int) + 1) (rn : Int)) ∨
           (unchanged_outside v1 w1 ((p1 : Int) + 1) (rn : Int) ∧
            transfers v1 w1 ((p1 : Int) + 1) (rn : Int) ∧
            decreasing_on w1 ((p1 : Int) + 1) (rn : Int) ∧
            unchanged_outside w1 w2 (ln : Int) ((p1 : Int) - 1) ∧
            transfers w1 w2 (ln : Int) ((p1 : Int) - 1) ∧
            decreasing_on w2 (ln : Int) ((p1 : Int) - 1))) →
          w2.Perm v ∧ unchanged_outside v w2 (ln : Int) (rn : Int) ∧
            transfers v w2 (ln : Int) (rn : Int) ∧ decreasing_on w2 (ln : Int) (rn : Int) := by
        intro w1 w2 hw1len hw1 hw2 hcases
        obtain ⟨cp, hcp⟩ : ∃ c, v1[p1]? = some c :=
          ⟨v1[p1], List.getElem?_eq_getElem (by omega)⟩
        -- facts that hold in both orders
        have key : unchanged_outside v1 w2 (ln : Int) (rn : Int) ∧ w2[p1]? = some cp ∧
            (∀ (i : Nat) (c : Cell), ln ≤ i → i < p1 → w2[i]? = some c → cp.value ≤ c.value) ∧
            (∀ (i : Nat) (c : Cell), p1 < i → i ≤ rn → w2[i]? = some c → c.value ≤ cp.value) ∧
            transfers v1 w2 (ln : Int) (rn : Int) ∧
            decreasing_on w2 (ln : Int) ((p1 : Int) - 1) ∧
            decreasing_on w2 ((p1 : Int) + 1) (rn : Int) := by
          have left1 : ∀ (i : Nat) (c : Cell), (ln : Int) ≤ i → (i : Int) ≤ (p1 : Int) - 1 →
              v1[i]? = some c → cp.value ≤ c.value :=
            fun i c a b hc => hd8 i c cp (by omega) (by omega) hc hcp
          have right1 : ∀ (i : Nat) (c : Cell), (p1 : Int) + 1 ≤ i → (i : Int) ≤ (rn : Int) →
              v1[i]? = some c → c.value ≤ cp.value :=
            fun i c a b hc => hd9 i c cp (by omega) (by omega) hc hcp
          rcases hcases with ⟨u1, t1, s1, u2, t2, s2⟩ | ⟨u1, t1, s1, u2, t2, s2⟩
          · refine ⟨?_, ?_, ?_, ?_, ?_, ?_, s2⟩
            · intro i hi
              rw [u2 i (by omega), u1 i (by omega)]
            · rw [u2 p1 (by omega), u1 p1 (by omega)]; exact hcp
            · intro i c a b hc
              rw [u2 i (by omega)] at hc
              exact t1 (fun c => cp.value ≤ c.value) left1 i c (by omega) (by omega) hc
            · intro i c a b hc
              have r2 : ∀ (i : Nat) (c : Cell), (p1 : Int) + 1 ≤ i → (i : Int) ≤ (rn : Int) →
                  w1[i]? = some c → c.value ≤ cp.value := by
                intro i c a b hc
                rw [u1 i (by omega)] at hc
                exact right1 i c a b hc
              exact t2 (fun c => c.value ≤ cp.value) r2 i c (by omega) (by omega) hc
            · intro Q hQ i c a b hc
              by_cases e1 : (i : Int) ≤ (p1 : Int) - 1
              · rw [u2 i (by omega)] at hc
                exact t1 Q (fun i c a b hc => hQ i c (by omega) (by omega) hc) i c a e1 hc
              · by_cases e2 : (p1 : Int) + 1 ≤ i
                · refine t2 Q ?_ i c e2 b hc
                  intro i c a b hc
                  rw [u1 i (by omega)] at hc
                  exact hQ i c (by omega) (by omega) hc
                · rw [u2 i (by omega), u1 i (by omega)] at hc
                  exact hQ i c a b hc
            · intro i j c d a b e hc hd
              rw [u2 i (by omega)] at hc
              rw [u2 j (by omega)] at hd
              exact s1 i j c d a b e hc hd
          · refine ⟨?_, ?_, ?_, ?_, ?_, s2, ?_⟩
            · intro i hi
              rw [u2 i (by omega), u1 i (by omega)]
            · rw [u2 p1 (by omega), u1 p1 (by omega)]; exact hcp
            · intro i c a b hc
              have l2 : ∀ (i : Nat) (c : Cell), (ln : Int) ≤ i → (i : Int) ≤ (p1 : Int) - 1 →
                  w1[i]? = some c → cp.value ≤ c.value := by
                intro i c a b hc
                rw [u1 i (by omega)] at hc
                exact left1 i c a b hc
              exact t2 (fun c => cp.value ≤ c.value) l2 i c (by omega) (by omega) hc
            · intro i c a b hc
              rw [u2 i (by omega)] at hc
              exact t1 (fun c => c.value ≤ cp.value) right1 i c (by omega) (by omega) hc
            · intro Q hQ i c a b hc
              by_cases e1 : (i : Int) ≤ (p1 : Int) - 1
              · refine t2 Q ?_ i c a e1 hc
                intro i c a b hc
                rw [u1 i (by omega)] at hc
                exact hQ i c (by omega) (by omega) hc
              · by_cases e2 : (p1 : Int) + 1 ≤ i
                · rw [u2 i (by omega)] at hc
                  exact t1 Q (fun i c a b hc => hQ i c (by omega) (by omega) hc) i c e2 b hc
                · rw [u2 i (by omega), u1 i (by omega)] at hc
                  exact hQ i c a b hc
            · intro i j c d a b e hc hd
              rw [u2 i (by omega)] at hc
              rw [u2 j (by omega)] at hd
              exact s1 i j c d a b e hc hd
        obtain ⟨k1, k2, k3, k4, k5, k6, k7⟩ := key
        refine ⟨(hw2.trans hw1).trans hd5, ?_, ?_, ?_⟩
        · intro i hi
          rw [k1 i hi]
          exact hd6 i hi
        · intro Q hQ i c a b hc
          exact k5 Q (hd7 Q hQ) i c a b hc
        · intro i j c d a b e hc hd
          by_cases e1 : j < p1
          · exact k6 i j c d a b (by omega) hc hd
          · by_cases e2 : p1 < i
            · exact k7 i j c d (by omega) b e hc hd
            · by_cases e3 : j = p1
              · subst e3
                rw [k2] at hd
                cases hd
                exact k3 i c (by omega) (by omega) hc
              · by_cases e4 : i = p1
                · subst e4
                  rw [k2] at hc
                  cases hc
                  exact k4 j d (by omega) (by omega) hd
                · have x1 := k3 i c (by omega) (by omega) hc
                  have x2 := k4 j d (by omega) (by omega) hd
                  omega
      rw [hsize, show 2 * (rn - ln + 1) + 1 + k = (2 * (rn - ln + 1) + k) + 1 by omega]
      rw [qsort_loop, if_pos hlr, hp1]
      simp only
      rw [hd1]
      simp only
      by_cases hlen2 : (p1 : Int) - 1 - (ln : Int) + 1 > (rn : Int) - ((p1 : Int) + 1) + 1
      · rw [if_pos hlen2]
        -- the right range is on top
        obtain ⟨w1, j1, e1, e2, e3, e4, e5, e6, e7⟩ := ih v1 ((p1 : Int) + 1) (rn : Int)
          (((ln : Int), (p1 : Int) - 1) :: rest) (2 * (p1 - ln) + 1 + k)
          (by omega) (by rw [hd4, hlen]) (fun _ => ⟨by omega, by omega⟩)
        obtain ⟨j2, rfl⟩ : ∃ j2, j1 = 2 * (p1 - ln) + 1 + j2 := ⟨j1 - (2 * (p1 - ln) + 1 + k) + k,
          by omega⟩
        obtain ⟨w2, j3, g1, g2, g3, g4, g5, g6, g7⟩ := ih w1 (ln : Int) ((p1 : Int) - 1) rest j2
          (by omega) e3 (fun _ => ⟨by omega, by omega⟩)
        obtain ⟨x1, x2, x3, x4⟩ := both w1 w2 e3 e4 g4 (Or.inr ⟨e5, e6, e7, g5, g6, g7⟩)
        refine ⟨w2, j3, ?_, by omega, g3, x1, x2, x3, x4⟩
        rw [← g1, ha, ← e1, hb]
        congr 1
        omega
      · rw [if_neg hlen2]
        obtain ⟨w1, j1, e1, e2, e3, e4, e5, e6, e7⟩ := ih v1 (ln : Int) ((p1 : Int) - 1)
          ((((p1 : Int) + 1), (rn : Int)) :: rest) (2 * (rn - p1) + 1 + k)
          (by omega) (by rw [hd4, hlen]) (fun _ => ⟨by omega, by omega⟩)
        obtain ⟨j2, rfl⟩ : ∃ j2, j1 = 2 * (rn - p1) + 1 + j2 := ⟨j1 - (2 * (rn - p1) + 1 + k) + k,
          by omega⟩
        obtain ⟨w2, j3, g1, g2, g3, g4, g5, g6, g7⟩ := ih w1 ((p1 : Int) + 1) (rn : Int) rest j2
          (by omega) e3 (fun _ => ⟨by omega, by omega⟩)
        obtain ⟨x1, x2, x3, x4⟩ := both w1 w2 e3 e4 g4 (Or.inl ⟨e5, e6, e7, g5, g6, g7⟩)
        refine ⟨w2, j3, ?_, by omega, g3, x1, x2, x3, x4⟩
        rw [← g1, hb, ← e1, ha]
        congr 1
        omega
    · refine ⟨v, 2 * (r - l + 1).toNat + k, ?_, by omega, hlen, List.Perm.refl v,
        fun _ _ => rfl, fun Q hQ => hQ, ?_⟩
      · rw [show 2 * (r - l + 1).toNat + 1 + k = (2 * (r - l + 1).toNat + k) + 1 by omega]
        rw [qsort_loop, if_neg hlr]
      · intro i j c d h1 h2 h3 _ _
        omega

/-! ## sort_order_decreasing and prune_minutiae -/

theorem qsort_loop_nil (k : Nat) (v : List Cell) : qsort_loop k v [] = .ok v := by
  cases k <;> rfl

/-- `sort_order_decreasing` returns a permutation of the indices along which
the values do not increase. -/
theorem sort_order_decreasing_spec (values : List Int) :
    ∃ order : List Nat,
      sort_order_decreasing values = .ok (order.map (fun (i : Nat) => (i : Int))) ∧
      order.Perm (List.range values.length) ∧
      (order.map (fun i => values.getD i 0)).Pairwise (fun a b => b ≤ a) := by
  set cells : List Cell :=
    values.enum.map (fun iv => { value := iv.2, index := (iv.1 : Int) }) with hcells
  have hlen : cells.length = values.length := by simp [hcells]
  have hsz : (((values.length : Int) - 1) - 0 + 1).toNat = values.length := by omega
  obtain ⟨v1, k1, h1, _, h3, h4, _, _, h7⟩ := qsort_range values.length values.length cells 0
    ((values.length : Int) - 1) [] 0 (by omega) hlen (fun _ => ⟨le_refl _, by omega⟩)
  rw [qsort_loop_nil, Nat.add_zero] at h1
  -- every cell carries its value's index
  have hwf : ∀ c ∈ v1, ∃ i : Nat, c.index = (i : Int) ∧ values[i]? = some c.value := by
    intro c hc
    have hc2 := h4.mem_iff.mp hc
    rw [hcells, List.mem_map] at hc2
    obtain ⟨⟨i, x⟩, hix, rfl⟩ := hc2
    exact ⟨i, rfl, List.mem_enum_iff_getElem?.mp hix⟩
  refine ⟨v1.map (fun c => c.index.toNat), ?_, ?_, ?_⟩
  · unfold sort_order_decreasing
    simp only
    rw [← hcells]
    unfold qsort_decreasing
    rw [h1]
    simp only [List.map_map, Except.ok.injEq]
    apply List.map_congr_left
    intro c hc
    obtain ⟨i, hi, _⟩ := hwf c hc
    simp [hi]
  · have := h4.map (fun c => c.index.toNat)
    refine this.trans ?_
    rw [hcells, List.map_map]
    have : ((fun c : Cell => c.index.toNat) ∘
        fun iv : Nat × Int => ({ value := iv.2, index := (iv.1 : Int) } : Cell)) = Prod.fst := by
      funext iv
      simp
    rw [this, List.enum_map_fst]
  · rw [List.map_map, List.pairwise_map, List.pairwise_iff_getElem]
    intro i j hi hj hij
    obtain ⟨a, ha, ha2⟩ := hwf v1[i] (List.getElem_mem _)
    obtain ⟨b, hb, hb2⟩ := hwf v1[j] (List.getElem_mem _)
    have := h7 i j v1[i] v1[j] (by omega) hij (by omega) (List.getElem?_eq_getElem hi)
      (List.getElem?_eq_getElem hj)
    simp only [Function.comp, ha, hb, Int.toNat_natCast]
    rw [List.getD_eq_getElem?_getD, List.getD_eq_getElem?_getD, ha2, hb2]
    exact this

theorem pick_by_order_nat (m : List RawMinutia) : ∀ l : List Nat,
    (∀ i ∈ l, i < MAX_FILE_MINUTIAE) →
    pick_by_order m (l.map (fun (i : Nat) => (i : Int)))
      = .ok (l.map (fun i => m.getD i RawMinutia.init)) := by
  intro l
  induction l with
  | nil => intro _; rfl
  | cons i rest ih =>
    intro h
    rw [List.map_cons]
    unfold pick_by_order raw_at
    rw [if_pos ⟨Int.natCast_nonneg i, by
      rw [Int.toNat_natCast]; exact h i (List.mem_cons_self _ _)⟩, Int.toNat_natCast]
    simp only
    rw [ih (fun x hx => h x (List.mem_cons_of_mem _ hx))]
    rfl

/-- The array `c` of `prune_minutiae` when there are more minutiae than
`max_minutiae`: the entries of `m` at the first `max_minutiae` positions of a
permutation of the indices along which the qualities do not increase. -/
theorem select_by_quality_spec (raw : List RawMinutia) (max_minutiae : Nat)
    (hn : raw.length ≤ MAX_FILE_MINUTIAE) (hmax : max_minutiae < raw.length) :
    ∃ order : List Nat,
      sort_order_decreasing (raw.map (fun r => r.q)) = .ok (order.map (fun (i : Nat) => (i : Int))) ∧
      order.Perm (List.range raw.length) ∧
      (order.map (quality raw)).Pairwise (fun a b => b ≤ a) ∧
      select_by_quality raw (raw.map copy_raw) max_minutiae
        = .ok ((order.take max_minutiae).map
            (fun i => (raw.map copy_raw).getD i RawMinutia.init)) := by
  obtain ⟨order, h1, h2, h3⟩ := sort_order_decreasing_spec (raw.map (fun r => r.q))
  rw [List.length_map] at h2
  refine ⟨order, h1, h2, h3, ?_⟩
  unfold select_by_quality
  rw [if_pos hmax, h1]
  simp only
  rw [← List.map_take]
  apply pick_by_order_nat
  intro i hi
  have := List.mem_range.mp (h2.mem_iff.mp (List.mem_of_mem_take hi))
  omega

theorem raw_less_false_iff (a b : RawMinutia) : raw_less b a = false ↔
    (a.x < b.x ∨ (a.x = b.x ∧ a.y ≤ b.y)) := by
  unfold raw_less
  constructor
  · intro h
    split_ifs at h <;> first | omega | (simp at h; try omega)
  · intro h
    split_ifs <;> first | omega | (simp <;> omega)

theorem raw_less_asymm (a b : RawMinutia) (h : raw_less a b = true) :
    raw_less b a = false := by
  unfold raw_less at *
  split_ifs at h ⊢ <;> first | omega | (simp at h ⊢ <;> omega)

theorem raw_less_trans (a b c : RawMinutia) (h1 : raw_less b a = false)
    (h2 : raw_less c b = false) : raw_less c a = false := by
  rw [raw_less_false_iff] at *
  omega

theorem sorted_minutiae_xy (c : List RawMinutia) :
    ((stable_sort raw_less c).map to_minutia).Pairwise xy_le := by
  rw [List.pairwise_map]
  exact (stable_sort_pairwise raw_less raw_less_asymm raw_less_trans c).imp
    (fun {a b} hab => (raw_less_false_iff a b).mp hab)

/-- C21. For every raw minutia list of length `n ≤ 1000` and every
`max_minutiae < n`, `sort_order_decreasing` yields a permutation `order` of
`0 .. n-1` along which the qualities do not increase, and `prune_minutiae`
returns exactly `max_minutiae` minutiae, those of the first `max_minutiae`
indices of `order`; every retained minutia has a quality greater than or equal
to the quality of every discarded one. -/
theorem prune_keeps_best (raw : List RawMinutia) (max_minutiae : Nat)
    (hn : raw.length ≤ 1000) (hmax : max_minutiae < raw.length) :
    ∃ (order : List Nat) (result : List Minutia),
      sort_order_decreasing (raw.map (fun r => r.q))
        = .ok (order.map (fun (i : Nat) => (i : Int))) ∧
      order.Perm (List.range raw.length) ∧
      (order.map (quality raw)).Pairwise (fun a b => b ≤ a) ∧
      prune_minutiae raw max_minutiae = .ok result ∧
      result.length = max_minutiae ∧
      result.Perm ((order.take max_minutiae).map (pruned_minutia raw)) ∧
      ∀ i ∈ order.take max_minutiae, ∀ j ∈ order.drop max_minutiae,
        quality raw j ≤ quality raw i := by
  obtain ⟨order, h1, h2, h3, h4⟩ := select_by_quality_spec raw max_minutiae hn hmax
  refine ⟨order, (stable_sort raw_less ((order.take max_minutiae).map
    (fun i => (raw.map copy_raw).getD i RawMinutia.init))).map to_minutia, h1, h2, h3, ?_, ?_, ?_, ?_⟩
  · unfold prune_minutiae
    rw [if_neg (by unfold MAX_FILE_MINUTIAE; omega), h4]
  · rw [List.length_map, (stable_sort_perm raw_less _).length_eq, List.length_map,
      List.length_take, h2.length_eq, List.length_range]
    omega
  · refine ((stable_sort_perm raw_less _).map to_minutia).trans ?_
    rw [List.map_map]
    exact List.Perm.of_eq rfl
  · intro i hi j hj
    have h5 := h3
    rw [← List.take_append_drop max_minutiae order, List.map_append,
      List.pairwise_append] at h5
    exact h5.2.2 _ (List.mem_map_of_mem _ hi) _ (List.mem_map_of_mem _ hj)

/-- C21, witness: five raw minutiae of qualities 30, 10, 50, 20, 40 pruned to
two. -/
theorem prune_keeps_best_witness :
    ∃ (order : List Nat) (result : List Minutia),
      sort_order_decreasing (mixed_raw.map (fun r => r.q))
        = .ok (order.map (fun (i : Nat) => (i : Int))) ∧
      order.Perm (List.range mixed_raw.length) ∧
      (order.map (quality mixed_raw)).Pairwise (fun a b => b ≤ a) ∧
      prune_minutiae mixed_raw 2 = .ok result ∧
      result.length = 2 ∧
      result.Perm ((order.take 2).map (pruned_minutia mixed_raw)) ∧
      ∀ i ∈ order.take 2, ∀ j ∈ order.drop 2, quality mixed_raw j ≤ quality mixed_raw i :=
  prune_keeps_best mixed_raw 2 (by decide) (by decide)

/-- C23. For every raw minutia list of length at most 1000 and every
`max_minutiae`, `prune_minutiae` returns a sequence sorted ascending by
`(x, y)`. -/
theorem prune_sorted (raw : List RawMinutia) (max_minutiae : Nat) (hn : raw.length ≤ 1000) :
    ∃ result, prune_minutiae raw max_minutiae = .ok result ∧ result.Pairwise xy_le := by
  unfold prune_minutiae
  rw [if_neg (by unfold MAX_FILE_MINUTIAE; omega)]
  by_cases hmax : max_minutiae < raw.length
  · obtain ⟨order, _, _, _, h4⟩ := select_by_quality_spec raw max_minutiae hn hmax
    rw [h4]
    exact ⟨_, rfl, sorted_minutiae_xy _⟩
  · unfold select_by_quality
    rw [if_neg (by omega)]
    exact ⟨_, rfl, sorted_minutiae_xy _⟩

/-- C23, witness: `mixed_raw` pruned to two and left whole. -/
theorem prune_sorted_witness :
    (∃ result, prune_minutiae mixed_raw 2 = .ok result ∧ result.Pairwise xy_le) ∧
    (∃ result, prune_minutiae mixed_raw 150 = .ok result ∧ result.Pairwise xy_le) :=
  ⟨prune_sorted mixed_raw 2 (by decide), prune_sorted mixed_raw 150 (by decide)⟩

/-! ## Quicksort on a range that is already in non-increasing order -/

/-- On a range that is already in non-increasing order the loop of
`partition_dec` swaps nothing and leaves the pivot where it is. -/
theorem partition_loop_sorted (v : List Cell) (l0 r0 : Nat) (hr0 : r0 < v.length)
    (hdec : decreasing_on v l0 r0) :
    ∀ (fuel : Nat) (p l r : Nat), (p - l) + (r - p) < fuel →
      l0 ≤ l → l ≤ p → p ≤ r → r ≤ r0 →
      partition_loop fuel v (p : Int) (l : Int) (r : Int) = .ok (v, (p : Int)) := by
  intro fuel
  induction fuel with
  | zero => intro p l r h; omega
  | succ fuel ih =>
    intro p l r hfuel hl0 hlp hpr hrr0
    obtain ⟨cp, hcp⟩ : ∃ c, v[p]? = some c := ⟨v[p], List.getElem?_eq_getElem (by omega)⟩
    unfold partition_loop
    by_cases h1 : l < p
    · obtain ⟨cl, hcl⟩ : ∃ c, v[l]? = some c := ⟨v[l], List.getElem?_eq_getElem (by omega)⟩
      rw [if_pos (by exact_mod_cast h1), cell_at_nat v l cl hcl, cell_at_nat v p cp hcp]
      simp only
      have hv : ¬ cl.value < cp.value := by
        have := hdec l p cl cp (by omega) h1 (by omega) hcl hcp
        omega
      rw [if_neg hv]
      have hcast : (l : Int) + 1 = ((l + 1 : Nat) : Int) := by push_cast; rfl
      rw [hcast]
      exact ih p (l + 1) r (by omega) (by omega) (by omega) hpr hrr0
    · rw [if_neg (by exact_mod_cast h1)]
      by_cases h2 : p < r
      · obtain ⟨cr, hcr⟩ : ∃ c, v[r]? = some c := ⟨v[r], List.getElem?_eq_getElem (by omega)⟩
        rw [if_pos (by exact_mod_cast h2), cell_at_nat v r cr hcr, cell_at_nat v p cp hcp]
        simp only
        have hv : ¬ cr.value > cp.value := by
          have := hdec p r cp cr (by omega) h2 (by omega) hcp hcr
          omega
        rw [if_neg hv]
        have hcast : (r : Int) - 1 = ((r - 1 : Nat) : Int) := by omega
        rw [hcast]
        exact ih p l (r - 1) (by omega) hl0 hlp (by omega) (by omega)
      · rw [if_neg (by exact_mod_cast h2)]

/-- The loop of `qsort_decreasing` leaves a range that is already in
non-increasing order as it is. -/
theorem qsort_range_sorted (v : List Cell) :
    ∀ (m : Nat) (l r : Int) (rest : List (Int × Int)) (k : Nat),
      (r - l + 1).toNat ≤ m → (l < r → 0 ≤ l ∧ r < (v.length : Int)) →
      decreasing_on v l r →
      ∃ k1 : Nat,
        qsort_loop (2 * (r - l + 1).toNat + 1 + k) v ((l, r) :: rest) = qsort_loop k1 v rest ∧
        k ≤ k1 := by
  intro m
  induction m with
  | zero =>
    intro l r rest k hm hvalid hdec
    have hlr : ¬ l < r := by omega
    refine ⟨2 * (r - l + 1).toNat + k, ?_, by omega⟩
    rw [show 2 * (r - l + 1).toNat + 1 + k = (2 * (r - l + 1).toNat + k) + 1 by omega]
    rw [qsort_loop, if_neg hlr]
  | succ m ih =>
    intro l r rest k hm hvalid hdec
    by_cases hlr : l < r
    · obtain ⟨hl0, hrn⟩ := hvalid hlr
      obtain ⟨ln, rfl⟩ := Int.eq_ofNat_of_zero_le hl0
      obtain ⟨rn, rfl⟩ := Int.eq_ofNat_of_zero_le (by omega : 0 ≤ r)
      have hlr2 : ln < rn := by exact_mod_cast hlr
      have hrn2 : rn < v.length := by omega
      obtain ⟨p, hp1, hp2, hp3⟩ := select_pivot_spec v ln rn hlr2 hrn2
      have hfuel : ((rn : Int) - (ln : Int)).toNat = rn - ln := by omega
      have hd1 : partition_dec v (p : Int) (ln : Int) (rn : Int)
          = .ok (v, { ll := (ln : Int), rr := (rn : Int), lr := (p : Int) - 1,
                      rl := (p : Int) + 1, llen := (p : Int) - 1 - (ln : Int) + 1,
                      rlen := (rn : Int) - ((p : Int) + 1) + 1 }) := by
        unfold partition_dec
        rw [hfuel, partition_loop_sorted v ln rn hrn2 hdec (2 * (rn - ln) + 2) p ln rn
          (by omega) (le_refl ln) hp2 hp3 (le_refl rn)]
      have hsize : ((rn : Int) - (ln : Int) + 1).toNat = rn - ln + 1 := by omega
      have ha : ((p : Int) - 1 - (ln : Int) + 1).toNat = p - ln := by omega
      have hb : ((rn : Int) - ((p : Int) + 1) + 1).toNat = rn - p := by omega
      have hleft : decreasing_on v (ln : Int) ((p : Int) - 1) :=
        fun i j c d a b e hc hd => hdec i j c d a b (by omega) hc hd
      have hright : decreasing_on v ((p : Int) + 1) (rn : Int) :=
        fun i j c d a b e hc hd => hdec i j c d (by omega) b e hc hd
      rw [hsize, show 2 * (rn - ln + 1) + 1 + k = (2 * (rn - ln + 1) + k) + 1 by omega]
      rw [qsort_loop, if_pos hlr, hp1]
      simp only
      rw [hd1]
      simp only
      by_cases hlen2 : (p : Int) - 1 - (ln : Int) + 1 > (rn : Int) - ((p : Int) + 1) + 1
      · rw [if_pos hlen2]
        obtain ⟨j1, e1, e2⟩ := ih ((p : Int) + 1) (rn : Int)
          (((ln : Int), (p : Int) - 1) :: rest) (2 * (p - ln) + 1 + k)
          (by omega) (fun _ => ⟨by omega, by omega⟩) hright
        obtain ⟨j2, rfl⟩ : ∃ j2, j1 = 2 * (p - ln) + 1 + j2 := ⟨j1 - (2 * (p - ln) + 1 + k) + k,
          by omega⟩
        obtain ⟨j3, g1, g2⟩ := ih (ln : Int) ((p : Int) - 1) rest j2
          (by omega) (fun _ => ⟨by omega, by omega⟩) hleft
        refine ⟨j3, ?_, by omega⟩
        rw [← g1, ha, ← e1, hb]
        congr 1
        omega
      · rw [if_neg hlen2]
        obtain ⟨j1, e1, e2⟩ := ih (ln : Int) ((p : Int) - 1)
          ((((p : Int) + 1), (rn : Int)) :: rest) (2 * (rn - p) + 1 + k)
          (by omega) (fun _ => ⟨by omega, by omega⟩) hleft
        obtain ⟨j2, rfl⟩ : ∃ j2, j1 = 2 * (rn - p) + 1 + j2 := ⟨j1 - (2 * (rn - p) + 1 + k) + k,
          by omega⟩
        obtain ⟨j3, g1, g2⟩ := ih ((p : Int) + 1) (rn : Int) rest j2
          (by omega) (fun _ => ⟨by omega, by omega⟩) hright
        refine ⟨j3, ?_, by omega⟩
        rw [← g1, hb, ← e1, ha]
        congr 1
        omega
    · refine ⟨2 * (r - l + 1).toNat + k, ?_, by omega⟩
      rw [show 2 * (r - l + 1).toNat + 1 + k = (2 * (r - l + 1).toNat + k) + 1 by omega]
      rw [qsort_loop, if_neg hlr]

/-- On values that are already in non-increasing order
`sort_order_decreasing` returns the indices in input order. -/
theorem sort_order_sorted (values : List Int) (hs : values.Pairwise (fun a b => b ≤ a)) :
    sort_order_decreasing values
      = .ok ((List.range values.length).map (fun (i : Nat) => (i : Int))) := by
  set cells : List Cell :=
    values.enum.map (fun iv => { value := iv.2, index := (iv.1 : Int) }) with hcells
  have hlen : cells.length = values.length := by simp [hcells]
  have hget : ∀ (i : Nat) (c : Cell), cells[i]? = some c → values[i]? = some c.value := by
    intro i c hc
    have hm : c ∈ cells := List.getElem?_mem hc
    have hi : i < values.length := by
      rw [← hlen]; exact (List.getElem?_eq_some_iff.mp hc).1
    rw [hcells, List.getElem?_map, List.enum_eq_zip_range] at hc
    simp [List.getElem?_zip_eq_some, List.getElem?_range hi] at hc
    obtain ⟨a, x, ⟨_, hx⟩, rfl⟩ := hc
    exact hx
  have hdec : decreasing_on cells 0 ((values.length : Int) - 1) := by
    intro i j c d _ hij _ hc hd
    have h1 := hget i c hc
    have h2 := hget j d hd
    obtain ⟨hi, e1⟩ := List.getElem?_eq_some_iff.mp h1
    obtain ⟨hj, e2⟩ := List.getElem?_eq_some_iff.mp h2
    rw [← e1, ← e2]
    exact List.pairwise_iff_getElem.mp hs i j hi hj hij
  have hsz : (((values.length : Int) - 1) - 0 + 1).toNat = values.length := by omega
  obtain ⟨k1, h1, _⟩ := qsort_range_sorted cells values.length 0
    ((values.length : Int) - 1) [] 0 (by omega) (fun _ => ⟨le_refl _, by omega⟩) hdec
  rw [qsort_loop_nil, Nat.add_zero] at h1
  unfold sort_order_decreasing
  simp only
  rw [← hcells]
  unfold qsort_decreasing
  rw [h1]
  simp only [Except.ok.injEq]
  rw [hcells, List.map_map]
  apply List.ext_getElem
  · simp
  · intro i h1 h2
    simp [List.enum_eq_zip_range]

/-! ## Which minutiae survive pruning -/

theorem map_range_getD {α : Type} (l : List α) (d : α) (k : Nat) (hk : k ≤ l.length) :
    (List.range k).map (fun i => l.getD i d) = l.take k := by
  apply List.ext_getElem
  · simp [hk]
  · intro i h1 h2
    simp at h1 h2
    simp [List.getD_eq_getElem?_getD, List.getElem?_eq_getElem (by omega : i < l.length)]

theorem filter_by_index {α : Type} (l : List α) (d : α) (P : α → Bool) :
    l.filter P = ((List.range l.length).filter (fun i => P (l.getD i d))).map
      (fun i => l.getD i d) := by
  conv_lhs => rw [← List.take_length l, ← map_range_getD l d l.length (le_refl _)]
  rw [List.filter_map]
  rfl

/-- Along a list on which `f` does not increase, the entries above a threshold
are the first ones. -/
theorem filter_eq_take (f : Nat → Int) (θ : Int) : ∀ order : List Nat,
    (order.map f).Pairwise (fun a b => b ≤ a) →
    order.filter (fun i => decide (θ < f i))
      = order.take (order.filter (fun i => decide (θ < f i))).length := by
  intro order
  induction order with
  | nil => intro _; rfl
  | cons a rest ih =>
    intro hs
    rw [List.map_cons, List.pairwise_cons] at hs
    by_cases ha : θ < f a
    · rw [List.filter_cons_of_pos (by simpa using ha), List.length_cons, List.take_succ_cons,
        ← ih hs.2]
    · have hnil : rest.filter (fun i => decide (θ < f i)) = [] := by
        rw [List.filter_eq_nil_iff]
        intro b hb
        have := hs.1 (f b) (List.mem_map_of_mem f hb)
        simp only [decide_eq_true_eq]
        omega
      rw [List.filter_cons_of_neg (by simpa using ha), hnil]
      rfl

theorem retained_perm (f : Nat → Int) (θ : Int) (order s : List Nat) (max_minutiae : Nat)
    (hperm : order.Perm s) (hs : (order.map f).Pairwise (fun a b => b ≤ a))
    (hcount : (s.filter (fun i => decide (θ < f i))).length = max_minutiae) :
    (order.take max_minutiae).Perm (s.filter (fun i => decide (θ < f i))) := by
  have h1 := filter_eq_take f θ order hs
  have h2 := hperm.filter (fun i => decide (θ < f i))
  rw [h2.length_eq, hcount] at h1
  rw [← h1]
  exact h2

/-- When exactly `max_minutiae` minutiae have a quality above `θ`, the array
`c` of `prune_minutiae` holds these minutiae. -/
theorem select_by_threshold (raw : List RawMinutia) (max_minutiae : Nat) (θ : Int)
    (hn : raw.length ≤ MAX_FILE_MINUTIAE) (hmax : max_minutiae < raw.length)
    (hcount : (raw.filter (fun r => decide (θ < r.q))).length = max_minutiae) :
    ∃ c, select_by_quality raw (raw.map copy_raw) max_minutiae = .ok c ∧
      c.Perm ((raw.filter (fun r => decide (θ < r.q))).map copy_raw) := by
  obtain ⟨order, _, h2, h3, h4⟩ := select_by_quality_spec raw max_minutiae hn hmax
  refine ⟨_, h4, ?_⟩
  have hm : (raw.map copy_raw).filter (fun r => decide (θ < r.q))
      = (raw.filter (fun r => decide (θ < r.q))).map copy_raw := by
    rw [List.filter_map]
    rfl
  have hidx := filter_by_index (raw.map copy_raw) RawMinutia.init (fun r => decide (θ < r.q))
  rw [List.length_map] at hidx
  have hcongr : (List.range raw.length).filter
        (fun i => decide (θ < ((raw.map copy_raw).getD i RawMinutia.init).q))
      = (List.range raw.length).filter (fun i => decide (θ < quality raw i)) := by
    apply List.filter_congr
    intro i hi
    have hi2 : i < raw.length := List.mem_range.mp hi
    simp [quality, List.getD_eq_getElem?_getD, List.getElem?_eq_getElem hi2, copy_raw]
  rw [hcongr] at hidx
  have hc2 : ((List.range raw.length).filter (fun i => decide (θ < quality raw i))).length
      = max_minutiae := by
    have h := congrArg List.length hidx
    rw [hm, List.length_map, List.length_map, hcount] at h
    exact h.symm
  rw [← hm, hidx]
  exact (retained_perm (quality raw) θ order _ max_minutiae h2 h3 hc2).map _

theorem raw_less_of_distinct (a b : RawMinutia) (h1 : raw_less b a = false)
    (h2 : ¬ (a.x = b.x ∧ a.y = b.y)) : raw_less a b = true := by
  unfold raw_less at *
  split_ifs at h1 ⊢ <;> first | omega | (simp at h1 ⊢ <;> omega)

/-- Sorting by `(x, y)` forgets the input order when the positions are pairwise
distinct. -/
theorem sort_unique (c1 c2 : List RawMinutia) (hperm : c1.Perm c2)
    (hdist : c1.Pairwise (fun a b => ¬ (a.x = b.x ∧ a.y = b.y))) :
    stable_sort raw_less c1 = stable_sort raw_less c2 := by
  have hsymm : Symmetric (fun a b : RawMinutia => ¬ (a.x = b.x ∧ a.y = b.y)) := by
    intro a b h e
    exact h ⟨e.1.symm, e.2.symm⟩
  have strict : ∀ c : List RawMinutia, c.Perm c1 →
      (stable_sort raw_less c).Pairwise (fun a b => raw_less a b = true) := by
    intro c hc
    have p1 := stable_sort_pairwise raw_less raw_less_asymm raw_less_trans c
    have p2 : (stable_sort raw_less c).Pairwise (fun a b => ¬ (a.x = b.x ∧ a.y = b.y)) :=
      List.Perm.pairwise ((stable_sort_perm raw_less c).trans hc).symm hdist (fun h => hsymm h)
    exact List.Pairwise.imp₂ (fun a b h1 h2 => raw_less_of_distinct a b h1 h2) p1 p2
  have anti : IsAntisymm RawMinutia (fun a b => raw_less a b = true) :=
    ⟨fun a b h1 h2 => by rw [raw_less_asymm a b h1] at h2; cases h2⟩
  exact List.eq_of_perm_of_sorted
    (((stable_sort_perm raw_less c1).trans hperm).trans (stable_sort_perm raw_less c2).symm)
    (strict c1 (List.Perm.refl _)) (strict c2 hperm.symm)

/-- C22 as amended. When the qualities of the raw list are already in
non-increasing order (in particular when they are all equal),
`sort_order_decreasing` returns the indices `0 .. n-1` in input order, and
`prune_minutiae` keeps the first `max_minutiae` minutiae of the input. -/
theorem sorted_qualities_keep_input_order (raw : List RawMinutia)
    (hs : (raw.map (fun r => r.q)).Pairwise (fun a b => b ≤ a)) :
    sort_order_decreasing (raw.map (fun r => r.q))
      = .ok ((List.range raw.length).map (fun (i : Nat) => (i : Int))) ∧
    ∀ max_minutiae : Nat, raw.length ≤ 1000 → max_minutiae < raw.length →
      prune_minutiae raw max_minutiae
        = .ok ((stable_sort raw_less ((raw.take max_minutiae).map copy_raw)).map to_minutia) := by
  have h1 := sort_order_sorted (raw.map (fun r => r.q)) hs
  rw [List.length_map] at h1
  refine ⟨h1, ?_⟩
  intro max_minutiae hn hmax
  unfold prune_minutiae
  rw [if_neg (by unfold MAX_FILE_MINUTIAE; omega)]
  unfold select_by_quality
  rw [if_pos hmax, h1]
  simp only
  rw [← List.map_take, pick_by_order_nat _ _ (by
    intro i hi
    have := List.mem_range.mp (List.mem_of_mem_take hi)
    unfold MAX_FILE_MINUTIAE
    omega)]
  simp only
  rw [List.take_range, Nat.min_eq_left (by omega),
    map_range_getD _ _ _ (by rw [List.length_map]; omega), List.map_take]

/-- C22, witness: four minutiae of qualities 9, 7, 7, 7, pruned to two. -/
theorem sorted_qualities_keep_input_order_witness :
    (falling_raw.map (fun r => r.q)).Pairwise (fun a b => b ≤ a) ∧
    sort_order_decreasing (falling_raw.map (fun r => r.q))
      = .ok ((List.range falling_raw.length).map (fun (i : Nat) => (i : Int))) ∧
    prune_minutiae falling_raw 2
      = .ok ((stable_sort raw_less ((falling_raw.take 2).map copy_raw)).map to_minutia) :=
  ⟨by decide, (sorted_qualities_keep_input_order falling_raw (by decide)).1,
    (sorted_qualities_keep_input_order falling_raw (by decide)).2 2 (by decide) (by decide)⟩

set_option maxRecDepth 100000 in
/-- C22, counterexample: on the qualities 0, 7, 7, 0 `sort_order_decreasing`
returns the order 2, 1, 0, 3, with the two indices of quality 7 against their
input order, and `prune_minutiae` with `max_minutiae = 1` keeps the third
minutia, not the second. -/
theorem equal_qualities_swapped :
    sort_order_decreasing [0, 7, 7, 0] = .ok [2, 1, 0, 3] ∧
    prune_minutiae tied_raw 1 = .ok [{ x := 3, y := 0, t := 0, kind := none }] := by
  decide

/-- C24 as amended. For every raw list of length at most 1000 with pairwise
distinct positions and every `max_minutiae` without a tie at the cut-off
(nothing is pruned, or exactly `max_minutiae` qualities lie above some
threshold), `prune_minutiae` on the reversed list returns the same
sequence. -/
theorem prune_reverse (raw : List RawMinutia) (max_minutiae : Nat)
    (hn : raw.length ≤ 1000)
    (hdist : raw.Pairwise (fun a b => ¬ (a.x = b.x ∧ a.y = b.y)))
    (hcut : raw.length ≤ max_minutiae ∨
      ∃ θ : Int, (raw.filter (fun r => decide (θ < r.q))).length = max_minutiae) :
    prune_minutiae raw.reverse max_minutiae = prune_minutiae raw max_minutiae := by
  have hcopy : ∀ l : List RawMinutia, l.Pairwise (fun a b => ¬ (a.x = b.x ∧ a.y = b.y)) →
      (l.map copy_raw).Pairwise (fun a b => ¬ (a.x = b.x ∧ a.y = b.y)) := by
    intro l hl
    rw [List.pairwise_map]
    exact hl
  have hsymm : Symmetric (fun a b : RawMinutia => ¬ (a.x = b.x ∧ a.y = b.y)) := by
    intro a b h e
    exact h ⟨e.1.symm, e.2.symm⟩
  have key : ∃ c c1, select_by_quality raw (raw.map copy_raw) max_minutiae = .ok c ∧
      select_by_quality raw.reverse (raw.reverse.map copy_raw) max_minutiae = .ok c1 ∧
      c1.Perm c ∧ c1.Pairwise (fun a b => ¬ (a.x = b.x ∧ a.y = b.y)) := by
    by_cases hmax : max_minutiae < raw.length
    · rcases hcut with h | ⟨θ, hθ⟩
      · omega
      · obtain ⟨c, e1, e2⟩ := select_by_threshold raw max_minutiae θ
          (by unfold MAX_FILE_MINUTIAE; omega) hmax hθ
        have hrev := (List.reverse_perm raw).filter (fun r => decide (θ < r.q))
        obtain ⟨c1, g1, g2⟩ := select_by_threshold raw.reverse max_minutiae θ
          (by rw [List.length_reverse]; unfold MAX_FILE_MINUTIAE; omega)
          (by rw [List.length_reverse]; exact hmax) (by rw [hrev.length_eq]; exact hθ)
        refine ⟨c, c1, e1, g1, (g2.trans (hrev.map copy_raw)).trans e2.symm, ?_⟩
        exact List.Perm.pairwise (g2.trans (hrev.map copy_raw)).symm
          (hcopy _ (hdist.filter _)) (fun h => hsymm h)
    · refine ⟨raw.map copy_raw, raw.reverse.map copy_raw, ?_, ?_,
        (List.reverse_perm raw).map copy_raw, ?_⟩
      · unfold select_by_quality
        rw [if_neg (by omega)]
      · unfold select_by_quality
        rw [if_neg (by rw [List.length_reverse]; omega)]
      · exact List.Perm.pairwise ((List.reverse_perm raw).map copy_raw).symm
          (hcopy _ hdist) (fun h => hsymm h)
  obtain ⟨c, c1, e1, e2, e3, e4⟩ := key
  have hgt : ¬ raw.length > MAX_FILE_MINUTIAE := by unfold MAX_FILE_MINUTIAE; omega
  unfold prune_minutiae
  rw [List.length_reverse, if_neg hgt, if_neg hgt, e1, e2]
  simp only
  rw [sort_unique c1 c e3 e4]

/-- C24, witness: `mixed_raw` pruned to the two minutiae of quality above
30. -/
theorem prune_reverse_witness :
    mixed_raw.Pairwise (fun a b => ¬ (a.x = b.x ∧ a.y = b.y)) ∧
    prune_minutiae mixed_raw.reverse 2 = prune_minutiae mixed_raw 2 :=
  ⟨by decide, prune_reverse mixed_raw 2 (by decide) (by decide) (Or.inr ⟨30, by decide⟩)⟩

set_option maxRecDepth 100000 in
/-- C24, counterexample: two minutiae at different positions and of equal
quality, pruned to one: the list and its reversal keep different minutiae. -/
theorem prune_reverse_differs :
    two_raw.Pairwise (fun a b => ¬ (a.x = b.x ∧ a.y = b.y)) ∧
    prune_minutiae two_raw 1 = .ok [{ x := 1, y := 0, t := 0, kind := none }] ∧
    prune_minutiae two_raw.reverse 1 = .ok [{ x := 2, y := 0, t := 0, kind := none }] := by
  decide

/-! ## Angles -/

/-- C25 as amended. For every degree value `d` with `-540 < d ≤ 540`,
`normalize_angle d` lies in `(-180, 180]`; for every `d` it differs from `d`
by a multiple of 360. -/
theorem normalize_angle_spec (d : Int) :
    (-540 < d → d ≤ 540 → -180 < normalize_angle d ∧ normalize_angle d ≤ 180) ∧
    ∃ k : Int, normalize_angle d = d + 360 * k := by
  unfold normalize_angle
  refine ⟨fun h1 h2 => by split_ifs <;> omega, ?_⟩
  split_ifs
  · exact ⟨-1, by ring⟩
  · exact ⟨1, by ring⟩
  · exact ⟨0, by ring⟩

/-- C25, witness: the degree value 200. -/
theorem normalize_angle_spec_witness :
    (-180 < normalize_angle 200 ∧ normalize_angle 200 ≤ 180) ∧
    ∃ k : Int, normalize_angle 200 = 200 + 360 * k :=
  ⟨(normalize_angle_spec 200).1 (by decide) (by decide), (normalize_angle_spec 200).2⟩

/-- C25, counterexample: `normalize_angle 541` is 181, outside `(-180, 180]`. -/
theorem normalize_angle_one_turn_only :
    normalize_angle 541 = 181 ∧ ¬ (normalize_angle 541 ≤ 180) := by
  decide

/-- C26. For all angles `a` and `b` in `(-180, 180]`,
`are_angles_equal_with_tolerance a b` holds exactly when some integer `k` has
`|a - b - 360 k| ≤ 11`; the relation is reflexive and symmetric. -/
theorem angles_equal_iff_close (a b : Int) (ha1 : -180 < a) (ha2 : a ≤ 180)
    (hb1 : -180 < b) (hb2 : b ≤ 180) :
    (are_angles_equal_with_tolerance a b = true ↔ ∃ k : Int, |a - b - 360 * k| ≤ 11) ∧
    are_angles_equal_with_tolerance a a = true ∧
    are_angles_equal_with_tolerance a b = are_angles_equal_with_tolerance b a := by
  have w1 : wrap32 (a - b) = a - b := by unfold wrap32; omega
  have w2 : wrap32 (b - a) = b - a := by unfold wrap32; omega
  have w3 : wrap32 0 = 0 := by decide
  have hsymm : |b - a| = |a - b| := abs_sub_comm b a
  refine ⟨?_, ?_, ?_⟩
  · unfold are_angles_equal_with_tolerance ANGLE_LOWER_BOUND ANGLE_UPPER_BOUND
    simp only [w1, Bool.not_eq_true', Bool.and_eq_false_iff, decide_eq_false_iff_not, not_lt]
    constructor
    · intro h
      rcases h with h | h
      · exact ⟨0, by simpa using h⟩
      · by_cases hab : 0 ≤ a - b
        · refine ⟨1, ?_⟩
          rw [abs_of_nonneg hab] at h
          rw [abs_le]
          constructor <;> omega
        · refine ⟨-1, ?_⟩
          rw [abs_of_neg (by omega)] at h
          rw [abs_le]
          constructor <;> omega
    · rintro ⟨k, hk⟩
      rw [abs_le] at hk
      by_cases hab : 0 ≤ a - b
      · rw [abs_of_nonneg hab]
        omega
      · rw [abs_of_neg (by omega)]
        omega
  · unfold are_angles_equal_with_tolerance ANGLE_LOWER_BOUND ANGLE_UPPER_BOUND
    simp [w3]
  · unfold are_angles_equal_with_tolerance
    simp only [w1, w2, hsymm]

/-- C26, witness: the angles 175 and -178, seven degrees apart across the
cut. -/
theorem angles_equal_iff_close_witness :
    (are_angles_equal_with_tolerance 175 (-178) = true ↔
      ∃ k : Int, |175 - (-178) - 360 * k| ≤ 11) ∧
    are_angles_equal_with_tolerance 175 175 = true ∧
    are_angles_equal_with_tolerance 175 (-178) = are_angles_equal_with_tolerance (-178) 175 :=
  angles_equal_iff_close 175 (-178) (by decide) (by decide) (by decide) (by decide)

/-! ## EndpointAssociator -/

theorem gallery_lookup_iff (a : EndpointAssociator) (p g : Nat) :
    a.get_associated_gallery_endpoint p = .ok (some g) ↔
      p < MAX_NUMBER_OF_ENDPOINTS ∧ a.gallery_by_probe_ p = g + 1 := by
  unfold EndpointAssociator.get_associated_gallery_endpoint
  by_cases h1 : p < MAX_NUMBER_OF_ENDPOINTS
  · rw [if_pos h1]
    simp only
    by_cases h2 : a.gallery_by_probe_ p = 0
    · rw [if_pos h2]
      simp [h2]
    · rw [if_neg h2]
      simp only [Except.ok.injEq, Option.some.injEq]
      constructor
      · intro h; exact ⟨h1, by omega⟩
      · intro h; omega
  · rw [if_neg h1]
    simp [h1]

theorem probe_lookup_iff (a : EndpointAssociator) (p g : Nat) :
    a.get_associated_probe_endpoint g = .ok (some p) ↔
      g < MAX_NUMBER_OF_ENDPOINTS ∧ a.probe_by_gallery_ g = p + 1 := by
  unfold EndpointAssociator.get_associated_probe_endpoint
  by_cases h1 : g < MAX_NUMBER_OF_ENDPOINTS
  · rw [if_pos h1]
    simp only
    by_cases h2 : a.probe_by_gallery_ g = 0
    · rw [if_pos h2]
      simp [h2]
    · rw [if_neg h2]
      simp only [Except.ok.injEq, Option.some.injEq]
      constructor
      · intro h; exact ⟨h1, by omega⟩
      · intro h; omega
  · rw [if_neg h1]
    simp [h1]

theorem mutually_associated_iff (a : EndpointAssociator) :
    mutually_associated a ↔
      ∀ p g : Nat, (p < MAX_NUMBER_OF_ENDPOINTS ∧ a.gallery_by_probe_ p = g + 1) ↔
        (g < MAX_NUMBER_OF_ENDPOINTS ∧ a.probe_by_gallery_ g = p + 1) := by
  unfold mutually_associated
  simp only [gallery_lookup_iff, probe_lookup_iff]

theorem clear_or_mutual_true (a : EndpointAssociator) (p g : Nat)
    (h : a.are_clear_or_mutually_associated p g = .ok true) :
    p < MAX_NUMBER_OF_ENDPOINTS ∧ g < MAX_NUMBER_OF_ENDPOINTS ∧
    ((a.gallery_by_probe_ p = 0 ∧ a.probe_by_gallery_ g = 0) ∨
     (a.gallery_by_probe_ p = g + 1 ∧ a.probe_by_gallery_ g = p + 1)) := by
  unfold EndpointAssociator.are_clear_or_mutually_associated at h
  by_cases h1 : p < MAX_NUMBER_OF_ENDPOINTS ∧ g < MAX_NUMBER_OF_ENDPOINTS
  · rw [if_pos h1] at h
    simp only at h
    by_cases h2 : a.gallery_by_probe_ p = 0 ∧ a.probe_by_gallery_ g = 0
    · exact ⟨h1.1, h1.2, Or.inl h2⟩
    · rw [if_neg h2] at h
      simp only [Except.ok.injEq, Bool.and_eq_true, decide_eq_true_eq] at h
      have e1 : wrapU32 (g + 1) = g + 1 := by
        unfold wrapU32; unfold MAX_NUMBER_OF_ENDPOINTS at h1; omega
      have e2 : wrapU32 (p + 1) = p + 1 := by
        unfold wrapU32; unfold MAX_NUMBER_OF_ENDPOINTS at h1; omega
      rw [e1, e2] at h
      exact ⟨h1.1, h1.2, Or.inr h⟩
  · rw [if_neg h1] at h
    cases h

theorem associate_keeps_matching (a : EndpointAssociator) (hinv : mutually_associated a)
    (p g : Nat) (h : a.are_clear_or_mutually_associated p g = .ok true) :
    ∃ a1, a.associate_endpoints p g = .ok a1 ∧ mutually_associated a1 ∧
      a1.get_associated_gallery_endpoint p = .ok (some g) ∧
      a1.get_associated_probe_endpoint g = .ok (some p) := by
  obtain ⟨hp, hg, hcase⟩ := clear_or_mutual_true a p g h
  have e1 : wrapU32 (g + 1) = g + 1 := by
    unfold wrapU32; unfold MAX_NUMBER_OF_ENDPOINTS at hg; omega
  have e2 : wrapU32 (p + 1) = p + 1 := by
    unfold wrapU32; unfold MAX_NUMBER_OF_ENDPOINTS at hp; omega
  rw [mutually_associated_iff] at hinv
  refine ⟨_, by unfold EndpointAssociator.associate_endpoints; rw [if_pos ⟨hg, hp⟩], ?_, ?_, ?_⟩
  · rw [mutually_associated_iff]
    intro p1 g1
    simp only [e1, e2, Function.update_apply]
    have h0 := hinv p1 g1
    have h1 := hinv p g1
    have h2 := hinv p1 g
    by_cases c1 : p1 = p <;> by_cases c2 : g1 = g
    · subst c1; subst c2; simp [hp, hg]
    · subst c1
      rw [if_pos rfl, if_neg c2]
      constructor
      · intro h3; omega
      · intro h3
        have := h0.mpr h3
        omega
    · subst c2
      rw [if_pos rfl, if_neg c1]
      constructor
      · intro h3
        have := h0.mp h3
        omega
      · intro h3; omega
    · rw [if_neg c1, if_neg c2]
      exact h0
  · rw [gallery_lookup_iff]
    simp [hp, e1]
  · rw [probe_lookup_iff]
    simp [hg, e2]

theorem clear_by_probe_keeps_matching (a : EndpointAssociator) (hinv : mutually_associated a)
    (p : Nat) (hp : p < MAX_NUMBER_OF_ENDPOINTS) :
    ∃ a1, a.clear_by_probe p = .ok a1 ∧ mutually_associated a1 ∧
      a1.get_associated_gallery_endpoint p = .ok none := by
  rw [mutually_associated_iff] at hinv
  unfold EndpointAssociator.clear_by_probe
  rw [if_pos hp]
  simp only
  by_cases hv : a.gallery_by_probe_ p = 0
  · rw [if_neg (by simpa using hv)]
    refine ⟨a, rfl, (mutually_associated_iff a).mpr hinv, ?_⟩
    unfold EndpointAssociator.get_associated_gallery_endpoint
    rw [if_pos hp]
    simp [hv]
  · obtain ⟨g, hg⟩ : ∃ g, a.gallery_by_probe_ p = g + 1 :=
      ⟨a.gallery_by_probe_ p - 1, by omega⟩
    have hgp := (hinv p g).mp ⟨hp, hg⟩
    rw [if_pos hv, hg, Nat.add_sub_cancel, if_pos hgp.1]
    refine ⟨_, rfl, ?_, ?_⟩
    · rw [mutually_associated_iff]
      intro p1 g1
      simp only [Function.update_apply]
      have h0 := hinv p1 g1
      have h1 := hinv p g1
      have h2 := hinv p1 g
      by_cases c1 : p1 = p <;> by_cases c2 : g1 = g
      · simp [c1, c2]
      · subst c1
        rw [if_pos rfl, if_neg c2]
        constructor
        · intro h3; omega
        · intro h3
          have := h0.mpr h3
          omega
      · subst c2
        rw [if_pos rfl, if_neg c1]
        constructor
        · intro h3
          have := h0.mp h3
          omega
        · intro h3; omega
      · rw [if_neg c1, if_neg c2]
        exact h0
    · unfold EndpointAssociator.get_associated_gallery_endpoint
      rw [if_pos hp]
      simp

theorem empty_associator_matching : mutually_associated empty_associator := by
  rw [mutually_associated_iff]
  intro p g
  simp [empty_associator]

/-- C27. The invariant 'probe `p` maps to gallery `g` if and only if gallery
`g` maps to probe `p`' is preserved by `associate_endpoints p g` whenever
`are_clear_or_mutually_associated p g` holds beforehand, after which the two
lookups return `g` for `p` and `p` for `g`; it is preserved by every
`clear_by_probe` (which returns for every endpoint of the table) and by
`clear`. -/
theorem associator_stays_matching (a : EndpointAssociator) (hinv : mutually_associated a) :
    (∀ p g : Nat, a.are_clear_or_mutually_associated p g = .ok true →
      ∃ a1, a.associate_endpoints p g = .ok a1 ∧ mutually_associated a1 ∧
        a1.get_associated_gallery_endpoint p = .ok (some g) ∧
        a1.get_associated_probe_endpoint g = .ok (some p)) ∧
    (∀ p : Nat, p < MAX_NUMBER_OF_ENDPOINTS →
      ∃ a1, a.clear_by_probe p = .ok a1 ∧ mutually_associated a1) ∧
    mutually_associated a.clear := by
  refine ⟨fun p g h => associate_keeps_matching a hinv p g h, ?_, ?_⟩
  · intro p hp
    obtain ⟨a1, h1, h2, _⟩ := clear_by_probe_keeps_matching a hinv p hp
    exact ⟨a1, h1, h2⟩
  · exact empty_associator_matching

/-- C27, witness: from the matching of probe 0 with gallery 1 and of probe 1
with gallery 0, associate the free endpoints 2 and 3, and clear probe 0. -/
theorem associator_stays_matching_witness :
    mutually_associated crossed_associator ∧
    (∃ a1, crossed_associator.associate_endpoints 2 3 = .ok a1 ∧ mutually_associated a1 ∧
      a1.get_associated_gallery_endpoint 2 = .ok (some 3) ∧
      a1.get_associated_probe_endpoint 3 = .ok (some 2)) ∧
    (∃ a1, crossed_associator.clear_by_probe 0 = .ok a1 ∧ mutually_associated a1) ∧
    mutually_associated crossed_associator.clear :=
  have hinv : mutually_associated crossed_associator := by
    rw [mutually_associated_iff]
    intro p g
    simp only [crossed_associator]
    unfold MAX_NUMBER_OF_ENDPOINTS
    constructor
    · rintro ⟨h1, h2⟩
      split_ifs at h2 <;> split_ifs <;> omega
    · rintro ⟨h1, h2⟩
      split_ifs at h2 <;> split_ifs <;> omega
  ⟨hinv, (associator_stays_matching crossed_associator hinv).1 2 3 (by decide),
    (associator_stays_matching crossed_associator hinv).2.1 0 (by decide),
    (associator_stays_matching crossed_associator hinv).2.2⟩

/-! ## ClusterAssigner and the group stack -/

theorem marker_unassigned_eq : MARKER_UNASSIGNED = -1 := by decide

theorem has_cluster_code (c : Nat) (hc : c < MAX_NUMBER_OF_CLUSTERS) :
    wrap32 (wrapU32 (c + 1)) = (c : Int) + 1 := by
  unfold MAX_NUMBER_OF_CLUSTERS at hc
  unfold wrap32 wrapU32
  omega

theorem associate_multiple_length (t : EndpointType) (e x n : Nat)
    (groups groups1 : List EndpointGroup)
    (h : associate_multiple_compatible_endpoints t e x n groups = .ok groups1) :
    groups1.length ≤ groups.length + 1 := by
  unfold associate_multiple_compatible_endpoints at h
  split_ifs at h
  split at h
  · split at h
    · cases h
    · split_ifs at h
      · cases h; omega
      · cases h; simp
  · cases h
    simp

theorem associate_multiple_length_ge (t : EndpointType) (e x n : Nat)
    (groups groups1 : List EndpointGroup)
    (h : associate_multiple_compatible_endpoints t e x n groups = .ok groups1) :
    groups.length ≤ groups1.length := by
  unfold associate_multiple_compatible_endpoints at h
  split_ifs at h
  split at h
  · split at h
    · cases h
    · split_ifs at h
      · cases h; omega
      · cases h; simp
  · cases h
    simp

/-- C28. For every pair index `i` of the table, `get_cluster i` is empty exactly
when slot `i` is 0.  After `restore i` it is non-empty while `has_cluster i c`
is false for every cluster index `c < MAX_NUMBER_OF_CLUSTERS`; so the seed loop
of `match_score` skips the pair `i`, and `assign_cluster_to_endpoints` for the
pair `i` and two unassociated endpoints still selects it into the cluster
`c`. -/
theorem restored_pair_is_marked (a : ClusterAssigner) (i : Nat) (hi : i < MAX_NUMBER_OF_PAIRS) :
    (a.get_cluster i = .ok none ↔ a.cluster_by_pair_ i = 0) ∧
    ∃ a1, a.restore i = .ok a1 ∧
      (∃ c, a1.get_cluster i = .ok (some c)) ∧
      (∀ c : Nat, c < MAX_NUMBER_OF_CLUSTERS → a1.has_cluster i c = .ok false) ∧
      (∀ (fo : FloatOps) (gfuel : Nat) (holder : PairHolder) (pm gm : List Minutia)
          (count : Nat) (state : BozorthState), state.cluster_assigner = a1 →
        grow_clusters fo gfuel holder pm gm (count + 1) i state
          = grow_clusters fo gfuel holder pm gm count (i + 1) state) ∧
      (∀ (c p g : Nat) (r : GrowthRefs), c < MAX_NUMBER_OF_CLUSTERS → r.assigner = a1 →
        r.associator.get_associated_gallery_endpoint p = .ok none →
        r.associator.get_associated_probe_endpoint g = .ok none →
        ∃ r1, assign_cluster_to_endpoints c i p g r = .ok r1 ∧
          r1.selected_pairs = r.selected_pairs ++ [i] ∧
          r1.assigner.has_cluster i c = .ok true) := by
  constructor
  · unfold ClusterAssigner.get_cluster
    rw [if_pos hi]
    simp only
    by_cases h0 : a.cluster_by_pair_ i = 0
    · simp [h0]
    · simp [h0]
  · have hget : ∀ a1 : ClusterAssigner, a1.cluster_by_pair_ i = MARKER_UNASSIGNED →
        a1.get_cluster i = .ok (some 4294967294) := by
      intro a1 h1
      unfold ClusterAssigner.get_cluster
      rw [if_pos hi, h1]
      decide
    have hhas : ∀ a1 : ClusterAssigner, a1.cluster_by_pair_ i = MARKER_UNASSIGNED →
        ∀ c : Nat, c < MAX_NUMBER_OF_CLUSTERS → a1.has_cluster i c = .ok false := by
      intro a1 h1 c hc
      unfold ClusterAssigner.has_cluster
      rw [if_pos hi, h1, has_cluster_code c hc, marker_unassigned_eq]
      simp only [Except.ok.injEq, decide_eq_false_iff_not]
      omega
    refine ⟨{ cluster_by_pair_ := Function.update a.cluster_by_pair_ i MARKER_UNASSIGNED },
      by unfold ClusterAssigner.restore; rw [if_pos hi], ⟨_, hget _ (by simp)⟩,
      hhas _ (by simp), ?_, ?_⟩
    · intro fo gfuel holder pm gm count state hs
      rw [grow_clusters, hs, hget _ (by simp)]
    · intro c p g r hc hr hp hg
      have hpn : p < MAX_NUMBER_OF_ENDPOINTS := by
        by_contra hn
        unfold EndpointAssociator.get_associated_gallery_endpoint at hp
        rw [if_neg hn] at hp
        cases hp
      have hgn : g < MAX_NUMBER_OF_ENDPOINTS := by
        by_contra hn
        unfold EndpointAssociator.get_associated_probe_endpoint at hg
        rw [if_neg hn] at hg
        cases hg
      unfold assign_cluster_to_endpoints
      rw [hp, hg]
      simp only [Option.isNone_none, Bool.and_self, if_true]
      rw [hr, hhas _ (by simp) c hc]
      simp only [Bool.false_eq_true, if_false]
      unfold ClusterAssigner.assign_cluster EndpointAssociator.associate_endpoints
      rw [if_pos hi, if_pos ⟨hgn, hpn⟩]
      refine ⟨_, rfl, rfl, ?_⟩
      unfold ClusterAssigner.has_cluster
      rw [if_pos hi]
      simp

/-- C28, witness: the pair index 5 in an assigner without clusters. -/
theorem restored_pair_is_marked_witness :
    (empty_assigner.get_cluster 5 = .ok none ↔ empty_assigner.cluster_by_pair_ 5 = 0) ∧
    ∃ a1, empty_assigner.restore 5 = .ok a1 ∧
      (∃ c, a1.get_cluster 5 = .ok (some c)) ∧
      (∀ c : Nat, c < MAX_NUMBER_OF_CLUSTERS → a1.has_cluster 5 c = .ok false) ∧
      (∀ (fo : FloatOps) (gfuel : Nat) (holder : PairHolder) (pm gm : List Minutia)
          (count : Nat) (state : BozorthState), state.cluster_assigner = a1 →
        grow_clusters fo gfuel holder pm gm (count + 1) 5 state
          = grow_clusters fo gfuel holder pm gm count (5 + 1) state) ∧
      (∀ (c p g : Nat) (r : GrowthRefs), c < MAX_NUMBER_OF_CLUSTERS → r.assigner = a1 →
        r.associator.get_associated_gallery_endpoint p = .ok none →
        r.associator.get_associated_probe_endpoint g = .ok none →
        ∃ r1, assign_cluster_to_endpoints c 5 p g r = .ok r1 ∧
          r1.selected_pairs = r.selected_pairs ++ [5] ∧
          r1.assigner.has_cluster 5 c = .ok true) :=
  restored_pair_is_marked empty_assigner 5 (by decide)

/-- C30 as amended. `assign_cluster_to_endpoints` tests the size of the group
stack once, before its two additions.  For every associator state and every
group stack, a call that returns removes no group and adds at most two; it
leaves a stack of `MAX_NUMBER_OF_GROUPS` (10) or more groups as it is; hence a
stack of at most 11 groups is left with at most 11, and a stack of at most 8
with at most 10. -/
theorem assign_adds_at_most_two_groups (c i p g : Nat) (r r1 : GrowthRefs)
    (h : assign_cluster_to_endpoints c i p g r = .ok r1) :
    r.groups.length ≤ r1.groups.length ∧
    r1.groups.length ≤ r.groups.length + 2 ∧
    (MAX_NUMBER_OF_GROUPS ≤ r.groups.length → r1.groups = r.groups) ∧
    (r.groups.length ≤ MAX_NUMBER_OF_GROUPS + 1 →
      r1.groups.length ≤ MAX_NUMBER_OF_GROUPS + 1) ∧
    (r.groups.length + 2 ≤ MAX_NUMBER_OF_GROUPS →
      r1.groups.length ≤ MAX_NUMBER_OF_GROUPS) := by
  have keep : r1.groups = r.groups →
      r.groups.length ≤ r1.groups.length ∧
      r1.groups.length ≤ r.groups.length + 2 ∧
      (MAX_NUMBER_OF_GROUPS ≤ r.groups.length → r1.groups = r.groups) ∧
      (r.groups.length ≤ MAX_NUMBER_OF_GROUPS + 1 →
        r1.groups.length ≤ MAX_NUMBER_OF_GROUPS + 1) ∧
      (r.groups.length + 2 ≤ MAX_NUMBER_OF_GROUPS →
        r1.groups.length ≤ MAX_NUMBER_OF_GROUPS) :=
    fun e => ⟨by rw [e], by rw [e]; omega, fun _ => e, fun hl => by rw [e]; exact hl,
      fun hl => by rw [e]; omega⟩
  unfold assign_cluster_to_endpoints at h
  split at h
  · cases h
  · cases h
  · rename_i ag ap hag hap
    by_cases c1 : (ag.isNone && ap.isNone) = true
    · rw [if_pos c1] at h
      split at h
      · cases h
      · split at h
        · cases h
        · split at h
          · cases h
          · cases h
            exact keep rfl
    · rw [if_neg c1] at h
      by_cases c2 : ag = some g
      · rw [if_pos c2] at h
        split at h
        · cases h
        · cases h
          exact keep rfl
        · split at h
          · cases h
          · cases h
            exact keep rfl
      · rw [if_neg c2] at h
        by_cases c3 : r.groups.length ≥ MAX_NUMBER_OF_GROUPS
        · rw [if_pos c3] at h
          cases h
          exact keep rfl
        · rw [if_neg c3] at h
          split at h
          · cases h
          · rename_i groups1 hg1
            split at h
            · cases h
            · rename_i groups2 hg2
              cases h
              have b1 : r.groups.length ≤ groups1.length ∧
                  groups1.length ≤ r.groups.length + 1 := by
                split at hg1
                · exact ⟨associate_multiple_length_ge _ _ _ _ _ _ hg1,
                    associate_multiple_length _ _ _ _ _ _ hg1⟩
                · cases hg1; omega
              have b2 : groups1.length ≤ groups2.length ∧
                  groups2.length ≤ groups1.length + 1 := by
                split at hg2
                · exact ⟨associate_multiple_length_ge _ _ _ _ _ _ hg2,
                    associate_multiple_length _ _ _ _ _ _ hg2⟩
                · cases hg2; omega
              simp only
              refine ⟨by omega, by omega, fun e => absurd e c3, fun _ => ?_, fun _ => ?_⟩
              · have : r.groups.length < MAX_NUMBER_OF_GROUPS := by omega
                omega
              · omega

/-- C30, witness: with one group fewer than in the counterexample the call
adds its two groups to a stack of 8 and leaves 10. -/
theorem assign_adds_at_most_two_groups_witness :
    assign_cluster_to_endpoints 0 0 0 0 { crossed_refs with groups := nine_groups.take 8 }
      = .ok { crossed_refs with groups := nine_groups.take 8 ++ two_new_groups } ∧
    (nine_groups.take 8).length ≤ (nine_groups.take 8 ++ two_new_groups).length ∧
    (nine_groups.take 8 ++ two_new_groups).length ≤ (nine_groups.take 8).length + 2 ∧
    (MAX_NUMBER_OF_GROUPS ≤ (nine_groups.take 8).length →
      nine_groups.take 8 ++ two_new_groups = nine_groups.take 8) ∧
    ((nine_groups.take 8).length ≤ MAX_NUMBER_OF_GROUPS + 1 →
      (nine_groups.take 8 ++ two_new_groups).length ≤ MAX_NUMBER_OF_GROUPS + 1) ∧
    ((nine_groups.take 8).length + 2 ≤ MAX_NUMBER_OF_GROUPS →
      (nine_groups.take 8 ++ two_new_groups).length ≤ MAX_NUMBER_OF_GROUPS) :=
  ⟨by rfl, assign_adds_at_most_two_groups 0 0 0 0
    { crossed_refs with groups := nine_groups.take 8 }
    { crossed_refs with groups := nine_groups.take 8 ++ two_new_groups } (by rfl)⟩

/-- C30, counterexample: the associator maps probe 0 to gallery 1 and probe 1
to gallery 0, the stack holds 9 groups; `assign_cluster_to_endpoints` for probe
endpoint 0 and gallery endpoint 0 pushes two groups and leaves 11 groups on the
stack. -/
theorem assign_leaves_eleven_groups :
    mutually_associated crossed_refs.associator ∧
    crossed_refs.groups.length = 9 ∧
    ∃ r1, assign_cluster_to_endpoints 0 0 0 0 crossed_refs = .ok r1 ∧
      r1.groups = nine_groups ++ two_new_groups ∧ r1.groups.length = 11 := by
  refine ⟨?_, by decide, { crossed_refs with groups := nine_groups ++ two_new_groups },
    by rfl, rfl, by decide⟩
  rw [mutually_associated_iff]
  intro p g
  simp only [crossed_refs, crossed_associator]
  unfold MAX_NUMBER_OF_ENDPOINTS
  constructor
  · rintro ⟨h1, h2⟩
    split_ifs at h2 <;> split_ifs <;> omega
  · rintro ⟨h1, h2⟩
    split_ifs at h2 <;> split_ifs <;> omega

/-! ## The number of clusters -/

theorem commit_cluster_size (fo : FloatOps) (pair_holder : PairHolder)
    (pm gm : List Minutia) (state state1 : BozorthState)
    (h : commit_cluster fo pair_holder pm gm state = .ok state1) :
    state1.clusters.size ≤ state.clusters.size + 1 := by
  unfold commit_cluster at h
  split at h
  · cases h
  · split_ifs at h
    · split at h
      · cases h
      · cases h; exact Nat.le_succ _
    · split at h
      · cases h
        simp [Clusters.push_back, Clusters.size]
      all_goals cases h

theorem grow_cluster_loop_size (fo : FloatOps) (gfuel : Nat) (pair_holder : PairHolder)
    (pm gm : List Minutia) (pair_index : Nat) :
    ∀ (fuel : Nat) (state state1 : BozorthState),
      grow_cluster_loop fo gfuel pair_holder pm gm pair_index fuel state = .ok state1 →
      state.clusters.size < MAX_NUMBER_OF_CLUSTERS →
      state1.clusters.size ≤ MAX_NUMBER_OF_CLUSTERS := by
  intro fuel
  induction fuel with
  | zero => intro state state1 h _; simp [grow_cluster_loop] at h
  | succ fuel ih =>
    intro state state1 h hsize
    unfold grow_cluster_loop at h
    simp only at h
    split at h
    · cases h
    · rename_i r hr
      split at h
      · cases h
      · rename_i st1 hst1
        have hs1 := commit_cluster_size fo pair_holder pm gm _ st1 hst1
        simp only at hs1
        split_ifs at h with hbig
        · cases h; omega
        · split at h
          · cases h
          · split at h
            · cases h
            · cases h
              simp only
              omega
            · exact ih _ _ h (by simp only; omega)

theorem grow_clusters_size (fo : FloatOps) (gfuel : Nat) (pair_holder : PairHolder)
    (pm gm : List Minutia) :
    ∀ (count pair_index : Nat) (state state1 : BozorthState),
      grow_clusters fo gfuel pair_holder pm gm count pair_index state = .ok state1 →
      state.clusters.size < MAX_NUMBER_OF_CLUSTERS →
      state1.clusters.size ≤ MAX_NUMBER_OF_CLUSTERS := by
  intro count
  induction count with
  | zero =>
    intro pair_index state state1 h hsize
    simp [grow_clusters] at h
    rw [← h]
    omega
  | succ count ih =>
    intro pair_index state state1 h hsize
    unfold grow_clusters at h
    split at h
    · cases h
    · exact ih _ _ _ h hsize
    · split at h
      · cases h
      · split at h
        · cases h
        · split at h
          · cases h
          · rename_i st1 hst1
            have hs1 := grow_cluster_loop_size fo gfuel pair_holder pm gm pair_index _ _ _
              hst1 hsize
            split_ifs at h with hbig
            · cases h; exact hs1
            · split at h
              · cases h
              · exact ih _ _ _ h (by simp only; omega)

/-- C29 as amended. Cluster growth in `match_score` stops as soon as the number
of clusters reaches `MAX_NUMBER_OF_CLUSTERS`: for every input and every state
that holds at most 2000 clusters when the call starts, the cluster list of the
state that `match_score` leaves holds at most 2000 clusters. -/
theorem cluster_list_at_most_max (fo : FloatOps) (gfuel cfuel : Nat) (holder : PairHolder)
    (state : BozorthState) (pm gm : List Minutia) (format : Format) (score : Nat)
    (final : BozorthState) (hstate : state.clusters.size ≤ MAX_NUMBER_OF_CLUSTERS)
    (h : match_score fo gfuel cfuel holder state pm gm format = .ok (score, final)) :
    final.clusters.size ≤ MAX_NUMBER_OF_CLUSTERS := by
  unfold match_score at h
  split_ifs at h with hempty
  · cases h; exact hstate
  · unfold match_score_format at h
    rw [if_neg hempty] at h
    split at h
    · cases h
    · rename_i grown hgrown
      have hg := grow_clusters_size fo gfuel holder pm gm _ _ _ _ hgrown
        (by unfold BozorthState.clear Clusters.clear Clusters.size MAX_NUMBER_OF_CLUSTERS
            simp)
      unfold score_clusters at h
      split at h
      · cases h
      · rename_i merged hmerged
        unfold merge_compatible_clusters at hmerged
        obtain ⟨_, hlen, _⟩ := merge_outer_disjoint fo format _ _ _ _ hmerged
        have hm : merged.size ≤ MAX_NUMBER_OF_CLUSTERS := by
          unfold Clusters.size at *
          rw [hlen]; exact hg
        simp only at h
        split_ifs at h
        · cases h; exact hm
        · split at h
          · cases h
          · cases h; exact hm

set_option maxRecDepth 100000 in
/-- C29, witness: the amended statement applied to the prepared holder of
`three_star_pairs`. -/
theorem cluster_list_at_most_max_witness :
    ∃ score final,
      match_score axis_ops 100 100 (prepared_holder three_star_pairs) BozorthState.init
        row_template row_template Format.NistInternal = .ok (score, final) ∧
      final.clusters.size ≤ MAX_NUMBER_OF_CLUSTERS :=
  (ok_and_elim
    (match_score axis_ops 100 100 (prepared_holder three_star_pairs) BozorthState.init
      row_template row_template Format.NistInternal)
    (fun _ => true) (by decide)).elim
    (fun r h => ⟨r.1, r.2, h.1,
      cluster_list_at_most_max axis_ops 100 100 (prepared_holder three_star_pairs)
        BozorthState.init row_template row_template Format.NistInternal r.1 r.2
        (by decide) h.1⟩)

/-! ## Growing a cluster from a star of pairs -/

theorem ordered_insert_head {α : Type} (less : α → α → Bool) (a : α) (l : List α)
    (h : ∀ b ∈ l, less b a = false) : ordered_insert less a l = a :: l := by
  cases l with
  | nil => rfl
  | cons b l =>
    unfold ordered_insert
    rw [if_neg (by rw [h b (List.mem_cons_self _ _)]; simp)]

theorem stable_sort_eq_self {α : Type} (less : α → α → Bool) :
    ∀ l : List α, l.Pairwise (fun a b => less b a = false) → stable_sort less l = l
  | [], _ => rfl
  | a :: l, h => by
    rw [List.pairwise_cons] at h
    unfold stable_sort
    rw [stable_sort_eq_self less l h.2]
    exact ordered_insert_head less a l h.1

theorem associate_in_range (a : EndpointAssociator) (p g : Nat)
    (hp : p < MAX_NUMBER_OF_ENDPOINTS) (hg : g < MAX_NUMBER_OF_ENDPOINTS) :
    a.associate_endpoints p g = .ok (assoc_add a p g) := by
  have e1 : wrapU32 (g + 1) = g + 1 := by
    unfold wrapU32; unfold MAX_NUMBER_OF_ENDPOINTS at hg; omega
  have e2 : wrapU32 (p + 1) = p + 1 := by
    unfold wrapU32; unfold MAX_NUMBER_OF_ENDPOINTS at hp; omega
  unfold EndpointAssociator.associate_endpoints assoc_add
  rw [if_pos ⟨hg, hp⟩, e1, e2]

theorem clear_add (a : EndpointAssociator) (p g : Nat)
    (hp : p < MAX_NUMBER_OF_ENDPOINTS) (hg : g < MAX_NUMBER_OF_ENDPOINTS)
    (h1 : a.gallery_by_probe_ p = 0) (h2 : a.probe_by_gallery_ g = 0) :
    (assoc_add a p g).clear_by_probe p = .ok a := by
  unfold EndpointAssociator.clear_by_probe assoc_add
  rw [if_pos hp]
  simp only [Function.update_same, ne_eq, Nat.add_one_ne_zero, not_false_eq_true, if_true,
    Nat.add_sub_cancel, if_pos hg, Function.update_idem, Except.ok.injEq]
  cases a with
  | mk pbg gbp =>
    simp only [EndpointAssociator.mk.injEq]
    constructor
    · funext x
      by_cases hx : x = g
      · subst hx; simp only at h2; simp [h2]
      · simp [Function.update_apply, hx]
    · funext x
      by_cases hx : x = p
      · subst hx; simp only at h1; simp [h1]
      · simp [Function.update_apply, hx]

theorem assign_free (c idx p g : Nat) (r : GrowthRefs)
    (hidx : idx < MAX_NUMBER_OF_PAIRS)
    (hp : p < MAX_NUMBER_OF_ENDPOINTS) (hg : g < MAX_NUMBER_OF_ENDPOINTS)
    (h1 : r.associator.gallery_by_probe_ p = 0) (h2 : r.associator.probe_by_gallery_ g = 0)
    (h3 : r.assigner.cluster_by_pair_ idx ≠ wrap32 (wrapU32 (c + 1))) :
    assign_cluster_to_endpoints c idx p g r
      = .ok { groups := r.groups,
              assigner := { cluster_by_pair_ :=
                Function.update r.assigner.cluster_by_pair_ idx (wrap32 (wrapU32 (c + 1))) },
              associator := assoc_add r.associator p g,
              endpoints := r.endpoints ++ [p],
              selected_pairs := r.selected_pairs ++ [idx] } := by
  have l1 : r.associator.get_associated_gallery_endpoint p = .ok none := by
    unfold EndpointAssociator.get_associated_gallery_endpoint
    rw [if_pos hp]
    simp [h1]
  have l2 : r.associator.get_associated_probe_endpoint g = .ok none := by
    unfold EndpointAssociator.get_associated_probe_endpoint
    rw [if_pos hg]
    simp [h2]
  have l3 : r.assigner.has_cluster idx c = .ok false := by
    unfold ClusterAssigner.has_cluster
    rw [if_pos hidx]
    simp [h3]
  unfold assign_cluster_to_endpoints
  rw [l1, l2]
  simp only [Option.isNone_none, Bool.and_self, if_true]
  rw [l3]
  simp only [Bool.false_eq_true, if_false]
  unfold ClusterAssigner.assign_cluster
  rw [if_pos hidx, associate_in_range _ p g hp hg]

theorem add_leaves_gallery (calls : List (Nat × Nat × Nat)) : ∀ (a : EndpointAssociator) (x : Nat),
    (∀ c ∈ calls, c.2.1 ≠ x) →
    (add_leaves a calls).gallery_by_probe_ x = a.gallery_by_probe_ x := by
  induction calls with
  | nil => intro a x _; rfl
  | cons c rest ih =>
    intro a x h
    unfold add_leaves
    rw [List.foldl_cons]
    have := ih (assoc_add a c.2.1 c.2.2) x (fun d hd => h d (List.mem_cons_of_mem _ hd))
    unfold add_leaves at this
    rw [this]
    unfold assoc_add
    simp only
    rw [Function.update_noteq (Ne.symm (h c (List.mem_cons_self _ _)))]

theorem add_leaves_probe (calls : List (Nat × Nat × Nat)) : ∀ (a : EndpointAssociator) (x : Nat),
    (∀ c ∈ calls, c.2.2 ≠ x) →
    (add_leaves a calls).probe_by_gallery_ x = a.probe_by_gallery_ x := by
  induction calls with
  | nil => intro a x _; rfl
  | cons c rest ih =>
    intro a x h
    unfold add_leaves
    rw [List.foldl_cons]
    have := ih (assoc_add a c.2.1 c.2.2) x (fun d hd => h d (List.mem_cons_of_mem _ hd))
    unfold add_leaves at this
    rw [this]
    unfold assoc_add
    simp only
    rw [Function.update_noteq (Ne.symm (h c (List.mem_cons_self _ _)))]

theorem assoc_add_comm (a : EndpointAssociator) (p g p1 g1 : Nat) (hp : p ≠ p1) (hg : g ≠ g1) :
    assoc_add (assoc_add a p g) p1 g1 = assoc_add (assoc_add a p1 g1) p g := by
  unfold assoc_add
  simp only [EndpointAssociator.mk.injEq]
  exact ⟨Function.update_comm hg _ _ _, Function.update_comm hp _ _ _⟩

theorem add_leaves_comm (calls : List (Nat × Nat × Nat)) : ∀ (a : EndpointAssociator) (p g : Nat),
    (∀ c ∈ calls, p ≠ c.2.1 ∧ g ≠ c.2.2) →
    add_leaves (assoc_add a p g) calls = assoc_add (add_leaves a calls) p g := by
  induction calls with
  | nil => intro a p g _; rfl
  | cons c rest ih =>
    intro a p g h
    have hc := h c (List.mem_cons_self _ _)
    unfold add_leaves
    rw [List.foldl_cons, List.foldl_cons, assoc_add_comm a p g c.2.1 c.2.2 hc.1 hc.2]
    exact ih _ p g (fun d hd => h d (List.mem_cons_of_mem _ hd))

/-- The final loop of `find_pairs` un-associates the endpoints that the calls
associated. -/
theorem clear_leaves : ∀ (calls : List (Nat × Nat × Nat)) (a : EndpointAssociator),
    calls.Pairwise (fun x y => x.2.1 ≠ y.2.1 ∧ x.2.2 ≠ y.2.2) →
    (∀ c ∈ calls, c.2.1 < MAX_NUMBER_OF_ENDPOINTS ∧ c.2.2 < MAX_NUMBER_OF_ENDPOINTS ∧
      a.gallery_by_probe_ c.2.1 = 0 ∧ a.probe_by_gallery_ c.2.2 = 0) →
    clear_endpoints (add_leaves a calls) (calls.map (fun c => c.2.1)) = .ok a := by
  intro calls
  induction calls with
  | nil => intro a _ _; rfl
  | cons c rest ih =>
    intro a hpw h
    rw [List.pairwise_cons] at hpw
    have hc := h c (List.mem_cons_self _ _)
    have e1 : add_leaves a (c :: rest) = assoc_add (add_leaves a rest) c.2.1 c.2.2 := by
      have : add_leaves a (c :: rest) = add_leaves (assoc_add a c.2.1 c.2.2) rest := rfl
      rw [this]
      exact add_leaves_comm rest a c.2.1 c.2.2 (fun d hd => hpw.1 d hd)
    rw [e1, List.map_cons]
    unfold clear_endpoints
    rw [clear_add _ _ _ hc.1 hc.2.1
      (by rw [add_leaves_gallery rest a _ (fun d hd => Ne.symm (hpw.1 d hd).1)]; exact hc.2.2.1)
      (by rw [add_leaves_probe rest a _ (fun d hd => Ne.symm (hpw.1 d hd).2)]; exact hc.2.2.2)]
    exact ih a hpw.2 (fun d hd => h d (List.mem_cons_of_mem _ hd))

/-- After the calls, every probe endpoint of a call is associated with the
call's gallery endpoint. -/
theorem add_leaves_at : ∀ (calls : List (Nat × Nat × Nat)) (a : EndpointAssociator),
    calls.Pairwise (fun x y => x.2.1 ≠ y.2.1 ∧ x.2.2 ≠ y.2.2) →
    ∀ c ∈ calls, (add_leaves a calls).gallery_by_probe_ c.2.1 = c.2.2 + 1 := by
  intro calls
  induction calls with
  | nil => intro a _ c hc; cases hc
  | cons d rest ih =>
    intro a hpw c hc
    rw [List.pairwise_cons] at hpw
    have e1 : add_leaves a (d :: rest) = add_leaves (assoc_add a d.2.1 d.2.2) rest := rfl
    rcases List.mem_cons.mp hc with rfl | hin
    · rw [e1, add_leaves_gallery rest _ _ (fun x hx => Ne.symm (hpw.1 x hx).1)]
      unfold assoc_add
      simp
    · rw [e1]
      exact ih _ hpw.2 c hin

/-- The calls of the first lookup of `find_pairs` for endpoints that are all
free and pairs that are not in the cluster: every call selects its pair and
associates its endpoints. -/
theorem run_assign (cluster : Nat) : ∀ (calls : List (Nat × Nat × Nat)) (r : GrowthRefs),
    calls.Pairwise (fun x y => x.1 ≠ y.1 ∧ x.2.1 ≠ y.2.1 ∧ x.2.2 ≠ y.2.2) →
    (∀ x ∈ calls, x.1 < MAX_NUMBER_OF_PAIRS ∧ x.2.1 < MAX_NUMBER_OF_ENDPOINTS ∧
      x.2.2 < MAX_NUMBER_OF_ENDPOINTS ∧ r.associator.gallery_by_probe_ x.2.1 = 0 ∧
      r.associator.probe_by_gallery_ x.2.2 = 0 ∧
      r.assigner.cluster_by_pair_ x.1 ≠ wrap32 (wrapU32 (cluster + 1))) →
    run_callbacks (fun index probe_j gallery2 s =>
        assign_cluster_to_endpoints cluster index probe_j gallery2 s) calls r
      = .ok { groups := r.groups,
              assigner := mark_pairs r.assigner (wrap32 (wrapU32 (cluster + 1))) calls,
              associator := add_leaves r.associator calls,
              endpoints := r.endpoints ++ calls.map (fun c => c.2.1),
              selected_pairs := r.selected_pairs ++ calls.map (fun c => c.1) } := by
  intro calls
  induction calls with
  | nil =>
    intro r _ _
    simp [run_callbacks, mark_pairs, add_leaves]
  | cons c rest ih =>
    intro r hpw h
    rw [List.pairwise_cons] at hpw
    obtain ⟨k1, k2, k3, k4, k5, k6⟩ := h c (List.mem_cons_self _ _)
    unfold run_callbacks
    rw [assign_free cluster c.1 c.2.1 c.2.2 r k1 k2 k3 k4 k5 k6]
    simp only
    rw [ih _ (hpw.2) (by
      intro x hx
      obtain ⟨m1, m2, m3, m4, m5, m6⟩ := h x (List.mem_cons_of_mem _ hx)
      obtain ⟨d1, d2, d3⟩ := hpw.1 x hx
      refine ⟨m1, m2, m3, ?_, ?_, ?_⟩
      · unfold assoc_add
        simp only
        rw [Function.update_noteq (Ne.symm d2)]
        exact m4
      · unfold assoc_add
        simp only
        rw [Function.update_noteq (Ne.symm d3)]
        exact m5
      · simp only
        rw [Function.update_noteq (Ne.symm d1)]
        exact m6)]
    simp [mark_pairs, add_leaves]

/-- The worklist loop of `find_pairs` when no endpoint of the list occurs in a
further pair: it returns, and changes nothing. -/
theorem find_pairs_loop_idle (H : PairHolder) (start : Pair) (cluster nb : Nat) :
    ∀ (fuel i : Nat) (r : GrowthRefs), r.endpoints.length - i < fuel →
      (∀ e ∈ r.endpoints, ∃ g,
        r.associator.get_associated_gallery_endpoint e = .ok (some g) ∧
        (∀ (cb : Nat → Nat → Nat → GrowthRefs → Except Fault GrowthRefs) (s : GrowthRefs),
          H.find_pairs_by_second_endpoint nb e g cb s = .ok s) ∧
        (∀ (cb : Nat → Nat → Nat → GrowthRefs → Except Fault GrowthRefs) (s : GrowthRefs),
          ∃ b, H.find_pairs_by_first_endpoint nb e g cb s = .ok (s, b))) →
      find_pairs_loop H start cluster nb fuel i r = .ok r := by
  intro fuel
  induction fuel with
  | zero => intro i r h; omega
  | succ fuel ih =>
    intro i r hfuel h
    unfold find_pairs_loop
    by_cases hi : i < r.endpoints.length
    · rw [if_pos hi, List.getElem?_eq_getElem hi]
      simp only
      obtain ⟨g, h1, h2, h3⟩ := h r.endpoints[i] (List.getElem_mem _)
      rw [h1]
      simp only
      rw [h2]
      simp only
      obtain ⟨b, hb⟩ := h3 (fun index probe_j gallery2 s =>
        assign_cluster_to_endpoints cluster index probe_j gallery2 s) r
      rw [hb]
      simp only
      exact ih (i + 1) r (by omega) h
    · rw [if_neg hi]

/-- `find_pairs` from a seed whose first endpoint leads to the pairs of
`calls`, all with free endpoints that occur in no further pair: the pairs of
the calls are selected and marked, and the associator is left as it was. -/
theorem find_pairs_leaves (H : PairHolder) (gfuel i0 cluster nb : Nat) (start : Pair)
    (calls : List (Nat × Nat × Nat)) (groups : List EndpointGroup)
    (B : EndpointAssociator) (A : ClusterAssigner)
    (hstart : H.pairs[i0]? = some start)
    (hfirst : ∀ (cb : Nat → Nat → Nat → GrowthRefs → Except Fault GrowthRefs) (s : GrowthRefs),
      H.find_pairs_by_first_endpoint i0 start.probe_k start.gallery_k cb s
        = Except.map (fun s1 => (s1, nb)) (run_callbacks cb calls s))
    (hidle : ∀ c ∈ calls,
      (∀ (cb : Nat → Nat → Nat → GrowthRefs → Except Fault GrowthRefs) (s : GrowthRefs),
        H.find_pairs_by_second_endpoint nb c.2.1 c.2.2 cb s = .ok s) ∧
      (∀ (cb : Nat → Nat → Nat → GrowthRefs → Except Fault GrowthRefs) (s : GrowthRefs),
        ∃ b, H.find_pairs_by_first_endpoint nb c.2.1 c.2.2 cb s = .ok (s, b)))
    (hpw : calls.Pairwise (fun x y => x.1 ≠ y.1 ∧ x.2.1 ≠ y.2.1 ∧ x.2.2 ≠ y.2.2))
    (hfree : ∀ x ∈ calls, x.1 < MAX_NUMBER_OF_PAIRS ∧ x.2.1 < MAX_NUMBER_OF_ENDPOINTS ∧
      x.2.2 < MAX_NUMBER_OF_ENDPOINTS ∧ B.gallery_by_probe_ x.2.1 = 0 ∧
      B.probe_by_gallery_ x.2.2 = 0 ∧
      A.cluster_by_pair_ x.1 ≠ wrap32 (wrapU32 (cluster + 1)))
    (hfuel : calls.length < gfuel) :
    find_pairs gfuel H i0 cluster groups [] B A
      = .ok { groups := groups,
              assigner := mark_pairs A (wrap32 (wrapU32 (cluster + 1))) calls,
              associator := B,
              endpoints := calls.map (fun c => c.2.1),
              selected_pairs := calls.map (fun c => c.1) } := by
  have hpw2 : calls.Pairwise (fun x y => x.2.1 ≠ y.2.1 ∧ x.2.2 ≠ y.2.2) :=
    hpw.imp (fun h => h.2)
  unfold find_pairs
  rw [hstart]
  simp only
  rw [hfirst, run_assign cluster calls _ hpw hfree]
  simp only [Except.map, List.nil_append]
  rw [find_pairs_loop_idle H start cluster nb gfuel 0 _ (by simp; omega) (by
    intro e he
    simp only [List.mem_map] at he
    obtain ⟨c, hc, rfl⟩ := he
    refine ⟨c.2.2, ?_, (hidle c hc).1, (hidle c hc).2⟩
    rw [gallery_lookup_iff]
    exact ⟨(hfree c hc).2.1, add_leaves_at calls B hpw2 c hc⟩)]
  simp only
  rw [clear_leaves calls B hpw2 (fun c hc =>
    ⟨(hfree c hc).2.1, (hfree c hc).2.2.1, (hfree c hc).2.2.2.1, (hfree c hc).2.2.2.2.1⟩)]

theorem averages_loop_total (pm gm : List Minutia) (pairs : List Pair) :
    ∀ (sel : List Nat) (avg : ClusterAverages) (averager : AngleAverager),
      (∀ i ∈ sel, ∃ p, pairs[i]? = some p ∧ p.probe_k < pm.length ∧ p.gallery_k < gm.length) →
      ∃ r, averages_loop pm gm pairs sel avg averager = .ok r := by
  intro sel
  induction sel with
  | nil => intro avg averager _; exact ⟨_, rfl⟩
  | cons i rest ih =>
    intro avg averager h
    obtain ⟨p, hp, h1, h2⟩ := h i (List.mem_cons_self _ _)
    unfold averages_loop
    rw [hp]
    simp only
    rw [List.getElem?_eq_getElem h1, List.getElem?_eq_getElem h2]
    simp only
    exact ih _ _ (fun j hj => h j (List.mem_cons_of_mem _ hj))

theorem encode_endpoints_total (pairs : List Pair) :
    ∀ (sel : List Nat) (e : ClusterEndpoints),
      (∀ i ∈ sel, ∃ p, pairs[i]? = some p ∧ p.probe_k < MAX_BOZORTH_MINUTIAE ∧
        p.probe_j < MAX_BOZORTH_MINUTIAE ∧ p.gallery_k < MAX_BOZORTH_MINUTIAE ∧
        p.gallery_j < MAX_BOZORTH_MINUTIAE) →
      ∃ e1, encode_endpoints pairs sel e = .ok e1 := by
  intro sel
  induction sel with
  | nil => intro e _; exact ⟨_, rfl⟩
  | cons i rest ih =>
    intro e h
    obtain ⟨p, hp, h1, h2, h3, h4⟩ := h i (List.mem_cons_self _ _)
    unfold encode_endpoints bitset_set
    rw [hp]
    simp only [if_pos h1, if_pos h2, if_pos h3, if_pos h4]
    exact ih _ (fun j hj => h j (List.mem_cons_of_mem _ hj))

/-- The commit step of `match_score` for three selected pairs with
`delta_theta = 0` and one point each: a cluster of 3 points is appended. -/
theorem commit_three (H : PairHolder) (pm gm : List Minutia) (state : BozorthState)
    (a b c : Nat) (hsel : state.selected_pairs = [a, b, c])
    (hpairs : ∀ i ∈ [a, b, c], ∃ p, H.pairs[i]? = some p ∧ p.delta_theta = 0 ∧ p.points = 1 ∧
      p.probe_k < pm.length ∧ p.gallery_k < gm.length ∧
      p.probe_k < MAX_BOZORTH_MINUTIAE ∧ p.probe_j < MAX_BOZORTH_MINUTIAE ∧
      p.gallery_k < MAX_BOZORTH_MINUTIAE ∧ p.gallery_j < MAX_BOZORTH_MINUTIAE) :
    ∃ avg ep, commit_cluster axis_ops H pm gm state
      = .ok { state with
              clusters := state.clusters.push_back
                { points := 3, points_from_compatible := 3, compatible := [] } avg ep } := by
  obtain ⟨pa, ha, ha0, ha1, _⟩ := hpairs a (by simp)
  obtain ⟨pb, hb, hb0, hb1, _⟩ := hpairs b (by simp)
  obtain ⟨pc, hc, hc0, hc1, _⟩ := hpairs c (by simp)
  have e1 : filter_selected axis_ops [a, b, c] H.pairs = .ok [a, b, c] := by
    unfold filter_selected calculate_average_delta_theta_for_pairs
    simp only [selected_delta_thetas, ha, hb, hc, ha0, hb0, hc0]
    have hav : (List.foldl AngleAverager.push AngleAverager.init [(0 : Int), 0, 0]).average
        axis_ops = 0 := by decide
    rw [hav]
    have heq : are_angles_equal_with_tolerance 0 0 = true := by decide
    simp [List.filter, ha, hb, hc, ha0, hb0, hc0, heq]
  have e2 : calculate_points [a, b, c] H.pairs = .ok 3 := by
    unfold calculate_points
    simp only [List.foldl, ha, hb, hc, ha1, hb1, hc1]
    decide
  obtain ⟨⟨avg, averager⟩, e3⟩ := averages_loop_total pm gm H.pairs [a, b, c]
    { delta_theta := 0, probe_x := 0, probe_y := 0, gallery_x := 0, gallery_y := 0 }
    AngleAverager.init (by
      intro i hi
      obtain ⟨p, h1, _, _, h4, h5, _⟩ := hpairs i hi
      exact ⟨p, h1, h4, h5⟩)
  obtain ⟨ep, e4⟩ := encode_endpoints_total H.pairs [a, b, c] { probe := 0, gallery := 0 } (by
      intro i hi
      obtain ⟨p, h1, _, _, _, _, h6⟩ := hpairs i hi
      exact ⟨p, h1, h6⟩)
  refine ⟨{ delta_theta := averager.average axis_ops,
            probe_x := div_by_size avg.probe_x 3, probe_y := div_by_size avg.probe_y 3,
            gallery_x := div_by_size avg.gallery_x 3,
            gallery_y := div_by_size avg.gallery_y 3 }, ep, ?_⟩
  unfold commit_cluster calculate_averages
  rw [hsel]
  simp only [List.length_cons, List.length_nil, MIN_NUMBER_OF_PAIRS_TO_CLUSTER]
  simp only [show (0 + 1 + 1 + 1 ≥ 3) = True by simp, if_true, e1, List.length_cons,
    List.length_nil, show ¬ (0 + 1 + 1 + 1 < 3) by omega, if_false, e2, e3, e4]

/-! ## The pair holder of the 2000 stars -/

theorem star_pairs_length : star_pairs.length = 6000 := by
  simp [star_pairs]

theorem star_pairs_get (i : Nat) (hi : i < 6000) : star_pairs[i]? = some (star_pair i) := by
  unfold star_pairs
  rw [List.getElem?_map, List.getElem?_range hi]
  rfl

theorem star_pairs_mem (p : Pair) (hp : p ∈ star_pairs) : ∃ i, i < 6000 ∧ p = star_pair i := by
  unfold star_pairs at hp
  obtain ⟨i, hi, rfl⟩ := List.mem_map.mp hp
  exact ⟨i, List.mem_range.mp hi, rfl⟩

theorem star_pairs_sorted : star_pairs.Pairwise (fun a b => forward_less b a = false) := by
  unfold star_pairs
  rw [List.pairwise_map]
  refine (List.pairwise_lt_range 6000).imp ?_
  intro a b hab
  rw [forward_less_false_iff]
  simp only [star_pair, pair_of]
  omega

theorem star_pairs_small : ∀ p ∈ star_pairs,
    p.probe_k < MAX_BOZORTH_MINUTIAE ∧ p.probe_j < MAX_BOZORTH_MINUTIAE ∧
    p.gallery_k < MAX_BOZORTH_MINUTIAE ∧ p.gallery_j < MAX_BOZORTH_MINUTIAE := by
  intro p hp
  obtain ⟨i, hi, rfl⟩ := star_pairs_mem p hp
  simp only [star_pair, pair_of, MAX_BOZORTH_MINUTIAE]
  omega

/-- What `prepare` leaves in the holder of `star_pairs`. -/
theorem star_holder_spec :
    ∃ h, (star_pairs.foldl PairHolder.add PairHolder.init.clear).prepare = .ok h ∧
      star_lookups h := by
  obtain ⟨h, h1, h2, h3, h4, h5, h6, h7⟩ := prepare_spec star_pairs PairHolder.init
    (by intro e; have := star_pairs_length; rw [e] at this; simp at this) star_pairs_small
  rw [stable_sort_eq_self forward_less star_pairs star_pairs_sorted] at h3
  have hsize : h.forward_.length < U32_MAX := by
    rw [h3, star_pairs_length]
    unfold U32_MAX
    omega
  refine ⟨h, h1, h2, h3, ?_, ?_⟩
  · intro offset pk gk hpk hgk cb s
    rw [first_lookup h h2 hsize h6 offset pk gk hpk hgk cb s, h3]
  · intro offset pj gj hpj hgj cb s
    rw [second_lookup h h2 hsize h4 h5 h7 offset pj gj hpj hgj cb s, h3]

theorem star_center_indices (s : Nat) (hs : s < 2000) :
    indices_with_first_endpoint star_pairs (s / 50) (s % 50) = [3 * s, 3 * s + 1, 3 * s + 2] := by
  have hm : ∀ i, i ∈ indices_with_first_endpoint star_pairs (s / 50) (s % 50) ↔
      i ∈ [3 * s, 3 * s + 1, 3 * s + 2] := by
    intro i
    rw [indices_with_first_endpoint_mem, List.getElem?_map]
    by_cases hi : i < 6000
    · rw [star_pairs_get i hi]
      simp only [Option.map_some', Option.some.injEq, Prod.mk.injEq, star_pair, pair_of,
        List.mem_cons, List.mem_singleton, List.not_mem_nil, or_false]
      omega
    · rw [List.getElem?_eq_none (by rw [star_pairs_length]; omega)]
      simp only [Option.map_none', List.mem_cons, List.mem_singleton, List.not_mem_nil, or_false]
      constructor
      · intro h; cases h
      · intro h; omega
  have h1 : (indices_with_first_endpoint star_pairs (s / 50) (s % 50)).Pairwise
      (fun a b => a < b) := by
    unfold indices_with_first_endpoint
    exact indices_ascending _ _
  have h2 : [3 * s, 3 * s + 1, 3 * s + 2].Pairwise (fun a b => a < b) := by
    simp only [List.pairwise_cons, List.mem_cons, List.mem_singleton,
      List.not_mem_nil, forall_eq_or_imp, forall_eq, IsEmpty.forall_iff, implies_true,
      List.Pairwise.nil, and_true, or_false]
    omega
  exact eq_of_ascending_of_mem_iff h1 h2 hm

theorem star_center_calls (s : Nat) (hs : s < 2000) :
    first_endpoint_calls star_pairs (3 * s) (s / 50) (s % 50) = star_calls s ∧
    first_endpoint_bound star_pairs (3 * s) (s / 50) (s % 50) = 3 * s + 3 := by
  have d0 : (3 * s) / 3 = s := by omega
  have d1 : (3 * s + 1) / 3 = s := by omega
  have d2 : (3 * s + 2) / 3 = s := by omega
  have m0 : (3 * s) % 3 = 0 := by omega
  have m1 : (3 * s + 1) % 3 = 1 := by omega
  have m2 : (3 * s + 2) % 3 = 2 := by omega
  unfold first_endpoint_calls first_endpoint_bound
  rw [star_center_indices s hs]
  constructor
  · have f : List.filter (fun i => decide (3 * s ≤ i)) [3 * s, 3 * s + 1, 3 * s + 2]
        = [3 * s, 3 * s + 1, 3 * s + 2] := by
      simp [List.filter]
    rw [f]
    simp only [List.filterMap_cons, List.filterMap_nil,
      star_pairs_get (3 * s) (by omega), star_pairs_get (3 * s + 1) (by omega),
      star_pairs_get (3 * s + 2) (by omega), Option.map_some', star_pair, pair_of,
      d0, d1, d2, m0, m1, m2, star_calls, Nat.add_zero]
  · simp

theorem star_leaf_first (lp lg offset : Nat) (hlp : 40 ≤ lp) :
    first_endpoint_calls star_pairs offset lp lg = [] := by
  unfold first_endpoint_calls
  rw [indices_with_first_endpoint_nil star_pairs lp lg (by
    intro h
    obtain ⟨p, hp, he⟩ := List.mem_map.mp h
    obtain ⟨i, hi, rfl⟩ := star_pairs_mem p hp
    simp only [star_pair, pair_of, Prod.mk.injEq] at he
    omega)]
  rfl

theorem star_leaf_second (s k : Nat) (hk : k < 3) :
    second_endpoint_calls star_pairs (3 * s + 3) (40 + 3 * (s % 50) + k) (50 + 3 * (s / 50) + k)
      = [] := by
  unfold second_endpoint_calls
  have : (indices_with_second_endpoint star_pairs (40 + 3 * (s % 50) + k)
      (50 + 3 * (s / 50) + k)).filter (fun i => decide (3 * s + 3 ≤ i)) = [] := by
    rw [List.filter_eq_nil_iff]
    intro i hi
    rw [indices_with_second_endpoint_mem, star_pairs_length] at hi
    obtain ⟨hi1, hi2⟩ := hi
    unfold second_key at hi2
    rw [star_pairs_get i hi1] at hi2
    simp only [star_pair, pair_of, Prod.mk.injEq] at hi2
    simp only [decide_eq_true_eq]
    omega
  rw [this]
  rfl

theorem star_calls_mem (s : Nat) (c : Nat × Nat × Nat) (hc : c ∈ star_calls s) :
    ∃ k, k < 3 ∧ c = (3 * s + k, 40 + 3 * (s % 50) + k, 50 + 3 * (s / 50) + k) := by
  simp only [star_calls, List.mem_cons, List.mem_singleton, List.not_mem_nil, or_false] at hc
  rcases hc with rfl | rfl | rfl
  · exact ⟨0, by omega, rfl⟩
  · exact ⟨1, by omega, rfl⟩
  · exact ⟨2, by omega, rfl⟩

theorem star_calls_distinct (s : Nat) :
    (star_calls s).Pairwise (fun x y => x.1 ≠ y.1 ∧ x.2.1 ≠ y.2.1 ∧ x.2.2 ≠ y.2.2) := by
  simp only [star_calls, List.pairwise_cons, List.mem_cons, List.mem_singleton,
    List.not_mem_nil, forall_eq_or_imp, forall_eq, IsEmpty.forall_iff, implies_true,
    List.Pairwise.nil, and_true, or_false]
  omega

theorem mark_star (s : Nat) :
    mark_pairs (star_assigner s) ((s : Int) + 1) (star_calls s) = star_assigner (s + 1) := by
  unfold mark_pairs star_calls star_assigner
  simp only [List.foldl_cons, List.foldl_nil, ClusterAssigner.mk.injEq]
  funext i
  simp only [Function.update_apply]
  split_ifs <;> omega

/-! ## Cluster growth on the 2000 stars -/

theorem star_pair_fields (s k : Nat) (hk : k < 3) :
    star_pair (3 * s + k)
      = pair_of (s / 50) (40 + 3 * (s % 50) + k) (s % 50) (50 + 3 * (s / 50) + k) := by
  have d : (3 * s + k) / 3 = s := by omega
  have m : (3 * s + k) % 3 = k := by omega
  unfold star_pair
  rw [d, m]

/-- One round of the `while (true)` loop of `match_score` for the seed `3 * s`
of the stars: the star becomes the cluster `s`. -/
theorem star_loop (h : PairHolder) (hh : star_lookups h) (g : Nat) (hg : 3 ≤ g)
    (s : Nat) (hs : s < 2000) (state : BozorthState)
    (hsize : state.clusters.size = s) (hgroups : state.groups = [])
    (hassoc : state.associator = assoc_add empty_associator (s / 50) (s % 50))
    (hassign : state.cluster_assigner = star_assigner s) :
    ∃ avg ep,
      grow_cluster_loop axis_ops (g + 1) h star_minutiae star_minutiae (3 * s) (g + 1) state
        = .ok { clusters := state.clusters.push_back
                  { points := 3, points_from_compatible := 3, compatible := [] } avg ep,
                associator := state.associator,
                cluster_assigner := star_assigner (s + 1),
                groups := [],
                selected_pairs := [3 * s, 3 * s + 1, 3 * s + 2] } := by
  obtain ⟨hd, hf, hfirst, hsecond⟩ := hh
  have hpairs : ∀ i, i < 6000 → h.pairs[i]? = some (star_pair i) := by
    intro i hi
    unfold PairHolder.pairs
    rw [hf]
    exact star_pairs_get i hi
  have hstart := hpairs (3 * s) (by omega)
  have hsp := star_pair_fields s 0 (by omega)
  rw [Nat.add_zero] at hsp
  have hcode := has_cluster_code s (by unfold MAX_NUMBER_OF_CLUSTERS; omega)
  obtain ⟨hc1, hc2⟩ := star_center_calls s hs
  have hfp : find_pairs (g + 1) h (3 * s) state.clusters.size state.groups []
      state.associator state.cluster_assigner
      = .ok { groups := [], assigner := star_assigner (s + 1), associator := state.associator,
              endpoints := (star_calls s).map (fun c => c.2.1),
              selected_pairs := (star_calls s).map (fun c => c.1) } := by
    rw [hsize, hgroups, hassoc, hassign]
    rw [find_pairs_leaves h (g + 1) (3 * s) s (3 * s + 3) (star_pair (3 * s)) (star_calls s) []
      _ _ hstart
      (by
        intro cb st
        rw [hsp]
        simp only [pair_of]
        rw [hfirst (3 * s) (s / 50) (s % 50) (by unfold MAX_BOZORTH_MINUTIAE; omega)
          (by unfold MAX_BOZORTH_MINUTIAE; omega) cb st, hc1, hc2])
      (by
        intro c hc
        obtain ⟨k, hk, rfl⟩ := star_calls_mem s c hc
        constructor
        · intro cb st
          simp only
          rw [hsecond (3 * s + 3) _ _ (by unfold MAX_BOZORTH_MINUTIAE; omega)
            (by unfold MAX_BOZORTH_MINUTIAE; omega) cb st, star_leaf_second s k hk]
          rfl
        · intro cb st
          simp only
          rw [hfirst (3 * s + 3) _ _ (by unfold MAX_BOZORTH_MINUTIAE; omega)
            (by unfold MAX_BOZORTH_MINUTIAE; omega) cb st,
            star_leaf_first _ _ _ (by omega)]
          exact ⟨_, rfl⟩)
      (star_calls_distinct s)
      (by
        intro c hc
        obtain ⟨k, hk, rfl⟩ := star_calls_mem s c hc
        simp only [assoc_add, empty_associator, star_assigner, MAX_NUMBER_OF_PAIRS,
          MAX_NUMBER_OF_ENDPOINTS]
        refine ⟨by omega, by omega, by omega, ?_, ?_, ?_⟩
        · rw [Function.update_noteq (by omega)]
        · rw [Function.update_noteq (by omega)]
        · rw [if_neg (by omega), hcode]
          omega)
      (by simp [star_calls]; omega)]
    rw [hcode, mark_star]
  have hsel : (star_calls s).map (fun c => c.1) = [3 * s, 3 * s + 1, 3 * s + 2] := rfl
  obtain ⟨avg, ep, hcommit⟩ := commit_three h star_minutiae star_minutiae
    { state with groups := [], selected_pairs := [3 * s, 3 * s + 1, 3 * s + 2],
                 associator := state.associator, cluster_assigner := star_assigner (s + 1) }
    (3 * s) (3 * s + 1) (3 * s + 2) rfl
    (by
      intro i hi
      have hlen : star_minutiae.length = 200 := by simp [star_minutiae]
      simp only [List.mem_cons, List.mem_singleton, List.not_mem_nil, or_false] at hi
      obtain ⟨k, hk, rfl⟩ : ∃ k, k < 3 ∧ i = 3 * s + k := by
        rcases hi with rfl | rfl | rfl
        · exact ⟨0, by omega, rfl⟩
        · exact ⟨1, by omega, rfl⟩
        · exact ⟨2, by omega, rfl⟩
      refine ⟨_, hpairs _ (by omega), ?_⟩
      rw [star_pair_fields s k hk, hlen]
      simp only [pair_of, MAX_BOZORTH_MINUTIAE]
      refine ⟨trivial, trivial, ?_, ?_, ?_, ?_, ?_, ?_⟩ <;> omega)
  refine ⟨avg, ep, ?_⟩
  unfold grow_cluster_loop
  simp only
  rw [hfp]
  simp only
  rw [hsel, hcommit]
  simp only
  split_ifs
  · rfl
  · rw [hgroups]
    simp [clear_old_groups, try_associate_ambiguous_endpoints, try_associate_loop]

theorem star_skip (fo : FloatOps) (gfuel : Nat) (h : PairHolder) (pm gm : List Minutia)
    (count i : Nat) (state : BozorthState) (hi : i < MAX_NUMBER_OF_PAIRS)
    (hslot : state.cluster_assigner.cluster_by_pair_ i ≠ 0) :
    grow_clusters fo gfuel h pm gm (count + 1) i state
      = grow_clusters fo gfuel h pm gm count (i + 1) state := by
  rw [grow_clusters]
  unfold ClusterAssigner.get_cluster
  rw [if_pos hi]
  simp only [if_neg hslot]

/-- The seed `3 * s` of the stars: the star becomes cluster `s`; growth stops
there when that is the 2000th cluster, and goes on with the next pair index
otherwise. -/
theorem star_seed (h : PairHolder) (hh : star_lookups h) (g : Nat) (hg : 3 ≤ g)
    (s : Nat) (hs : s < 2000) (count : Nat) (state : BozorthState) (hinv : star_inv s state) :
    (s = 1999 → ∃ final,
      grow_clusters axis_ops (g + 1) h star_minutiae star_minutiae (count + 1) (3 * s) state
        = .ok final ∧
      final.clusters.size = 2000 ∧ final.clusters.aligned ∧
      ∀ c ∈ final.clusters.clusters, c.points = 3) ∧
    (s < 1999 → ∃ state1, star_inv (s + 1) state1 ∧
      grow_clusters axis_ops (g + 1) h star_minutiae star_minutiae (count + 1) (3 * s) state
        = grow_clusters axis_ops (g + 1) h star_minutiae star_minutiae count (3 * s + 1)
            state1) := by
  obtain ⟨hsize, hal, hpts, hassoc, hassign⟩ := hinv
  have hf := hh.2.1
  have hget : state.cluster_assigner.get_cluster (3 * s) = .ok none := by
    rw [hassign]
    unfold ClusterAssigner.get_cluster star_assigner
    rw [if_pos (by unfold MAX_NUMBER_OF_PAIRS; omega)]
    simp
  have hstart : h.pairs[3 * s]? = some (star_pair (3 * s)) := by
    unfold PairHolder.pairs
    rw [hf]
    exact star_pairs_get _ (by omega)
  have hsp := star_pair_fields s 0 (by omega)
  rw [Nat.add_zero] at hsp
  have hk : (star_pair (3 * s)).probe_k = s / 50 := by rw [hsp]; rfl
  have hgk : (star_pair (3 * s)).gallery_k = s % 50 := by rw [hsp]; rfl
  have hassociate : state.associator.associate_endpoints (s / 50) (s % 50)
      = .ok (assoc_add empty_associator (s / 50) (s % 50)) := by
    rw [hassoc]
    exact associate_in_range _ _ _ (by unfold MAX_NUMBER_OF_ENDPOINTS; omega)
      (by unfold MAX_NUMBER_OF_ENDPOINTS; omega)
  obtain ⟨avg, ep, hloop⟩ := star_loop h hh g hg s hs
    { state with associator := assoc_add empty_associator (s / 50) (s % 50), groups := [] }
    hsize rfl rfl hassign
  have hclear : (assoc_add empty_associator (s / 50) (s % 50)).clear_by_probe (s / 50)
      = .ok empty_associator :=
    clear_add _ _ _ (by unfold MAX_NUMBER_OF_ENDPOINTS; omega)
      (by unfold MAX_NUMBER_OF_ENDPOINTS; omega) rfl rfl
  have hnewsize : (state.clusters.push_back
      { points := 3, points_from_compatible := 3, compatible := [] } avg ep).size = s + 1 := by
    unfold Clusters.size at *
    simp [Clusters.push_back, hsize]
  have hnewpts : ∀ c ∈ (state.clusters.push_back
      { points := 3, points_from_compatible := 3, compatible := [] } avg ep).clusters,
      c.points = 3 := by
    intro c hc
    simp only [Clusters.push_back, List.mem_append, List.mem_singleton] at hc
    rcases hc with hc | rfl
    · exact hpts c hc
    · rfl
  have hstep : grow_clusters axis_ops (g + 1) h star_minutiae star_minutiae (count + 1)
      (3 * s) state
      = if s + 1 > MAX_NUMBER_OF_CLUSTERS - 1 then
          .ok { clusters := state.clusters.push_back
                  { points := 3, points_from_compatible := 3, compatible := [] } avg ep,
                associator := assoc_add empty_associator (s / 50) (s % 50),
                cluster_assigner := star_assigner (s + 1),
                groups := [],
                selected_pairs := [3 * s, 3 * s + 1, 3 * s + 2] }
        else
          grow_clusters axis_ops (g + 1) h star_minutiae star_minutiae count (3 * s + 1)
            { clusters := state.clusters.push_back
                { points := 3, points_from_compatible := 3, compatible := [] } avg ep,
              associator := empty_associator,
              cluster_assigner := star_assigner (s + 1),
              groups := [],
              selected_pairs := [3 * s, 3 * s + 1, 3 * s + 2] } := by
    rw [grow_clusters, hget]
    simp only
    rw [hstart]
    simp only
    rw [hk, hgk, hassociate]
    simp only
    rw [hloop]
    simp only
    rw [hnewsize]
    split_ifs
    · rfl
    · rw [hclear]
  constructor
  · intro h1999
    refine ⟨{ clusters := state.clusters.push_back
                { points := 3, points_from_compatible := 3, compatible := [] } avg ep,
              associator := assoc_add empty_associator (s / 50) (s % 50),
              cluster_assigner := star_assigner (s + 1),
              groups := [],
              selected_pairs := [3 * s, 3 * s + 1, 3 * s + 2] }, ?_, ?_,
      push_back_aligned _ hal _ _ _, hnewpts⟩
    · rw [hstep, if_pos (by unfold MAX_NUMBER_OF_CLUSTERS; omega)]
    · rw [hnewsize, h1999]
  · intro hlt
    refine ⟨{ clusters := state.clusters.push_back
                { points := 3, points_from_compatible := 3, compatible := [] } avg ep,
              associator := empty_associator,
              cluster_assigner := star_assigner (s + 1),
              groups := [],
              selected_pairs := [3 * s, 3 * s + 1, 3 * s + 2] },
      ⟨hnewsize, push_back_aligned _ hal _ _ _, hnewpts, rfl, rfl⟩, ?_⟩
    rw [hstep, if_neg (by unfold MAX_NUMBER_OF_CLUSTERS; omega)]

/-- Cluster growth on the stars from the seed `3 * s` on: it returns with 2000
clusters. -/
theorem star_growth (h : PairHolder) (hh : star_lookups h) (g : Nat) (hg : 3 ≤ g) :
    ∀ (d s : Nat) (state : BozorthState), s + d = 1999 → star_inv s state →
      ∃ final,
        grow_clusters axis_ops (g + 1) h star_minutiae star_minutiae (3 * d + 2) (3 * s) state
          = .ok final ∧
        final.clusters.size = 2000 ∧ final.clusters.aligned ∧
        ∀ c ∈ final.clusters.clusters, c.points = 3 := by
  intro d
  induction d with
  | zero =>
    intro s state hsd hinv
    exact (star_seed h hh g hg s (by omega) 1 state hinv).1 (by omega)
  | succ d ih =>
    intro s state hsd hinv
    obtain ⟨state1, hinv1, hstep⟩ := (star_seed h hh g hg s (by omega) (3 * d + 4) state hinv).2
      (by omega)
    have hslot : ∀ k, k < 3 → state1.cluster_assigner.cluster_by_pair_ (3 * s + k) ≠ 0 := by
      intro k hk
      rw [hinv1.2.2.2.2]
      unfold star_assigner
      simp only
      rw [if_pos (by omega)]
      omega
    rw [show 3 * (d + 1) + 2 = (3 * d + 4) + 1 by omega, hstep,
      star_skip _ _ _ _ _ (3 * d + 3) (3 * s + 1) state1
        (by unfold MAX_NUMBER_OF_PAIRS; omega) (hslot 1 (by omega)),
      star_skip _ _ _ _ _ (3 * d + 2) (3 * s + 1 + 1) state1
        (by unfold MAX_NUMBER_OF_PAIRS; omega) (hslot 2 (by omega)),
      show 3 * s + 1 + 1 + 1 = 3 * (s + 1) by omega]
    exact ih (s + 1) state1 (by omega) hinv1

theorem star_inv_start : star_inv 0 BozorthState.init.clear := by
  refine ⟨rfl, ⟨rfl, rfl⟩, ?_, rfl, ?_⟩
  · intro c hc
    cases hc
  · unfold BozorthState.clear ClusterAssigner.clear star_assigner
    simp

/-- C29, counterexample.  For the holder of `star_pairs`, 2000 stars of three
pairs each, `match_score` grows one cluster per star and stops only when the
cluster list holds 2000 clusters, more than `MAX_NUMBER_OF_CLUSTERS - 1`. -/
theorem two_thousand_clusters :
    ∃ h, (star_pairs.foldl PairHolder.add PairHolder.init.clear).prepare = .ok h ∧
      ∃ N, ∀ cfuel, N ≤ cfuel → ∃ score final,
        match_score axis_ops 10 cfuel h BozorthState.init star_minutiae star_minutiae
          Format.NistInternal = .ok (score, final) ∧
        final.clusters.size = 2000 ∧
        ¬ (final.clusters.size ≤ MAX_NUMBER_OF_CLUSTERS - 1) := by
  obtain ⟨h, hprep, hh⟩ := star_holder_spec
  refine ⟨h, hprep, ?_⟩
  have hf := hh.2.1
  have hne : h.empty = false := by
    unfold PairHolder.empty
    rw [hf]
    have := star_pairs_length
    cases hsp : star_pairs with
    | nil => rw [hsp] at this; simp at this
    | cons _ _ => rfl
  have hcount : h.pairs.length - 1 = 3 * 1999 + 2 := by
    unfold PairHolder.pairs
    rw [hf, star_pairs_length]
  obtain ⟨grown, hgrow, hsize, hal, hpts⟩ := star_growth h hh 9 (by omega) 1999 0
    BozorthState.init.clear rfl star_inv_start
  rw [Nat.mul_zero] at hgrow
  have htotal : clique_weight grown.clusters.clusters (List.range grown.clusters.size)
      < 4294967296 := by
    unfold clique_weight
    have hle : ∀ x ∈ (List.range grown.clusters.size).map (cluster_points grown.clusters.clusters),
        x ≤ 3 := by
      intro x hx
      obtain ⟨i, _, rfl⟩ := List.mem_map.mp hx
      unfold cluster_points
      cases hc : grown.clusters.clusters[i]? with
      | none => simp
      | some c =>
        simp only
        rw [hpts c (List.getElem?_mem hc)]
    have := List.sum_le_card_nsmul _ 3 hle
    rw [List.length_map, List.length_range] at this
    simp only [smul_eq_mul] at this
    omega
  obtain ⟨merged, m1, m2, m3, m4, m5⟩ := merge_outer_spec axis_ops Format.NistInternal
    grown.clusters.size 0 grown.clusters hal (by omega) (fun a ha => absurd ha (Nat.not_lt_zero a))
  have htotal1 : clique_weight merged.clusters (List.range merged.clusters.length)
      < 4294967296 := by
    have : clique_weight merged.clusters (List.range merged.clusters.length) =
        clique_weight grown.clusters.clusters (List.range grown.clusters.size) := by
      unfold clique_weight Clusters.size
      rw [m3, List.map_congr_left (fun i _ => m4 i)]
    rw [this]; exact htotal
  obtain ⟨hshape, hpfc, hfit⟩ := merged_at_exact merged.clusters htotal1
    (fun a ha => m5 a (by unfold Clusters.size; rw [← m3]; exact ha))
  obtain ⟨N, hN⟩ := combine_clusters_eq_max merged.clusters hshape hpfc hfit
  have hmsize : merged.size = 2000 := by
    unfold Clusters.size at *
    rw [m3, hsize]
  refine ⟨N, fun cfuel hc => ?_⟩
  have hms : match_score axis_ops 10 cfuel h BozorthState.init star_minutiae star_minutiae
      Format.NistInternal = score_clusters axis_ops cfuel Format.NistInternal grown := by
    unfold match_score match_score_format
    simp only [hne, Bool.false_eq_true, if_false]
    rw [hcount, hgrow]
  have hmerge : merge_compatible_clusters axis_ops Format.NistInternal grown.clusters
      = .ok merged := m1
  by_cases hlow : max_points_from_compatible merged.clusters < SCORE_THRESHOLD
  · refine ⟨max_points_from_compatible merged.clusters, { grown with clusters := merged }, ?_,
      hmsize, by rw [hmsize]; unfold MAX_NUMBER_OF_CLUSTERS; omega⟩
    rw [hms]
    unfold score_clusters
    rw [hmerge]
    simp only [hlow, if_true]
  · refine ⟨max_clique_weight merged.clusters, { grown with clusters := merged }, ?_,
      hmsize, by rw [hmsize]; unfold MAX_NUMBER_OF_CLUSTERS; omega⟩
    rw [hms]
    unfold score_clusters
    rw [hmerge]
    simp only [hlow, if_false]
    rw [hN cfuel hc]

/-! ## limit_edges_by_length, counted -/

theorem count_within_limit (edges : List Edge) (c : Nat) (hc : c ≤ edges.length)
    (h1 : ∀ e ∈ edges.take c, e.distance_squared ≤ MAX_MINUTIA_DISTANCE_SQUARED)
    (h2 : ∀ e ∈ edges.drop c, e.distance_squared > MAX_MINUTIA_DISTANCE_SQUARED) :
    (edges.filter (fun e => decide (e.distance_squared ≤ MAX_MINUTIA_DISTANCE_SQUARED))).length
      = c := by
  conv_lhs => rw [← List.take_append_drop c edges]
  rw [List.filter_append, List.length_append,
    List.filter_eq_self.mpr (fun e he => by simpa using h1 e he),
    List.filter_eq_nil_iff.mpr (fun e he => by
      have := h2 e he
      simp only [decide_eq_true_eq]
      omega)]
  simp [hc]

/-- C36. For every edge list sorted ascending by `distance_squared`,
`limit_edges_by_length` returns (its binary search ends within its budget and
reads only indices inside the list) the value `min (c + 1) |edges|`, where `c`
is the number of edges with `distance_squared ≤ 5625`; the value never exceeds
`|edges|` and is 0 only for the empty list. -/
theorem limit_edges_by_length_count (edges : List Edge)
    (hs : edges.Pairwise (fun a b => a.distance_squared ≤ b.distance_squared)) :
    ∃ n, limit_edges_by_length edges = .ok n ∧
      n = min ((edges.filter
        (fun e => decide (e.distance_squared ≤ MAX_MINUTIA_DISTANCE_SQUARED))).length + 1)
        edges.length ∧
      n ≤ edges.length ∧ (n = 0 ↔ edges = []) := by
  obtain ⟨c, hc, h1, h2⟩ := sorted_split_point edges hs
  have hcount := count_within_limit edges c hc h1 h2
  refine ⟨min (c + 1) edges.length, ?_, by rw [hcount], Nat.min_le_right _ _, ?_⟩
  · unfold limit_edges_by_length
    refine limit_edges_loop_eq edges c hc ?_ ?_ (edges.length + 1) 0 (edges.length + 1)
      (Nat.zero_le _) (by omega) (le_refl _) (by omega)
    · intro i h hic
      apply h1
      rw [List.mem_take_iff_getElem]
      exact ⟨i, by omega, rfl⟩
    · intro i h hic
      apply h2
      rw [List.mem_drop_iff_getElem]
      exact ⟨i - c, by omega, by simp [Nat.add_sub_cancel' hic]⟩
  · constructor
    · intro h
      have : edges.length = 0 := by omega
      exact List.length_eq_zero.mp this
    · intro h
      rw [h]
      rfl

/-- C36, witness: three edges of squared lengths 100, 5625 and 9000. -/
theorem limit_edges_by_length_count_witness :
    ∃ n, limit_edges_by_length [edge_of_length 100, edge_of_length 5625, edge_of_length 9000]
        = .ok n ∧
      n = min (([edge_of_length 100, edge_of_length 5625, edge_of_length 9000].filter
        (fun e => decide (e.distance_squared ≤ MAX_MINUTIA_DISTANCE_SQUARED))).length + 1)
        [edge_of_length 100, edge_of_length 5625, edge_of_length 9000].length ∧
      n ≤ [edge_of_length 100, edge_of_length 5625, edge_of_length 9000].length ∧
      (n = 0 ↔ [edge_of_length 100, edge_of_length 5625, edge_of_length 9000] = []) :=
  limit_edges_by_length_count _ (by decide)

/-! ## AngleAverager in exact arithmetic -/

theorem round_div_bounds (a b lo hi : Int) (hb : 0 < b) (hlo : lo ≤ 0) (hhi : 0 ≤ hi)
    (h1 : lo * b ≤ a) (h2 : a ≤ hi * b) :
    lo ≤ round_div a b ∧ round_div a b ≤ hi := by
  unfold round_div
  by_cases ha : a < 0
  · rw [if_pos ha]
    have h0 : 0 ≤ (b - 2 * a) / (2 * b) := Int.ediv_nonneg (by omega) (by omega)
    have h3 : (b - 2 * a) / (2 * b) < -lo + 1 := by
      apply Int.ediv_lt_of_lt_mul (by omega)
      nlinarith
    omega
  · rw [if_neg ha]
    have h0 : 0 ≤ (2 * a + b) / (2 * b) := Int.ediv_nonneg (by omega) (by omega)
    have h3 : (2 * a + b) / (2 * b) < hi + 1 := by
      apply Int.ediv_lt_of_lt_mul (by omega)
      nlinarith
    omega

theorem round_div_self (a k : Int) (hk : 0 < k) : round_div (k * a) k = a := by
  unfold round_div
  by_cases ha : a < 0
  · have hka : k * a < 0 := by nlinarith
    rw [if_pos hka]
    have : (k - 2 * (k * a)) / (2 * k) = -a := by
      have e : k - 2 * (k * a) = k + 2 * k * (-a) := by ring
      rw [e, Int.add_mul_ediv_left _ _ (by omega : 2 * k ≠ 0)]
      have : k / (2 * k) = 0 := Int.ediv_eq_zero_of_lt (by omega) (by omega)
      omega
    omega
  · have hka : ¬ k * a < 0 := by nlinarith
    rw [if_neg hka]
    have e : 2 * (k * a) + k = k + 2 * k * a := by ring
    rw [e, Int.add_mul_ediv_left _ _ (by omega : 2 * k ≠ 0)]
    have : k / (2 * k) = 0 := Int.ediv_eq_zero_of_lt (by omega) (by omega)
    omega

theorem push_sums (l : List Int) (hin : ∀ a ∈ l, -180 < a ∧ a ≤ 180) :
    ∀ (A : AngleAverager) (n : Int), n + l.length ≤ 11930464 →
      0 ≤ A.number_of_negative_ → 0 ≤ A.number_of_positive_ →
      A.number_of_negative_ + A.number_of_positive_ = n →
      -179 * A.number_of_negative_ ≤ A.sum_of_negative_ →
      A.sum_of_negative_ ≤ -A.number_of_negative_ →
      0 ≤ A.sum_of_positive_ → A.sum_of_positive_ ≤ 180 * A.number_of_positive_ →
      0 ≤ (l.foldl AngleAverager.push A).number_of_negative_ ∧
      0 ≤ (l.foldl AngleAverager.push A).number_of_positive_ ∧
      (l.foldl AngleAverager.push A).number_of_negative_ +
        (l.foldl AngleAverager.push A).number_of_positive_ = n + l.length ∧
      -179 * (l.foldl AngleAverager.push A).number_of_negative_
        ≤ (l.foldl AngleAverager.push A).sum_of_negative_ ∧
      (l.foldl AngleAverager.push A).sum_of_negative_
        ≤ -(l.foldl AngleAverager.push A).number_of_negative_ ∧
      0 ≤ (l.foldl AngleAverager.push A).sum_of_positive_ ∧
      (l.foldl AngleAverager.push A).sum_of_positive_
        ≤ 180 * (l.foldl AngleAverager.push A).number_of_positive_ := by
  induction l with
  | nil =>
    intro A n _ h1 h2 h3 h4 h5 h6 h7
    simp only [List.foldl_nil, List.length_nil, Nat.cast_zero, add_zero]
    exact ⟨h1, h2, h3, h4, h5, h6, h7⟩
  | cons a l ih =>
    intro A n hn h1 h2 h3 h4 h5 h6 h7
    have ha := hin a (List.mem_cons_self _ _)
    have hl : ∀ b ∈ l, -180 < b ∧ b ≤ 180 := fun b hb => hin b (List.mem_cons_of_mem _ hb)
    simp only [List.length_cons, Nat.cast_add, Nat.cast_one] at hn
    have hlen : (0 : Int) ≤ l.length := Int.natCast_nonneg _
    rw [List.foldl_cons]
    have key := ih hl (A.push a) (n + 1) (by omega)
    have e : n + ((a :: l).length : Int) = n + 1 + l.length := by
      simp only [List.length_cons, Nat.cast_add, Nat.cast_one]
      omega
    rw [e]
    by_cases hneg : a < 0
    · have hp : A.push a = AngleAverager.mk (A.sum_of_negative_ + a)
          (A.number_of_negative_ + 1) A.sum_of_positive_ A.number_of_positive_ := by
        unfold AngleAverager.push
        rw [if_pos hneg]
        have w1 : wrap32 (A.sum_of_negative_ + a) = A.sum_of_negative_ + a := by
          unfold wrap32
          omega
        have w2 : wrap32 (A.number_of_negative_ + 1) = A.number_of_negative_ + 1 := by
          unfold wrap32
          omega
        rw [w1, w2]
      rw [hp] at key ⊢
      exact key (by simp only; omega) (by simp only; omega) (by simp only; omega)
        (by simp only; omega) (by simp only; omega) (by simp only; omega) (by simp only; omega)
    · have hp : A.push a = AngleAverager.mk A.sum_of_negative_
          A.number_of_negative_ (A.sum_of_positive_ + a) (A.number_of_positive_ + 1) := by
        unfold AngleAverager.push
        rw [if_neg hneg]
        have w1 : wrap32 (A.sum_of_positive_ + a) = A.sum_of_positive_ + a := by
          unfold wrap32
          omega
        have w2 : wrap32 (A.number_of_positive_ + 1) = A.number_of_positive_ + 1 := by
          unfold wrap32
          omega
        rw [w1, w2]
      rw [hp] at key ⊢
      exact key (by simp only; omega) (by simp only; omega) (by simp only; omega)
        (by simp only; omega) (by simp only; omega) (by simp only; omega) (by simp only; omega)

theorem exact_average_bounds (sn nn sp np : Int) (h1 : 0 ≤ nn) (h2 : 0 ≤ np)
    (h3 : 0 < nn + np) (h4 : -179 * nn ≤ sn) (h5 : sn ≤ -nn) (h6 : 0 ≤ sp)
    (h7 : sp ≤ 180 * np) :
    -539 ≤ exact_average_rounded sn nn sp np ∧ exact_average_rounded sn nn sp np ≤ 180 := by
  unfold exact_average_rounded
  simp only
  by_cases c1 : nn = 0
  · subst c1
    have : sn = 0 := by omega
    subst this
    have hnp : ¬ np = 0 := by omega
    simp only [if_true, if_neg hnp]
    split_ifs with c2 c3
    · exact round_div_bounds _ _ (-539) 180 (by omega) (by omega) (by omega) (by omega) (by omega)
    · exact round_div_bounds _ _ (-539) 180 (by omega) (by omega) (by omega) (by omega) (by omega)
    · exact round_div_bounds _ _ (-539) 180 (by omega) (by omega) (by omega) (by omega) (by omega)
  · by_cases c0 : np = 0
    · subst c0
      have : sp = 0 := by omega
      subst this
      simp only [if_true, if_neg c1]
      split_ifs with c2 c3
      · exact round_div_bounds _ _ (-539) 180 (by omega) (by omega) (by omega) (by omega)
          (by omega)
      · exact round_div_bounds _ _ (-539) 180 (by omega) (by omega) (by omega) (by omega)
          (by omega)
      · exact round_div_bounds _ _ (-539) 180 (by omega) (by omega) (by omega) (by omega)
          (by omega)
    · simp only [if_neg c0, if_neg c1]
      split_ifs with c2 c3
      · exact round_div_bounds _ _ (-539) 180 (by omega) (by omega) (by omega) (by omega)
          (by omega)
      · exact round_div_bounds _ _ (-539) 180 (by omega) (by omega) (by omega) (by omega)
          (by omega)
      · exact round_div_bounds _ _ (-539) 180 (by omega) (by omega) (by omega) (by omega)
          (by omega)

theorem average_of_bounds (fo : FloatOps) (A : AngleAverager) (r : Int)
    (hr : fo.average_rounded A.sum_of_negative_ A.number_of_negative_ A.sum_of_positive_
      A.number_of_positive_ = r) (h1 : -539 ≤ r) (h2 : r ≤ 180) :
    -180 < A.average fo ∧ A.average fo ≤ 180 ∧ (-180 < r → A.average fo = r) := by
  unfold AngleAverager.average
  simp only [hr]
  by_cases c : r ≤ -180
  · rw [if_pos c]
    unfold wrap32
    omega
  · rw [if_neg c]
    omega

theorem single_average (a : Int) (h1 : -180 < a) (h2 : a ≤ 180) (k : Int) (hk : 0 < k) :
    (a < 0 → exact_average_rounded (k * a) k 0 0 = a) ∧
    (¬ a < 0 → exact_average_rounded 0 0 (k * a) k = a) := by
  have hk0 : ¬ k = 0 := by omega
  constructor
  · intro ha
    unfold exact_average_rounded
    simp only [if_true, if_neg hk0, zero_mul, zero_add, mul_one]
    have : ¬ (0 - k * a > 180 * (1 * k)) := by nlinarith
    rw [if_neg this]
    exact round_div_self a k hk
  · intro ha
    unfold exact_average_rounded
    simp only [if_true, if_neg hk0, mul_zero, add_zero, mul_one, one_mul, sub_zero]
    have : ¬ (k * a - 0 * k > 180 * k) := by nlinarith
    rw [if_neg this]
    exact round_div_self a k hk

/-- C40. With the float arithmetic of `average` taken exactly (rounding half
away from zero) and the integer sums exact (at most 11930464 angles), for every
non-empty sequence of angles in (-180, 180] pushed into an `AngleAverager`,
`average` lies in (-180, 180]; the average of a single angle `a`, and
`average_angles a a`, is `a`. -/
theorem average_in_half_open_range (fo : FloatOps)
    (hfo : fo.average_rounded = exact_average_rounded) (l : List Int) (hne : l ≠ [])
    (hlen : l.length ≤ 11930464) (hin : ∀ a ∈ l, -180 < a ∧ a ≤ 180) :
    -180 < (l.foldl AngleAverager.push AngleAverager.init).average fo ∧
    (l.foldl AngleAverager.push AngleAverager.init).average fo ≤ 180 ∧
    (∀ a ∈ l, (AngleAverager.init.push a).average fo = a ∧ average_angles fo a a = a) := by
  have hpos : 0 < l.length := List.length_pos.mpr hne
  obtain ⟨k1, k2, k3, k4, k5, k6, k7⟩ := push_sums l hin AngleAverager.init 0
    (by omega) (by decide) (by decide) (by decide) (by decide) (by decide) (by decide)
    (by decide)
  have hb := exact_average_bounds _ _ _ _ k1 k2 (by omega) k4 k5 k6 k7
  have h := average_of_bounds fo (l.foldl AngleAverager.push AngleAverager.init) _
    (by rw [hfo]) hb.1 hb.2
  refine ⟨h.1, h.2.1, ?_⟩
  intro a ha
  obtain ⟨a1, a2⟩ := hin a ha
  have w : ∀ z : Int, -400 < z → z < 400 → wrap32 z = z := by
    intro z z1 z2
    unfold wrap32
    omega
  have s1 := single_average a a1 a2 1 (by omega)
  have s2 := single_average a a1 a2 2 (by omega)
  by_cases hneg : a < 0
  · have e1 : AngleAverager.init.push a =
        { sum_of_negative_ := 1 * a, number_of_negative_ := 1, sum_of_positive_ := 0,
          number_of_positive_ := 0 } := by
      unfold AngleAverager.push AngleAverager.init
      rw [if_pos hneg]
      simp only [zero_add, one_mul]
      rw [w a (by omega) (by omega), w 1 (by omega) (by omega)]
    have e2 : (AngleAverager.init.push a).push a =
        { sum_of_negative_ := 2 * a, number_of_negative_ := 2, sum_of_positive_ := 0,
          number_of_positive_ := 0 } := by
      rw [e1]
      unfold AngleAverager.push
      rw [if_pos hneg]
      simp only [one_mul]
      rw [w (a + a) (by omega) (by omega), w (1 + 1) (by omega) (by omega)]
      simp only [AngleAverager.mk.injEq, and_true]
      omega
    constructor
    · rw [e1]
      exact (average_of_bounds fo _ a (by rw [hfo]; exact s1.1 hneg) (by omega) (by omega)).2.2
        a1
    · unfold average_angles
      rw [e2]
      exact (average_of_bounds fo _ a (by rw [hfo]; exact s2.1 hneg) (by omega) (by omega)).2.2
        a1
  · have e1 : AngleAverager.init.push a =
        { sum_of_negative_ := 0, number_of_negative_ := 0, sum_of_positive_ := 1 * a,
          number_of_positive_ := 1 } := by
      unfold AngleAverager.push AngleAverager.init
      rw [if_neg hneg]
      simp only [zero_add, one_mul]
      rw [w a (by omega) (by omega), w 1 (by omega) (by omega)]
    have e2 : (AngleAverager.init.push a).push a =
        { sum_of_negative_ := 0, number_of_negative_ := 0, sum_of_positive_ := 2 * a,
          number_of_positive_ := 2 } := by
      rw [e1]
      unfold AngleAverager.push
      rw [if_neg hneg]
      simp only [one_mul]
      rw [w (a + a) (by omega) (by omega), w (1 + 1) (by omega) (by omega)]
      simp only [AngleAverager.mk.injEq, true_and]
      omega
    constructor
    · rw [e1]
      exact (average_of_bounds fo _ a (by rw [hfo]; exact s1.2 hneg) (by omega) (by omega)).2.2
        a1
    · unfold average_angles
      rw [e2]
      exact (average_of_bounds fo _ a (by rw [hfo]; exact s2.2 hneg) (by omega) (by omega)).2.2
        a1

/-- C40, witness: the angles 170, -170 and 180 with the exact arithmetic of
`axis_ops`. -/
theorem average_in_half_open_range_witness :
    -180 < ([170, -170, 180].foldl AngleAverager.push AngleAverager.init).average axis_ops ∧
    ([170, -170, 180].foldl AngleAverager.push AngleAverager.init).average axis_ops ≤ 180 ∧
    (∀ a ∈ [170, -170, 180],
      (AngleAverager.init.push a).average axis_ops = a ∧ average_angles axis_ops a a = a) :=
  average_in_half_open_range axis_ops rfl [170, -170, 180] (by decide) (by decide) (by decide)

/-! ## Ranges of the command line -/

/-- C35. On a list of three items the range text `1-4` is accepted as the
positions 0..3, passes the bounds test of `get_span_by_range` (`0 < 3` and
`3 <= 3`) and reaches `subspan(0, 4)`, which is outside the three items; the
texts `1-3` and `2-3` give the expected items and `1-5`, `4-4` are reported as
out of bounds. -/
theorem get_span_by_range_one_past_end :
    parse_range "1-4".toList = .ok (some { first_ := 0, last_ := 3 }) ∧
    get_span_by_range [10, 20, 30] { first_ := 0, last_ := 3 } = .error .out_of_range ∧
    subspan [10, 20, 30] 0 4 = .error .out_of_range ∧
    parse_range "1-3".toList = .ok (some { first_ := 0, last_ := 2 }) ∧
    get_span_by_range [10, 20, 30] { first_ := 0, last_ := 2 } = .ok (some [10, 20, 30]) ∧
    parse_range "2-3".toList = .ok (some { first_ := 1, last_ := 2 }) ∧
    get_span_by_range [10, 20, 30] { first_ := 1, last_ := 2 } = .ok (some [20, 30]) ∧
    get_span_by_range [10, 20, 30] { first_ := 0, last_ := 4 } = .ok none ∧
    get_span_by_range [10, 20, 30] { first_ := 3, last_ := 3 } = .ok none ∧
    parse_range "0-3".toList = .ok none ∧
    parse_range "3-2".toList = .ok none ∧
    parse_range "1-2147483648".toList = .ok none := by
  refine ⟨by decide, by decide, by decide, by decide, by decide, by decide, by decide,
    by decide, by decide, by decide, by decide, by decide⟩

/-! ## assign_cluster_to_endpoints on an associated pair of endpoints -/

/-- C31. The already-associated branch of `assign_cluster_to_endpoints` does not
keep `endpoints` free of duplicates.  In `repeated_endpoint_refs` the worklist
`[5]` has no duplicates, probe 5 is associated with gallery 7 and pair 0 is not
assigned to cluster 0; the call for pair 0 with these endpoints selects and
marks the pair, searches the worklist for the number 0 (the pair index) instead
of 5 (the probe endpoint), does not find it, and appends the endpoint 5 a
second time. -/
theorem assign_repeats_endpoint :
    repeated_endpoint_refs.endpoints.Nodup ∧
    repeated_endpoint_refs.associator.get_associated_gallery_endpoint 5 = .ok (some 7) ∧
    repeated_endpoint_refs.assigner.has_cluster 0 0 = .ok false ∧
    ok_and (assign_cluster_to_endpoints 0 0 5 7 repeated_endpoint_refs)
      (fun r => decide (r.endpoints = [5, 5] ∧ r.selected_pairs = [0] ∧
        ¬ r.endpoints.Nodup)) = true := by
  refine ⟨by decide, by decide, by decide, by decide⟩

/-! ## The roll-back of associate_endpoints_of_all_groups -/

theorem associator_ext (a b : EndpointAssociator)
    (h1 : ∀ x, a.gallery_by_probe_ x = b.gallery_by_probe_ x)
    (h2 : ∀ y, a.probe_by_gallery_ y = b.probe_by_gallery_ y) : a = b := by
  cases a
  cases b
  simp only [EndpointAssociator.mk.injEq]
  exact ⟨funext h2, funext h1⟩

theorem rollback_restores (a0 : EndpointAssociator) :
    ∀ (count i : Nat) (groups : List EndpointGroup) (b : EndpointAssociator),
      i + count = groups.length → rollback_inv a0 i groups b →
      ∃ groups1, rollback_groups count i groups b = .ok (groups1, a0) := by
  intro count
  induction count with
  | zero =>
    intro i groups b hlen ⟨_, hB, hC⟩
    refine ⟨groups, ?_⟩
    unfold rollback_groups
    have hnone : ∀ j, i ≤ j → groups[j]? = none := by
      intro j hj
      exact List.getElem?_eq_none (by omega)
    have : b = a0 := by
      apply associator_ext
      · intro x
        apply hB
        intro j g hj hg
        rw [hnone j hj] at hg
        cases hg
      · intro y
        apply hC
        intro j g x hj hg
        rw [hnone j hj] at hg
        cases hg
    rw [this]
  | succ count ih =>
    intro i groups b hlen ⟨hA, hB, hC⟩
    have hi : i < groups.length := by omega
    have hgi : groups[i]? = some (groups.get ⟨i, hi⟩) := List.getElem?_eq_getElem hi
    obtain ⟨x, hx, hxm, hx0, hxb⟩ := hA i _ (le_refl _) hgi
    unfold rollback_groups
    rw [hgi]
    simp only [hx]
    have hset : ∀ j, i + 1 ≤ j → ∀ g1,
        (groups.set i { groups.get ⟨i, hi⟩ with to_clear := none })[j]? = some g1 →
        groups[j]? = some g1 := by
      intro j hj g1 h
      rwa [List.getElem?_set_ne (by omega)] at h
    have hlen1 : i + 1 + count
        = (groups.set i { groups.get ⟨i, hi⟩ with to_clear := none }).length := by
      rw [List.length_set]
      omega
    unfold EndpointAssociator.clear_by_probe
    rw [if_pos hxm]
    simp only
    rcases hxb with hz | ⟨q, hqm, hq, hq0⟩
    · rw [if_neg (by simpa using hz)]
      simp only
      apply ih (i + 1) _ b hlen1
      refine ⟨?_, ?_, ?_⟩
      · intro j g1 hj hg1
        exact hA j g1 (by omega) (hset j hj g1 hg1)
      · intro x1 hx1
        by_cases hxx : x1 = x
        · rw [hxx, hz, hx0]
        · apply hB
          intro j g1 hj hg1
          by_cases hji : j = i
          · subst hji
            rw [hgi] at hg1
            cases hg1
            rw [hx]
            intro hc
            cases hc
            exact hxx rfl
          · apply hx1 j g1 (by omega)
            rw [List.getElem?_set_ne (by omega)]
            exact hg1
      · intro y hy
        apply hC
        intro j g1 x1 hj hg1 hx1
        by_cases hji : j = i
        · subst hji
          rw [hgi] at hg1
          cases hg1
          rw [hx] at hx1
          cases hx1
          rw [hz]
          omega
        · apply hy j g1 x1 (by omega) _ hx1
          rw [List.getElem?_set_ne (by omega)]
          exact hg1
    · have hne : b.gallery_by_probe_ x ≠ 0 := by omega
      rw [if_pos hne, if_pos (by omega)]
      simp only
      apply ih (i + 1) _ _ hlen1
      have hq1 : b.gallery_by_probe_ x - 1 = q := by omega
      refine ⟨?_, ?_, ?_⟩
      · intro j g1 hj hg1
        obtain ⟨x1, e1, e2, e3, e4⟩ := hA j g1 (by omega) (hset j hj g1 hg1)
        refine ⟨x1, e1, e2, e3, ?_⟩
        simp only [Function.update_apply]
        by_cases hxx : x1 = x
        · left
          rw [if_pos hxx]
        · rw [if_neg hxx]
          exact e4
      · intro x1 hx1
        simp only [Function.update_apply]
        by_cases hxx : x1 = x
        · rw [if_pos hxx, hxx, hx0]
        · rw [if_neg hxx]
          apply hB
          intro j g1 hj hg1
          by_cases hji : j = i
          · subst hji
            rw [hgi] at hg1
            cases hg1
            rw [hx]
            intro hc
            cases hc
            exact hxx rfl
          · apply hx1 j g1 (by omega)
            rw [List.getElem?_set_ne (by omega)]
            exact hg1
      · intro y hy
        simp only [Function.update_apply, hq1]
        by_cases hyq : y = q
        · rw [if_pos hyq, hyq, hq0]
        · rw [if_neg hyq]
          apply hC
          intro j g1 x1 hj hg1 hx1
          by_cases hji : j = i
          · subst hji
            rw [hgi] at hg1
            cases hg1
            rw [hx] at hx1
            cases hx1
            omega
          · have := hy j g1 x1 (by omega)
              (by rw [List.getElem?_set_ne (by omega)]; exact hg1) hx1
            simp only [Function.update_apply] at this
            by_cases hxx : x1 = x
            · rw [hxx]
              omega
            · rw [if_neg hxx] at this
              exact this

theorem association_inv_rollback (a0 : EndpointAssociator) (k : Nat)
    (groups : List EndpointGroup) (a : EndpointAssociator)
    (h : association_inv a0 k groups a) : rollback_inv a0 k groups a := by
  obtain ⟨hA, hB, hC⟩ := h
  refine ⟨?_, hB, hC⟩
  intro j g hj hg
  obtain ⟨x, q, e1, e2, e3, e4, _, e6, e7⟩ := hA j g hj hg
  exact ⟨x, e1, e2, e6, Or.inr ⟨q, e3, e4, e7⟩⟩

theorem associate_groups_loop_restores (a0 : EndpointAssociator) :
    ∀ (k : Nat) (groups : List EndpointGroup) (a : EndpointAssociator),
      k ≤ groups.length → association_inv a0 k groups a →
      (∀ j g, j < k → groups[j]? = some g →
        ∃ p q, get_current_pair g = .ok (p, q) ∧ p < MAX_NUMBER_OF_ENDPOINTS ∧
          q < MAX_NUMBER_OF_ENDPOINTS ∧
          ¬ (a0.gallery_by_probe_ p = q + 1 ∧ a0.probe_by_gallery_ q = p + 1)) →
      ∃ b groups1 a1, associate_groups_loop k groups a = .ok (b, groups1, a1) ∧
        (b = false → a1 = a0) := by
  intro k
  induction k with
  | zero =>
    intro groups a _ _ _
    exact ⟨true, groups, a, rfl, by intro h; cases h⟩
  | succ k ih =>
    intro groups a hk hinv hin
    have hkl : k < groups.length := by omega
    have hgk : groups[k]? = some (groups.get ⟨k, hkl⟩) := List.getElem?_eq_getElem hkl
    obtain ⟨p, q, hpair, hp, hq, hfree⟩ := hin k _ (by omega) hgk
    have e1 : wrapU32 (q + 1) = q + 1 := by
      unfold wrapU32; unfold MAX_NUMBER_OF_ENDPOINTS at hq; omega
    have e2 : wrapU32 (p + 1) = p + 1 := by
      unfold wrapU32; unfold MAX_NUMBER_OF_ENDPOINTS at hp; omega
    unfold associate_groups_loop
    rw [hgk]
    simp only [hpair]
    by_cases hacc : a.are_clear_or_mutually_associated p q = .ok true
    · obtain ⟨_, _, hcase⟩ := clear_or_mutual_true a p q hacc
      rw [hacc]
      simp only
      unfold EndpointAssociator.associate_endpoints
      rw [if_pos ⟨hq, hp⟩]
      simp only [e1, e2]
      obtain ⟨hA, hB, hC⟩ := hinv
      apply ih _ _ (by rw [List.length_set]; omega)
      · -- the invariant after the group at `k`
        have hp0 : a0.gallery_by_probe_ p = 0 ∧ a0.probe_by_gallery_ q = 0 := by
          by_cases hdone : ∃ j g, k + 1 ≤ j ∧ groups[j]? = some g ∧ g.to_clear = some p
          · obtain ⟨j, g, hj, hg, hgp⟩ := hdone
            obtain ⟨x, q1, c1, _, _, c4, c5, c6, c7⟩ := hA j g hj hg
            rw [hgp] at c1
            cases c1
            rcases hcase with ⟨z1, _⟩ | ⟨m1, _⟩
            · omega
            · have : q1 = q := by omega
              subst this
              exact ⟨c6, c7⟩
          · have hb := hB p (by
              intro j g hj hg hc
              exact hdone ⟨j, g, hj, hg, hc⟩)
            have hc := hC q (by
              intro j g x hj hg hgx hxq
              obtain ⟨x1, q1, c1, _, _, c4, c5, _, _⟩ := hA j g hj hg
              rw [hgx] at c1
              cases c1
              have hq1 : q1 = q := by omega
              subst hq1
              rcases hcase with ⟨_, z2⟩ | ⟨_, m2⟩
              · omega
              · have : x = p := by omega
                subst this
                exact hdone ⟨j, g, hj, hg, hgx⟩)
            rcases hcase with ⟨z1, z2⟩ | ⟨m1, m2⟩
            · exact ⟨by rw [← hb]; exact z1, by rw [← hc]; exact z2⟩
            · exact absurd ⟨by rw [← hb]; exact m1, by rw [← hc]; exact m2⟩ hfree
        refine ⟨?_, ?_, ?_⟩
        · intro j g hj hg
          by_cases hjk : j = k
          · subst hjk
            rw [List.getElem?_set_self hkl] at hg
            cases hg
            refine ⟨p, q, rfl, hp, hq, ?_, ?_, hp0.1, hp0.2⟩
            · simp only [Function.update_same]
            · simp only [Function.update_same]
          · rw [List.getElem?_set_ne (by omega)] at hg
            obtain ⟨x, q1, c1, c2, c3, c4, c5, c6, c7⟩ := hA j g (by omega) hg
            refine ⟨x, q1, c1, c2, c3, ?_, ?_, c6, c7⟩
            · simp only [Function.update_apply]
              by_cases hxp : x = p
              · rw [if_pos hxp]
                subst hxp
                rcases hcase with ⟨z1, _⟩ | ⟨m1, _⟩
                · omega
                · omega
              · rw [if_neg hxp]
                exact c4
            · simp only [Function.update_apply]
              by_cases hqq : q1 = q
              · rw [if_pos hqq]
                subst hqq
                rcases hcase with ⟨_, z2⟩ | ⟨_, m2⟩
                · omega
                · omega
              · rw [if_neg hqq]
                exact c5
        · intro x hx
          have hxp : x ≠ p := by
            intro hc
            exact hx k _ (le_refl _) (List.getElem?_set_self hkl) (by rw [hc])
          simp only [Function.update_apply, if_neg hxp]
          apply hB
          intro j g hj hg
          apply hx j g (by omega)
          rw [List.getElem?_set_ne (by omega)]
          exact hg
        · intro y hy
          have hyq : y ≠ q := by
            intro hc
            have := hy k _ p (le_refl _) (List.getElem?_set_self hkl) rfl
            simp only [Function.update_same] at this
            omega
          simp only [Function.update_apply, if_neg hyq]
          apply hC
          intro j g x hj hg hgx
          have := hy j g x (by omega) (by rw [List.getElem?_set_ne (by omega)]; exact hg) hgx
          simp only [Function.update_apply] at this
          by_cases hxp : x = p
          · rw [if_pos hxp] at this
            subst hxp
            rcases hcase with ⟨z1, _⟩ | ⟨m1, _⟩
            · omega
            · omega
          · rw [if_neg hxp] at this
            exact this
      · intro j g hj hg
        rw [List.getElem?_set_ne (by omega)] at hg
        exact hin j g (by omega) hg
    · have hrej : a.are_clear_or_mutually_associated p q = .ok false := by
        unfold EndpointAssociator.are_clear_or_mutually_associated at hacc ⊢
        rw [if_pos ⟨hp, hq⟩] at hacc ⊢
        simp only at hacc ⊢
        split_ifs at hacc ⊢ with c
        · exact absurd rfl hacc
        · cases hb : (decide (a.gallery_by_probe_ p = wrapU32 (q + 1)) &&
              decide (a.probe_by_gallery_ q = wrapU32 (p + 1)))
          · rfl
          · rw [hb] at hacc
            exact absurd rfl hacc
      rw [hrej]
      simp only
      obtain ⟨groups1, h1⟩ := rollback_restores a0 (groups.length - (k + 1)) (k + 1) groups a
        (by omega) (association_inv_rollback a0 (k + 1) groups a hinv)
      rw [h1]
      exact ⟨false, groups1, a0, rfl, fun _ => rfl⟩

/-- C32. If no group's current pair of endpoints is already associated both
ways in the associator of the call, and the endpoints are inside the table,
`associate_endpoints_of_all_groups` returns, and when it returns false the
associator is exactly as before the call. -/
theorem failed_association_is_undone (groups : List EndpointGroup) (a0 : EndpointAssociator)
    (hin : ∀ g ∈ groups, ∃ p q, get_current_pair g = .ok (p, q) ∧
      p < MAX_NUMBER_OF_ENDPOINTS ∧ q < MAX_NUMBER_OF_ENDPOINTS ∧
      ¬ (a0.get_associated_gallery_endpoint p = .ok (some q) ∧
         a0.get_associated_probe_endpoint q = .ok (some p))) :
    ∃ b groups1 a1, associate_endpoints_of_all_groups groups a0 = .ok (b, groups1, a1) ∧
      (b = false → a1 = a0) := by
  unfold associate_endpoints_of_all_groups
  apply associate_groups_loop_restores a0 groups.length groups a0 (le_refl _)
  · refine ⟨?_, ?_, ?_⟩
    · intro j g hj hg
      rw [List.getElem?_eq_none (by omega)] at hg
      cases hg
    · intro x _
      rfl
    · intro y _
      rfl
  · intro j g _ hg
    obtain ⟨p, q, h1, h2, h3, h4⟩ := hin g (List.mem_iff_getElem?.mpr ⟨j, hg⟩)
    refine ⟨p, q, h1, h2, h3, ?_⟩
    rw [gallery_lookup_iff, probe_lookup_iff] at h4
    intro hc
    exact h4 ⟨⟨h2, hc.1⟩, ⟨h3, hc.2⟩⟩

/-- C32, witness: `clashing_groups` (both groups want gallery endpoint 3) on the
empty associator; the call returns false. -/
theorem failed_association_is_undone_witness :
    (∃ b groups1 a1,
      associate_endpoints_of_all_groups clashing_groups empty_associator
        = .ok (b, groups1, a1) ∧ (b = false → a1 = empty_associator)) ∧
    ok_and (associate_endpoints_of_all_groups clashing_groups empty_associator)
      (fun r => !r.1) = true :=
  ⟨failed_association_is_undone clashing_groups empty_associator (by
      intro g hg
      simp only [clashing_groups, List.mem_cons, List.mem_singleton, List.not_mem_nil,
        or_false] at hg
      rcases hg with rfl | rfl
      · exact ⟨2, 3, by decide, by decide, by decide, by decide⟩
      · exact ⟨1, 3, by decide, by decide, by decide, by decide⟩),
    by decide⟩

/-- C32, counterexample.  Probe endpoint 1 is associated with gallery endpoint
1 before the call (a mutually consistent associator).  The back group of
`rival_groups` proposes this very pair, which is accepted and recorded as the
group's endpoint to clear; the front group then proposes probe 2 for gallery 1
and is refused, the call returns false, and the roll-back clears probe 1: the
association that existed before the call is gone. -/
theorem failed_association_clears_older :
    mutually_associated (assoc_add empty_associator 1 1) ∧
    (assoc_add empty_associator 1 1).get_associated_gallery_endpoint 1 = .ok (some 1) ∧
    ok_and (associate_endpoints_of_all_groups rival_groups (assoc_add empty_associator 1 1))
      (fun r => !r.1 && decide (r.2.2.get_associated_gallery_endpoint 1 = .ok none)) = true := by
  refine ⟨?_, by decide, by decide⟩
  rw [mutually_associated_iff]
  intro p g
  simp only [assoc_add, empty_associator, Function.update_apply]
  unfold MAX_NUMBER_OF_ENDPOINTS
  constructor
  · rintro ⟨h1, h2⟩
    split_ifs at h2 <;> split_ifs <;> omega
  · rintro ⟨h1, h2⟩
    split_ifs at h2 <;> split_ifs <;> omega

/-! ## combine_clusters after merge_compatible_clusters -/

/-- C37. For every cluster list (its three vectors of one size) whose points
add up to less than `2^32`, `merge_compatible_clusters` returns, and given
enough loop budget `combine_clusters` on the merged list returns a value that
is at most the maximum `points_from_compatible`; the end of `match_score`
(merge, then the maximum or `combine_clusters`) returns a score that is at
most that maximum. -/
theorem combine_after_merge_at_most_max (fo : FloatOps) (format : Format) (C : Clusters)
    (hal : C.aligned)
    (htotal : clique_weight C.clusters (List.range C.size) < 4294967296) :
    ∃ merged, merge_compatible_clusters fo format C = .ok merged ∧
      ∃ N, ∀ cfuel, N ≤ cfuel →
        (∃ v, combine_clusters cfuel merged.clusters = .ok v ∧
          v ≤ max_points_from_compatible merged.clusters) ∧
        ∀ state : BozorthState, state.clusters = C →
          ∃ score final, score_clusters fo cfuel format state = .ok (score, final) ∧
            score ≤ max_points_from_compatible merged.clusters := by
  obtain ⟨merged, m1, m2, m3, m4, m5⟩ := merge_outer_spec fo format C.size 0 C hal (by omega)
    (fun a ha => absurd ha (Nat.not_lt_zero a))
  have htotal1 : clique_weight merged.clusters (List.range merged.clusters.length)
      < 4294967296 := by
    have : clique_weight merged.clusters (List.range merged.clusters.length) =
        clique_weight C.clusters (List.range C.size) := by
      unfold clique_weight Clusters.size
      rw [m3, List.map_congr_left (fun i _ => m4 i)]
    rw [this]
    exact htotal
  obtain ⟨hshape, hpfc, hfit⟩ := merged_at_exact merged.clusters htotal1
    (fun a ha => m5 a (by unfold Clusters.size; rw [← m3]; exact ha))
  obtain ⟨N, hN⟩ := combine_clusters_eq_max merged.clusters hshape hpfc hfit
  have hle := max_clique_weight_le merged.clusters hpfc
  refine ⟨merged, m1, N, fun cfuel hc => ⟨⟨_, hN cfuel hc, hle⟩, ?_⟩⟩
  intro state hst
  have hmerge : merge_compatible_clusters fo format state.clusters = .ok merged := by
    rw [hst]
    exact m1
  by_cases hlow : max_points_from_compatible merged.clusters < SCORE_THRESHOLD
  · refine ⟨max_points_from_compatible merged.clusters, { state with clusters := merged }, ?_,
      le_refl _⟩
    unfold score_clusters
    rw [hmerge]
    simp only [hlow, if_true]
  · refine ⟨max_clique_weight merged.clusters, { state with clusters := merged }, ?_, hle⟩
    unfold score_clusters
    rw [hmerge]
    simp only [hlow, if_false]
    rw [hN cfuel hc]

/-- C37, witness: three mutually compatible clusters of 3, 4 and 5 points. -/
theorem combine_after_merge_at_most_max_witness :
    ∃ merged, merge_compatible_clusters axis_ops Format.NistInternal
        (three_apart_clusters 3 4 5) = .ok merged ∧
      ∃ N, ∀ cfuel, N ≤ cfuel →
        (∃ v, combine_clusters cfuel merged.clusters = .ok v ∧
          v ≤ max_points_from_compatible merged.clusters) ∧
        ∀ state : BozorthState, state.clusters = three_apart_clusters 3 4 5 →
          ∃ score final,
            score_clusters axis_ops cfuel Format.NistInternal state = .ok (score, final) ∧
            score ≤ max_points_from_compatible merged.clusters :=
  combine_after_merge_at_most_max axis_ops Format.NistInternal (three_apart_clusters 3 4 5)
    ⟨rfl, rfl⟩ (by decide)

/-- C37, counterexample.  Three mutually compatible clusters with the points
10, 4294967295 and 20: `merge_compatible_clusters` stores the 32-bit sums 29,
19 and 20 in `points_from_compatible`, so the maximum is 29, while
`combine_clusters` scores the first and the third cluster together and
returns 30, which is also the score of `match_score`. -/
theorem combine_above_max_after_wrap :
    ok_and (merge_compatible_clusters axis_ops Format.NistInternal
        (three_apart_clusters 10 4294967295 20))
      (fun m => decide (max_points_from_compatible m.clusters = 29 ∧
        combine_clusters 100 m.clusters = .ok 30)) = true ∧
    ok_and (score_clusters axis_ops 100 Format.NistInternal
        (state_with_clusters (three_apart_clusters 10 4294967295 20)))
      (fun r => decide (r.1 = 30)) = true := by
  refine ⟨by decide, by decide⟩

/-! ## try_associate_ambiguous_endpoints: the odometer -/

theorem get_current_pair_fault (g : EndpointGroup) (f : Fault)
    (h : get_current_pair g = .error f) : f = .out_of_range := by
  unfold get_current_pair at h
  split at h
  · cases h
    rfl
  · split_ifs at h

theorem clear_or_mutual_fault (a : EndpointAssociator) (p q : Nat) (f : Fault)
    (h : a.are_clear_or_mutually_associated p q = .error f) : f = .out_of_range := by
  unfold EndpointAssociator.are_clear_or_mutually_associated at h
  simp only at h
  split_ifs at h
  cases h
  rfl

theorem associate_fault (a : EndpointAssociator) (p q : Nat) (f : Fault)
    (h : a.associate_endpoints p q = .error f) : f = .out_of_range := by
  unfold EndpointAssociator.associate_endpoints at h
  split_ifs at h
  cases h
  rfl

theorem clear_by_probe_fault (a : EndpointAssociator) (p : Nat) (f : Fault)
    (h : a.clear_by_probe p = .error f) : f = .out_of_range := by
  unfold EndpointAssociator.clear_by_probe at h
  simp only at h
  split_ifs at h <;> cases h <;> rfl

theorem rollback_groups_fault : ∀ (count i : Nat) (G : List EndpointGroup)
    (a : EndpointAssociator) (f : Fault),
    rollback_groups count i G a = .error f → f = .out_of_range := by
  intro count
  induction count with
  | zero =>
    intro i G a f h
    unfold rollback_groups at h
    cases h
  | succ count ih =>
    intro i G a f h
    unfold rollback_groups at h
    cases hg : G[i]? with
    | none =>
      rw [hg] at h
      cases h
      rfl
    | some g =>
      rw [hg] at h
      simp only at h
      cases hc : g.to_clear with
      | none =>
        rw [hc] at h
        exact ih _ _ _ _ h
      | some x =>
        rw [hc] at h
        simp only at h
        cases hcl : a.clear_by_probe x with
        | error f1 =>
          rw [hcl] at h
          cases h
          exact clear_by_probe_fault a x _ hcl
        | ok a1 =>
          rw [hcl] at h
          exact ih _ _ _ _ h

theorem associate_groups_loop_fault : ∀ (k : Nat) (G : List EndpointGroup)
    (a : EndpointAssociator) (f : Fault),
    associate_groups_loop k G a = .error f → f = .out_of_range := by
  intro k
  induction k with
  | zero =>
    intro G a f h
    unfold associate_groups_loop at h
    cases h
  | succ k ih =>
    intro G a f h
    unfold associate_groups_loop at h
    cases hg : G[k]? with
    | none =>
      rw [hg] at h
      cases h
      rfl
    | some g =>
      rw [hg] at h
      simp only at h
      cases hp : get_current_pair g with
      | error f1 =>
        rw [hp] at h
        cases h
        exact get_current_pair_fault g _ hp
      | ok pq =>
        obtain ⟨p, q⟩ := pq
        rw [hp] at h
        simp only at h
        cases hacc : a.are_clear_or_mutually_associated p q with
        | error f1 =>
          rw [hacc] at h
          cases h
          exact clear_or_mutual_fault a p q _ hacc
        | ok b =>
          rw [hacc] at h
          cases b with
          | true =>
            simp only at h
            cases hass : a.associate_endpoints p q with
            | error f1 =>
              rw [hass] at h
              cases h
              exact associate_fault a p q _ hass
            | ok a1 =>
              rw [hass] at h
              exact ih _ _ _ h
          | false =>
            simp only at h
            cases hr : rollback_groups (G.length - (k + 1)) (k + 1) G a with
            | error f1 =>
              rw [hr] at h
              cases h
              exact rollback_groups_fault _ _ _ _ _ hr
            | ok r =>
              rw [hr] at h
              cases h

theorem set_keeps_without_to_clear (G : List EndpointGroup) (i : Nat) (g g1 : EndpointGroup)
    (hg : G[i]? = some g) (h : without_to_clear g1 = without_to_clear g) :
    (G.set i g1).map without_to_clear = G.map without_to_clear := by
  apply List.ext_getElem?
  intro j
  rw [List.getElem?_map, List.getElem?_map]
  by_cases hij : i = j
  · subst hij
    have hi : i < G.length := by
      by_contra hc
      rw [List.getElem?_eq_none (by omega)] at hg
      cases hg
    rw [List.getElem?_set_self hi, hg]
    simp only [Option.map_some', h]
  · rw [List.getElem?_set_ne hij]

theorem rollback_groups_keeps : ∀ (count i : Nat) (G : List EndpointGroup)
    (a : EndpointAssociator) (G1 : List EndpointGroup) (a1 : EndpointAssociator),
    rollback_groups count i G a = .ok (G1, a1) →
    G1.map without_to_clear = G.map without_to_clear := by
  intro count
  induction count with
  | zero =>
    intro i G a G1 a1 h
    unfold rollback_groups at h
    cases h
    rfl
  | succ count ih =>
    intro i G a G1 a1 h
    unfold rollback_groups at h
    cases hg : G[i]? with
    | none =>
      rw [hg] at h
      cases h
    | some g =>
      rw [hg] at h
      simp only at h
      have hset := set_keeps_without_to_clear G i g { g with to_clear := none } hg rfl
      cases hc : g.to_clear with
      | none =>
        rw [hc] at h
        rw [ih _ _ _ _ _ h, hset]
      | some x =>
        rw [hc] at h
        simp only at h
        cases hcl : a.clear_by_probe x with
        | error f1 =>
          rw [hcl] at h
          cases h
        | ok a2 =>
          rw [hcl] at h
          rw [ih _ _ _ _ _ h, hset]

theorem associate_groups_loop_keeps : ∀ (k : Nat) (G : List EndpointGroup)
    (a : EndpointAssociator) (b : Bool) (G1 : List EndpointGroup) (a1 : EndpointAssociator),
    associate_groups_loop k G a = .ok (b, G1, a1) →
    G1.map without_to_clear = G.map without_to_clear := by
  intro k
  induction k with
  | zero =>
    intro G a b G1 a1 h
    unfold associate_groups_loop at h
    cases h
    rfl
  | succ k ih =>
    intro G a b G1 a1 h
    unfold associate_groups_loop at h
    cases hg : G[k]? with
    | none =>
      rw [hg] at h
      cases h
    | some g =>
      rw [hg] at h
      simp only at h
      cases hp : get_current_pair g with
      | error f1 =>
        rw [hp] at h
        cases h
      | ok pq =>
        obtain ⟨p, q⟩ := pq
        rw [hp] at h
        simp only at h
        cases hacc : a.are_clear_or_mutually_associated p q with
        | error f1 =>
          rw [hacc] at h
          cases h
        | ok b1 =>
          rw [hacc] at h
          cases b1 with
          | true =>
            simp only at h
            cases hass : a.associate_endpoints p q with
            | error f1 =>
              rw [hass] at h
              cases h
            | ok a2 =>
              rw [hass] at h
              rw [ih _ _ _ _ _ h]
              exact set_keeps_without_to_clear G k g _ hg rfl
          | false =>
            simp only at h
            cases hr : rollback_groups (G.length - (k + 1)) (k + 1) G a with
            | error f1 =>
              rw [hr] at h
              cases h
            | ok r =>
              obtain ⟨G2, a2⟩ := r
              rw [hr] at h
              simp only [Except.ok.injEq, Prod.mk.injEq] at h
              obtain ⟨_, h2, _⟩ := h
              rw [← h2]
              exact rollback_groups_keeps _ _ _ _ _ _ hr

theorem get_current_pair_in_range (g : EndpointGroup)
    (h : g.endpoint < MAX_NUMBER_OF_ENDPOINTS ∧ g.endpoint_index < g.endpoints.length ∧
      ∀ e ∈ g.endpoints, e < MAX_NUMBER_OF_ENDPOINTS) :
    ∃ p q, get_current_pair g = .ok (p, q) ∧ p < MAX_NUMBER_OF_ENDPOINTS ∧
      q < MAX_NUMBER_OF_ENDPOINTS := by
  obtain ⟨h1, h2, h3⟩ := h
  have he : g.endpoints[g.endpoint_index]? = some (g.endpoints.get ⟨g.endpoint_index, h2⟩) :=
    List.getElem?_eq_getElem h2
  have hm : g.endpoints.get ⟨g.endpoint_index, h2⟩ < MAX_NUMBER_OF_ENDPOINTS :=
    h3 _ (List.get_mem _ _ _)
  unfold get_current_pair
  rw [he]
  simp only
  split_ifs
  · exact ⟨_, _, rfl, hm, h1⟩
  · exact ⟨_, _, rfl, h1, hm⟩

theorem clear_by_probe_in_range (a : EndpointAssociator) (x : Nat)
    (hx : x < MAX_NUMBER_OF_ENDPOINTS) (ha : associator_in_range a) :
    ∃ a1, a.clear_by_probe x = .ok a1 ∧ associator_in_range a1 := by
  unfold EndpointAssociator.clear_by_probe
  rw [if_pos hx]
  simp only
  have hv := ha x
  by_cases h0 : a.gallery_by_probe_ x = 0
  · rw [if_neg (by simpa using h0)]
    exact ⟨a, rfl, ha⟩
  · rw [if_pos h0, if_pos (by omega)]
    refine ⟨_, rfl, ?_⟩
    intro y
    simp only [Function.update_apply]
    split_ifs
    · omega
    · exact ha y

theorem associate_in_table (a : EndpointAssociator) (p q : Nat)
    (hp : p < MAX_NUMBER_OF_ENDPOINTS) (hq : q < MAX_NUMBER_OF_ENDPOINTS)
    (ha : associator_in_range a) :
    ∃ a1, a.associate_endpoints p q = .ok a1 ∧ associator_in_range a1 := by
  unfold EndpointAssociator.associate_endpoints
  rw [if_pos ⟨hq, hp⟩]
  refine ⟨_, rfl, ?_⟩
  intro y
  simp only [Function.update_apply]
  split_ifs
  · unfold wrapU32
    unfold MAX_NUMBER_OF_ENDPOINTS at hq ⊢
    omega
  · exact ha y

theorem rollback_groups_total : ∀ (count i : Nat) (G : List EndpointGroup)
    (a : EndpointAssociator), i + count = G.length →
    (∀ j g x, i ≤ j → G[j]? = some g → g.to_clear = some x → x < MAX_NUMBER_OF_ENDPOINTS) →
    associator_in_range a →
    ∃ G1 a1, rollback_groups count i G a = .ok (G1, a1) ∧ associator_in_range a1 := by
  intro count
  induction count with
  | zero =>
    intro i G a _ _ ha
    exact ⟨G, a, rfl, ha⟩
  | succ count ih =>
    intro i G a hlen hclear ha
    have hi : i < G.length := by omega
    have hg : G[i]? = some (G.get ⟨i, hi⟩) := List.getElem?_eq_getElem hi
    unfold rollback_groups
    rw [hg]
    simp only
    have hnext : ∀ j g x, i + 1 ≤ j →
        (G.set i { G.get ⟨i, hi⟩ with to_clear := none })[j]? = some g →
        g.to_clear = some x → x < MAX_NUMBER_OF_ENDPOINTS := by
      intro j g x hj hgj hx
      rw [List.getElem?_set_ne (by omega)] at hgj
      exact hclear j g x (by omega) hgj hx
    have hlen1 : i + 1 + count
        = (G.set i { G.get ⟨i, hi⟩ with to_clear := none }).length := by
      rw [List.length_set]
      omega
    cases hc : (G.get ⟨i, hi⟩).to_clear with
    | none => exact ih _ _ a hlen1 hnext ha
    | some x =>
      simp only
      obtain ⟨a1, h1, h2⟩ := clear_by_probe_in_range a x (hclear i _ x (le_refl _) hg hc) ha
      rw [h1]
      exact ih _ _ a1 hlen1 hnext h2

theorem groups_in_range_set (G : List EndpointGroup) (k : Nat) (g g1 : EndpointGroup)
    (hG : groups_in_range G) (hg : G[k]? = some g)
    (h : without_to_clear g1 = without_to_clear g) :
    groups_in_range (G.set k g1) := by
  intro x hx
  rcases List.mem_or_eq_of_mem_set hx with h1 | h1
  · exact hG x h1
  · subst h1
    have hm := hG g (List.mem_iff_getElem?.mpr ⟨k, hg⟩)
    unfold without_to_clear at h
    simp only [EndpointGroup.mk.injEq, and_true] at h
    obtain ⟨e1, _, e3, e4⟩ := h
    rw [e1, e3, e4]
    exact hm

theorem associate_groups_loop_total : ∀ (k : Nat) (G : List EndpointGroup)
    (a : EndpointAssociator), k ≤ G.length → groups_in_range G →
    (∀ j g x, k ≤ j → G[j]? = some g → g.to_clear = some x → x < MAX_NUMBER_OF_ENDPOINTS) →
    associator_in_range a →
    ∃ b G1 a1, associate_groups_loop k G a = .ok (b, G1, a1) ∧ associator_in_range a1 := by
  intro k
  induction k with
  | zero =>
    intro G a _ _ _ ha
    exact ⟨true, G, a, rfl, ha⟩
  | succ k ih =>
    intro G a hk hG hclear ha
    have hkl : k < G.length := by omega
    have hg : G[k]? = some (G.get ⟨k, hkl⟩) := List.getElem?_eq_getElem hkl
    obtain ⟨p, q, hpair, hp, hq⟩ := get_current_pair_in_range _
      (hG _ (List.mem_iff_getElem?.mpr ⟨k, hg⟩))
    unfold associate_groups_loop
    rw [hg]
    simp only [hpair]
    cases hacc : a.are_clear_or_mutually_associated p q with
    | error f =>
      exfalso
      unfold EndpointAssociator.are_clear_or_mutually_associated at hacc
      rw [if_pos ⟨hp, hq⟩] at hacc
      simp only at hacc
      split_ifs at hacc
    | ok b =>
      cases b with
      | true =>
        simp only
        obtain ⟨a1, h1, h2⟩ := associate_in_table a p q hp hq ha
        rw [h1]
        simp only
        apply ih _ a1 (by rw [List.length_set]; omega)
          (groups_in_range_set G k (G.get ⟨k, hkl⟩)
            { G.get ⟨k, hkl⟩ with to_clear := some p } hG hg rfl) _ h2
        intro j g x hj hgj hx
        by_cases hjk : j = k
        · subst hjk
          rw [List.getElem?_set_self hkl] at hgj
          cases hgj
          simp only [Option.some.injEq] at hx
          omega
        · rw [List.getElem?_set_ne (by omega)] at hgj
          exact hclear j g x (by omega) hgj hx
      | false =>
        simp only
        obtain ⟨G1, a1, h1, h2⟩ := rollback_groups_total (G.length - (k + 1)) (k + 1) G a
          (by omega) (fun j g x hj => hclear j g x hj) ha
        rw [h1]
        exact ⟨false, G1, a1, rfl, h2⟩

theorem digits_of_without_to_clear (G G1 : List EndpointGroup)
    (h : G1.map without_to_clear = G.map without_to_clear) :
    digits G1 = digits G ∧ G1.length = G.length ∧ (groups_in_range G → groups_in_range G1) := by
  have hd : ∀ X : List EndpointGroup, digits X =
      (X.map without_to_clear).map (fun g => (g.endpoint_index, g.endpoints.length)) := by
    intro X
    unfold digits
    rw [List.map_map]
    rfl
  refine ⟨by rw [hd G1, hd G, h], ?_, ?_⟩
  · have := congrArg List.length h
    simpa using this
  · intro hG g1 hg1
    have : without_to_clear g1 ∈ G.map without_to_clear := by
      rw [← h]
      exact List.mem_map_of_mem _ hg1
    obtain ⟨g, hg, he⟩ := List.mem_map.mp this
    have hm := hG g hg
    unfold without_to_clear at he
    simp only [EndpointGroup.mk.injEq, and_true] at he
    obtain ⟨e1, _, e3, e4⟩ := he
    rw [← e1, ← e3, ← e4]
    exact hm

/-! ### The measure -/

theorem digits_weight_append (x y : List (Nat × Nat)) :
    digits_weight (x ++ y) = digits_weight x * digits_weight y := by
  unfold digits_weight
  rw [List.map_append, List.prod_append]

theorem digits_weight_cons (d : Nat × Nat) (y : List (Nat × Nat)) :
    digits_weight (d :: y) = max d.2 1 * digits_weight y := by
  unfold digits_weight
  rw [List.map_cons, List.prod_cons]

theorem attempts_left_weight (ds : List (Nat × Nat)) : ∀ (b1 b2 : List (Nat × Nat)),
    digits_weight b1 = digits_weight b2 → attempts_left ds b1 = attempts_left ds b2 := by
  induction ds with
  | nil =>
    intro b1 b2 _
    rfl
  | cons d rest ih =>
    intro b1 b2 h
    unfold attempts_left
    rw [digits_weight_append, digits_weight_append, h, ih b1 b2 h]

theorem attempts_left_concat (ds : List (Nat × Nat)) (d : Nat × Nat) (back : List (Nat × Nat)) :
    attempts_left (ds ++ [d]) back =
      attempts_left ds (d :: back) + (d.2 - 1 - d.1) * digits_weight back := by
  induction ds with
  | nil =>
    simp only [List.nil_append]
    unfold attempts_left
    simp only [List.nil_append]
    unfold attempts_left
    omega
  | cons e rest ih =>
    rw [List.cons_append]
    unfold attempts_left
    rw [ih]
    have : rest ++ [d] ++ back = rest ++ d :: back := by simp
    rw [this]
    omega

theorem attempts_left_append (x y : List (Nat × Nat)) :
    attempts_left (x ++ y) [] = attempts_left x y + attempts_left y [] := by
  induction x with
  | nil =>
    simp only [List.nil_append]
    unfold attempts_left
    omega
  | cons e rest ih =>
    rw [List.cons_append]
    have e1 : attempts_left (e :: (rest ++ y)) [] =
        (e.2 - 1 - e.1) * digits_weight ((rest ++ y) ++ []) + attempts_left (rest ++ y) [] := rfl
    have e2 : attempts_left (e :: rest) y =
        (e.2 - 1 - e.1) * digits_weight (rest ++ y) + attempts_left rest y := rfl
    rw [e1, e2, ih, List.append_nil]
    omega

theorem attempts_left_full (back : List (Nat × Nat)) (h : ∀ d ∈ back, d.1 = 0) :
    attempts_left back [] + 1 = digits_weight back := by
  induction back with
  | nil => rfl
  | cons d rest ih =>
    have h0 := h d (List.mem_cons_self _ _)
    have ih1 := ih (fun e he => h e (List.mem_cons_of_mem _ he))
    unfold attempts_left
    rw [digits_weight_cons, List.append_nil, h0, ← ih1]
    by_cases hz : d.2 = 0
    · rw [hz]
      simp
    · have : max d.2 1 = (d.2 - 1 - 0) + 1 := by omega
      rw [this]
      ring

theorem digits_concat (front : List EndpointGroup) (g : EndpointGroup)
    (back : List EndpointGroup) :
    digits (front ++ g :: back) =
      (digits front ++ [(g.endpoint_index, g.endpoints.length)]) ++ digits back := by
  unfold digits
  simp

theorem groups_in_range_middle (front back : List EndpointGroup) (g g1 : EndpointGroup)
    (h : groups_in_range (front ++ g :: back))
    (h1 : g1.endpoint = g.endpoint) (h2 : g1.endpoints = g.endpoints)
    (h3 : g1.endpoint_index < g.endpoints.length) :
    groups_in_range (front ++ g1 :: back) := by
  intro x hx
  simp only [List.mem_append, List.mem_cons] at hx
  rcases hx with hx | rfl | hx
  · exact h x (by simp [hx])
  · have := h g (by simp)
    rw [h1, h2]
    exact ⟨this.1, h3, this.2.2⟩
  · exact h x (by simp [hx])

theorem try_associate_loop_spec : ∀ (fuel : Nat) (front back : List EndpointGroup)
    (a : EndpointAssociator), (∀ g ∈ back, g.endpoint_index = 0) →
    attempts_left (digits front) (digits back) * (front.length + back.length + 1)
      + front.length < fuel →
    ((∀ f, try_associate_loop fuel back.length (front ++ back) a = .error f →
        f = .out_of_range) ∧
     (∀ g1 a1, try_associate_loop fuel back.length (front ++ back) a = .ok (false, g1, a1) →
        ∀ g ∈ g1, g.endpoint_index = 0)) ∧
    (groups_in_range (front ++ back) → associator_in_range a →
      ∃ b g1 a1, try_associate_loop fuel back.length (front ++ back) a = .ok (b, g1, a1)) := by
  intro fuel
  induction fuel with
  | zero =>
    intro front back a _ h
    omega
  | succ fuel ih =>
    intro front back a hback hfuel
    rcases List.eq_nil_or_concat front with rfl | ⟨front1, g, hfront⟩
    · have hrun : try_associate_loop (fuel + 1) back.length ([] ++ back) a
          = .ok (false, back, a) := by
        unfold try_associate_loop
        simp
      rw [hrun]
      refine ⟨⟨(fun f h => by cases h), ?_⟩, fun _ _ => ⟨false, back, a, rfl⟩⟩
      intro g1 a1 h
      simp only [Except.ok.injEq, Prod.mk.injEq, true_and] at h
      rw [← h.1]
      exact hback
    · rw [List.concat_eq_append] at hfront
      subst hfront
      have hG : front1 ++ [g] ++ back = front1 ++ g :: back := by simp
      have hi : (front1 ++ g :: back).length - 1 - back.length = front1.length := by
        simp only [List.length_append, List.length_cons]
        omega
      have hget : (front1 ++ g :: back)[front1.length]? = some g := by
        rw [List.getElem?_append_right (le_refl _)]
        simp
      have hset : ∀ g1, (front1 ++ g :: back).set front1.length g1 = front1 ++ g1 :: back := by
        intro g1
        simp
      have hlt : back.length < (front1 ++ g :: back).length := by
        simp only [List.length_append, List.length_cons]
        omega
      have hdig : digits (front1 ++ [g]) =
          digits front1 ++ [(g.endpoint_index, g.endpoints.length)] := by
        unfold digits
        simp
      have hL : (front1 ++ [g]).length + back.length + 1
          = front1.length + back.length + 2 := by
        simp only [List.length_append, List.length_cons, List.length_nil]
        omega
      have hl1 : (front1 ++ [g]).length = front1.length + 1 := by simp
      rw [hdig, attempts_left_concat, hL, hl1] at hfuel
      simp only at hfuel
      rw [hG]
      by_cases hinc : g.endpoint_index + 1 < g.endpoints.length
      · have hrun : try_associate_loop (fuel + 1) back.length (front1 ++ g :: back) a =
            (match associate_endpoints_of_all_groups
                (front1 ++ { g with endpoint_index := g.endpoint_index + 1 } :: back) a with
             | .error f => .error f
             | .ok (true, groups1, associator1) => .ok (true, groups1, associator1)
             | .ok (false, groups1, associator1) =>
               try_associate_loop fuel 0 groups1 associator1) := by
          rw [try_associate_loop]
          simp only [hlt, if_true, hi, hget, hinc, hset]
          try rfl
        rw [hrun]
        cases hall : associate_endpoints_of_all_groups
            (front1 ++ { g with endpoint_index := g.endpoint_index + 1 } :: back) a with
        | error f =>
          simp only
          refine ⟨⟨?_, (fun g1 a1 h => by cases h)⟩, ?_⟩
          · intro f1 h
            cases h
            exact associate_groups_loop_fault _ _ _ _ hall
          · intro hwf ha
            exfalso
            obtain ⟨b, G1, a1, h1, _⟩ := associate_groups_loop_total _ _ a (le_refl _)
              (groups_in_range_middle front1 back g
                { g with endpoint_index := g.endpoint_index + 1 } hwf rfl rfl hinc)
              (fun j g2 x hj hg2 => by
                rw [List.getElem?_eq_none hj] at hg2
                cases hg2) ha
            unfold associate_endpoints_of_all_groups at hall
            rw [h1] at hall
            cases hall
        | ok r =>
          obtain ⟨b, G1, a1⟩ := r
          cases b with
          | true =>
            simp only
            exact ⟨⟨(fun f h => by cases h), (fun g1 a2 h => by cases h)⟩,
              fun _ _ => ⟨true, G1, a1, rfl⟩⟩
          | false =>
            simp only
            obtain ⟨hd, hlen, hwf1⟩ := digits_of_without_to_clear _ G1
              (associate_groups_loop_keeps _ _ _ _ _ _ hall)
            have hfull := attempts_left_full (digits back) (by
              intro d hd1
              unfold digits at hd1
              obtain ⟨g2, hg2, rfl⟩ := List.mem_map.mp hd1
              exact hback g2 hg2)
            have hw := attempts_left_weight (digits front1)
              ((g.endpoint_index + 1, g.endpoints.length) :: digits back)
              ((g.endpoint_index, g.endpoints.length) :: digits back)
              (by rw [digits_weight_cons, digits_weight_cons])
            have hA : attempts_left (digits G1) [] + 1 =
                attempts_left (digits front1)
                  ((g.endpoint_index, g.endpoints.length) :: digits back)
                + (g.endpoints.length - 1 - g.endpoint_index) * digits_weight (digits back) := by
              rw [hd, digits_concat, attempts_left_append, attempts_left_concat, hw]
              simp only
              have hm : g.endpoints.length - 1 - g.endpoint_index
                  = (g.endpoints.length - 1 - (g.endpoint_index + 1)) + 1 := by omega
              rw [hm, Nat.add_mul, ← hfull]
              omega
            have hlen1 : G1.length = front1.length + back.length + 1 := by
              rw [hlen]
              simp only [List.length_append, List.length_cons]
              omega
            have hfuel1 : attempts_left (digits G1) (digits []) * (G1.length + 0 + 1)
                + G1.length < fuel := by
              rw [← hA] at hfuel
              rw [hlen1]
              have e : digits ([] : List EndpointGroup) = [] := rfl
              rw [e]
              rw [Nat.add_mul] at hfuel
              have e2 : front1.length + back.length + 1 + 0 + 1
                  = front1.length + back.length + 2 := by omega
              rw [e2]
              omega
            have key := ih G1 [] a1 (by simp) hfuel1
            simp only [List.append_nil, List.length_nil] at key
            refine ⟨key.1, ?_⟩
            intro hwf ha
            have hwf2 := hwf1 (groups_in_range_middle front1 back g
              { g with endpoint_index := g.endpoint_index + 1 } hwf rfl rfl hinc)
            obtain ⟨b, G2, a2, h1, h2⟩ := associate_groups_loop_total _ _ a (le_refl _)
              (groups_in_range_middle front1 back g
                { g with endpoint_index := g.endpoint_index + 1 } hwf rfl rfl hinc)
              (fun j g2 x hj hg2 => by
                rw [List.getElem?_eq_none hj] at hg2
                cases hg2) ha
            unfold associate_endpoints_of_all_groups at hall
            rw [h1] at hall
            simp only [Except.ok.injEq, Prod.mk.injEq] at hall
            rw [hall.2.2] at h2
            exact key.2 hwf2 h2
      · have hrun : try_associate_loop (fuel + 1) back.length (front1 ++ g :: back) a =
            try_associate_loop fuel ({ g with endpoint_index := 0 } :: back).length
              (front1 ++ ({ g with endpoint_index := 0 } :: back)) a := by
          rw [try_associate_loop]
          simp only [hlt, if_true, hi, hget, hinc, if_false, hset, List.length_cons]
        rw [hrun]
        have hw := attempts_left_weight (digits front1)
          (digits ({ g with endpoint_index := 0 } :: back))
          ((g.endpoint_index, g.endpoints.length) :: digits back)
          (by
            unfold digits
            rw [List.map_cons, digits_weight_cons, digits_weight_cons])
        have hz : g.endpoints.length - 1 - g.endpoint_index = 0 := by omega
        rw [hz, Nat.zero_mul, Nat.add_zero, ← hw] at hfuel
        have key := ih front1 ({ g with endpoint_index := 0 } :: back) a (by
            intro g2 hg2
            rcases List.mem_cons.mp hg2 with rfl | h
            · rfl
            · exact hback g2 h) (by
            simp only [List.length_cons]
            have e2 : front1.length + (back.length + 1) + 1
                = front1.length + back.length + 2 := by omega
            rw [e2]
            omega)
        refine ⟨key.1, ?_⟩
        intro hwf ha
        apply key.2 _ ha
        have hg := hwf g (by simp)
        exact groups_in_range_middle front1 back g { g with endpoint_index := 0 } hwf rfl rfl
          (by simp only; omega)

/-- C33. `try_associate_ambiguous_endpoints` terminates for every group stack
and every associator (group stacks and endpoint lists being far shorter than
`2^32`): with a loop budget above the number of settings of the odometer it
never runs out of budget, it stops only by returning or at an access outside
a container; for groups and an associator as `match_score` builds them it
returns; and whenever it returns false every group's `endpoint_index` is 0. -/
theorem try_associate_terminates (groups : List EndpointGroup) (a : EndpointAssociator) :
    ∃ N, ∀ fuel, N ≤ fuel →
      try_associate_ambiguous_endpoints fuel groups a ≠ .error .diverges ∧
      (∀ groups1 a1, try_associate_ambiguous_endpoints fuel groups a = .ok (false, groups1, a1) →
        ∀ g ∈ groups1, g.endpoint_index = 0) ∧
      (groups_in_range groups → associator_in_range a →
        ∃ b groups1 a1, try_associate_ambiguous_endpoints fuel groups a
          = .ok (b, groups1, a1)) := by
  refine ⟨attempts_left (digits groups) (digits []) * (groups.length + 0 + 1)
    + groups.length + 1, fun fuel hfuel => ?_⟩
  have key := try_associate_loop_spec fuel groups [] a (by simp) (by
    simp only [List.length_nil]
    omega)
  simp only [List.append_nil, List.length_nil] at key
  unfold try_associate_ambiguous_endpoints
  refine ⟨?_, key.1.2, key.2⟩
  intro h
  have := key.1.1 _ h
  cases this

/-- C33, witness: `odometer_groups`, two groups that both want the gallery
endpoint 3 whatever their setting; the odometer runs through and the call
returns false with every `endpoint_index` back at 0. -/
theorem try_associate_terminates_witness :
    (∃ N, ∀ fuel, N ≤ fuel →
      try_associate_ambiguous_endpoints fuel odometer_groups empty_associator
        ≠ .error .diverges ∧
      (∀ groups1 a1, try_associate_ambiguous_endpoints fuel odometer_groups empty_associator
          = .ok (false, groups1, a1) → ∀ g ∈ groups1, g.endpoint_index = 0) ∧
      (groups_in_range odometer_groups → associator_in_range empty_associator →
        ∃ b groups1 a1, try_associate_ambiguous_endpoints fuel odometer_groups empty_associator
          = .ok (b, groups1, a1))) ∧
    groups_in_range odometer_groups ∧
    ok_and (try_associate_ambiguous_endpoints 10 odometer_groups empty_associator)
      (fun r => !r.1 && r.2.1.all (fun g => g.endpoint_index == 0)) = true :=
  ⟨try_associate_terminates odometer_groups empty_associator, by
    intro g hg
    simp only [odometer_groups, List.mem_cons, List.mem_singleton, List.not_mem_nil,
      or_false] at hg
    rcases hg with rfl | rfl
    · refine ⟨by decide, by decide, by decide⟩
    · refine ⟨by decide, by decide, by decide⟩, by decide⟩

/-! ## What one call of assign_cluster_to_endpoints changes -/

/-- The three outcomes of `assign_cluster_to_endpoints`: a new association
(the endpoint goes on the worklist), an association that is already there (the
worklist grows at most when the pair is newly assigned), or a conflict (only
the groups change). -/
theorem assign_effect (c idx p g : Nat) (r r1 : GrowthRefs)
    (h : assign_cluster_to_endpoints c idx p g r = .ok r1) :
    p < MAX_NUMBER_OF_ENDPOINTS ∧ g < MAX_NUMBER_OF_ENDPOINTS ∧
    ((r.associator.gallery_by_probe_ p = 0 ∧ r.associator.probe_by_gallery_ g = 0 ∧
        idx < MAX_NUMBER_OF_PAIRS ∧
        r1.groups = r.groups ∧ r1.associator = assoc_add r.associator p g ∧
        r1.endpoints = r.endpoints ++ [p] ∧
        ((r.assigner.cluster_by_pair_ idx = wrap32 (wrapU32 (c + 1)) ∧
            r1.assigner = r.assigner ∧ r1.selected_pairs = r.selected_pairs) ∨
         (r.assigner.cluster_by_pair_ idx ≠ wrap32 (wrapU32 (c + 1)) ∧
            r1.assigner.cluster_by_pair_ =
              Function.update r.assigner.cluster_by_pair_ idx (wrap32 (wrapU32 (c + 1))) ∧
            r1.selected_pairs = r.selected_pairs ++ [idx]))) ∨
     (r.associator.gallery_by_probe_ p = g + 1 ∧ idx < MAX_NUMBER_OF_PAIRS ∧
        r1.groups = r.groups ∧ r1.associator = r.associator ∧
        ((r.assigner.cluster_by_pair_ idx = wrap32 (wrapU32 (c + 1)) ∧
            r1.assigner = r.assigner ∧ r1.selected_pairs = r.selected_pairs ∧
            r1.endpoints = r.endpoints) ∨
         (r.assigner.cluster_by_pair_ idx ≠ wrap32 (wrapU32 (c + 1)) ∧
            r1.assigner.cluster_by_pair_ =
              Function.update r.assigner.cluster_by_pair_ idx (wrap32 (wrapU32 (c + 1))) ∧
            r1.selected_pairs = r.selected_pairs ++ [idx] ∧
            (r1.endpoints = r.endpoints ∨ r1.endpoints = r.endpoints ++ [p])))) ∨
     (r.associator.gallery_by_probe_ p ≠ g + 1 ∧
        (r.associator.gallery_by_probe_ p ≠ 0 ∨ r.associator.probe_by_gallery_ g ≠ 0) ∧
        r1.assigner = r.assigner ∧ r1.associator = r.associator ∧
        r1.endpoints = r.endpoints ∧ r1.selected_pairs = r.selected_pairs)) := by
  by_cases hp : p < MAX_NUMBER_OF_ENDPOINTS
  swap
  · exfalso
    unfold assign_cluster_to_endpoints EndpointAssociator.get_associated_gallery_endpoint at h
    rw [if_neg hp] at h
    simp only at h
    cases h
  by_cases hg : g < MAX_NUMBER_OF_ENDPOINTS
  swap
  · exfalso
    unfold assign_cluster_to_endpoints EndpointAssociator.get_associated_probe_endpoint at h
    rw [if_neg hg] at h
    split at h <;> first | cases h | skip
    rename_i h1 h2
    cases h2
  refine ⟨hp, hg, ?_⟩
  have l1 : r.associator.get_associated_gallery_endpoint p =
      .ok (if r.associator.gallery_by_probe_ p = 0 then none
        else some (r.associator.gallery_by_probe_ p - 1)) := by
    unfold EndpointAssociator.get_associated_gallery_endpoint
    rw [if_pos hp]
    simp only
    split_ifs <;> rfl
  have l2 : r.associator.get_associated_probe_endpoint g =
      .ok (if r.associator.probe_by_gallery_ g = 0 then none
        else some (r.associator.probe_by_gallery_ g - 1)) := by
    unfold EndpointAssociator.get_associated_probe_endpoint
    rw [if_pos hg]
    simp only
    split_ifs <;> rfl
  unfold assign_cluster_to_endpoints at h
  rw [l1, l2] at h
  simp only at h
  by_cases hfree : r.associator.gallery_by_probe_ p = 0 ∧ r.associator.probe_by_gallery_ g = 0
  · -- a new association
    left
    rw [if_pos hfree.1, if_pos hfree.2] at h
    simp only [Option.isNone_none, Bool.and_self, if_true] at h
    by_cases hidx : idx < MAX_NUMBER_OF_PAIRS
    swap
    · exfalso
      unfold ClusterAssigner.has_cluster at h
      rw [if_neg hidx] at h
      cases h
    have l3 : r.assigner.has_cluster idx c =
        .ok (decide (r.assigner.cluster_by_pair_ idx = wrap32 (wrapU32 (c + 1)))) := by
      unfold ClusterAssigner.has_cluster
      rw [if_pos hidx]
    rw [l3, associate_in_range _ p g hp hg] at h
    simp only at h
    refine ⟨hfree.1, hfree.2, hidx, ?_⟩
    by_cases hs : r.assigner.cluster_by_pair_ idx = wrap32 (wrapU32 (c + 1))
    · simp only [hs, decide_True, if_true, Except.ok.injEq] at h
      rw [← h]
      exact ⟨rfl, rfl, rfl, Or.inl ⟨hs, rfl, rfl⟩⟩
    · unfold ClusterAssigner.assign_cluster at h
      simp only [hs, decide_False, Bool.false_eq_true, if_false, if_pos hidx,
        Except.ok.injEq] at h
      rw [← h]
      exact ⟨rfl, rfl, rfl, Or.inr ⟨hs, rfl, rfl⟩⟩
  · have hnone : ((if r.associator.gallery_by_probe_ p = 0 then (none : Option Nat)
          else some (r.associator.gallery_by_probe_ p - 1)).isNone &&
        (if r.associator.probe_by_gallery_ g = 0 then (none : Option Nat)
          else some (r.associator.probe_by_gallery_ g - 1)).isNone) = false := by
      by_cases h1 : r.associator.gallery_by_probe_ p = 0
      · have h2 : ¬ r.associator.probe_by_gallery_ g = 0 := fun hc => hfree ⟨h1, hc⟩
        rw [if_pos h1, if_neg h2]
        rfl
      · rw [if_neg h1]
        rfl
    rw [hnone] at h
    simp only [Bool.false_eq_true, if_false] at h
    by_cases hsame : r.associator.gallery_by_probe_ p = g + 1
    · -- already associated
      right
      left
      have hs1 : (if r.associator.gallery_by_probe_ p = 0 then (none : Option Nat)
          else some (r.associator.gallery_by_probe_ p - 1)) = some g := by
        rw [if_neg (by omega), hsame]
        rfl
      rw [if_pos hs1] at h
      by_cases hidx : idx < MAX_NUMBER_OF_PAIRS
      swap
      · exfalso
        unfold ClusterAssigner.has_cluster at h
        rw [if_neg hidx] at h
        cases h
      have l3 : r.assigner.has_cluster idx c =
          .ok (decide (r.assigner.cluster_by_pair_ idx = wrap32 (wrapU32 (c + 1)))) := by
        unfold ClusterAssigner.has_cluster
        rw [if_pos hidx]
      rw [l3] at h
      refine ⟨hsame, hidx, ?_⟩
      by_cases hs : r.assigner.cluster_by_pair_ idx = wrap32 (wrapU32 (c + 1))
      · simp only [hs, decide_True, Except.ok.injEq] at h
        rw [← h]
        exact ⟨rfl, rfl, Or.inl ⟨hs, rfl, rfl, rfl⟩⟩
      · unfold ClusterAssigner.assign_cluster at h
        simp only [hs, decide_False, if_pos hidx, Except.ok.injEq] at h
        rw [← h]
        refine ⟨rfl, rfl, Or.inr ⟨hs, rfl, rfl, ?_⟩⟩
        simp only
        split_ifs
        · exact Or.inl rfl
        · exact Or.inr rfl
    · right
      right
      have hs1 : ¬ ((if r.associator.gallery_by_probe_ p = 0 then (none : Option Nat)
          else some (r.associator.gallery_by_probe_ p - 1)) = some g) := by
        intro hc
        split_ifs at hc with h0
        simp only [Option.some.injEq] at hc
        omega
      rw [if_neg hs1] at h
      refine ⟨hsame, by
        by_cases h1 : r.associator.gallery_by_probe_ p = 0
        · exact Or.inr (fun hc => hfree ⟨h1, hc⟩)
        · exact Or.inl h1, ?_⟩
      by_cases hgr : r.groups.length ≥ MAX_NUMBER_OF_GROUPS
      · rw [if_pos hgr] at h
        cases h
        exact ⟨rfl, rfl, rfl, rfl⟩
      · rw [if_neg hgr] at h
        split at h
        · cases h
        · split at h
          · cases h
          · cases h
            exact ⟨rfl, rfl, rfl, rfl⟩

/-! ## Invariants of the lookups and of the worklist loop -/

theorem first_endpoint_loop_inv {σ : Type} (P : σ → Prop) (h : PairHolder) (offset : Nat)
    (cb : Nat → Nat → Nat → σ → Except Fault σ)
    (hstep : ∀ i item s s1, offset ≤ i → h.forward_[i]? = some item → P s →
      cb i item.probe_j item.gallery_j s = .ok s1 → P s1) :
    ∀ (count index : Nat) (s s1 : σ), P s →
      first_endpoint_loop h offset cb count index s = .ok s1 → P s1 := by
  intro count
  induction count with
  | zero =>
    intro index s s1 hs hrun
    unfold first_endpoint_loop at hrun
    cases hrun
    exact hs
  | succ count ih =>
    intro index s s1 hs hrun
    unfold first_endpoint_loop at hrun
    by_cases ho : index ≥ offset
    · rw [if_pos ho] at hrun
      cases hf : h.forward_[index]? with
      | none =>
        rw [hf] at hrun
        cases hrun
      | some item =>
        rw [hf] at hrun
        simp only at hrun
        cases hc : cb index item.probe_j item.gallery_j s with
        | error f =>
          rw [hc] at hrun
          cases hrun
        | ok s2 =>
          rw [hc] at hrun
          exact ih _ _ _ (hstep index item s s2 ho hf hs hc) hrun
    · rw [if_neg ho] at hrun
      exact ih _ _ _ hs hrun

theorem first_endpoint_inv {σ : Type} (P : σ → Prop) (h : PairHolder) (offset pk gk : Nat)
    (cb : Nat → Nat → Nat → σ → Except Fault σ)
    (hstep : ∀ i item s s1, offset ≤ i → h.forward_[i]? = some item → P s →
      cb i item.probe_j item.gallery_j s = .ok s1 → P s1)
    (s s1 : σ) (b : Nat) (hs : P s)
    (hrun : h.find_pairs_by_first_endpoint offset pk gk cb s = .ok (s1, b)) : P s1 := by
  unfold PairHolder.find_pairs_by_first_endpoint at hrun
  simp only at hrun
  split_ifs at hrun
  · cases hl : first_endpoint_loop h offset cb
        ((h.forward_cache_ (wrapU32 (pk * MAX_BOZORTH_MINUTIAE + gk))).end -
          (h.forward_cache_ (wrapU32 (pk * MAX_BOZORTH_MINUTIAE + gk))).begin)
        (h.forward_cache_ (wrapU32 (pk * MAX_BOZORTH_MINUTIAE + gk))).begin s with
    | error f =>
      rw [hl] at hrun
      cases hrun
    | ok s2 =>
      rw [hl] at hrun
      simp only [Except.ok.injEq, Prod.mk.injEq] at hrun
      rw [← hrun.1]
      exact first_endpoint_loop_inv P h offset cb hstep _ _ _ _ hs hl
  · simp only [Except.ok.injEq, Prod.mk.injEq] at hrun
    rw [← hrun.1]
    exact hs

theorem second_endpoint_loop_inv {σ : Type} (P : σ → Prop) (h : PairHolder) (offset : Nat)
    (cb : Nat → Nat → Nat → σ → Except Fault σ)
    (hstep : ∀ i item s s1, offset ≤ i → h.forward_[i]? = some item → P s →
      cb i item.probe_k item.gallery_k s = .ok s1 → P s1) :
    ∀ (count pos : Nat) (s s1 : σ), P s →
      second_endpoint_loop h offset cb count pos s = .ok s1 → P s1 := by
  intro count
  induction count with
  | zero =>
    intro pos s s1 hs hrun
    unfold second_endpoint_loop at hrun
    cases hrun
    exact hs
  | succ count ih =>
    intro pos s s1 hs hrun
    unfold second_endpoint_loop at hrun
    cases hb : h.backward_[pos]? with
    | none =>
      rw [hb] at hrun
      cases hrun
    | some i =>
      rw [hb] at hrun
      simp only at hrun
      by_cases ho : i ≥ offset
      · rw [if_pos ho] at hrun
        cases hf : h.forward_[i]? with
        | none =>
          rw [hf] at hrun
          cases hrun
        | some item =>
          rw [hf] at hrun
          simp only at hrun
          cases hc : cb i item.probe_k item.gallery_k s with
          | error f =>
            rw [hc] at hrun
            cases hrun
          | ok s2 =>
            rw [hc] at hrun
            exact ih _ _ _ (hstep i item s s2 ho hf hs hc) hrun
      · rw [if_neg ho] at hrun
        exact ih _ _ _ hs hrun

theorem second_endpoint_inv {σ : Type} (P : σ → Prop) (h : PairHolder) (offset pj gj : Nat)
    (cb : Nat → Nat → Nat → σ → Except Fault σ)
    (hstep : ∀ i item s s1, offset ≤ i → h.forward_[i]? = some item → P s →
      cb i item.probe_k item.gallery_k s = .ok s1 → P s1)
    (s s1 : σ) (hs : P s)
    (hrun : h.find_pairs_by_second_endpoint offset pj gj cb s = .ok s1) : P s1 := by
  unfold PairHolder.find_pairs_by_second_endpoint at hrun
  simp only at hrun
  split_ifs at hrun
  · exact second_endpoint_loop_inv P h offset cb hstep _ _ _ _ hs hrun
  · cases hrun
    exact hs

/-- An invariant of `assign_cluster_to_endpoints`, for the calls `find_pairs`
makes at or after `lower`, is an invariant of the worklist loop. -/
theorem find_pairs_loop_inv (P : GrowthRefs → Prop) (H : PairHolder) (start : Pair)
    (cluster lower nnc : Nat) (hlow : lower ≤ nnc)
    (hfirst : ∀ i item r r1, lower ≤ i → H.forward_[i]? = some item → P r →
      assign_cluster_to_endpoints cluster i item.probe_j item.gallery_j r = .ok r1 → P r1)
    (hsecond : ∀ i item r r1, lower ≤ i → H.forward_[i]? = some item →
      item.probe_k ≠ start.probe_k → item.gallery_k ≠ start.gallery_k → P r →
      assign_cluster_to_endpoints cluster i item.probe_k item.gallery_k r = .ok r1 → P r1) :
    ∀ (fuel i : Nat) (r r1 : GrowthRefs), P r →
      find_pairs_loop H start cluster nnc fuel i r = .ok r1 → P r1 := by
  intro fuel
  induction fuel with
  | zero =>
    intro i r r1 _ hrun
    unfold find_pairs_loop at hrun
    cases hrun
  | succ fuel ih =>
    intro i r r1 hr hrun
    unfold find_pairs_loop at hrun
    by_cases hi : i < r.endpoints.length
    · rw [if_pos hi] at hrun
      cases he : r.endpoints[i]? with
      | none =>
        rw [he] at hrun
        cases hrun
      | some pe =>
        rw [he] at hrun
        simp only at hrun
        cases hg : r.associator.get_associated_gallery_endpoint pe with
        | error f =>
          rw [hg] at hrun
          cases hrun
        | ok o =>
          rw [hg] at hrun
          cases o with
          | none => cases hrun
          | some ge =>
            simp only at hrun
            cases h2 : H.find_pairs_by_second_endpoint nnc pe ge
                (fun index probe_k gallery1 s =>
                  if probe_k ≠ start.probe_k ∧ gallery1 ≠ start.gallery_k then
                    assign_cluster_to_endpoints cluster index probe_k gallery1 s
                  else .ok s) r with
            | error f =>
              rw [h2] at hrun
              cases hrun
            | ok r2 =>
              rw [h2] at hrun
              simp only at hrun
              have hr2 : P r2 := second_endpoint_inv P H nnc pe ge _ (by
                intro j item s s1 hj hitem hs hcb
                by_cases hc : item.probe_k ≠ start.probe_k ∧ item.gallery_k ≠ start.gallery_k
                · rw [if_pos hc] at hcb
                  exact hsecond j item s s1 (by omega) hitem hc.1 hc.2 hs hcb
                · rw [if_neg hc] at hcb
                  cases hcb
                  exact hs) r r2 hr h2
              cases h1 : H.find_pairs_by_first_endpoint nnc pe ge
                  (fun index probe_j gallery2 s =>
                    assign_cluster_to_endpoints cluster index probe_j gallery2 s) r2 with
              | error f =>
                rw [h1] at hrun
                cases hrun
              | ok x =>
                obtain ⟨r3, b⟩ := x
                rw [h1] at hrun
                simp only at hrun
                have hr3 : P r3 := first_endpoint_inv P H nnc pe ge _ (by
                  intro j item s s1 hj hitem hs hcb
                  exact hfirst j item s s1 (by omega) hitem hs hcb) r2 r3 b hr2 h1
                exact ih _ _ _ hr3 hrun
    · rw [if_neg hi] at hrun
      cases hrun
      exact hr

/-- An invariant of `assign_cluster_to_endpoints` holds for the state that
`find_pairs` reaches before its final clearing loop. -/
theorem find_pairs_inv (P : GrowthRefs → Prop) (H : PairHolder) (start_pair cluster lower : Nat)
    (hlow : lower ≤ start_pair)
    (hbound : ∀ start, H.pairs[start_pair]? = some start →
      ∀ (cb : Nat → Nat → Nat → GrowthRefs → Except Fault GrowthRefs) (s s1 : GrowthRefs)
        (b : Nat),
        H.find_pairs_by_first_endpoint start_pair start.probe_k start.gallery_k cb s
          = .ok (s1, b) → lower ≤ b)
    (hfirst : ∀ i item r r1, lower ≤ i → H.forward_[i]? = some item → P r →
      assign_cluster_to_endpoints cluster i item.probe_j item.gallery_j r = .ok r1 → P r1)
    (hsecond : ∀ start, H.pairs[start_pair]? = some start →
      ∀ i item r r1, lower ≤ i → H.forward_[i]? = some item →
      item.probe_k ≠ start.probe_k → item.gallery_k ≠ start.gallery_k → P r →
      assign_cluster_to_endpoints cluster i item.probe_k item.gallery_k r = .ok r1 → P r1)
    (fuel : Nat) (groups : List EndpointGroup) (selected : List Nat)
    (a : EndpointAssociator) (A : ClusterAssigner) (r : GrowthRefs)
    (h0 : P { groups := groups, assigner := A, associator := a, endpoints := [],
              selected_pairs := selected })
    (hrun : find_pairs fuel H start_pair cluster groups selected a A = .ok r) :
    ∃ r1, P r1 ∧ clear_endpoints r1.associator r1.endpoints = .ok r.associator ∧
      r.groups = r1.groups ∧ r.assigner = r1.assigner ∧ r.endpoints = r1.endpoints ∧
      r.selected_pairs = r1.selected_pairs := by
  unfold find_pairs at hrun
  cases hs : H.pairs[start_pair]? with
  | none =>
    rw [hs] at hrun
    cases hrun
  | some start =>
    rw [hs] at hrun
    simp only at hrun
    cases h1 : H.find_pairs_by_first_endpoint start_pair start.probe_k start.gallery_k
        (fun index probe_j gallery2 s =>
          assign_cluster_to_endpoints cluster index probe_j gallery2 s)
        { groups := groups, assigner := A, associator := a, endpoints := [],
          selected_pairs := selected } with
    | error f =>
      rw [h1] at hrun
      cases hrun
    | ok x =>
      obtain ⟨r2, nnc⟩ := x
      rw [h1] at hrun
      simp only at hrun
      have hr2 : P r2 := first_endpoint_inv P H start_pair _ _ _ (by
        intro j item s s1 hj hitem hs1 hcb
        exact hfirst j item s s1 (by omega) hitem hs1 hcb) _ r2 nnc h0 h1
      have hnnc := hbound start hs _ _ _ _ h1
      cases h2 : find_pairs_loop H start cluster nnc fuel 0 r2 with
      | error f =>
        rw [h2] at hrun
        cases hrun
      | ok r3 =>
        rw [h2] at hrun
        simp only at hrun
        have hr3 : P r3 := find_pairs_loop_inv P H start cluster lower nnc hnnc hfirst
          (hsecond start hs) fuel 0 r2 r3 hr2 h2
        cases h3 : clear_endpoints r3.associator r3.endpoints with
        | error f =>
          rw [h3] at hrun
          cases hrun
        | ok a1 =>
          rw [h3] at hrun
          cases hrun
          exact ⟨r3, hr3, h3, rfl, rfl, rfl, rfl⟩

/-! ## The points of a committed cluster -/

theorem combine_loop_mono (cl : List Cluster) : ∀ (fuel : Nat) (items : List Item)
    (best v : Nat), combine_loop cl fuel items best = .ok v →
    ∀ k, combine_loop cl (fuel + k) items best = .ok v := by
  intro fuel
  induction fuel with
  | zero =>
    intro items best v h
    unfold combine_loop at h
    cases h
  | succ fuel ih =>
    intro items best v h k
    have e : fuel + 1 + k = (fuel + k) + 1 := by omega
    rw [e]
    cases items with
    | nil =>
      unfold combine_loop at h ⊢
      exact h
    | cons last below =>
      unfold combine_loop at h ⊢
      by_cases hi : last.index < last.connected.length
      · rw [if_pos hi] at h ⊢
        cases hn : last.connected[last.index]? with
        | none =>
          simp only [hn] at h
          cases h
        | some nc =>
          simp only [hn] at h ⊢
          cases hc : cl[nc]? with
          | none =>
            simp only [hc] at h
            cases h
          | some c =>
            simp only [hc] at h ⊢
            exact ih _ _ _ h k
      · rw [if_neg hi] at h ⊢
        cases hs : score_finished_item cl last below best with
        | error f =>
          simp only [hs] at h
          cases h
        | ok b1 =>
          simp only [hs] at h ⊢
          cases below with
          | nil => exact ih _ _ _ h k
          | cons b rest => exact ih _ _ _ h k

theorem combine_outer_mono (cl : List Cluster) (fuel : Nat) : ∀ (rest : List Cluster)
    (idx best v : Nat), combine_outer fuel cl rest idx best = .ok v →
    ∀ k, combine_outer (fuel + k) cl rest idx best = .ok v := by
  intro rest
  induction rest with
  | nil =>
    intro idx best v h k
    unfold combine_outer at h ⊢
    exact h
  | cons c rest ih =>
    intro idx best v h k
    unfold combine_outer at h ⊢
    by_cases hb : best ≥ c.points_from_compatible
    · rw [if_pos hb] at h ⊢
      exact ih _ _ _ h k
    · rw [if_neg hb] at h ⊢
      cases hl : combine_loop cl fuel
          [{ cluster := idx, index := 0, connected := c.compatible }] best with
      | error f =>
        rw [hl] at h
        cases h
      | ok b1 =>
        rw [hl] at h
        rw [combine_loop_mono cl fuel _ _ _ hl k]
        exact ih _ _ _ h k

theorem combine_clusters_value (cl : List Cluster) (hshape : merge_shape cl)
    (hpfc : points_from_compatible_covers cl)
    (hfit : ∀ c ∈ cl, c.points_from_compatible < 4294967296) (fuel v : Nat)
    (h : combine_clusters fuel cl = .ok v) : v = max_clique_weight cl := by
  obtain ⟨N, hN⟩ := combine_clusters_eq_max cl hshape hpfc hfit
  have h1 := hN (fuel + N) (by omega)
  unfold combine_clusters at h h1
  rw [combine_outer_mono cl fuel cl 0 0 v h N] at h1
  cases h1
  rfl

theorem calculate_points_fold (pairs : List Pair)
    (hpts : ∀ p ∈ pairs, 1 ≤ p.points ∧ p.points ≤ 3) :
    ∀ (sel : List Nat) (t v : Nat), t + 3 * sel.length < 4294967296 →
      sel.foldl
        (fun total index =>
          match total, pairs[index]? with
          | .ok t, some p => .ok (wrapU32 (t + p.points))
          | .ok _, none => .error .out_of_range
          | .error f, _ => .error f)
        (.ok t) = (.ok v : Except Fault Nat) →
      t + sel.length ≤ v ∧ v ≤ t + 3 * sel.length := by
  have herr : ∀ (sel : List Nat) (e : Fault) (v : Nat),
      sel.foldl
        (fun total index =>
          match total, pairs[index]? with
          | .ok t, some p => .ok (wrapU32 (t + p.points))
          | .ok _, none => .error .out_of_range
          | .error f, _ => .error f)
        (.error e) ≠ (.ok v : Except Fault Nat) := by
    intro sel
    induction sel with
    | nil =>
      intro e v h
      cases h
    | cons i rest ih =>
      intro e v
      rw [List.foldl_cons]
      exact ih e v
  intro sel
  induction sel with
  | nil =>
    intro t v _ h
    simp only [List.foldl_nil, Except.ok.injEq] at h
    simp only [List.length_nil]
    omega
  | cons i rest ih =>
    intro t v hfit h
    rw [List.foldl_cons] at h
    simp only [List.length_cons] at hfit ⊢
    cases hp : pairs[i]? with
    | none =>
      rw [hp] at h
      exact absurd h (herr rest _ v)
    | some p =>
      rw [hp] at h
      simp only at h
      have hpp := hpts p (List.mem_iff_getElem?.mpr ⟨i, hp⟩)
      have hw : wrapU32 (t + p.points) = t + p.points := by
        unfold wrapU32
        omega
      rw [hw] at h
      have := ih (t + p.points) v (by omega) h
      omega

theorem calculate_points_bounds (pairs : List Pair)
    (hpts : ∀ p ∈ pairs, 1 ≤ p.points ∧ p.points ≤ 3) (sel : List Nat) (v : Nat)
    (hlen : sel.length ≤ MAX_NUMBER_OF_PAIRS) (h : calculate_points sel pairs = .ok v) :
    sel.length ≤ v ∧ v ≤ 3 * sel.length := by
  unfold MAX_NUMBER_OF_PAIRS at hlen
  have := calculate_points_fold pairs hpts sel 0 v (by omega) h
  omega

theorem nodup_length_le (l : List Nat) (n : Nat) (hnd : l.Nodup) (h : ∀ i ∈ l, i < n) :
    l.length ≤ n := by
  have hsub : l ⊆ List.range n := fun i hi => List.mem_range.mpr (h i hi)
  have := (List.subperm_of_subset hnd hsub).length_le
  simpa using this

/-- The selected pairs of a `find_pairs` run that starts with none: distinct
indices of the pair list and of the assigner table. -/
theorem find_pairs_selected (H : PairHolder) (fuel start_pair cluster : Nat)
    (groups : List EndpointGroup) (a : EndpointAssociator) (A : ClusterAssigner)
    (r : GrowthRefs) (hrun : find_pairs fuel H start_pair cluster groups [] a A = .ok r) :
    r.selected_pairs.Nodup ∧
    ∀ i ∈ r.selected_pairs, i < MAX_NUMBER_OF_PAIRS ∧ i < H.pairs.length := by
  have hstep : ∀ (i p g : Nat) (s s1 : GrowthRefs), i < H.forward_.length →
      (s.selected_pairs.Nodup ∧ ∀ j ∈ s.selected_pairs,
        (j < MAX_NUMBER_OF_PAIRS ∧ j < H.pairs.length) ∧
        s.assigner.cluster_by_pair_ j = wrap32 (wrapU32 (cluster + 1))) →
      assign_cluster_to_endpoints cluster i p g s = .ok s1 →
      (s1.selected_pairs.Nodup ∧ ∀ j ∈ s1.selected_pairs,
        (j < MAX_NUMBER_OF_PAIRS ∧ j < H.pairs.length) ∧
        s1.assigner.cluster_by_pair_ j = wrap32 (wrapU32 (cluster + 1))) := by
    intro i p g s s1 hi hs hcall
    have key : (s1.selected_pairs = s.selected_pairs ∧ s1.assigner = s.assigner) ∨
        (i < MAX_NUMBER_OF_PAIRS ∧
          s.assigner.cluster_by_pair_ i ≠ wrap32 (wrapU32 (cluster + 1)) ∧
          s1.assigner.cluster_by_pair_ =
            Function.update s.assigner.cluster_by_pair_ i (wrap32 (wrapU32 (cluster + 1))) ∧
          s1.selected_pairs = s.selected_pairs ++ [i]) := by
      obtain ⟨_, _, hcase⟩ := assign_effect cluster i p g s s1 hcall
      rcases hcase with ⟨_, _, hidx, _, _, _, h7⟩ | ⟨_, hidx, _, _, h7⟩ | ⟨_, _, h3, _, _, h6⟩
      · rcases h7 with ⟨_, e1, e2⟩ | ⟨e0, e1, e2⟩
        · exact Or.inl ⟨e2, e1⟩
        · exact Or.inr ⟨hidx, e0, e1, e2⟩
      · rcases h7 with ⟨_, e1, e2, _⟩ | ⟨e0, e1, e2, _⟩
        · exact Or.inl ⟨e2, e1⟩
        · exact Or.inr ⟨hidx, e0, e1, e2⟩
      · exact Or.inl ⟨h6, h3⟩
    rcases key with ⟨e1, e2⟩ | ⟨hidx, e0, e1, e2⟩
    · rw [e1, e2]
      exact hs
    · rw [e2, e1]
      constructor
      · rw [List.nodup_append]
        refine ⟨hs.1, List.nodup_singleton _, ?_⟩
        intro x hx hy
        rw [List.mem_singleton] at hy
        subst hy
        exact e0 (hs.2 x hx).2
      · intro j hj
        rcases List.mem_append.mp hj with h1 | h1
        · refine ⟨(hs.2 j h1).1, ?_⟩
          simp only [Function.update_apply]
          split_ifs
          · rfl
          · exact (hs.2 j h1).2
        · rw [List.mem_singleton] at h1
          subst h1
          exact ⟨⟨hidx, hi⟩, by simp only [Function.update_same]⟩
  have hlt : ∀ (i : Nat) (item : Pair), H.forward_[i]? = some item → i < H.forward_.length := by
    intro i item h
    by_contra hc
    rw [List.getElem?_eq_none (by omega)] at h
    cases h
  obtain ⟨r1, hP, _, _, _, _, hsel⟩ := find_pairs_inv
    (fun s => s.selected_pairs.Nodup ∧ ∀ j ∈ s.selected_pairs,
      (j < MAX_NUMBER_OF_PAIRS ∧ j < H.pairs.length) ∧
      s.assigner.cluster_by_pair_ j = wrap32 (wrapU32 (cluster + 1)))
    H start_pair cluster 0 (Nat.zero_le _) (fun _ _ _ _ _ _ _ => Nat.zero_le _)
    (fun i item s s1 _ hitem hs hcall => hstep i _ _ s s1 (hlt i item hitem) hs hcall)
    (fun _ _ i item s s1 _ hitem _ _ hs hcall => hstep i _ _ s s1 (hlt i item hitem) hs hcall)
    fuel groups [] a A r ⟨List.nodup_nil, fun j hj => absurd hj (List.not_mem_nil _)⟩ hrun
  rw [hsel]
  exact ⟨hP.1, fun i hi => (hP.2 i hi).1⟩

theorem filter_selected_sublist (fo : FloatOps) (sel : List Nat) (pairs : List Pair)
    (out : List Nat) (h : filter_selected fo sel pairs = .ok out) : out.Sublist sel := by
  unfold filter_selected at h
  split at h
  · cases h
  · cases h
    exact List.filter_sublist _

theorem commit_cluster_points (fo : FloatOps) (H : PairHolder) (pm gm : List Minutia)
    (state state1 : BozorthState) (n : Nat)
    (hpts : ∀ p ∈ H.pairs, 1 ≤ p.points ∧ p.points ≤ 3)
    (h : commit_cluster fo H pm gm state = .ok state1)
    (hG : solid_clusters n state.clusters.clusters)
    (hsel : state.selected_pairs.Nodup ∧
      ∀ i ∈ state.selected_pairs, i < MAX_NUMBER_OF_PAIRS ∧ i < n) :
    solid_clusters n state1.clusters.clusters := by
  unfold commit_cluster at h
  split at h
  · cases h
  · rename_i selected hselected
    have hsub : selected.Sublist state.selected_pairs := by
      split_ifs at hselected
      · exact filter_selected_sublist fo _ _ _ hselected
      · cases hselected
        exact List.Sublist.refl _
    have hnd : selected.Nodup := hsel.1.sublist hsub
    have hlt : ∀ i ∈ selected, i < MAX_NUMBER_OF_PAIRS ∧ i < n :=
      fun i hi => hsel.2 i (hsub.subset hi)
    have hlen1 := nodup_length_le selected MAX_NUMBER_OF_PAIRS hnd (fun i hi => (hlt i hi).1)
    have hlen2 := nodup_length_le selected n hnd (fun i hi => (hlt i hi).2)
    split_ifs at h with hshort
    · split at h
      · cases h
      · cases h
        exact hG
    · split at h
      · rename_i points averages endpoints hp _ _
        cases h
        have hb := calculate_points_bounds H.pairs hpts selected points hlen1 hp
        unfold MIN_NUMBER_OF_PAIRS_TO_CLUSTER at hshort
        unfold MAX_NUMBER_OF_PAIRS at hlen1
        intro c hc
        simp only [Clusters.push_back, List.mem_append, List.mem_singleton] at hc
        rcases hc with hc | rfl
        · exact hG c hc
        · simp only
          omega
      all_goals cases h

theorem grow_cluster_loop_points (fo : FloatOps) (gfuel : Nat) (H : PairHolder)
    (pm gm : List Minutia) (pair_index : Nat)
    (hpts : ∀ p ∈ H.pairs, 1 ≤ p.points ∧ p.points ≤ 3) :
    ∀ (fuel : Nat) (state state1 : BozorthState),
      grow_cluster_loop fo gfuel H pm gm pair_index fuel state = .ok state1 →
      solid_clusters H.pairs.length state.clusters.clusters →
      solid_clusters H.pairs.length state1.clusters.clusters := by
  intro fuel
  induction fuel with
  | zero =>
    intro state state1 h _
    simp [grow_cluster_loop] at h
  | succ fuel ih =>
    intro state state1 h hG
    unfold grow_cluster_loop at h
    simp only at h
    split at h
    · cases h
    · rename_i r hr
      have hsel := find_pairs_selected H gfuel pair_index _ _ _ _ r hr
      split at h
      · cases h
      · rename_i st1 hst1
        have hG1 := commit_cluster_points fo H pm gm _ st1 H.pairs.length hpts hst1 hG hsel
        split_ifs at h with hbig
        · cases h
          exact hG1
        · split at h
          · cases h
          · split at h
            · cases h
            · cases h
              exact hG1
            · exact ih _ _ h hG1

theorem grow_clusters_points (fo : FloatOps) (gfuel : Nat) (H : PairHolder)
    (pm gm : List Minutia) (hpts : ∀ p ∈ H.pairs, 1 ≤ p.points ∧ p.points ≤ 3) :
    ∀ (count pair_index : Nat) (state state1 : BozorthState),
      grow_clusters fo gfuel H pm gm count pair_index state = .ok state1 →
      solid_clusters H.pairs.length state.clusters.clusters →
      solid_clusters H.pairs.length state1.clusters.clusters := by
  intro count
  induction count with
  | zero =>
    intro pair_index state state1 h hG
    simp [grow_clusters] at h
    rw [← h]
    exact hG
  | succ count ih =>
    intro pair_index state state1 h hG
    unfold grow_clusters at h
    split at h
    · cases h
    · exact ih _ _ _ h hG
    · split at h
      · cases h
      · split at h
        · cases h
        · split at h
          · cases h
          · rename_i st1 hst1
            have hG1 := grow_cluster_loop_points fo gfuel H pm gm pair_index hpts _ _ _ hst1 hG
            split_ifs at h with hbig
            · cases h
              exact hG1
            · split at h
              · cases h
              · exact ih _ _ _ h hG1

theorem clique_weight_range_le (cl : List Cluster) (B : Nat)
    (h : ∀ c ∈ cl, c.points ≤ B) : ∀ (s : List Nat), clique_weight cl s ≤ s.length * B := by
  intro s
  induction s with
  | nil => simp [clique_weight]
  | cons a T ih =>
    rw [clique_weight_cons, List.length_cons, Nat.succ_mul]
    have : cluster_points cl a ≤ B := by
      unfold cluster_points
      cases hc : cl[a]? with
      | none => exact Nat.zero_le _
      | some c => exact h c (List.mem_iff_getElem?.mpr ⟨a, hc⟩)
    omega

theorem single_clique_le_max (cl : List Cluster) (a : Nat) (ha : a < cl.length) :
    cluster_points cl a ≤ max_clique_weight cl := by
  unfold max_clique_weight
  apply le_foldr_max
  rw [List.mem_map]
  refine ⟨[a], ?_, by simp [clique_weight]⟩
  rw [mem_cliques]
  refine ⟨by simp [is_clique], ?_⟩
  intro x hx
  rw [List.mem_singleton] at hx
  rw [hx]
  exact ha

/-- C38. For every pair holder whose pairs all have 1, 2 or 3 points (the
values `match_edges_into_pairs` gives), `match_score` never returns 1 or 2:
every committed cluster holds at least 3 pairs and so at least 3 points, and
the returned score is 0, in particular whenever the holder has fewer than 3
pairs, or at least 3. -/
theorem match_score_zero_or_three (fo : FloatOps) (gfuel cfuel : Nat) (holder : PairHolder)
    (state : BozorthState) (pm gm : List Minutia) (format : Format) (score : Nat)
    (final : BozorthState)
    (hpts : ∀ p ∈ holder.pairs, 1 ≤ p.points ∧ p.points ≤ 3)
    (h : match_score fo gfuel cfuel holder state pm gm format = .ok (score, final)) :
    (score = 0 ∨ 3 ≤ score) ∧ (holder.pairs.length < 3 → score = 0) ∧
    (holder.empty = false → ∀ c ∈ final.clusters.clusters, 3 ≤ c.points) := by
  unfold match_score at h
  split_ifs at h with hempty
  · simp only [Except.ok.injEq, Prod.mk.injEq] at h
    rw [← h.1]
    exact ⟨Or.inl rfl, fun _ => rfl, fun hc => by rw [hempty] at hc; cases hc⟩
  · unfold match_score_format at h
    rw [if_neg hempty] at h
    split at h
    · cases h
    · rename_i grown hgrown
      have hG0 : solid_clusters holder.pairs.length state.clear.clusters.clusters := by
        intro c hc
        simp [BozorthState.clear, Clusters.clear] at hc
      have hG := grow_clusters_points fo gfuel holder pm gm hpts _ _ _ _ hgrown hG0
      have hsize := grow_clusters_size fo gfuel holder pm gm _ _ _ _ hgrown
        (by unfold BozorthState.clear Clusters.clear Clusters.size MAX_NUMBER_OF_CLUSTERS
            simp)
      have hal : grown.clusters.aligned :=
        grow_clusters_aligned fo gfuel holder pm gm _ _ _ _ hgrown ⟨rfl, rfl⟩
      obtain ⟨merged, m1, m2, m3, m4, m5⟩ := merge_outer_spec fo format grown.clusters.size 0
        grown.clusters hal (by omega) (fun a ha => absurd ha (Nat.not_lt_zero a))
      have hmerge : merge_compatible_clusters fo format grown.clusters = .ok merged := m1
      have htotal : clique_weight merged.clusters (List.range merged.clusters.length)
          < 4294967296 := by
        have e : clique_weight merged.clusters (List.range merged.clusters.length) =
            clique_weight grown.clusters.clusters (List.range grown.clusters.size) := by
          unfold clique_weight Clusters.size
          rw [m3, List.map_congr_left (fun i _ => m4 i)]
        rw [e]
        have hb := clique_weight_range_le grown.clusters.clusters 60000
          (fun c hc => (hG c hc).2.1) (List.range grown.clusters.size)
        rw [List.length_range] at hb
        unfold MAX_NUMBER_OF_CLUSTERS at hsize
        omega
      obtain ⟨hshape, hpfc, hfit⟩ := merged_at_exact merged.clusters htotal
        (fun a ha => m5 a (by unfold Clusters.size; rw [← m3]; exact ha))
      have hpoints : ∀ a, a < merged.clusters.length →
          3 ≤ cluster_points merged.clusters a ∧ 3 ≤ holder.pairs.length := by
        intro a ha
        rw [m4 a]
        have ha1 : a < grown.clusters.clusters.length := by rw [← m3]; exact ha
        have hc : grown.clusters.clusters[a]? = some grown.clusters.clusters[a] :=
          List.getElem?_eq_getElem ha1
        have := hG _ (List.getElem_mem ha1)
        simp only [cluster_points, hc]
        omega
      have hsolid : ∀ c ∈ merged.clusters, 3 ≤ c.points := by
        intro c hc
        obtain ⟨a, ha, hca⟩ := List.getElem_of_mem hc
        have := (hpoints a ha).1
        simp only [cluster_points, List.getElem?_eq_getElem ha, hca] at this
        exact this
      have hempty_or : merged.clusters = [] ∨
          (3 ≤ holder.pairs.length ∧ 3 ≤ max_points_from_compatible merged.clusters ∧
            3 ≤ max_clique_weight merged.clusters) := by
        cases hm : merged.clusters with
        | nil => exact Or.inl rfl
        | cons c rest =>
          right
          have h0 : 0 < merged.clusters.length := by rw [hm]; simp
          have hp0 := hpoints 0 h0
          have hc0 : c ∈ merged.clusters := by rw [hm]; simp
          have h1 := hsolid c hc0
          have h2 := hpfc c hc0
          have h3 := (foldl_max_ge merged.clusters 0).2 c hc0
          have h4 := single_clique_le_max merged.clusters 0 h0
          rw [← hm]
          refine ⟨hp0.2, ?_, by omega⟩
          unfold max_points_from_compatible
          omega
      unfold score_clusters at h
      rw [hmerge] at h
      simp only at h
      split_ifs at h with hlow
      · simp only [Except.ok.injEq, Prod.mk.injEq] at h
        rw [← h.1, ← h.2]
        rcases hempty_or with he | ⟨e1, e2, _⟩
        · rw [he]
          exact ⟨Or.inl rfl, fun _ => rfl, fun _ c hc => absurd hc (List.not_mem_nil _)⟩
        · exact ⟨Or.inr e2, fun hc => by omega, fun _ => hsolid⟩
      · split at h
        · cases h
        · rename_i v hv
          simp only [Except.ok.injEq, Prod.mk.injEq] at h
          rw [← h.1, ← h.2]
          have hval := combine_clusters_value merged.clusters hshape hpfc hfit cfuel v hv
          rcases hempty_or with he | ⟨e1, _, e3⟩
          · exfalso
            apply hlow
            rw [he]
            decide
          · rw [hval]
            exact ⟨Or.inr e3, fun hc => by omega, fun _ => hsolid⟩

set_option maxRecDepth 100000 in
/-- C38, witness: the prepared holder of `three_star_pairs`, whose pairs have
one point each. -/
theorem match_score_zero_or_three_witness :
    ∃ score final,
      match_score axis_ops 100 100 (prepared_holder three_star_pairs) BozorthState.init
        row_template row_template Format.NistInternal = .ok (score, final) ∧
      (score = 0 ∨ 3 ≤ score) ∧
      ((prepared_holder three_star_pairs).pairs.length < 3 → score = 0) ∧
      ((prepared_holder three_star_pairs).empty = false →
        ∀ c ∈ final.clusters.clusters, 3 ≤ c.points) :=
  (ok_and_elim
    (match_score axis_ops 100 100 (prepared_holder three_star_pairs) BozorthState.init
      row_template row_template Format.NistInternal)
    (fun _ => true) (by decide)).elim
    (fun r h => ⟨r.1, r.2, h.1,
      match_score_zero_or_three axis_ops 100 100 (prepared_holder three_star_pairs)
        BozorthState.init row_template row_template Format.NistInternal r.1 r.2
        (by decide) h.1⟩)

set_option maxRecDepth 100000 in
/-- C38, counterexample.  The three pairs of `heavy_star_pairs` have
`2^32 - 1`, 1 and 1 points, all at least 1; they form one cluster, whose
points are the 32-bit sum 1, and `match_score` returns 1. -/
theorem match_score_returns_one :
    (∀ p ∈ (prepared_holder heavy_star_pairs).pairs, 1 ≤ p.points) ∧
    score_and_clusters (match_score axis_ops 100 100 (prepared_holder heavy_star_pairs)
      BozorthState.init row_template row_template Format.NistInternal)
      = .ok (1, [{ points := 1, points_from_compatible := 1, compatible := [] }]) := by
  refine ⟨by decide, by decide⟩

/-! ## find_pairs leaves the associator as it found it -/

theorem clear_endpoints_restores (a0 : EndpointAssociator) :
    ∀ (E : List Nat) (b : EndpointAssociator), clearing_inv a0 E b →
      clear_endpoints b E = .ok a0 := by
  intro E
  induction E with
  | nil =>
    intro b ⟨_, hB, hC⟩
    unfold clear_endpoints
    have : b = a0 := by
      apply associator_ext
      · intro x
        exact hB x (List.not_mem_nil _)
      · intro y
        exact hC y (fun x hx => absurd hx (List.not_mem_nil _))
    rw [this]
  | cons x rest ih =>
    intro b ⟨hA, hB, hC⟩
    obtain ⟨hxm, hx0, hxb⟩ := hA x (List.mem_cons_self _ _)
    unfold clear_endpoints
    unfold EndpointAssociator.clear_by_probe
    rw [if_pos hxm]
    simp only
    rcases hxb with hz | ⟨q, hqm, hq, hq0⟩
    · rw [if_neg (by simpa using hz)]
      simp only
      apply ih
      refine ⟨fun x1 hx1 => hA x1 (List.mem_cons_of_mem _ hx1), ?_, ?_⟩
      · intro x1 hx1
        by_cases hxx : x1 = x
        · rw [hxx, hz, hx0]
        · exact hB x1 (by
            intro hc
            rcases List.mem_cons.mp hc with h | h
            · exact hxx h
            · exact hx1 h)
      · intro y hy
        apply hC
        intro x1 hx1
        rcases List.mem_cons.mp hx1 with h | h
        · rw [h, hz]
          omega
        · exact hy x1 h
    · have hne : b.gallery_by_probe_ x ≠ 0 := by omega
      rw [if_pos hne, if_pos (by omega)]
      simp only
      have hq1 : b.gallery_by_probe_ x - 1 = q := by omega
      apply ih
      refine ⟨?_, ?_, ?_⟩
      · intro x1 hx1
        obtain ⟨e1, e2, e3⟩ := hA x1 (List.mem_cons_of_mem _ hx1)
        refine ⟨e1, e2, ?_⟩
        simp only [Function.update_apply]
        by_cases hxx : x1 = x
        · left
          rw [if_pos hxx]
        · rw [if_neg hxx]
          exact e3
      · intro x1 hx1
        simp only [Function.update_apply]
        by_cases hxx : x1 = x
        · rw [if_pos hxx, hxx, hx0]
        · rw [if_neg hxx]
          exact hB x1 (by
            intro hc
            rcases List.mem_cons.mp hc with h | h
            · exact hxx h
            · exact hx1 h)
      · intro y hy
        simp only [Function.update_apply, hq1]
        by_cases hyq : y = q
        · rw [if_pos hyq, hyq, hq0]
        · rw [if_neg hyq]
          apply hC
          intro x1 hx1
          rcases List.mem_cons.mp hx1 with h | h
          · rw [h]
            omega
          · have := hy x1 h
            simp only [Function.update_apply] at this
            by_cases hxx : x1 = x
            · rw [hxx]
              omega
            · rw [if_neg hxx] at this
              exact this

theorem worklist_inv_clearing (a0 : EndpointAssociator) (r : GrowthRefs)
    (h : worklist_inv a0 r) : clearing_inv a0 r.endpoints r.associator := by
  obtain ⟨hA, hB, hC⟩ := h
  refine ⟨?_, hB, hC⟩
  intro x hx
  obtain ⟨e1, e2, q, e3, e4, _, e6⟩ := hA x hx
  exact ⟨e1, e2, Or.inr ⟨q, e3, e4, e6⟩⟩

/-- A call of `assign_cluster_to_endpoints` for a probe endpoint that is free
in `a0` keeps `worklist_inv`. -/
theorem assign_keeps_worklist_inv (a0 : EndpointAssociator) (c idx p g : Nat)
    (r r1 : GrowthRefs) (hp0 : a0.gallery_by_probe_ p = 0) (hinv : worklist_inv a0 r)
    (h : assign_cluster_to_endpoints c idx p g r = .ok r1) : worklist_inv a0 r1 := by
  obtain ⟨hp, hg, hcase⟩ := assign_effect c idx p g r r1 h
  obtain ⟨hA, hB, hC⟩ := hinv
  have hin : r.associator.gallery_by_probe_ p ≠ 0 → p ∈ r.endpoints := by
    intro hne
    by_contra hc
    rw [hB p hc] at hne
    exact hne hp0
  rcases hcase with ⟨f1, f2, _, _, e5, e6, _⟩ | ⟨s1, _, _, e4, e5⟩ | ⟨_, _, _, e4, e5, _⟩
  · -- a new association
    have hpn : p ∉ r.endpoints := by
      intro hc
      obtain ⟨_, _, q, _, hq, _, _⟩ := hA p hc
      omega
    have hg0 : a0.probe_by_gallery_ g = 0 := by
      rw [← hC g (by
        intro x hx hc
        obtain ⟨_, _, q, _, hq, hq2, _⟩ := hA x hx
        have : q = g := by omega
        rw [this] at hq2
        omega)]
      exact f2
    rw [worklist_inv, e5, e6]
    refine ⟨?_, ?_, ?_⟩
    · intro x hx
      rcases List.mem_append.mp hx with h1 | h1
      · obtain ⟨k1, k2, q, k3, k4, k5, k6⟩ := hA x h1
        have hxp : x ≠ p := fun hc => hpn (hc ▸ h1)
        have hqg : q ≠ g := by
          intro hc
          rw [hc] at k5
          omega
        refine ⟨k1, k2, q, k3, ?_, ?_, k6⟩
        · simp only [assoc_add, Function.update_apply, if_neg hxp]
          exact k4
        · simp only [assoc_add, Function.update_apply, if_neg hqg]
          exact k5
      · rw [List.mem_singleton] at h1
        subst h1
        refine ⟨hp, hp0, g, hg, ?_, ?_, hg0⟩
        · simp only [assoc_add, Function.update_same]
        · simp only [assoc_add, Function.update_same]
    · intro x hx
      have hxp : x ≠ p := by
        intro hc
        exact hx (List.mem_append.mpr (Or.inr (by rw [hc]; exact List.mem_singleton.mpr rfl)))
      simp only [assoc_add, Function.update_apply, if_neg hxp]
      exact hB x (fun hc => hx (List.mem_append.mpr (Or.inl hc)))
    · intro y hy
      have hyg : y ≠ g := by
        intro hc
        have := hy p (List.mem_append.mpr (Or.inr (List.mem_singleton.mpr rfl)))
        simp only [assoc_add, Function.update_same] at this
        omega
      simp only [assoc_add, Function.update_apply, if_neg hyg]
      apply hC
      intro x hx
      have := hy x (List.mem_append.mpr (Or.inl hx))
      have hxp : x ≠ p := fun hc => hpn (hc ▸ hx)
      simp only [assoc_add, Function.update_apply, if_neg hxp] at this
      exact this
  · -- already associated: the endpoint is on the worklist
    have hpin : p ∈ r.endpoints := hin (by omega)
    have hsame : ∀ x, x ∈ r1.endpoints ↔ x ∈ r.endpoints := by
      intro x
      rcases e5 with ⟨_, _, _, k⟩ | ⟨_, _, _, k | k⟩
      · rw [k]
      · rw [k]
      · rw [k, List.mem_append, List.mem_singleton]
        constructor
        · rintro (h1 | h1)
          · exact h1
          · rw [h1]
            exact hpin
        · intro h1
          exact Or.inl h1
    rw [worklist_inv, e4]
    refine ⟨fun x hx => hA x ((hsame x).mp hx), fun x hx => hB x (fun hc => hx ((hsame x).mpr hc)),
      fun y hy => hC y (fun x hx => hy x ((hsame x).mpr hx))⟩
  · rw [worklist_inv, e4, e5]
    exact ⟨hA, hB, hC⟩

/-- What `prepare` leaves, for a holder that was cleared and filled with pairs
whose endpoints are below `MAX_BOZORTH_MINUTIAE`. -/
theorem prepared_facts (pairs : List Pair) (h0 H : PairHolder)
    (hsmall : ∀ p ∈ pairs, p.probe_k < MAX_BOZORTH_MINUTIAE ∧ p.probe_j < MAX_BOZORTH_MINUTIAE ∧
      p.gallery_k < MAX_BOZORTH_MINUTIAE ∧ p.gallery_j < MAX_BOZORTH_MINUTIAE)
    (hprep : (pairs.foldl PairHolder.add h0.clear).prepare = .ok H) :
    H.dirty_ = false ∧ H.forward_ = stable_sort forward_less pairs ∧
      H.backward_.Perm (List.range H.forward_.length) ∧
      H.backward_.Pairwise (fun x y => backward_less H.forward_ y x = false) ∧
      (∀ q : Nat × Nat, q.2 < MAX_BOZORTH_MINUTIAE →
        (q ∈ H.forward_.map (fun p => (p.probe_k, p.gallery_k)) →
          is_range_of (H.forward_.map (fun p => (p.probe_k, p.gallery_k))) q
            (H.forward_cache_ (key_code q))) ∧
        (q ∉ H.forward_.map (fun p => (p.probe_k, p.gallery_k)) →
          H.forward_cache_ (key_code q) = OptionalRange.empty)) ∧
      (∀ q : Nat × Nat, q.2 < MAX_BOZORTH_MINUTIAE →
        (q ∈ H.backward_.map (second_key H.forward_) →
          is_range_of (H.backward_.map (second_key H.forward_)) q
            (H.backward_cache_ (key_code q))) ∧
        (q ∉ H.backward_.map (second_key H.forward_) →
          H.backward_cache_ (key_code q) = OptionalRange.empty)) := by
  have hne : pairs ≠ [] := by
    intro hc
    subst hc
    simp [PairHolder.prepare, PairHolder.clear] at hprep
  obtain ⟨h, h1, h2⟩ := prepare_spec pairs h0 hne hsmall
  rw [hprep] at h1
  cases h1
  exact h2

theorem sorted_probe_k (F : List Pair)
    (hs : F.Pairwise (fun x y => forward_less y x = false)) (i j : Nat) (a b : Pair)
    (hij : i ≤ j) (ha : F[i]? = some a) (hb : F[j]? = some b) : a.probe_k ≤ b.probe_k := by
  by_cases he : i = j
  · subst he
    rw [ha] at hb
    cases hb
    exact le_refl _
  · have hlt : i < j := by omega
    obtain ⟨hi, rfl⟩ := List.getElem?_eq_some_iff.mp ha
    obtain ⟨hj, rfl⟩ := List.getElem?_eq_some_iff.mp hb
    have := List.pairwise_iff_getElem.mp hs i j hi hj hlt
    rw [forward_less_false_iff] at this
    omega

/-- After a cache-filling block of `prepare`, the slot of the key at position
`j` holds a range that ends behind `j` (the range of the key, or that of a
later key with the same slot). -/
theorem fill_cache_end (size : Nat) : ∀ (rest done : List (Nat × Nat))
    (previous : Option (Nat × Nat)) (range_start : Nat) (cache cache1 : Nat → OptionalRange),
    fill_cache rest done.length previous range_start size cache = .ok cache1 →
    done.length + rest.length = size →
    (previous = none → done = []) →
    (∀ q, previous = some q → ∀ j, range_start ≤ j → j < done.length → done[j]? = some q) →
    (∀ j q, j < range_start → done[j]? = some q →
      j < (cache (wrapU32 (q.1 * MAX_BOZORTH_MINUTIAE + q.2))).end) →
    range_start ≤ done.length →
    ∀ j q, (done ++ rest)[j]? = some q →
      j < (cache1 (wrapU32 (q.1 * MAX_BOZORTH_MINUTIAE + q.2))).end := by
  intro rest
  induction rest with
  | nil =>
    intro done previous range_start cache cache1 h hsize hnone hrun hinv hle j q hj
    rw [List.append_nil] at hj
    have hjl : j < done.length := (List.getElem?_eq_some_iff.mp hj).1
    simp only [List.length_nil, Nat.add_zero] at hsize
    unfold fill_cache at h
    cases previous with
    | none =>
      rw [hnone rfl] at hjl
      simp at hjl
    | some prev =>
      obtain ⟨k, g⟩ := prev
      simp only at h
      unfold cache_store at h
      split_ifs at h
      cases h
      simp only [Function.update_apply]
      by_cases hs : wrapU32 (q.1 * MAX_BOZORTH_MINUTIAE + q.2)
          = wrapU32 (k * MAX_BOZORTH_MINUTIAE + g)
      · rw [if_pos hs]
        simp only
        omega
      · rw [if_neg hs]
        by_cases hjr : j < range_start
        · exact hinv j q hjr hj
        · exfalso
          have := hrun (k, g) rfl j (by omega) hjl
          rw [hj] at this
          cases this
          exact hs rfl
  | cons current rest ih =>
    intro done previous range_start cache cache1 h hsize hnone hrun hinv hle j q hj
    have hdone : (done ++ [current]).length = done.length + 1 := by simp
    have happ : done ++ current :: rest = (done ++ [current]) ++ rest := by simp
    have hold : ∀ j, j < done.length → (done ++ [current])[j]? = done[j]? := by
      intro j hjl
      rw [List.getElem?_append_left hjl]
    have hlast : (done ++ [current])[done.length]? = some current := by
      rw [List.getElem?_append_right (le_refl _)]
      simp
    simp only [List.length_cons] at hsize
    unfold fill_cache at h
    rw [happ] at hj
    cases previous with
    | none =>
      simp only at h
      have hd := hnone rfl
      subst hd
      rw [← hdone] at h
      refine ih _ _ _ _ _ h (by rw [hdone]; omega) (fun hc => by cases hc) ?_ ?_
        (by rw [hdone]; omega) j q hj
      · intro q1 hq1 j1 _ hj1
        cases hq1
        simp only [List.nil_append, List.length_singleton] at hj1
        have : j1 = 0 := by omega
        subst this
        rfl
      · intro j1 q1 hj1 _
        simp only [List.length_nil] at hle
        omega
    | some prev =>
      obtain ⟨ppk, pgk⟩ := prev
      simp only at h
      by_cases hne : (ppk, pgk) ≠ current
      · rw [if_pos hne] at h
        unfold cache_store at h
        split_ifs at h
        simp only at h
        rw [← hdone] at h
        refine ih _ _ _ _ _ h (by rw [hdone]; omega) (fun hc => by cases hc) ?_ ?_
          (by rw [hdone]; omega) j q hj
        · intro q1 hq1 j1 h1 h2
          cases hq1
          rw [hdone] at h2
          have : j1 = done.length := by omega
          rw [this]
          exact hlast
        · intro j1 q1 hj1 hq1
          rw [hold j1 hj1] at hq1
          simp only [Function.update_apply]
          by_cases hs : wrapU32 (q1.1 * MAX_BOZORTH_MINUTIAE + q1.2)
              = wrapU32 (ppk * MAX_BOZORTH_MINUTIAE + pgk)
          · rw [if_pos hs]
            exact hj1
          · rw [if_neg hs]
            by_cases hjr : j1 < range_start
            · exact hinv j1 q1 hjr hq1
            · exfalso
              have := hrun (ppk, pgk) rfl j1 (by omega) hj1
              rw [hq1] at this
              cases this
              exact hs rfl
      · rw [if_neg hne] at h
        have hcur : current = (ppk, pgk) := by
          by_contra hc
          exact hne (fun hh => hc hh.symm)
        rw [← hdone] at h
        refine ih _ _ _ _ _ h (by rw [hdone]; omega) (fun hc => by cases hc) ?_ ?_
          (by rw [hdone]; omega) j q hj
        · intro q1 hq1 j1 h1 h2
          cases hq1
          rw [hdone] at h2
          by_cases hjl : j1 < done.length
          · rw [hold j1 hjl]
            exact hrun (ppk, pgk) rfl j1 h1 hjl
          · have : j1 = done.length := by omega
            rw [this, hlast, hcur]
        · intro j1 q1 hj1 hq1
          rw [hold j1 (by omega)] at hq1
          exact hinv j1 q1 hj1 hq1

/-- What `prepare` does to the pair list and the forward cache of a holder that
was changed since it was last prepared. -/
theorem prepare_forward (h H : PairHolder) (hdirty : h.dirty_ = true)
    (hprep : h.prepare = .ok H) :
    H.dirty_ = false ∧ H.forward_ = stable_sort forward_less h.forward_ ∧
      fill_cache (H.forward_.map (fun p => (p.probe_k, p.gallery_k))) 0 none 0
        H.forward_.length h.forward_cache_ = .ok H.forward_cache_ := by
  unfold PairHolder.prepare at hprep
  rw [hdirty] at hprep
  simp only [Bool.not_true, Bool.false_eq_true, if_false] at hprep
  split_ifs at hprep
  split at hprep
  · cases hprep
  · rename_i fc hfc
    split at hprep
    · cases hprep
    · cases hprep
      exact ⟨rfl, rfl, hfc⟩

/-- The first lookup for the seed of a prepared holder returns a bound that is
not below the seed's index. -/
theorem seed_bound (h H : PairHolder) (hdirty : h.dirty_ = true) (hprep : h.prepare = .ok H)
    (start_pair : Nat) (start : Pair) (hstart : H.forward_[start_pair]? = some start)
    {σ : Type} (cb : Nat → Nat → Nat → σ → Except Fault σ) (s s1 : σ) (b : Nat)
    (hrun : H.find_pairs_by_first_endpoint start_pair start.probe_k start.gallery_k cb s
      = .ok (s1, b)) : start_pair ≤ b := by
  obtain ⟨hd, _, hfill⟩ := prepare_forward h H hdirty hprep
  have hkey : (H.forward_.map (fun p => (p.probe_k, p.gallery_k)))[start_pair]?
      = some (start.probe_k, start.gallery_k) := by
    rw [List.getElem?_map, hstart]
    rfl
  have hend := fill_cache_end H.forward_.length
    (H.forward_.map (fun p => (p.probe_k, p.gallery_k))) [] none 0 h.forward_cache_
    H.forward_cache_ hfill (by simp) (fun _ => rfl) (fun q hq => by cases hq)
    (fun j q hj => absurd hj (Nat.not_lt_zero j)) (le_refl _) start_pair
    (start.probe_k, start.gallery_k) (by rw [List.nil_append]; exact hkey)
  dsimp only at hend
  unfold PairHolder.find_pairs_by_first_endpoint at hrun
  rw [hd] at hrun
  simp only [Bool.false_eq_true, if_false] at hrun
  split_ifs at hrun
  · split at hrun
    · cases hrun
    · simp only [Except.ok.injEq, Prod.mk.injEq] at hrun
      omega
  · simp only [Except.ok.injEq, Prod.mk.injEq] at hrun
    omega

/-- C34. For a pair holder that `prepare` has sorted and indexed, in which
every pair has `probe_k < probe_j`, and for every start pair: if on entry the
associator holds exactly the association `probe_k <-> gallery_k` of the start
pair, then when `find_pairs` returns the associator holds exactly that
association again. -/
theorem find_pairs_keeps_seed (h H : PairHolder) (hdirty : h.dirty_ = true)
    (hprep : h.prepare = .ok H) (hkj : ∀ p ∈ H.pairs, p.probe_k < p.probe_j)
    (start_pair : Nat) (start : Pair) (hstart : H.pairs[start_pair]? = some start)
    (fuel cluster : Nat) (groups : List EndpointGroup) (selected : List Nat)
    (A : ClusterAssigner) (r : GrowthRefs)
    (hrun : find_pairs fuel H start_pair cluster groups selected
      (assoc_add empty_associator start.probe_k start.gallery_k) A = .ok r) :
    r.associator = assoc_add empty_associator start.probe_k start.gallery_k := by
  obtain ⟨_, hF, _⟩ := prepare_forward h H hdirty hprep
  have hsorted : H.forward_.Pairwise (fun x y => forward_less y x = false) := by
    rw [hF]
    exact stable_sort_pairwise forward_less forward_less_asymm forward_less_trans _
  have hstart1 : H.forward_[start_pair]? = some start := hstart
  have hfree : ∀ p, p ≠ start.probe_k →
      (assoc_add empty_associator start.probe_k start.gallery_k).gallery_by_probe_ p = 0 := by
    intro p hp
    simp only [assoc_add, empty_associator, Function.update_apply, if_neg hp]
  obtain ⟨r1, hP, hclear, _⟩ := find_pairs_inv
    (worklist_inv (assoc_add empty_associator start.probe_k start.gallery_k))
    H start_pair cluster start_pair (le_refl _)
    (by
      intro start1 hs1 cb s s1 b hb
      rw [hstart] at hs1
      cases hs1
      exact seed_bound h H hdirty hprep start_pair start hstart1 cb s s1 b hb)
    (by
      intro i item s s1 hi hitem hs hcall
      have h1 := sorted_probe_k H.forward_ hsorted start_pair i start item hi hstart1 hitem
      have h2 := hkj item (List.getElem?_mem hitem)
      exact assign_keeps_worklist_inv _ cluster i _ _ s s1 (hfree _ (by omega)) hs hcall)
    (by
      intro start1 hs1 i item s s1 _ _ hk _ hs hcall
      rw [hstart] at hs1
      cases hs1
      exact assign_keeps_worklist_inv _ cluster i _ _ s s1 (hfree _ hk) hs hcall)
    fuel groups selected _ A r
    ⟨fun x hx => absurd hx (List.not_mem_nil _), fun _ _ => rfl, fun _ _ => rfl⟩ hrun
  have := clear_endpoints_restores _ _ _ (worklist_inv_clearing _ r1 hP)
  rw [hclear] at this
  exact Except.ok.inj this

set_option maxRecDepth 100000 in
/-- C34, witness: the prepared holder of `three_star_pairs` and the start pair
0, whose endpoints are 0 and 0. -/
theorem find_pairs_keeps_seed_witness :
    ∃ r, find_pairs 100 (prepared_holder three_star_pairs) 0 0 [] []
        (assoc_add empty_associator (pair_of 0 1 0 1).probe_k (pair_of 0 1 0 1).gallery_k)
        empty_assigner = .ok r ∧
      r.associator
        = assoc_add empty_associator (pair_of 0 1 0 1).probe_k (pair_of 0 1 0 1).gallery_k :=
  (ok_and_elim
    (find_pairs 100 (prepared_holder three_star_pairs) 0 0 [] []
      (assoc_add empty_associator (pair_of 0 1 0 1).probe_k (pair_of 0 1 0 1).gallery_k)
      empty_assigner)
    (fun _ => true) (by decide)).elim
    (fun r h => ⟨r, h.1,
      find_pairs_keeps_seed (three_star_pairs.foldl PairHolder.add PairHolder.init.clear)
        (prepared_holder three_star_pairs) (by rfl) (by rfl) (by decide) 0 (pair_of 0 1 0 1)
        (by decide) 100 0 [] [] empty_assigner r h.1⟩)

/-! ## find_pairs terminates -/

theorem countP_step (l : List Nat) (P Q : Nat → Bool)
    (hmono : ∀ x ∈ l, P x = true → Q x = true) (a : Nat) (ha : a ∈ l)
    (hP : P a = false) (hQ : Q a = true) : l.countP P + 1 ≤ l.countP Q := by
  induction l with
  | nil => exact absurd ha (List.not_mem_nil _)
  | cons x rest ih =>
    have hrest : rest.countP P ≤ rest.countP Q :=
      List.countP_mono_left (fun y hy => hmono y (List.mem_cons_of_mem _ hy))
    rcases List.mem_cons.mp ha with h | h
    · subst h
      rw [List.countP_cons_of_neg _ _ (by simp [hP]), List.countP_cons_of_pos _ _ hQ]
      omega
    · have := ih (fun y hy => hmono y (List.mem_cons_of_mem _ hy)) h
      by_cases hx : P x = true
      · rw [List.countP_cons_of_pos _ _ hx,
          List.countP_cons_of_pos _ _ (hmono x (List.mem_cons_self _ _) hx)]
        omega
      · rw [List.countP_cons_of_neg _ _ hx]
        have : rest.countP Q ≤ (x :: rest).countP Q := by
          rw [List.countP_cons]
          omega
        omega

theorem associate_multiple_fault (t : EndpointType) (e x n : Nat) (groups : List EndpointGroup)
    (f : Fault) (h : associate_multiple_compatible_endpoints t e x n groups = .error f) :
    f = .assertion ∧ x = n := by
  unfold associate_multiple_compatible_endpoints at h
  split_ifs at h with hxn
  · cases h
    exact ⟨rfl, hxn⟩
  · exfalso
    split at h
    · rename_i i hi
      have hlt := (List.findIdx?_eq_some_iff_findIdx_eq.mp hi).1
      rw [List.getElem?_eq_getElem hlt] at h
      simp only at h
      split_ifs at h
    · cases h

/-- Inside the tables `assign_cluster_to_endpoints` faults only at the
assertion of `associate_multiple_compatible_endpoints`, for a gallery endpoint
that maps to the probe endpoint while the probe endpoint does not map back. -/
theorem assign_fault (c idx p g : Nat) (r : GrowthRefs) (f : Fault)
    (hidx : idx < MAX_NUMBER_OF_PAIRS) (hp : p < MAX_NUMBER_OF_ENDPOINTS)
    (hg : g < MAX_NUMBER_OF_ENDPOINTS)
    (h : assign_cluster_to_endpoints c idx p g r = .error f) :
    f = .assertion ∧ r.associator.probe_by_gallery_ g = p + 1 ∧
      r.associator.gallery_by_probe_ p ≠ g + 1 := by
  have l1 : r.associator.get_associated_gallery_endpoint p =
      .ok (if r.associator.gallery_by_probe_ p = 0 then none
        else some (r.associator.gallery_by_probe_ p - 1)) := by
    unfold EndpointAssociator.get_associated_gallery_endpoint
    rw [if_pos hp]
    simp only
    split_ifs <;> rfl
  have l2 : r.associator.get_associated_probe_endpoint g =
      .ok (if r.associator.probe_by_gallery_ g = 0 then none
        else some (r.associator.probe_by_gallery_ g - 1)) := by
    unfold EndpointAssociator.get_associated_probe_endpoint
    rw [if_pos hg]
    simp only
    split_ifs <;> rfl
  have l3 : r.assigner.has_cluster idx c =
      .ok (decide (r.assigner.cluster_by_pair_ idx = wrap32 (wrapU32 (c + 1)))) := by
    unfold ClusterAssigner.has_cluster
    rw [if_pos hidx]
  have l4 : r.assigner.assign_cluster idx c =
      .ok { cluster_by_pair_ :=
              Function.update r.assigner.cluster_by_pair_ idx (wrap32 (wrapU32 (c + 1))) } := by
    unfold ClusterAssigner.assign_cluster
    rw [if_pos hidx]
  unfold assign_cluster_to_endpoints at h
  rw [l1, l2, l3, l4, associate_in_range _ p g hp hg] at h
  simp only at h
  by_cases hfree : r.associator.gallery_by_probe_ p = 0 ∧ r.associator.probe_by_gallery_ g = 0
  · exfalso
    rw [if_pos hfree.1, if_pos hfree.2] at h
    simp only [Option.isNone_none, Bool.and_self, if_true] at h
    split_ifs at h
  · have hnone : ((if r.associator.gallery_by_probe_ p = 0 then (none : Option Nat)
          else some (r.associator.gallery_by_probe_ p - 1)).isNone &&
        (if r.associator.probe_by_gallery_ g = 0 then (none : Option Nat)
          else some (r.associator.probe_by_gallery_ g - 1)).isNone) = false := by
      by_cases h1 : r.associator.gallery_by_probe_ p = 0
      · have h2 : ¬ r.associator.probe_by_gallery_ g = 0 := fun hc => hfree ⟨h1, hc⟩
        rw [if_pos h1, if_neg h2]
        rfl
      · rw [if_neg h1]
        rfl
    rw [hnone] at h
    simp only [Bool.false_eq_true, if_false] at h
    by_cases hsame : r.associator.gallery_by_probe_ p = g + 1
    · exfalso
      have hs1 : (if r.associator.gallery_by_probe_ p = 0 then (none : Option Nat)
          else some (r.associator.gallery_by_probe_ p - 1)) = some g := by
        rw [if_neg (by omega), hsame]
        rfl
      rw [if_pos hs1] at h
      by_cases hs : r.assigner.cluster_by_pair_ idx = wrap32 (wrapU32 (c + 1))
      · simp only [hs, decide_True] at h
        cases h
      · simp only [hs, decide_False] at h
        cases h
    · have hs1 : ¬ ((if r.associator.gallery_by_probe_ p = 0 then (none : Option Nat)
          else some (r.associator.gallery_by_probe_ p - 1)) = some g) := by
        intro hc
        split_ifs at hc with h0
        simp only [Option.some.injEq] at hc
        omega
      rw [if_neg hs1] at h
      by_cases hgr : r.groups.length ≥ MAX_NUMBER_OF_GROUPS
      · rw [if_pos hgr] at h
        cases h
      · rw [if_neg hgr] at h
        by_cases h0 : r.associator.gallery_by_probe_ p = 0
        · have h1 : ¬ r.associator.probe_by_gallery_ g = 0 := fun hc => hfree ⟨h0, hc⟩
          simp only [h0, if_true, if_neg h1] at h
          cases hm : associate_multiple_compatible_endpoints EndpointType.Gallery g
              (r.associator.probe_by_gallery_ g - 1) p r.groups with
          | ok g2 =>
            rw [hm] at h
            cases h
          | error f1 =>
            rw [hm] at h
            cases h
            obtain ⟨e1, e2⟩ := associate_multiple_fault _ _ _ _ _ _ hm
            exact ⟨e1, by omega, hsame⟩
        · simp only [if_neg h0] at h
          cases hm1 : associate_multiple_compatible_endpoints EndpointType.Probe p
              (r.associator.gallery_by_probe_ p - 1) g r.groups with
          | error f1 =>
            have := (associate_multiple_fault _ _ _ _ _ _ hm1).2
            omega
          | ok groups1 =>
            rw [hm1] at h
            simp only at h
            by_cases h00 : r.associator.probe_by_gallery_ g = 0
            · simp only [h00, if_true] at h
              cases h
            · simp only [if_neg h00] at h
              cases hm : associate_multiple_compatible_endpoints EndpointType.Gallery g
                  (r.associator.probe_by_gallery_ g - 1) p groups1 with
              | ok g2 =>
                rw [hm] at h
                cases h
              | error f1 =>
                rw [hm] at h
                cases h
                obtain ⟨e1, e2⟩ := associate_multiple_fault _ _ _ _ _ _ hm
                exact ⟨e1, by omega, hsame⟩

theorem newly_associated_step (a b : EndpointAssociator) (p g : Nat)
    (hp : p < MAX_BOZORTH_MINUTIAE) (ha : a.gallery_by_probe_ p = 0)
    (hb : b.gallery_by_probe_ p = 0) :
    newly_associated a b + 1 ≤ newly_associated a (assoc_add b p g) := by
  unfold newly_associated
  refine countP_step _ _ _ ?_ p (List.mem_range.mpr hp) ?_ ?_
  · intro x _ hx
    simp only [decide_eq_true_eq] at hx ⊢
    refine ⟨hx.1, ?_⟩
    have hxp : x ≠ p := by
      intro hc
      rw [hc] at hx
      exact hx.2 hb
    simp only [assoc_add, Function.update_apply, if_neg hxp]
    exact hx.2
  · simp only [decide_eq_false_iff_not, not_and, not_not]
    intro _
    exact hb
  · simp only [decide_eq_true_eq, assoc_add, Function.update_same]
    exact ⟨ha, by omega⟩

theorem newly_assigned_mono (cluster n : Nat) (A B B1 : ClusterAssigner)
    (h : ∀ i, B.cluster_by_pair_ i = wrap32 (wrapU32 (cluster + 1)) →
      B1.cluster_by_pair_ i = wrap32 (wrapU32 (cluster + 1))) :
    newly_assigned cluster n A B ≤ newly_assigned cluster n A B1 := by
  unfold newly_assigned
  apply List.countP_mono_left
  intro x _ hx
  simp only [decide_eq_true_eq] at hx ⊢
  exact ⟨hx.1, h x hx.2⟩

theorem newly_assigned_step (cluster n : Nat) (A B B1 : ClusterAssigner) (idx : Nat)
    (hidx : idx < n) (hA : A.cluster_by_pair_ idx ≠ wrap32 (wrapU32 (cluster + 1)))
    (hB : B.cluster_by_pair_ idx ≠ wrap32 (wrapU32 (cluster + 1)))
    (hB1 : B1.cluster_by_pair_ =
      Function.update B.cluster_by_pair_ idx (wrap32 (wrapU32 (cluster + 1)))) :
    newly_assigned cluster n A B + 1 ≤ newly_assigned cluster n A B1 := by
  unfold newly_assigned
  refine countP_step _ _ _ ?_ idx (List.mem_range.mpr hidx) ?_ ?_
  · intro x _ hx
    simp only [decide_eq_true_eq] at hx ⊢
    refine ⟨hx.1, ?_⟩
    rw [hB1]
    simp only [Function.update_apply]
    split_ifs
    · rfl
    · exact hx.2
  · simp only [decide_eq_false_iff_not, not_and]
    intro _
    exact hB
  · simp only [decide_eq_true_eq]
    refine ⟨hA, ?_⟩
    rw [hB1]
    simp only [Function.update_same]

/-- One call of `assign_cluster_to_endpoints` for a pair of the holder keeps
`growth_inv`, or stops at the assertion. -/
theorem assign_outcome (a : EndpointAssociator) (A : ClusterAssigner) (n cluster : Nat)
    (m : Prop) (hn : n ≤ MAX_NUMBER_OF_PAIRS) (idx p g : Nat) (hidx : idx < n)
    (hp : p < MAX_BOZORTH_MINUTIAE) (hg : g < MAX_BOZORTH_MINUTIAE) (r : GrowthRefs)
    (hinv : growth_inv a A n cluster m r) :
    growth_outcome a A n cluster m (assign_cluster_to_endpoints cluster idx p g r) := by
  have hpm : p < MAX_NUMBER_OF_ENDPOINTS := by
    unfold MAX_NUMBER_OF_ENDPOINTS
    unfold MAX_BOZORTH_MINUTIAE at hp
    omega
  have hgm : g < MAX_NUMBER_OF_ENDPOINTS := by
    unfold MAX_NUMBER_OF_ENDPOINTS
    unfold MAX_BOZORTH_MINUTIAE at hg
    omega
  obtain ⟨i1, i2, i3, i4, i5⟩ := hinv
  cases hres : assign_cluster_to_endpoints cluster idx p g r with
  | error f =>
    right
    obtain ⟨e1, e2, e3⟩ := assign_fault cluster idx p g r f (by omega) hpm hgm hres
    refine ⟨?_, by rw [e1]⟩
    intro hm
    have := (mutually_associated_iff r.associator).mp (i5 hm) p g
    exact e3 (this.mpr ⟨hgm, e2⟩).2
  | ok r1 =>
    left
    refine ⟨r1, rfl, ?_⟩
    obtain ⟨_, _, hcase⟩ := assign_effect cluster idx p g r r1 hres
    rcases hcase with ⟨f1, f2, _, _, e5, e6, e7⟩ | ⟨s1, _, _, e4, e5⟩ | ⟨_, _, e3, e4, e5, _⟩
    · -- a new association
      have hassigned : newly_assigned cluster n A r.assigner
          ≤ newly_assigned cluster n A r1.assigner ∧
          (∀ i, r1.assigner.cluster_by_pair_ i ≠ wrap32 (wrapU32 (cluster + 1)) →
            A.cluster_by_pair_ i ≠ wrap32 (wrapU32 (cluster + 1))) := by
        rcases e7 with ⟨_, k1, _⟩ | ⟨k0, k1, _⟩
        · rw [k1]
          exact ⟨le_refl _, i4⟩
        · refine ⟨newly_assigned_mono cluster n A _ _ (fun i hi => ?_), fun i hi => ?_⟩
          · rw [k1]
            simp only [Function.update_apply]
            split_ifs
            · rfl
            · exact hi
          · rw [k1] at hi
            simp only [Function.update_apply] at hi
            split_ifs at hi with hc
            · exact absurd rfl hi
            · exact i4 i hi
      have hstep := newly_associated_step a r.associator p g hp (i3 p f1) f1
      refine ⟨?_, ?_, ?_, hassigned.2, ?_⟩
      · intro e he
        rw [e6] at he
        rw [e5]
        rcases List.mem_append.mp he with h1 | h1
        · obtain ⟨k1, q, k2, k3⟩ := i1 e h1
          have hep : e ≠ p := by
            intro hc
            rw [hc] at k3
            omega
          refine ⟨k1, q, k2, ?_⟩
          simp only [assoc_add, Function.update_apply, if_neg hep]
          exact k3
        · rw [List.mem_singleton] at h1
          subst h1
          exact ⟨hp, g, hg, by simp only [assoc_add, Function.update_same]⟩
      · rw [e6, e5, List.length_append, List.length_singleton]
        omega
      · intro x hx
        rw [e5] at hx
        have hxp : x ≠ p := by
          intro hc
          rw [hc] at hx
          simp only [assoc_add, Function.update_same] at hx
          omega
        simp only [assoc_add, Function.update_apply, if_neg hxp] at hx
        exact i3 x hx
      · intro hm
        rw [e5]
        have hclear : r.associator.are_clear_or_mutually_associated p g = .ok true := by
          unfold EndpointAssociator.are_clear_or_mutually_associated
          rw [if_pos ⟨hpm, hgm⟩]
          simp only
          rw [if_pos ⟨f1, f2⟩]
        obtain ⟨a1, k1, k2, _⟩ := associate_keeps_matching r.associator (i5 hm) p g hclear
        rw [associate_in_range _ p g hpm hgm] at k1
        rw [Except.ok.inj k1]
        exact k2
    · -- already associated
      rcases e5 with ⟨_, k1, _, k3⟩ | ⟨k0, k1, _, k3⟩
      · refine ⟨?_, ?_, ?_, ?_, ?_⟩
        · rw [k3, e4]
          exact i1
        · rw [k3, e4, k1]
          exact i2
        · rw [e4]
          exact i3
        · rw [k1]
          exact i4
        · rw [e4]
          exact i5
      · have hstep := newly_assigned_step cluster n A r.assigner r1.assigner idx hidx
          (i4 idx k0) k0 k1
        refine ⟨?_, ?_, ?_, ?_, ?_⟩
        · intro e he
          rw [e4]
          rcases k3 with k | k
          · rw [k] at he
            exact i1 e he
          · rw [k] at he
            rcases List.mem_append.mp he with h1 | h1
            · exact i1 e h1
            · rw [List.mem_singleton] at h1
              subst h1
              exact ⟨hp, g, hg, s1⟩
        · rw [e4]
          rcases k3 with k | k
          · rw [k]
            omega
          · rw [k, List.length_append, List.length_singleton]
            omega
        · rw [e4]
          exact i3
        · intro i hi
          rw [k1] at hi
          simp only [Function.update_apply] at hi
          split_ifs at hi with hc
          · exact absurd rfl hi
          · exact i4 i hi
        · rw [e4]
          exact i5
    · refine ⟨?_, ?_, ?_, ?_, ?_⟩
      · rw [e5, e4]
        exact i1
      · rw [e5, e4, e3]
        exact i2
      · rw [e4]
        exact i3
      · rw [e3]
        exact i4
      · rw [e4]
        exact i5

theorem run_callbacks_outcome (a : EndpointAssociator) (A : ClusterAssigner) (n cluster : Nat)
    (m : Prop) (cb : Nat → Nat → Nat → GrowthRefs → Except Fault GrowthRefs) :
    ∀ (calls : List (Nat × Nat × Nat)),
      (∀ c ∈ calls, ∀ s, growth_inv a A n cluster m s →
        growth_outcome a A n cluster m (cb c.1 c.2.1 c.2.2 s)) →
      ∀ s, growth_inv a A n cluster m s →
        growth_outcome a A n cluster m (run_callbacks cb calls s) := by
  intro calls
  induction calls with
  | nil =>
    intro _ s hs
    exact Or.inl ⟨s, rfl, hs⟩
  | cons c rest ih =>
    intro hstep s hs
    unfold run_callbacks
    rcases hstep c (List.mem_cons_self _ _) s hs with ⟨s1, h1, h2⟩ | ⟨h1, h2⟩
    · rw [h1]
      exact ih (fun d hd => hstep d (List.mem_cons_of_mem _ hd)) s1 h2
    · rw [h2]
      exact Or.inr ⟨h1, rfl⟩

theorem first_endpoint_calls_mem (F : List Pair) (offset pk gk : Nat) (c : Nat × Nat × Nat)
    (h : c ∈ first_endpoint_calls F offset pk gk) :
    ∃ item, F[c.1]? = some item ∧ c.2.1 = item.probe_j ∧ c.2.2 = item.gallery_j := by
  unfold first_endpoint_calls at h
  rw [List.mem_filterMap] at h
  obtain ⟨i, _, hi⟩ := h
  obtain ⟨item, h1, h2⟩ := Option.map_eq_some'.mp hi
  rw [← h2]
  exact ⟨item, h1, rfl, rfl⟩

theorem second_endpoint_calls_mem (F : List Pair) (offset pj gj : Nat) (c : Nat × Nat × Nat)
    (h : c ∈ second_endpoint_calls F offset pj gj) :
    ∃ item, F[c.1]? = some item ∧ c.2.1 = item.probe_k ∧ c.2.2 = item.gallery_k := by
  unfold second_endpoint_calls at h
  rw [List.mem_filterMap] at h
  obtain ⟨i, _, hi⟩ := h
  obtain ⟨item, h1, h2⟩ := Option.map_eq_some'.mp hi
  rw [← h2]
  exact ⟨item, h1, rfl, rfl⟩

theorem clear_endpoints_total : ∀ (E : List Nat) (b : EndpointAssociator),
    (∀ e ∈ E, e < MAX_NUMBER_OF_ENDPOINTS ∧ b.gallery_by_probe_ e ≤ MAX_NUMBER_OF_ENDPOINTS) →
    ∃ a1, clear_endpoints b E = .ok a1 := by
  intro E
  induction E with
  | nil =>
    intro b _
    exact ⟨b, rfl⟩
  | cons e rest ih =>
    intro b hE
    obtain ⟨h1, h2⟩ := hE e (List.mem_cons_self _ _)
    unfold clear_endpoints
    unfold EndpointAssociator.clear_by_probe
    rw [if_pos h1]
    simp only
    by_cases h0 : b.gallery_by_probe_ e = 0
    · rw [if_neg (by simpa using h0)]
      exact ih b (fun x hx => hE x (List.mem_cons_of_mem _ hx))
    · rw [if_pos h0, if_pos (by omega)]
      simp only
      apply ih
      intro x hx
      obtain ⟨k1, k2⟩ := hE x (List.mem_cons_of_mem _ hx)
      refine ⟨k1, ?_⟩
      simp only [Function.update_apply]
      split_ifs
      · omega
      · exact k2

theorem growth_inv_length (a : EndpointAssociator) (A : ClusterAssigner) (n cluster : Nat)
    (m : Prop) (r : GrowthRefs) (h : growth_inv a A n cluster m r) :
    r.endpoints.length ≤ MAX_BOZORTH_MINUTIAE + n := by
  have h1 : newly_associated a r.associator ≤ MAX_BOZORTH_MINUTIAE := by
    unfold newly_associated
    have := List.countP_le_length
      (fun p => decide (a.gallery_by_probe_ p = 0 ∧ r.associator.gallery_by_probe_ p ≠ 0))
      (l := List.range MAX_BOZORTH_MINUTIAE)
    rw [List.length_range] at this
    exact this
  have h2 : newly_assigned cluster n A r.assigner ≤ n := by
    unfold newly_assigned
    have := List.countP_le_length
      (fun i => decide (A.cluster_by_pair_ i ≠ wrap32 (wrapU32 (cluster + 1)) ∧
        r.assigner.cluster_by_pair_ i = wrap32 (wrapU32 (cluster + 1))))
      (l := List.range n)
    rw [List.length_range] at this
    exact this
  have := h.2.1
  omega

/-- The worklist loop of `find_pairs` on a prepared holder: with a budget above
the longest possible worklist it returns a state with `growth_inv`, or stops
at the assertion. -/
theorem find_pairs_loop_outcome (H : PairHolder) (hd : H.dirty_ = false)
    (hsize : H.forward_.length ≤ MAX_NUMBER_OF_PAIRS)
    (hsmall : ∀ p ∈ H.forward_, p.probe_k < MAX_BOZORTH_MINUTIAE ∧
      p.probe_j < MAX_BOZORTH_MINUTIAE ∧ p.gallery_k < MAX_BOZORTH_MINUTIAE ∧
      p.gallery_j < MAX_BOZORTH_MINUTIAE)
    (hperm : H.backward_.Perm (List.range H.forward_.length))
    (hsorted : H.backward_.Pairwise (fun x y => backward_less H.forward_ y x = false))
    (hfc : ∀ q : Nat × Nat, q.2 < MAX_BOZORTH_MINUTIAE →
      (q ∈ H.forward_.map (fun p => (p.probe_k, p.gallery_k)) →
        is_range_of (H.forward_.map (fun p => (p.probe_k, p.gallery_k))) q
          (H.forward_cache_ (key_code q))) ∧
      (q ∉ H.forward_.map (fun p => (p.probe_k, p.gallery_k)) →
        H.forward_cache_ (key_code q) = OptionalRange.empty))
    (hbc : ∀ q : Nat × Nat, q.2 < MAX_BOZORTH_MINUTIAE →
      (q ∈ H.backward_.map (second_key H.forward_) →
        is_range_of (H.backward_.map (second_key H.forward_)) q
          (H.backward_cache_ (key_code q))) ∧
      (q ∉ H.backward_.map (second_key H.forward_) →
        H.backward_cache_ (key_code q) = OptionalRange.empty))
    (a : EndpointAssociator) (A : ClusterAssigner) (cluster : Nat) (m : Prop)
    (start : Pair) (nnc : Nat) :
    ∀ (fuel i : Nat) (r : GrowthRefs),
      growth_inv a A H.forward_.length cluster m r →
      MAX_BOZORTH_MINUTIAE + H.forward_.length - i < fuel →
      growth_outcome a A H.forward_.length cluster m
        (find_pairs_loop H start cluster nnc fuel i r) := by
  have hu : H.forward_.length < U32_MAX := by
    unfold U32_MAX
    unfold MAX_NUMBER_OF_PAIRS at hsize
    omega
  have hitem : ∀ (j : Nat) (item : Pair), H.forward_[j]? = some item →
      j < H.forward_.length ∧ item ∈ H.forward_ := by
    intro j item hj
    exact ⟨(List.getElem?_eq_some_iff.mp hj).1, List.getElem?_mem hj⟩
  intro fuel
  induction fuel with
  | zero =>
    intro i r _ h
    omega
  | succ fuel ih =>
    intro i r hr hfuel
    unfold find_pairs_loop
    by_cases hi : i < r.endpoints.length
    · rw [if_pos hi, List.getElem?_eq_getElem hi]
      simp only
      obtain ⟨hpe, ge, hge, hassoc⟩ := hr.1 r.endpoints[i] (List.getElem_mem hi)
      have hlook : r.associator.get_associated_gallery_endpoint r.endpoints[i]
          = .ok (some ge) := by
        rw [gallery_lookup_iff]
        refine ⟨?_, hassoc⟩
        unfold MAX_NUMBER_OF_ENDPOINTS
        unfold MAX_BOZORTH_MINUTIAE at hpe
        omega
      rw [hlook]
      simp only
      rw [second_lookup H hd hu hperm hsorted hbc nnc _ ge hpe hge]
      have h2 := run_callbacks_outcome a A H.forward_.length cluster m
        (fun index probe_k gallery1 s =>
          if probe_k ≠ start.probe_k ∧ gallery1 ≠ start.gallery_k then
            assign_cluster_to_endpoints cluster index probe_k gallery1 s
          else .ok s)
        (second_endpoint_calls H.forward_ nnc r.endpoints[i] ge) (by
          intro c hc s hs
          obtain ⟨item, k1, k2, k3⟩ := second_endpoint_calls_mem _ _ _ _ c hc
          obtain ⟨k4, k5⟩ := hitem _ _ k1
          have k6 := hsmall item k5
          simp only
          split_ifs
          · exact assign_outcome a A _ cluster m hsize c.1 c.2.1 c.2.2 k4
              (by rw [k2]; exact k6.1) (by rw [k3]; exact k6.2.2.1) s hs
          · exact Or.inl ⟨s, rfl, hs⟩) r hr
      rcases h2 with ⟨r2, e2, hr2⟩ | ⟨hm, e2⟩
      · rw [e2]
        simp only
        rw [first_lookup H hd hu hfc nnc _ ge hpe hge]
        have h1 := run_callbacks_outcome a A H.forward_.length cluster m
          (fun index probe_j gallery2 s =>
            assign_cluster_to_endpoints cluster index probe_j gallery2 s)
          (first_endpoint_calls H.forward_ nnc r.endpoints[i] ge) (by
            intro c hc s hs
            obtain ⟨item, k1, k2, k3⟩ := first_endpoint_calls_mem _ _ _ _ c hc
            obtain ⟨k4, k5⟩ := hitem _ _ k1
            have k6 := hsmall item k5
            exact assign_outcome a A _ cluster m hsize c.1 c.2.1 c.2.2 k4
              (by rw [k2]; exact k6.2.1) (by rw [k3]; exact k6.2.2.2) s hs) r2 hr2
        rcases h1 with ⟨r3, e3, hr3⟩ | ⟨hm, e3⟩
        · rw [e3]
          simp only [Except.map]
          exact ih (i + 1) r3 hr3 (by
            have := growth_inv_length a A _ cluster m r hr
            omega)
        · rw [e3]
          exact Or.inr ⟨hm, rfl⟩
      · rw [e2]
        exact Or.inr ⟨hm, rfl⟩
    · rw [if_neg hi]
      exact Or.inl ⟨r, rfl, hr⟩

/-- C39. For a pair holder that was cleared, filled with at most
`MAX_NUMBER_OF_PAIRS` pairs whose endpoints are below `MAX_BOZORTH_MINUTIAE`
and prepared, for every start pair and every scratch state, `find_pairs`
terminates: with a budget above `MAX_BOZORTH_MINUTIAE` plus the number of
pairs it returns, or, if the associator is not mutually consistent on entry,
it may stop at the assertion of `associate_multiple_compatible_endpoints`.  It
never reads a missing associated gallery endpoint, and the worklist is no
longer than the number of probe endpoints newly associated plus the number of
pairs newly assigned to the cluster. -/
theorem find_pairs_terminates (pairs : List Pair) (h0 H : PairHolder)
    (hsmall : ∀ p ∈ pairs, p.probe_k < MAX_BOZORTH_MINUTIAE ∧ p.probe_j < MAX_BOZORTH_MINUTIAE ∧
      p.gallery_k < MAX_BOZORTH_MINUTIAE ∧ p.gallery_j < MAX_BOZORTH_MINUTIAE)
    (hlen : pairs.length ≤ MAX_NUMBER_OF_PAIRS)
    (hprep : (pairs.foldl PairHolder.add h0.clear).prepare = .ok H)
    (start_pair : Nat) (start : Pair) (hstart : H.pairs[start_pair]? = some start)
    (cluster : Nat) (groups : List EndpointGroup) (selected : List Nat)
    (a : EndpointAssociator) (A : ClusterAssigner) :
    ∃ N, ∀ fuel, N ≤ fuel →
      (∃ r0 nnc r1 a1,
        H.find_pairs_by_first_endpoint start_pair start.probe_k start.gallery_k
          (fun index probe_j gallery2 s =>
            assign_cluster_to_endpoints cluster index probe_j gallery2 s)
          { groups := groups, assigner := A, associator := a, endpoints := [],
            selected_pairs := selected } = .ok (r0, nnc) ∧
        find_pairs_loop H start cluster nnc fuel 0 r0 = .ok r1 ∧
        clear_endpoints r1.associator r1.endpoints = .ok a1 ∧
        find_pairs fuel H start_pair cluster groups selected a A
          = .ok { r1 with associator := a1 } ∧
        (∀ e ∈ r1.endpoints, ∃ g,
          r1.associator.get_associated_gallery_endpoint e = .ok (some g)) ∧
        r1.endpoints.length ≤ newly_associated a r1.associator
          + newly_assigned cluster H.pairs.length A r1.assigner) ∨
      (¬ mutually_associated a ∧
        find_pairs fuel H start_pair cluster groups selected a A = .error .assertion) := by
  obtain ⟨hd, hF, hperm, hsorted, hfc, hbc⟩ := prepared_facts pairs h0 H hsmall hprep
  have hmem : ∀ p, p ∈ H.forward_ → p ∈ pairs := by
    intro p hp
    rw [hF] at hp
    exact (stable_sort_perm forward_less pairs).mem_iff.mp hp
  have hsmallF : ∀ p ∈ H.forward_, p.probe_k < MAX_BOZORTH_MINUTIAE ∧
      p.probe_j < MAX_BOZORTH_MINUTIAE ∧ p.gallery_k < MAX_BOZORTH_MINUTIAE ∧
      p.gallery_j < MAX_BOZORTH_MINUTIAE := fun p hp => hsmall p (hmem p hp)
  have hsize : H.forward_.length ≤ MAX_NUMBER_OF_PAIRS := by
    rw [hF, (stable_sort_perm forward_less pairs).length_eq]
    exact hlen
  have hu : H.forward_.length < U32_MAX := by
    unfold U32_MAX
    unfold MAX_NUMBER_OF_PAIRS at hsize
    omega
  have hstart1 : H.forward_[start_pair]? = some start := hstart
  have hsm := hsmallF start (List.getElem?_mem hstart1)
  refine ⟨MAX_BOZORTH_MINUTIAE + H.forward_.length + 1, fun fuel hfuel => ?_⟩
  have hinit : growth_inv a A H.forward_.length cluster (mutually_associated a)
      { groups := groups, assigner := A, associator := a, endpoints := [],
        selected_pairs := selected } :=
    ⟨fun e he => absurd he (List.not_mem_nil _), Nat.zero_le _, fun _ hx => hx,
      fun _ hi => hi, fun hm => hm⟩
  have hrun0 := run_callbacks_outcome a A H.forward_.length cluster (mutually_associated a)
    (fun index probe_j gallery2 s =>
      assign_cluster_to_endpoints cluster index probe_j gallery2 s)
    (first_endpoint_calls H.forward_ start_pair start.probe_k start.gallery_k) (by
      intro c hc s hs
      obtain ⟨item, k1, k2, k3⟩ := first_endpoint_calls_mem _ _ _ _ c hc
      have k4 := (List.getElem?_eq_some_iff.mp k1).1
      have k6 := hsmallF item (List.getElem?_mem k1)
      exact assign_outcome a A _ cluster _ hsize c.1 c.2.1 c.2.2 k4
        (by rw [k2]; exact k6.2.1) (by rw [k3]; exact k6.2.2.2) s hs) _ hinit
  have hlookup := first_lookup H hd hu hfc start_pair start.probe_k start.gallery_k hsm.1
    hsm.2.2.1
    (fun index probe_j gallery2 s =>
      assign_cluster_to_endpoints cluster index probe_j gallery2 s)
    { groups := groups, assigner := A, associator := a, endpoints := [],
      selected_pairs := selected }
  unfold find_pairs
  rw [hstart]
  simp only
  rcases hrun0 with ⟨r0, e0, hr0⟩ | ⟨hm, e0⟩
  · rw [e0] at hlookup
    simp only [Except.map] at hlookup
    rw [hlookup]
    simp only
    have hloop := find_pairs_loop_outcome H hd hsize hsmallF hperm hsorted hfc hbc a A cluster
      (mutually_associated a) start
      (first_endpoint_bound H.forward_ start_pair start.probe_k start.gallery_k) fuel 0 r0 hr0
      (by omega)
    rcases hloop with ⟨r1, e1, hr1⟩ | ⟨hm, e1⟩
    · rw [e1]
      simp only
      obtain ⟨a1, ha1⟩ := clear_endpoints_total r1.endpoints r1.associator (by
          intro e he
          obtain ⟨k1, g, k2, k3⟩ := hr1.1 e he
          unfold MAX_NUMBER_OF_ENDPOINTS
          unfold MAX_BOZORTH_MINUTIAE at k1 k2
          omega)
      rw [ha1]
      left
      refine ⟨r0, _, r1, a1, rfl, e1, ha1, rfl, ?_, hr1.2.1⟩
      intro e he
      obtain ⟨k1, g, _, k3⟩ := hr1.1 e he
      refine ⟨g, ?_⟩
      rw [gallery_lookup_iff]
      refine ⟨?_, k3⟩
      unfold MAX_NUMBER_OF_ENDPOINTS
      unfold MAX_BOZORTH_MINUTIAE at k1
      omega
    · rw [e1]
      exact Or.inr ⟨hm, rfl⟩
  · rw [e0] at hlookup
    simp only [Except.map] at hlookup
    rw [hlookup]
    exact Or.inr ⟨hm, rfl⟩

set_option maxRecDepth 100000 in
/-- C39, witness: the prepared holder of `three_star_pairs`, the start pair 0
and a clear scratch state; the call returns. -/
theorem find_pairs_terminates_witness :
    (∃ N, ∀ fuel, N ≤ fuel →
      (∃ r0 nnc r1 a1,
        (prepared_holder three_star_pairs).find_pairs_by_first_endpoint 0
          (pair_of 0 1 0 1).probe_k (pair_of 0 1 0 1).gallery_k
          (fun index probe_j gallery2 s =>
            assign_cluster_to_endpoints 0 index probe_j gallery2 s)
          { groups := [], assigner := empty_assigner, associator := empty_associator,
            endpoints := [], selected_pairs := [] } = .ok (r0, nnc) ∧
        find_pairs_loop (prepared_holder three_star_pairs) (pair_of 0 1 0 1) 0 nnc fuel 0 r0
          = .ok r1 ∧
        clear_endpoints r1.associator r1.endpoints = .ok a1 ∧
        find_pairs fuel (prepared_holder three_star_pairs) 0 0 [] [] empty_associator
          empty_assigner = .ok { r1 with associator := a1 } ∧
        (∀ e ∈ r1.endpoints, ∃ g,
          r1.associator.get_associated_gallery_endpoint e = .ok (some g)) ∧
        r1.endpoints.length ≤ newly_associated empty_associator r1.associator
          + newly_assigned 0 (prepared_holder three_star_pairs).pairs.length empty_assigner
              r1.assigner) ∨
      (¬ mutually_associated empty_associator ∧
        find_pairs fuel (prepared_holder three_star_pairs) 0 0 [] [] empty_associator
          empty_assigner = .error .assertion)) ∧
    ok_and (find_pairs 300 (prepared_holder three_star_pairs) 0 0 [] [] empty_associator
      empty_assigner) (fun r => decide (r.endpoints = [1, 2, 3])) = true :=
  ⟨find_pairs_terminates three_star_pairs PairHolder.init (prepared_holder three_star_pairs)
    (by decide) (by decide) (by rfl) 0 (pair_of 0 1 0 1) (by decide) 0 [] []
    empty_associator empty_assigner, by decide⟩

/-! ## combine_clusters on sums that wrap around -/

set_option maxRecDepth 100000 in
/-- C5, counterexample.  Three mutually compatible clusters with the positive
points 4294967295, 20 and 30.  `merge_compatible_clusters` returns `compatible`
lists of the required shape and stores the 32-bit sums 49, 50 and 30 in
`points_from_compatible`; the maximum of these is not below `SCORE_THRESHOLD`,
so `match_score` goes on to `combine_clusters`.  The first cluster alone is a
clique of 4294967295 points and the three clusters together are one of
4294967345 points, the maximum; `combine_clusters` returns 50, with every loop
budget from 100 on, and 50 is the score at the end of `match_score`. -/
theorem combine_misses_clique_after_wrap :
    ∃ m, merge_compatible_clusters axis_ops Format.NistInternal
        (three_apart_clusters 4294967295 20 30) = .ok m ∧
      m.clusters.map (fun c => c.points_from_compatible) = [49, 50, 30] ∧
      SCORE_THRESHOLD ≤ max_points_from_compatible m.clusters ∧
      merge_shape m.clusters ∧ (∀ c ∈ m.clusters, 0 < c.points) ∧
      is_clique m.clusters [0] = true ∧ clique_weight m.clusters [0] = 4294967295 ∧
      max_clique_weight m.clusters = 4294967345 ∧
      (∀ fuel, 100 ≤ fuel → combine_clusters fuel m.clusters = .ok 50) ∧
      ok_and (score_clusters axis_ops 100 Format.NistInternal
          (state_with_clusters (three_apart_clusters 4294967295 20 30)))
        (fun r => decide (r.1 = 50)) = true := by
  obtain ⟨m, hm, hp⟩ := ok_and_elim
    (merge_compatible_clusters axis_ops Format.NistInternal
      (three_apart_clusters 4294967295 20 30))
    (fun m => decide (m.clusters.map (fun c => c.points_from_compatible) = [49, 50, 30] ∧
      SCORE_THRESHOLD ≤ max_points_from_compatible m.clusters ∧
      merge_shape m.clusters ∧ (∀ c ∈ m.clusters, 0 < c.points) ∧
      is_clique m.clusters [0] = true ∧ clique_weight m.clusters [0] = 4294967295 ∧
      max_clique_weight m.clusters = 4294967345 ∧
      combine_clusters 100 m.clusters = .ok 50))
    (by decide)
  obtain ⟨h1, h2, h3, h4, h5, h6, h7, h8⟩ := of_decide_eq_true hp
  refine ⟨m, hm, h1, h2, h3, h4, h5, h6, h7, fun fuel hf => ?_, by decide⟩
  obtain ⟨k, rfl⟩ := Nat.exists_eq_add_of_le hf
  unfold combine_clusters at h8 ⊢
  exact combine_outer_mono m.clusters 100 m.clusters 0 0 50 h8 k

end Bozorth3
